import Mathlib

/-!
# NmeaParser: a shallow embedding of the NMEA 0183 line validator

The C++ sources (`Nmea.cpp`, `NmeaFunctions.cpp`, `HardCodedMessages.cpp`,
`Sentence.cpp`) are translated function by function.

Conventions of the embedding

* A `char` is a `Nat`, the value of the byte read as an unsigned number (0..255).
  Every test the sources make on a `char` gives the same answer for a signed and
  for an unsigned `char` once it is written on that number.
* A `const char*` into the line is the offset from the first byte of the line;
  `nullptr` is `none`.
* The buffer handed to `parse` is a NUL-terminated string (`Main.cpp` prints
  `sentence.data()` as a C string), so the byte at offset `size()` reads as 0.
  A read further out, a read through `nullptr`, and an index outside a vector or
  a table are `Thrown.undefined`.
* `throw` is `Except.error`; loops carry a fuel argument and `Thrown.timeout`
  is the answer of a loop whose fuel is used up.
-/

namespace NmeaParser

/-! ## ErrorCodes.h, Exception.h -/

/-- The enumeration `ErrorCode` of ErrorCodes.h. -/
inductive ErrorCode where
  | E000 | E001 | E002 | E003 | E004 | E005 | E006 | E007 | E008 | E009
  | E010 | E011 | E012 | E013 | E014 | E015 | E016 | E017 | E018 | E019
  | E020 | E021 | E022 | E023 | E024 | E025 | E026 | E027 | E028 | E029
  | E030 | E031 | E032 | E033
  deriving DecidableEq, Repr

/-- The ways a function is left other than by returning.
`exception e i` is `throw Exception(e, i)`, `errorCode e` is `throw e` with a bare
`ErrorCode`, `logic_error` is `throw std::logic_error`. -/
inductive Thrown where
  | exception (errorCode : ErrorCode) (indication : Option Nat)
  | errorCode (e : ErrorCode)
  | logic_error
  | undefined
  | timeout
  deriving DecidableEq, Repr

/-- The bytes of a string literal. -/
def bytes (s : String) : List Nat := s.toList.map Char.toNat

/-- The byte `*p` for a pointer `p` at offset `i` of the line. -/
def rd (line : List Nat) (i : Nat) : Except Thrown Nat :=
  if i ≤ line.length then .ok (line.getD i 0) else .error .undefined

/-- The element `v[i]` of a `std::vector`. -/
def idx {α : Type} (v : List α) (i : Nat) : Except Thrown α :=
  match v.get? i with
  | some a => .ok a
  | none => .error .undefined

/-! ## NmeaFunctions.h / NmeaFunctions.cpp: character classes -/

/-- The table `reserved` of NmeaFunctions.cpp, 128 entries. -/
def reserved : List Bool := [
   false, false, false, false, false, false, false, false, false, false,
   true, false, false, true, false, false, false, false, false, false,
   false, false, false, false, false, false, false, false, false, false,
   false, false, false, true, false, false, true, false, false, false,
   false, false, true, false, true, false, false, false, false, false,
   false, false, false, false, false, false, false, false, false, false,
   false, false, false, false, false, false, false, false, false, false,
   false, false, false, false, false, false, false, false, false, false,
   false, false, false, false, false, false, false, false, false, false,
   false, false, true, false, true, false, false, false, false, false,
   false, false, false, false, false, false, false, false, false, false,
   false, false, false, false, false, false, false, false, false, false,
   false, false, false, false, false, false, true, true]

/-- The lookup `reserved[ch]`; outside the table the read is undefined. -/
def reservedAt (ch : Nat) : Except Thrown Bool :=
  if ch < 128 then .ok (reserved.getD ch false) else .error .undefined

/-- The function `isdefined` of NmeaFunctions.h. -/
def isdefined (ch : Nat) : Bool :=
  decide (ch ≤ 127) && (decide (ch ≥ 32) || ch == 10 || ch == 13)

/-- The function `isundefined` of NmeaFunctions.h. -/
def isundefined (ch : Nat) : Bool := !isdefined ch

/-- The function `isvalid` of NmeaFunctions.cpp. -/
def isvalid (ch : Nat) : Bool :=
  decide (32 ≤ ch) && decide (ch ≤ 127) && !(reserved.getD ch false)

/-- The function `isreserved` of NmeaFunctions.cpp. -/
def isreserved (ch : Nat) : Bool :=
  decide (ch ≤ 127) && reserved.getD ch false

/-- The function `issixbit` of NmeaFunctions.h. -/
def issixbit (ch : Nat) : Bool :=
  (decide (48 ≤ ch) && decide (ch ≤ 87)) || (decide (96 ≤ ch) && decide (ch ≤ 119))

/-- The C library `isdigit` in the C locale. -/
def isdigit (ch : Nat) : Bool := decide (48 ≤ ch) && decide (ch ≤ 57)

/-- The C library `isupper` in the C locale. -/
def isupper (ch : Nat) : Bool := decide (65 ≤ ch) && decide (ch ≤ 90)

/-- The C library `islower` in the C locale. -/
def islower (ch : Nat) : Bool := decide (97 ≤ ch) && decide (ch ≤ 122)

/-- The C library `isxdigit` in the C locale. -/
def isxdigit (ch : Nat) : Bool :=
  isdigit ch || (decide (65 ≤ ch) && decide (ch ≤ 70)) || (decide (97 ≤ ch) && decide (ch ≤ 102))

/-- The function `hex2Char` of NmeaFunctions.cpp. -/
def hex2Char (value : Nat) : Except Thrown Nat :=
  if value > 9 then
    if value > 15 then .error .logic_error
    else .ok (65 + (value - 10))
  else .ok (48 + value)

/-- The one-step `incr(checkSum, begin, end)` of NmeaFunctions.cpp; the result is the
new `(checkSum, begin)`. -/
def incr (line : List Nat) (checkSum begin : Nat) : Except Thrown (Nat × Nat) :=
  let begin := begin + 1
  if line.length ≤ begin then .error (.exception .E033 none)
  else
    match rd line begin with
    | .error t => .error t
    | .ok ch =>
      if isundefined ch then .error (.exception .E007 (some begin))
      else .ok ((checkSum ^^^ (ch % 256)) % 256, begin)

/-- The counted `incr(checkSum, begin, end, count)` of NmeaFunctions.cpp. -/
def incrN (line : List Nat) : Nat → Nat → Nat → Except Thrown (Nat × Nat)
  | 0, checkSum, begin => .ok (checkSum, begin)
  | count + 1, checkSum, begin =>
    match incr line checkSum begin with
    | .error t => .error t
    | .ok (checkSum, begin) => incrN line count checkSum begin

/-! ## Nmea.h / Nmea.cpp: the data model -/

/-- A `std::string_view` into the line: `data` is the offset of its first byte
(`none` for `nullptr`), `size` its length. -/
structure StringView where
  data : Option Nat
  size : Nat
  deriving DecidableEq, Repr

/-- The element `field[i]` of a view. -/
def StringView.at (line : List Nat) (field : StringView) (i : Nat) : Except Thrown Nat :=
  match field.data with
  | none => .error .undefined
  | some p => rd line (p + i)

/-- The address `&(field[i])` of a view; through `nullptr` the sources form it for
`i = 0` only, and it is `nullptr`. -/
def StringView.addr (field : StringView) (i : Nat) : Option Nat :=
  match field.data with
  | none => none
  | some p => some (p + i)

/-- The enumeration `Nmea::LineElementType`. -/
inductive LineElementType where
  | tag_block | sentence
  deriving DecidableEq, Repr

/-- Modelled from the spec: the header SentenceType.h, which declares the enumeration
`SentenceType`, is missing; its enumerators are those the specification lists
(parametric, query, proprietary, encapsulated), which are also all that Nmea.cpp uses. -/
inductive SentenceType where
  | parametric | query | proprietary | encapsulated
  deriving DecidableEq, Repr

/-- The structure `Nmea::TagBlockOrSentence`. `m_SentenceType` is `none` while the
member is uninitialised; `buffer` is the line the views of `m_Splitter` point into. -/
structure TagBlockOrSentence where
  m_Splitter : List StringView
  m_LineElementType : LineElementType
  m_SentenceType : Option SentenceType
  buffer : List Nat
  deriving DecidableEq, Repr

/-- The members of class `Nmea`. -/
structure Nmea where
  m_Line : List TagBlockOrSentence
  m_Error : ErrorCode
  m_Indication : Option Nat
  deriving DecidableEq, Repr

/-- The constructor `Nmea::Nmea()`. -/
def Nmea.fresh : Nmea := { m_Line := [], m_Error := .E000, m_Indication := none }

/-- The method `Nmea::errorCode()`. -/
def Nmea.errorCode (self : Nmea) : ErrorCode := self.m_Error

/-- The method `Nmea::indication()`. -/
def Nmea.indication (self : Nmea) : Option Nat := self.m_Indication

/-! ## Nmea.cpp: the structural tokenizer -/

/-- The method `Nmea::appendSpan(splitter, begin, end)`. -/
def appendSpan (line : List Nat) (splitter : List StringView) (begin «end» : Nat) :
    Except Thrown (List StringView) :=
  match rd line begin with
  | .error t => .error t
  | .ok ch =>
    if ch == 44 || ch == 92 then
      if «end» - begin < 2 then .ok (splitter ++ [⟨none, 0⟩])
      else .ok (splitter ++ [⟨some (begin + 1), «end» - (begin + 1)⟩])
    else .ok (splitter ++ [⟨some begin, «end» - begin⟩])

/-- The address-field part of `parseMainStructureTagBlockOrSentence`
(Nmea.cpp lines 97-141); the result is the element type, the sentence type,
`checkSum` and `begin`. -/
def addressField (line : List Nat) (begin : Nat) :
    Except Thrown (LineElementType × Option SentenceType × Nat × Nat) :=
  match rd line begin with
  | .error t => .error t
  | .ok ch =>
    if ch == 92 then .ok (.tag_block, none, 0, begin)
    else if ch == 33 then
      match incrN line 5 0 begin with
      | .error t => .error t
      | .ok (checkSum, begin) => .ok (.sentence, some .encapsulated, checkSum, begin)
    else if ch == 36 then
      match incrN line 1 0 begin with
      | .error t => .error t
      | .ok (checkSum, begin) =>
        match rd line begin with
        | .error t => .error t
        | .ok p =>
          if p == 80 then
            match incrN line 3 checkSum begin with
            | .error t => .error t
            | .ok (checkSum, begin) => .ok (.sentence, some .proprietary, checkSum, begin)
          else
            match incrN line 5 checkSum begin with
            | .error t => .error t
            | .ok (checkSum, begin) =>
              match rd line (begin - 1) with
              | .error t => .error t
              | .ok q =>
                if q == 81 then .ok (.sentence, some .query, checkSum, begin)
                else .ok (.sentence, some .parametric, checkSum, begin)
    else .error (.exception .E001 (some begin))

/-- The data-field loop of `parseMainStructureTagBlockOrSentence`
(Nmea.cpp lines 146-162); the result is `(m_Splitter, start, checkSum, begin)`
at the `break`. -/
def scanDataFields (line : List Nat) :
    Nat → List StringView → Nat → Nat → Nat →
      Except Thrown (List StringView × Nat × Nat × Nat)
  | 0, _, _, _, _ => .error .timeout
  | fuel + 1, m_Splitter, start, checkSum, begin =>
    if line.length ≤ begin then .error (.exception .E003 (some begin))
    else
      match rd line begin with
      | .error t => .error t
      | .ok ch =>
        if ch == 44 then
          match appendSpan line m_Splitter start begin with
          | .error t => .error t
          | .ok m_Splitter =>
            match incr line checkSum begin with
            | .error t => .error t
            | .ok (checkSum, begin1) => scanDataFields line fuel m_Splitter begin checkSum begin1
        else if ch == 42 then
          match appendSpan line m_Splitter start begin with
          | .error t => .error t
          | .ok m_Splitter => .ok (m_Splitter, begin, (checkSum ^^^ 42) % 256, begin)
        else
          match incr line checkSum begin with
          | .error t => .error t
          | .ok (checkSum, begin1) => scanDataFields line fuel m_Splitter start checkSum begin1

/-- The total-length test of Nmea.cpp line 175:
`&(checksumField[checksumField.size() - 1]) - &(headerField[0]) > 79`. -/
def tooLong (headerField checksumField : StringView) : Except Thrown Bool :=
  match headerField.data, checksumField.data with
  | some h, some c =>
    .ok (decide ((Int.ofNat (c + (checksumField.size - 1)) - Int.ofNat h) > 79))
  | _, _ => .error .undefined

/-- The checksum test of Nmea.cpp lines 179-180. -/
def checksumMismatch (line : List Nat) (checksumField : StringView) (checkSum : Nat) :
    Except Thrown Bool :=
  match checksumField.at line 1 with
  | .error t => .error t
  | .ok c1 =>
    match hex2Char (checkSum >>> 4) with
    | .error t => .error t
    | .ok e1 =>
      if c1 != e1 then
        match checksumField.at line 2 with
        | .error t => .error t
        | .ok c2 =>
          match hex2Char (checkSum &&& 0x0F) with
          | .error t => .error t
          | .ok e2 => .ok (c2 != e2)
      else .ok false

/-- The part of `parseMainStructureTagBlockOrSentence` after the data-field loop
(Nmea.cpp lines 164-185); the result is the element and the new `begin`. -/
def checksumField (line : List Nat) (ty : LineElementType) (sty : Option SentenceType)
    (m_Splitter : List StringView) (start checkSum begin : Nat) :
    Except Thrown (TagBlockOrSentence × Nat) :=
  let begin := begin + 3
  if line.length < begin then .error (.exception .E003 (some begin))
  else
    match appendSpan line m_Splitter start begin with
    | .error t => .error t
    | .ok m_Splitter =>
      match idx m_Splitter 0, idx m_Splitter (m_Splitter.length - 1) with
      | .ok headerField, .ok checksumField =>
        match tooLong headerField checksumField with
        | .error t => .error t
        | .ok true => .error (.exception .E023 (headerField.addr 0))
        | .ok false =>
          match checksumMismatch line checksumField checkSum with
          | .error t => .error t
          | .ok true => .error (.exception .E004 (checksumField.addr 0))
          | .ok false => .ok (⟨m_Splitter, ty, sty, line⟩, begin)
      | _, _ => .error .undefined

/-- The method `Nmea::parseMainStructureTagBlockOrSentence(begin, end)`; the result
is the element and the new value of the reference argument `begin`. -/
def parseMainStructureTagBlockOrSentence (line : List Nat) (begin : Nat) :
    Except Thrown (TagBlockOrSentence × Nat) :=
  match addressField line begin with
  | .error t => .error t
  | .ok (ty, sty, checkSum, begin1) =>
    match scanDataFields line line.length [] begin checkSum begin1 with
    | .error t => .error t
    | .ok (m_Splitter, start, checkSum, begin2) =>
      checksumField line ty sty m_Splitter start checkSum begin2

/-! ## NmeaFunctions.cpp: content checks and table matching -/

/-- The loop `for (; i < size; ++i) if (!ok(field[i])) throw thrown;` as a count-down
on the number of bytes left. -/
def allFrom (line : List Nat) (field : StringView) (ok : Nat → Bool) (thrown : Nat → Thrown) :
    Nat → Nat → Except Thrown Unit
  | 0, _ => .ok ()
  | n + 1, i =>
    match field.at line i with
    | .error t => .error t
    | .ok ch => if ok ch then allFrom line field ok thrown n (i + 1) else .error (thrown i)

/-- The loop `for (; i < limit; ++i) if (!isdigit(field[i])) break;`; the result is `i`
after the loop. -/
def digitRun (line : List Nat) (field : StringView) : Nat → Nat → Except Thrown Nat
  | 0, i => .ok i
  | n + 1, i =>
    match field.at line i with
    | .error t => .error t
    | .ok ch => if isdigit ch then digitRun line field n (i + 1) else .ok i

/-- The function `checkTalkerId`. -/
def checkTalkerId (ch1 ch2 : Nat) (errorIndication : Option Nat) : Except Thrown Unit :=
  if (isdigit ch1 || isupper ch1) && (isdigit ch2 || isupper ch2) then .ok ()
  else .error (.exception .E010 errorIndication)

/-- The function `checkProprietaryTalkerId`. -/
def checkProprietaryTalkerId (ch1 ch2 ch3 : Nat) (errorIndication : Option Nat) :
    Except Thrown Unit :=
  if isupper ch1 && isupper ch2 && isupper ch3 then .ok ()
  else .error (.exception .E011 errorIndication)

/-- The function `checkSentenceFormatter`. -/
def checkSentenceFormatter (ch1 ch2 ch3 : Nat) (errorIndication : Option Nat) :
    Except Thrown Unit :=
  if (isdigit ch1 || isupper ch1) && (isdigit ch2 || isupper ch2) &&
      (isdigit ch3 || isupper ch3) then .ok ()
  else .error (.exception .E012 errorIndication)

/-- The loop of `checkDataFieldCharacters` over the bytes of the field, `n` bytes left
from offset `i`; `caret` says whether `^` is let through (the proprietary variant). -/
def checkCharactersFrom (line : List Nat) (field : StringView) (caret : Bool) :
    Nat → Nat → Except Thrown Unit
  | 0, _ => .ok ()
  | n + 1, i =>
    match field.at line i with
    | .error t => .error t
    | .ok ch =>
      match reservedAt ch with
      | .error t => .error t
      | .ok r =>
        if r && !(caret && ch == 94) then .error (.exception .E008 (field.addr 0))
        else checkCharactersFrom line field caret n (i + 1)

/-- The function `checkDataFieldCharacters`. -/
def checkDataFieldCharacters (line : List Nat) (field : StringView) : Except Thrown Unit :=
  checkCharactersFrom line field false field.size 0

/-- The function `checkProprietaryDataFieldCharacters`. -/
def checkProprietaryDataFieldCharacters (line : List Nat) (field : StringView) :
    Except Thrown Unit :=
  checkCharactersFrom line field true field.size 0

/-- The C library `strcmp` on two C strings given without their terminating NUL:
negative, zero or positive. -/
def strcmp : List Nat → List Nat → Int
  | [], [] => 0
  | [], _ :: _ => -1
  | _ :: _, [] => 1
  | a :: as, b :: bs => if a < b then -1 else if b < a then 1 else strcmp as bs

/-- The C string held by a `char` array: the bytes before the first NUL. -/
def cstr (buff : List Nat) : List Nat := buff.takeWhile (fun ch => ch != 0)

/-- The array `talkers` of `matchTalker`, in the order of the source. -/
def talkers : List (List Nat) := [
  bytes "AB", bytes "AD", bytes "AG", bytes "AP", bytes "CD", bytes "CR", bytes "CS",
  bytes "CT", bytes "CV", bytes "CX", bytes "DF", bytes "EC", bytes "EP", bytes "ER",
  bytes "GP", bytes "HC", bytes "HE", bytes "HN", bytes "II", bytes "IN", bytes "LC",
  bytes "RA", bytes "SD", bytes "SN", bytes "SS", bytes "TI", bytes "VD", bytes "DM",
  bytes "VW", bytes "WI", bytes "YX", bytes "ZA", bytes "ZC", bytes "ZQ", bytes "ZV"]

/-- The array `formatters` of `matchSentenceFormatter`, in the order of the source. -/
def formatters : List (List Nat) := [
  bytes "AAM", bytes "ALM", bytes "APA", bytes "APB", bytes "ASD", bytes "BEC", bytes "BOD",
  bytes "BWC", bytes "BWR", bytes "BWW", bytes "DBK", bytes "DBS", bytes "DBT", bytes "DCN",
  bytes "DPT", bytes "DSC", bytes "DSE", bytes "DSI", bytes "DSR", bytes "DTM", bytes "FSI",
  bytes "GBS", bytes "GGA", bytes "GLC", bytes "GLL", bytes "GRS", bytes "GSA", bytes "GST",
  bytes "GSV", bytes "GTD", bytes "GXA", bytes "HDG", bytes "HDM", bytes "HDT", bytes "HSC",
  bytes "LCD", bytes "MSK", bytes "MSS", bytes "MTW", bytes "MWD", bytes "MWV", bytes "OLN",
  bytes "OSD", bytes "RMA", bytes "RMB", bytes "RMC", bytes "ROO", bytes "ROT", bytes "RPM",
  bytes "RSA", bytes "RSD", bytes "RTE", bytes "SFI", bytes "STN", bytes "TLL", bytes "TRF",
  bytes "TTM", bytes "TXT", bytes "VBW", bytes "VDR", bytes "VHW", bytes "VLW", bytes "VPW",
  bytes "VTG", bytes "VWR", bytes "WCV", bytes "WDC", bytes "WDR", bytes "WNC", bytes "WPL",
  bytes "XDR", bytes "XTE", bytes "XTR", bytes "ZDA", bytes "ZDL", bytes "ZFO", bytes "ZTG"]

/-- The search loop shared by `matchTalker` and `matchSentenceFormatter`:
`for (elem : table) { cmp = strcmp(elem, buff); if (cmp == 0) return;
else if (cmp > 0) throw thrown; } throw thrown;`. -/
def matchLoop (buff : List Nat) (thrown : Thrown) : List (List Nat) → Except Thrown Unit
  | [] => .error thrown
  | elem :: rest =>
    if strcmp elem buff = 0 then .ok ()
    else if strcmp elem buff > 0 then .error thrown
    else matchLoop buff thrown rest

/-- The function `matchTalker`. -/
def matchTalker (ch1 ch2 : Nat) (errorIndication : Option Nat) : Except Thrown Unit :=
  matchLoop (cstr [ch1, ch2, 0]) (.exception .E005 errorIndication) talkers

/-- The function `matchSentenceFormatter`. -/
def matchSentenceFormatter (ch1 ch2 ch3 : Nat) : Except Thrown Unit :=
  matchLoop (cstr [ch1, ch2, ch3, 0]) (.errorCode .E009) formatters

/-- The function `checkPositivInteger`. -/
def checkPositivInteger (line : List Nat) (field : StringView) : Except Thrown Unit :=
  allFrom line field isdigit (fun i => .exception .E031 (field.addr i)) field.size 0

/-- The function `checkIdentification`. -/
def checkIdentification (line : List Nat) (field : StringView) : Except Thrown Unit :=
  if field.size > 15 then .error (.exception .E029 (field.addr 0))
  else allFrom line field (fun ch => isdigit ch || isupper ch || islower ch)
    (fun i => .exception .E030 (field.addr i)) field.size 0

/-- The loop `while (true) { if (!isdigit(field[i])) break; if (size <= ++i) ... }` of
`checkSentenceGrouping`; at the end of the field it throws E032 when `strict` and
breaks otherwise. The result is `i` after the loop. -/
def groupingNumber (line : List Nat) (field : StringView) (strict : Bool) :
    Nat → Nat → Except Thrown Nat
  | 0, _ => .error .timeout
  | fuel + 1, i =>
    match field.at line i with
    | .error t => .error t
    | .ok ch =>
      if !isdigit ch then .ok i
      else if field.size ≤ i + 1 then
        if strict then .error (.exception .E032 none) else .ok (i + 1)
      else groupingNumber line field strict fuel (i + 1)

/-- The body of the loop `for (count = 0; count < 2; ++count)` of
`checkSentenceGrouping`; the result is `i` after the body. -/
def groupingPart (line : List Nat) (field : StringView) (i : Nat) : Except Thrown Nat :=
  let last := i
  match groupingNumber line field true (field.size + 1) i with
  | .error t => .error t
  | .ok i =>
    if i = last then .error (.exception .E031 (field.addr i))
    else
      match field.at line i with
      | .error t => .error t
      | .ok ch =>
        if ch != 45 then .error (.exception .E032 (field.addr i))
        else if field.size ≤ i + 1 then .error (.exception .E032 none)
        else .ok (i + 1)

/-- The function `checkSentenceGrouping`. -/
def checkSentenceGrouping (line : List Nat) (field : StringView) : Except Thrown Unit :=
  if field.size ≤ 0 then .error (.exception .E032 none)
  else
    match groupingPart line field 0 with
    | .error t => .error t
    | .ok i =>
      match groupingPart line field i with
      | .error t => .error t
      | .ok i =>
        let last := i
        match groupingNumber line field false (field.size + 1) i with
        | .error t => .error t
        | .ok i => if i = last then .error (.exception .E031 (field.addr i)) else .ok ()

/-! ## HardCodedMessages.cpp: the field grammar -/

/-- The enumeration `CharLiterals::Precence`. -/
inductive Precence where
  | optional | mandatory
  deriving DecidableEq, Repr

/-- The enumeration `RepeatableGroup::Iteration`. -/
inductive Iteration where
  | zero_or_one | zero_or_more | one_or_more | fixed
  deriving DecidableEq, Repr

/-- The classes derived from `FieldBase`, each with its data members. -/
inductive Field where
  | Status
  | Latitude
  | Longitude
  | Time
  | CharLiterals (m_Precence : Precence) (m_Literal : List Nat)
  | VariableNumbers
  | FixedNumberField (m_Length : Nat)
  | FixedHexField (m_Length : Nat)
  | VariableHexField
  | FixedAlphaField (m_Length : Nat)
  | VariableText (m_Length : Nat)
  | FixedTextField (m_Length : Nat)
  | FixedSixBitField (m_Length : Nat)
  | VariableSixBitField
  | RepeatableGroup (m_Iteration : Iteration) (m_FiexedLength : Nat) (m_Fields : List Field)

/-- The constructor `CharLiterals(Precence precence = mandatory)`. Its initialiser list
is `m_Precence(), m_Literal()`: the member is value-initialised, which is the first
enumerator `optional`, and the argument is not used. -/
def CharLiterals.new (_precence : Precence) : Field := .CharLiterals .optional []

/-- The two overloads of `CharLiterals::add`. -/
def Field.add (self : Field) (str : List Nat) : Field :=
  match self with
  | .CharLiterals p l => .CharLiterals p (l ++ str)
  | f => f

/-- The value `checksumIndex = splitter.size() - 1` on `size_t` (64 bits). -/
def checksumIndex (splitter : List StringView) : Nat :=
  if splitter.length = 0 then 2 ^ 64 - 1 else splitter.length - 1

/-- The method `LatLong::doParse(splitter, index, num)`. -/
def LatLong.doParse (line : List Nat) (splitter : List StringView) (index num : Nat) :
    Except Thrown Nat :=
  match idx splitter index with
  | .error t => .error t
  | .ok field =>
    if field.size < num then .error (.exception .E013 (field.addr 0))
    else
      match digitRun line field num 0 with
      | .error t => .error t
      | .ok i =>
        if field.size = num then .ok (index + 1)
        else
          match field.at line i with
          | .error t => .error t
          | .ok ch =>
            if ch != 46 then .error (.exception .E018 (field.addr 0))
            else
              match allFrom line field isdigit (fun _ => .exception .E018 (field.addr 0))
                  (field.size - (i + 1)) (i + 1) with
              | .error t => .error t
              | .ok () => .ok (index + 1)

/-- The method `Time::doParse`. -/
def Time.doParse (line : List Nat) (splitter : List StringView) (index : Nat) :
    Except Thrown Nat :=
  match idx splitter index with
  | .error t => .error t
  | .ok field =>
    match allFrom line field isdigit (fun _ => .exception .E019 (field.addr 0))
        (min 6 field.size) 0 with
    | .error t => .error t
    | .ok () =>
      match (if field.size > 6 then
              match field.at line 6 with
              | .error t => .error t
              | .ok ch => if ch != 46 then .error (.exception .E020 (field.addr 0)) else .ok ()
            else .ok () : Except Thrown Unit) with
      | .error t => .error t
      | .ok () =>
        if field.size > 7 then
          match allFrom line field isdigit (fun _ => .exception .E019 (field.addr 0))
              (field.size - 7) 7 with
          | .error t => .error t
          | .ok () => .ok (index + 1)
        else .ok (index + 1)

/-- The method `VariableNumbers::doParse`. -/
def VariableNumbers.doParse (line : List Nat) (splitter : List StringView) (index : Nat) :
    Except Thrown Nat :=
  match idx splitter index with
  | .error t => .error t
  | .ok field =>
    match (if field.size > 0 then
            match field.at line 0 with
            | .error t => .error t
            | .ok ch => .ok (if ch == 45 then 1 else 0)
          else .ok 0 : Except Thrown Nat) with
    | .error t => .error t
    | .ok i =>
      match digitRun line field (field.size - i) i with
      | .error t => .error t
      | .ok i =>
        if i = field.size then .ok (index + 1)
        else
          match field.at line i with
          | .error t => .error t
          | .ok ch =>
            if ch != 46 then .error (.exception .E018 (field.addr 0))
            else
              match allFrom line field isdigit (fun _ => .exception .E018 (field.addr 0))
                  (field.size - (i + 1)) (i + 1) with
              | .error t => .error t
              | .ok () => .ok (index + 1)

/-- The common body of `FixedNumberField::doParse` (`ok = isdigit`, `e = E018`) and
`FixedHexField::doParse` (`ok = isxdigit`, `e = E021`). -/
def FixedField.doParse (line : List Nat) (splitter : List StringView) (index m_Length : Nat)
    (ok : Nat → Bool) (e : ErrorCode) : Except Thrown Nat :=
  match idx splitter index with
  | .error t => .error t
  | .ok field =>
    if field.size = 0 then .ok (index + 1)
    else
      match field.at line 0 with
      | .error t => .error t
      | .ok ch =>
        if ch == 45 then
          if field.size ≠ m_Length + 1 then .error (.exception .E013 (field.addr 0))
          else
            let field : StringView := ⟨field.addr 1, field.size - 1⟩
            match allFrom line field ok (fun _ => .exception e (field.addr 0)) field.size 0 with
            | .error t => .error t
            | .ok () => .ok (index + 1)
        else
          if field.size ≠ m_Length then .error (.exception .E013 (field.addr 0))
          else
            match allFrom line field ok (fun _ => .exception e (field.addr 0)) field.size 0 with
            | .error t => .error t
            | .ok () => .ok (index + 1)

/-- The method `doParse` of the classes derived from `FieldBase` other than
`RepeatableGroup` (whose `doParse` is not in use and returns 0). -/
def Field.doParse (line : List Nat) (splitter : List StringView) (index : Nat) :
    Field → Except Thrown Nat
  | .Status =>
    match idx splitter index with
    | .error t => .error t
    | .ok field =>
      if field.size = 0 then .error (.exception .E016 (field.addr 0))
      else if field.size ≠ 1 then .error (.exception .E013 (field.addr 0))
      else
        match field.at line 0 with
        | .error t => .error t
        | .ok ch =>
          if ch == 65 || ch == 86 then .ok (index + 1)
          else .error (.exception .E017 (field.addr 0))
  | .Latitude => LatLong.doParse line splitter index 4
  | .Longitude => LatLong.doParse line splitter index 5
  | .Time => Time.doParse line splitter index
  | .CharLiterals m_Precence m_Literal =>
    match idx splitter index with
    | .error t => .error t
    | .ok field =>
      if field.size = 0 then
        if m_Precence = .mandatory then .error (.exception .E016 (field.addr 0))
        else .ok (index + 1)
      else
        if m_Literal.isEmpty then .error (.exception .E017 (field.addr 0))
        else
          match field.at line 0 with
          | .error t => .error t
          | .ok ch0 =>
            if m_Literal.any (fun ch => ch == ch0) then .ok (index + 1)
            else .error (.exception .E017 (field.addr 0))
  | .VariableNumbers => VariableNumbers.doParse line splitter index
  | .FixedNumberField m_Length => FixedField.doParse line splitter index m_Length isdigit .E018
  | .FixedHexField m_Length => FixedField.doParse line splitter index m_Length isxdigit .E021
  | .VariableHexField =>
    match idx splitter index with
    | .error t => .error t
    | .ok field =>
      match (if field.size > 0 then
              match field.at line 0 with
              | .error t => .error t
              | .ok ch => .ok (if ch == 45 then 1 else 0)
            else .ok 0 : Except Thrown Nat) with
      | .error t => .error t
      | .ok i =>
        match allFrom line field isxdigit (fun _ => .exception .E021 (field.addr 0))
            (field.size - i) i with
        | .error t => .error t
        | .ok () => .ok (index + 1)
  | .FixedAlphaField m_Length =>
    match idx splitter index with
    | .error t => .error t
    | .ok field =>
      if field.size ≠ m_Length then .error (.exception .E013 (field.addr 0))
      else
        match allFrom line field (fun ch => isupper ch || islower ch)
            (fun _ => .exception .E014 (field.addr 0)) field.size 0 with
        | .error t => .error t
        | .ok () => .ok (index + 1)
  | .VariableText m_Length =>
    match idx splitter index with
    | .error t => .error t
    | .ok field =>
      if field.size > m_Length then .error (.exception .E013 (field.addr 0))
      else .ok (index + 1)
  | .FixedTextField m_Length =>
    match idx splitter index with
    | .error t => .error t
    | .ok field =>
      if field.size ≠ m_Length then .error (.exception .E013 (field.addr 0))
      else .ok (index + 1)
  | .FixedSixBitField m_Length =>
    match idx splitter index with
    | .error t => .error t
    | .ok field =>
      if field.size ≠ m_Length then .error (.exception .E013 (field.addr 0))
      else
        match allFrom line field issixbit (fun _ => .exception .E022 (field.addr 0))
            field.size 0 with
        | .error t => .error t
        | .ok () => .ok (index + 1)
  | .VariableSixBitField =>
    match idx splitter index with
    | .error t => .error t
    | .ok field =>
      match allFrom line field issixbit (fun _ => .exception .E022 (field.addr 0))
          field.size 0 with
      | .error t => .error t
      | .ok () => .ok (index + 1)
  | .RepeatableGroup _ _ _ => .ok 0

/-- The exception `Exception(ErrorCode::E015, &(splitter[checksumIndex][0]))`. -/
def throwE015 (splitter : List StringView) : Except Thrown Nat :=
  match idx splitter (checksumIndex splitter) with
  | .error t => .error t
  | .ok field => .error (.exception .E015 (field.addr 0))

/-- The loop `for (i = 0; i < numberOfDatafields; ++i) index = m_Fields[i]->parse(splitter, index);`
with `parse` the method of the children. -/
def forFields (parse : Field → Nat → Except Thrown Nat) : List Field → Nat → Except Thrown Nat
  | [], index => .ok index
  | f :: rest, index =>
    match parse f index with
    | .error t => .error t
    | .ok index => forFields parse rest index

/-- The loop `while (index < checksumIndex) body` of `RepeatableGroup::parse`. -/
def whileFields (checksumIndex : Nat) (body : Nat → Except Thrown Nat) :
    Nat → Nat → Except Thrown Nat
  | 0, index => if index < checksumIndex then .error .timeout else .ok index
  | fuel + 1, index =>
    if index < checksumIndex then
      match body index with
      | .error t => .error t
      | .ok index => whileFields checksumIndex body fuel index
    else .ok index

/-- The loop `for (count = 0; count < m_FiexedLength; ++count) body`. -/
def repeatFields (body : Nat → Except Thrown Nat) : Nat → Nat → Except Thrown Nat
  | 0, index => .ok index
  | count + 1, index =>
    match body index with
    | .error t => .error t
    | .ok index => repeatFields body count index

/-- The virtual method `IField::parse(splitter, index)`: `FieldBase::parse` for the
single-field classes and the override `RepeatableGroup::parse`. The fuel bounds the
depth of the calls and the number of passes of the `while` loop. -/
def Field.parse (line : List Nat) (splitter : List StringView) :
    Nat → Field → Nat → Except Thrown Nat
  | 0, _, _ => .error .timeout
  | fuel + 1, .RepeatableGroup m_Iteration m_FiexedLength m_Fields, index =>
    let checksumIndex := checksumIndex splitter
    match m_Iteration with
    | .zero_or_one =>
      if index < checksumIndex then
        match idx splitter index with
        | .error t => .error t
        | .ok field =>
          if field.size ≠ 0 then
            match idx m_Fields 0 with
            | .error t => .error t
            | .ok f => Field.parse line splitter fuel f index
          else .ok index
      else .ok index
    | .one_or_more =>
      if index ≥ checksumIndex then throwE015 splitter
      else whileFields checksumIndex
        (forFields (fun f i => Field.parse line splitter fuel f i) m_Fields) fuel index
    | .zero_or_more =>
      whileFields checksumIndex
        (forFields (fun f i => Field.parse line splitter fuel f i) m_Fields) fuel index
    | .fixed =>
      repeatFields (forFields (fun f i => Field.parse line splitter fuel f i) m_Fields)
        m_FiexedLength index
  | _ + 1, f, index =>
    if index ≥ checksumIndex splitter then throwE015 splitter
    else Field.doParse line splitter index f

/-! ## Sentence.h / Sentence.cpp -/

/-- The members of class `Sentence`. -/
structure Sentence where
  m_SentenceFormatter : List Nat
  m_Fields : List Field

/-- The method `Sentence::parse(splitter)`; the result is the last value of `j`. -/
def Sentence.parse (self : Sentence) (line : List Nat) (splitter : List StringView)
    (fuel : Nat) : Except Thrown Nat :=
  if splitter.length < 2 then
    match idx splitter 0 with
    | .error t => .error t
    | .ok field => .error (.exception .E015 (field.addr 0))
  else forFields (fun f j => Field.parse line splitter fuel f j) self.m_Fields 1

/-! ## HardCodedMessages.cpp: the catalog

A `new VariableText()` is `VariableText 82` (the default argument), a
`new CharLiterals()` is `CharLiterals.new .mandatory` (the default argument), and a
`new RepeatableGroup(iteration)` has `fixedLength = 0` (the default argument). -/

/-- The catalog entry `AAM()`. -/
def AAM : Sentence := { m_SentenceFormatter := bytes "AAM", m_Fields := [
    .Status, .Status, .VariableNumbers, (CharLiterals.new .mandatory).add (bytes "N"),
    .VariableText 82] }

/-- The catalog entry `ACK()`. -/
def ACK : Sentence := { m_SentenceFormatter := bytes "ACK", m_Fields := [
    .FixedTextField 3] }

/-- The catalog entry `ACN()`. -/
def ACN : Sentence := { m_SentenceFormatter := bytes "ACN", m_Fields := [
    .Time, .FixedTextField 3, .VariableNumbers, .VariableNumbers,
    (CharLiterals.new .mandatory).add (bytes "AQOS"),
    (CharLiterals.new .mandatory).add (bytes "N")] }

/-- The catalog entry `ALC()`. -/
def ALC : Sentence := { m_SentenceFormatter := bytes "ALC", m_Fields := [
    .FixedNumberField 2, .FixedNumberField 2, .FixedNumberField 2, .VariableNumbers,
    .RepeatableGroup .one_or_more 0 [.FixedTextField 3, .VariableNumbers, .VariableNumbers, .VariableNumbers]] }

/-- The catalog entry `ALF()`. -/
def ALF : Sentence := { m_SentenceFormatter := bytes "ALF", m_Fields := [
    .FixedNumberField 1, .FixedNumberField 1, .FixedNumberField 1, .Time,
    (CharLiterals.new .mandatory).add (bytes "ABC"),
    (CharLiterals.new .mandatory).add (bytes "EAWC"),
    (CharLiterals.new .mandatory).add (bytes "ASROUD"), .FixedTextField 3, .VariableNumbers,
    .VariableNumbers, .VariableNumbers, .FixedNumberField 1, .VariableText 16] }

/-- The catalog entry `ALR()`. -/
def ALR : Sentence := { m_SentenceFormatter := bytes "ALR", m_Fields := [
    .Time, .FixedNumberField 3, (CharLiterals.new .mandatory).add (bytes "AV"),
    (CharLiterals.new .mandatory).add (bytes "AV"), .VariableText 82] }

/-- The catalog entry `ARC()`. -/
def ARC : Sentence := { m_SentenceFormatter := bytes "ARC", m_Fields := [
    .Time, .FixedNumberField 3, .VariableNumbers, .VariableNumbers,
    (CharLiterals.new .mandatory).add (bytes "AQOS")] }

/-- The catalog entry `EVE()`. -/
def EVE : Sentence := { m_SentenceFormatter := bytes "EVE", m_Fields := [
    .Time, .VariableText 82, .VariableText 82] }

/-- The catalog entry `GGA()`. -/
def GGA : Sentence := { m_SentenceFormatter := bytes "GGA", m_Fields := [
    .Time, .Latitude, (CharLiterals.new .mandatory).add (bytes "NS"), .Longitude,
    (CharLiterals.new .mandatory).add (bytes "EW"), .FixedNumberField 1, .FixedNumberField 2,
    .VariableNumbers, .VariableNumbers, (CharLiterals.new .mandatory).add (bytes "M"),
    .VariableNumbers, (CharLiterals.new .mandatory).add (bytes "M"), .VariableNumbers,
    .FixedNumberField 4] }

/-- The catalog entry `GLL()`. -/
def GLL : Sentence := { m_SentenceFormatter := bytes "GLL", m_Fields := [
    .Latitude, (CharLiterals.new .mandatory).add (bytes "NS"), .Longitude,
    (CharLiterals.new .mandatory).add (bytes "EW"), .Time, .Status,
    .RepeatableGroup .zero_or_one 0 [(CharLiterals.new .mandatory).add (bytes "ADEMSN")]] }

/-- The catalog entry `GSA()`. -/
def GSA : Sentence := { m_SentenceFormatter := bytes "GSA", m_Fields := [
    (CharLiterals.new .mandatory).add (bytes "MA"), .FixedNumberField 1, .FixedNumberField 2,
    .FixedNumberField 2, .FixedNumberField 2, .FixedNumberField 2, .FixedNumberField 2,
    .FixedNumberField 2, .FixedNumberField 2, .FixedNumberField 2, .FixedNumberField 2,
    .FixedNumberField 2, .FixedNumberField 2, .FixedNumberField 2, .VariableNumbers,
    .VariableNumbers, .VariableNumbers] }

/-- The catalog entry `GSV()`. -/
def GSV : Sentence := { m_SentenceFormatter := bytes "GSV", m_Fields := [
    .FixedNumberField 1, .FixedNumberField 1, .FixedNumberField 2,
    .RepeatableGroup .one_or_more 0 [.FixedNumberField 2, .FixedNumberField 2, .FixedNumberField 3, .FixedNumberField 2]] }

/-- The catalog entry `RMC()`. -/
def RMC : Sentence := { m_SentenceFormatter := bytes "RMC", m_Fields := [
    .Time, .Status, .Latitude, (CharLiterals.new .mandatory).add (bytes "NS"), .Longitude,
    (CharLiterals.new .mandatory).add (bytes "EW"), .VariableNumbers, .VariableNumbers,
    .FixedNumberField 6, .VariableNumbers, (CharLiterals.new .mandatory).add (bytes "EW"),
    .RepeatableGroup .zero_or_one 0 [(CharLiterals.new .mandatory).add (bytes "ADEMSN")]] }

/-- The catalog entry `VDM()`. -/
def VDM : Sentence := { m_SentenceFormatter := bytes "VDM", m_Fields := [
    .FixedNumberField 1, .FixedNumberField 1, .FixedNumberField 1,
    (CharLiterals.new .mandatory).add (bytes "AB"), .VariableSixBitField, .FixedNumberField 1] }

/-- The catalog entry `VSI()`. -/
def VSI : Sentence := { m_SentenceFormatter := bytes "VSI", m_Fields := [
    .VariableText 15, .FixedNumberField 1, .Time, .VariableNumbers, .VariableNumbers,
    .VariableNumbers] }

/-- The catalog entry `ZDA()`. -/
def ZDA : Sentence := { m_SentenceFormatter := bytes "ZDA", m_Fields := [
    .Time, .FixedNumberField 2, .FixedNumberField 2, .FixedNumberField 4, .FixedNumberField 2,
    .FixedNumberField 2] }

/-- The map `m_Sentences` as filled by the constructor `HardCodedMessages()`
(HardCodedMessages.cpp lines 731-750). -/
def m_Sentences : List (List Nat × Sentence) := [
  (bytes "AAM", AAM), (bytes "ACK", ACK), (bytes "ACN", ACN), (bytes "ALC", ALC),
  (bytes "ALF", ALF), (bytes "ALR", ALR), (bytes "ARC", ARC), (bytes "EVE", EVE),
  (bytes "GGA", GGA), (bytes "GLL", GLL), (bytes "GSA", GSA), (bytes "GSV", GSV),
  (bytes "RMC", RMC), (bytes "VDM", VDM), (bytes "VSI", VSI), (bytes "ZDA", ZDA)]

/-- Modelled from the spec: the header HardCodedMessages.h, which declares the map
`m_Sentences`, is missing; the lookup `m_Sentences.find(formatter)` is the one of the
specification, `lookup(formatter: 3-char string) -> SentenceSpec | not-found`, by the
value of the key string. -/
def find (formatter : List Nat) : Option Sentence :=
  (m_Sentences.find? (fun kv => kv.1 == formatter)).map (fun kv => kv.2)

/-! ## Nmea.cpp: the three stages and `parse` -/

/-- The search for the first character of `parseMainStructure` (Nmea.cpp lines 64-71);
the result is `begin` at the `break`. -/
def findStart (line : List Nat) : Nat → Nat → Except Thrown Nat
  | 0, _ => .error .timeout
  | fuel + 1, begin =>
    if begin = line.length then .error (.exception .E033 none)
    else
      match rd line begin with
      | .error t => .error t
      | .ok ch =>
        if ch == 36 || ch == 33 || ch == 92 then .ok begin
        else findStart line fuel (begin + 1)

/-- The tag-block loop of `parseMainStructure` (Nmea.cpp lines 74-80); the result is
`m_Line` as the loop leaves it, and `begin` after the loop or what was thrown. -/
def parseTagBlocks (line : List Nat) :
    Nat → List TagBlockOrSentence → Nat → List TagBlockOrSentence × Except Thrown Nat
  | 0, m_Line, _ => (m_Line, .error .timeout)
  | fuel + 1, m_Line, begin =>
    match rd line begin with
    | .error t => (m_Line, .error t)
    | .ok ch =>
      if ch == 92 then
        match parseMainStructureTagBlockOrSentence line begin with
        | .error t => (m_Line, .error t)
        | .ok (element, begin) =>
          match rd line begin with
          | .error t => (m_Line ++ [element], .error t)
          | .ok ch =>
            if ch != 92 then (m_Line ++ [element], .error (.exception .E026 none))
            else parseTagBlocks line fuel (m_Line ++ [element]) (begin + 1)
      else (m_Line, .ok begin)

/-- The sentence step of `parseMainStructure` (Nmea.cpp lines 83-84). -/
def parseSentence (line : List Nat) (m_Line : List TagBlockOrSentence) (begin : Nat) :
    List TagBlockOrSentence × Except Thrown Nat :=
  match rd line begin with
  | .error t => (m_Line, .error t)
  | .ok ch =>
    if ch == 36 || ch == 33 then
      match parseMainStructureTagBlockOrSentence line begin with
      | .error t => (m_Line, .error t)
      | .ok (element, begin) => (m_Line ++ [element], .ok begin)
    else (m_Line, .ok begin)

/-- The part of `parseMainStructure` that reads the elements of a non-empty line
(Nmea.cpp lines 57-84): all tag blocks and the optional sentence. The result is
`m_Line`, and `begin` after the last element or what was thrown. -/
def parseElements (line : List Nat) (m_Line : List TagBlockOrSentence) :
    List TagBlockOrSentence × Except Thrown Nat :=
  match findStart line (line.length + 1) 0 with
  | .error t => (m_Line, .error t)
  | .ok begin =>
    match parseTagBlocks line (line.length + 1) m_Line begin with
    | (m_Line, .error t) => (m_Line, .error t)
    | (m_Line, .ok begin) => parseSentence line m_Line begin

/-- The check for CR LF of `parseMainStructure` (Nmea.cpp lines 86-90). -/
def checkCRLF (line : List Nat) (begin : Nat) : Except Thrown Unit :=
  if begin ≥ line.length then .error (.exception .E024 (some begin))
  else
    match rd line begin with
    | .error t => .error t
    | .ok ch =>
      if ch != 13 then .error (.exception .E024 (some begin))
      else if begin + 1 ≥ line.length then .error (.exception .E025 (some (begin + 1)))
      else
        match rd line (begin + 1) with
        | .error t => .error t
        | .ok ch =>
          if ch != 10 then .error (.exception .E025 (some (begin + 1))) else .ok ()

/-- The method `Nmea::parseMainStructure(line)`: the object after the call, and whether
the call returned or what it threw. -/
def parseMainStructure (self : Nmea) (line : List Nat) : Nmea × Except Thrown Unit :=
  if line.length = 0 then (self, .error .logic_error)
  else
    let self := { self with m_Error := .E000 }
    match parseElements line self.m_Line with
    | (m_Line, .error t) => ({ self with m_Line := m_Line }, .error t)
    | (m_Line, .ok begin) => ({ self with m_Line := m_Line }, checkCRLF line begin)

/-- A loop `for (field : fields) body(field)` over views. -/
def forViews (body : StringView → Except Thrown Unit) : List StringView → Except Thrown Unit
  | [] => .ok ()
  | field :: rest =>
    match body field with
    | .error t => .error t
    | .ok () => forViews body rest

/-- The body of the tag-block loop of `parseGeneralContents` (Nmea.cpp lines 199-246). The
view `field` is `{ &tagField[2], tagField.size() - 2 }` with the subtraction on
`size_t` (64 bits). -/
def checkTagField (line : List Nat) (tagField : StringView) : Except Thrown Unit :=
  match tagField.at line 1 with
  | .error t => .error t
  | .ok colon =>
    if colon != 58 then .error (.exception .E028 (tagField.addr 1))
    else
      match tagField.at line 0 with
      | .error t => .error t
      | .ok code =>
        let field : StringView := ⟨tagField.addr 2, (tagField.size + 2 ^ 64 - 2) % 2 ^ 64⟩
        if code == 99 then checkPositivInteger line field
        else if code == 100 then checkIdentification line field
        else if code == 103 then checkSentenceGrouping line field
        else if code == 110 then checkPositivInteger line field
        else if code == 114 then checkPositivInteger line field
        else if code == 115 then checkIdentification line field
        else if code == 116 then .ok ()
        else .error (.exception .E027 (tagField.addr 0))

/-- The body of the element loop of `parseGeneralContents` (Nmea.cpp lines 192-296). The
loops `for (i = 0; i < splitter.size() - 1; ++i)` and `for (i = 1; ...)` run over
`splitter.dropLast` and `splitter.dropLast.tail`. -/
def generalContents (element : TagBlockOrSentence) : Except Thrown Unit :=
  let splitter := element.m_Splitter
  let line := element.buffer
  match element.m_LineElementType with
  | .tag_block =>
    if splitter.length = 0 then .error .undefined
    else forViews (checkTagField line) splitter.dropLast
  | .sentence =>
    match element.m_SentenceType with
    | none => .error .undefined
    | some .parametric | some .encapsulated =>
      match idx splitter 0 with
      | .error t => .error t
      | .ok headerField =>
        match headerField.at line 1, headerField.at line 2 with
        | .ok ch1, .ok ch2 =>
          match checkTalkerId ch1 ch2 (headerField.addr 1) with
          | .error t => .error t
          | .ok () =>
            match headerField.at line 3, headerField.at line 4, headerField.at line 5 with
            | .ok ch3, .ok ch4, .ok ch5 =>
              match checkSentenceFormatter ch3 ch4 ch5 (headerField.addr 3) with
              | .error t => .error t
              | .ok () => forViews (checkDataFieldCharacters line) splitter.dropLast.tail
            | _, _, _ => .error .undefined
        | _, _ => .error .undefined
    | some .query =>
      match idx splitter 0 with
      | .error t => .error t
      | .ok headerField =>
        match headerField.at line 1, headerField.at line 2 with
        | .ok ch1, .ok ch2 =>
          match checkTalkerId ch1 ch2 (headerField.addr 1) with
          | .error t => .error t
          | .ok () =>
            match headerField.at line 3, headerField.at line 4 with
            | .ok ch3, .ok ch4 =>
              match checkTalkerId ch3 ch4 (headerField.addr 3) with
              | .error t => .error t
              | .ok () =>
                match idx splitter 1 with
                | .error t => .error t
                | .ok field =>
                  match field.at line 0, field.at line 1, field.at line 2 with
                  | .ok f0, .ok f1, .ok f2 => checkSentenceFormatter f0 f1 f2 (field.addr 0)
                  | _, _, _ => .error .undefined
            | _, _ => .error .undefined
        | _, _ => .error .undefined
    | some .proprietary =>
      match idx splitter 0 with
      | .error t => .error t
      | .ok headerField =>
        match headerField.at line 2, headerField.at line 3, headerField.at line 4 with
        | .ok ch2, .ok ch3, .ok ch4 =>
          match checkProprietaryTalkerId ch2 ch3 ch4 (headerField.addr 2) with
          | .error t => .error t
          | .ok () => forViews (checkProprietaryDataFieldCharacters line) splitter.dropLast.tail
        | _, _, _ => .error .undefined

/-- A loop `for (element : m_Line) body(element)`. -/
def forElements (body : TagBlockOrSentence → Except Thrown Unit) :
    List TagBlockOrSentence → Except Thrown Unit
  | [] => .ok ()
  | element :: rest =>
    match body element with
    | .error t => .error t
    | .ok () => forElements body rest

/-- The method `Nmea::parseGeneralContents()`. -/
def parseGeneralContents (self : Nmea) : Except Thrown Unit :=
  forElements generalContents self.m_Line

/-- The body of the element loop of `parseSpecificContents` (Nmea.cpp lines 306-358). The
field grammar runs with fuel `splitter.size() + 2`. -/
def specificContents (element : TagBlockOrSentence) : Except Thrown Unit :=
  let splitter := element.m_Splitter
  let line := element.buffer
  match element.m_LineElementType with
  | .tag_block => .ok ()
  | .sentence =>
    match element.m_SentenceType with
    | none => .error .undefined
    | some .parametric | some .encapsulated =>
      match idx splitter 0 with
      | .error t => .error t
      | .ok headerField =>
        match headerField.at line 1, headerField.at line 2 with
        | .ok ch1, .ok ch2 =>
          match matchTalker ch1 ch2 (headerField.addr 1) with
          | .error t => .error t
          | .ok () =>
            match headerField.at line 3, headerField.at line 4, headerField.at line 5 with
            | .ok ch3, .ok ch4, .ok ch5 =>
              match find (cstr [ch3, ch4, ch5, 0]) with
              | some sentence =>
                match sentence.parse line splitter (splitter.length + 2) with
                | .error t => .error t
                | .ok _ => .ok ()
              | none => .error (.exception .E009 (headerField.addr 0))
            | _, _, _ => .error .undefined
        | _, _ => .error .undefined
    | some .query =>
      match idx splitter 0 with
      | .error t => .error t
      | .ok headerField =>
        match headerField.at line 1, headerField.at line 2 with
        | .ok ch1, .ok ch2 =>
          match matchTalker ch1 ch2 (headerField.addr 1) with
          | .error t => .error t
          | .ok () =>
            match headerField.at line 3, headerField.at line 4 with
            | .ok ch3, .ok ch4 =>
              match matchTalker ch3 ch4 (headerField.addr 3) with
              | .error t => .error t
              | .ok () =>
                match idx splitter 1 with
                | .error t => .error t
                | .ok field =>
                  match field.at line 0, field.at line 1, field.at line 2 with
                  | .ok f0, .ok f1, .ok f2 => matchSentenceFormatter f0 f1 f2
                  | _, _, _ => .error .undefined
            | _, _ => .error .undefined
        | _, _ => .error .undefined
    | some .proprietary => .ok ()

/-- The method `Nmea::parseSpecificContents()`. -/
def parseSpecificContents (self : Nmea) : Except Thrown Unit :=
  forElements specificContents self.m_Line

/-- What a call of `parse` comes to: it returns and leaves the object `self`, or its
behaviour is undefined, or the fuel of a loop is used up. -/
inductive Outcome where
  | returned (self : Nmea)
  | undefined
  | timeout
  deriving DecidableEq, Repr

/-- The three `catch` clauses of `Nmea::parse` (Nmea.cpp lines 32-43). -/
def catchAll (self : Nmea) : Except Thrown Unit → Outcome
  | .ok () => .returned self
  | .error (.errorCode e) => .returned { self with m_Error := e }
  | .error (.exception e i) => .returned { self with m_Error := e, m_Indication := i }
  | .error .logic_error => .returned self
  | .error .undefined => .undefined
  | .error .timeout => .timeout

/-- The method `Nmea::parse(line)`. -/
def parse (self : Nmea) (line : List Nat) : Outcome :=
  match parseMainStructure self line with
  | (self, .error t) => catchAll self (.error t)
  | (self, .ok ()) =>
    match parseGeneralContents self with
    | .error t => catchAll self (.error t)
    | .ok () => catchAll self (parseSpecificContents self)

/-- The value of `errorCode()` after the call, when the call returns. -/
def Outcome.errorCode : Outcome → Option ErrorCode
  | .returned self => some self.errorCode
  | _ => none

/-- The value of `indication()` after the call, when the call returns. -/
def Outcome.indication : Outcome → Option (Option Nat)
  | .returned self => some self.indication
  | _ => none

/-! ## Vocabulary of the statements -/

/-- The XOR of a list of bytes, each taken as an 8-bit value. -/
def xorBytes : List Nat → Nat
  | [] => 0
  | ch :: rest => (ch % 256) ^^^ xorBytes rest

/-- The bytes of the line at the offsets `i`, ..., `j - 1`. -/
def slice (line : List Nat) (i j : Nat) : List Nat := (line.drop i).take (j - i)

/-- The view that `appendSpan(splitter, begin, end)` appends when `*begin` is `ch`. -/
def span (ch begin «end» : Nat) : StringView :=
  if ch = 44 ∨ ch = 92 then
    if «end» - begin < 2 then ⟨none, 0⟩ else ⟨some (begin + 1), «end» - (begin + 1)⟩
  else ⟨some begin, «end» - begin⟩

/-- The character `hex2Char` returns for a value up to 15. -/
def hexDigit (value : Nat) : Nat := if value > 9 then 65 + (value - 10) else 48 + value

/-- The data fields of a sentence as they stand in the line, each after its comma. -/
def commaFields (fields : List (List Nat)) : List Nat :=
  (fields.map (fun f => 44 :: f)).flatten

/-- The line `$ttfff,field,...,field*HH` followed by CR LF: talker `t1 t2`, formatter
`f1 f2 f3`, the data fields, and the two checksum characters `h1 h2`. -/
def sentenceLine (t1 t2 f1 f2 f3 : Nat) (fields : List (List Nat)) (h1 h2 : Nat) : List Nat :=
  [36, t1, t2, f1, f2, f3] ++ commaFields fields ++ [42, h1, h2, 13, 10]

/-- The views of the data fields when the comma of the first one is at offset `off`:
an empty field is the empty view `(nullptr, 0)`. -/
def dataViews : Nat → List (List Nat) → List StringView
  | _, [] => []
  | off, f :: rest =>
    (if f.length = 0 then ⟨none, 0⟩ else ⟨some (off + 1), f.length⟩) ::
      dataViews (off + 1 + f.length) rest

/-- The views of `sentenceLine`: header, data fields, checksum field. -/
def sentenceViews (fields : List (List Nat)) : List StringView :=
  ⟨some 0, 6⟩ :: dataViews 6 fields ++ [⟨some (6 + (commaFields fields).length), 3⟩]

/-- The error codes the structural tokenizer throws. -/
def framingCodes : List ErrorCode :=
  [.E001, .E003, .E004, .E007, .E023, .E024, .E025, .E026, .E033]

/-- The thrown object is an `Exception` that carries one of the codes, or the behaviour is
undefined; it is neither a bare `ErrorCode` nor a `logic_error`, and no fuel ran out. -/
def Thrown.among (codes : List ErrorCode) : Thrown → Prop
  | .exception e _ => e ∈ codes
  | .undefined => True
  | .timeout => False
  | .errorCode _ => False
  | .logic_error => False

instance (codes : List ErrorCode) (t : Thrown) : Decidable (t.among codes) := by
  cases t <;> simp only [Thrown.among] <;> infer_instance

/-- Example 1 of the specification, a GGA sentence with its CR LF. -/
def example1 : List Nat :=
  bytes "$GPGGA,123519,4807.038,N,01131.000,E,1,08,0.9,545.4,M,46.9,M,,*47\r\n"

/-- Example 1 with both checksum digits wrong (Example 4 of the specification). -/
def example1BothWrong : List Nat :=
  bytes "$GPGGA,123519,4807.038,N,01131.000,E,1,08,0.9,545.4,M,46.9,M,,*00\r\n"

/-- Example 1 with the second checksum digit wrong and the first one right. -/
def example1OneWrong : List Nat :=
  bytes "$GPGGA,123519,4807.038,N,01131.000,E,1,08,0.9,545.4,M,46.9,M,,*40\r\n"

/-- Example 1 without its CR (Example 2 of the specification). -/
def example1NoCR : List Nat :=
  bytes "$GPGGA,123519,4807.038,N,01131.000,E,1,08,0.9,545.4,M,46.9,M,,*47\n"

/-- The data fields of Example 1. -/
def example1Data : List (List Nat) := [
  bytes "123519", bytes "4807.038", bytes "N", bytes "01131.000", bytes "E", bytes "1",
  bytes "08", bytes "0.9", bytes "545.4", bytes "M", bytes "46.9", bytes "M", [], []]

/-- A GGA sentence of exactly 80 bytes from `$` to the last checksum character, with
its CR LF: Example 1 with the altitude written with 15 more decimals. -/
def example80 : List Nat :=
  bytes "$GPGGA,123519,4807.038,N,01131.000,E,1,08,0.9,545.4000000000000000,M,46.9,M,,*77\r\n"

/-- The header view and the data views of Example 1. -/
def example1Fields : List StringView := [
  ⟨some 0, 6⟩, ⟨some 7, 6⟩, ⟨some 14, 8⟩, ⟨some 23, 1⟩, ⟨some 25, 9⟩, ⟨some 35, 1⟩,
  ⟨some 37, 1⟩, ⟨some 39, 2⟩, ⟨some 42, 3⟩, ⟨some 46, 5⟩, ⟨some 52, 1⟩, ⟨some 54, 4⟩,
  ⟨some 59, 1⟩, ⟨none, 0⟩, ⟨none, 0⟩]

/-- The field validator is a `RepeatableGroup`. -/
def Field.isGroup : Field → Bool
  | .RepeatableGroup _ _ _ => true
  | _ => false

/-- All the views of Example 1: header, data fields, checksum field. -/
def example1Views : List StringView := example1Fields ++ [⟨some 62, 3⟩]

/-- The 16 catalog keys of the specification. -/
def catalogKeys : List (List Nat) := [
  bytes "AAM", bytes "ACK", bytes "ACN", bytes "ALC", bytes "ALF", bytes "ALR", bytes "ARC",
  bytes "EVE", bytes "GGA", bytes "GLL", bytes "GSA", bytes "GSV", bytes "RMC", bytes "VDM",
  bytes "VSI", bytes "ZDA"]

/-- The result of a call whose returned value is not used. -/
def discard : Except Thrown Nat → Except Thrown Unit
  | .error t => .error t
  | .ok _ => .ok ()

/-- Example 3 of the specification: a sentence with the unregistered formatter `XXX`. -/
def example3 : List Nat := bytes "$GPXXX,1*52\r\n"

/-- The element read from Example 3. -/
def example3Element : TagBlockOrSentence :=
  ⟨[⟨some 0, 6⟩, ⟨some 7, 1⟩, ⟨some 8, 3⟩], .sentence, some .parametric, example3⟩

/-- An ACK sentence with two data fields; the grammar of ACK has one field. -/
def exampleAckTwo : List Nat := bytes "$GPACK,123,456*59\r\n"

/-- The views of `exampleAckTwo`: header, two data fields, checksum field. -/
def exampleAckTwoViews : List StringView := [⟨some 0, 6⟩, ⟨some 7, 3⟩, ⟨some 11, 3⟩, ⟨some 14, 3⟩]

/-- An ACK sentence without data field. -/
def exampleAckNone : List Nat := bytes "$GPACK*5E\r\n"

/-- The views of `exampleAckNone`: header and checksum field. -/
def exampleAckNoneViews : List StringView := [⟨some 0, 6⟩, ⟨some 6, 3⟩]

/-- The view lies in the line: a null view is empty, another one ends within the line. -/
def StringView.inLine (line : List Nat) (v : StringView) : Bool :=
  match v.data with
  | none => v.size == 0
  | some p => decide (p + v.size ≤ line.length)

/-- The bytes of a view. -/
def StringView.bytes (line : List Nat) (v : StringView) : List Nat :=
  match v.data with
  | none => []
  | some p => slice line p (p + v.size)

/-- Example 6 of the specification: an RMC sentence whose Status field is empty. -/
def example6 : List Nat :=
  bytes "$GPRMC,123519,,4807.038,N,01131.000,E,022.4,084.4,230394,003.1,W*2B\r\n"

/-- The views of Example 6. -/
def example6Views : List StringView := [
  ⟨some 0, 6⟩, ⟨some 7, 6⟩, ⟨none, 0⟩, ⟨some 15, 8⟩, ⟨some 24, 1⟩, ⟨some 26, 9⟩, ⟨some 36, 1⟩,
  ⟨some 38, 5⟩, ⟨some 44, 5⟩, ⟨some 50, 6⟩, ⟨some 57, 5⟩, ⟨some 63, 1⟩, ⟨some 64, 3⟩]

/-- A GLL sentence whose latitude is `4807.`, with no digit after the point. -/
def exampleGllPoint : List Nat := bytes "$GPGLL,4807.,N,01131.000,E,123519,A*1E\r\n"

/-- The views of `exampleGllPoint`. -/
def exampleGllPointViews : List StringView := [
  ⟨some 0, 6⟩, ⟨some 7, 5⟩, ⟨some 13, 1⟩, ⟨some 15, 9⟩, ⟨some 25, 1⟩, ⟨some 27, 6⟩,
  ⟨some 34, 1⟩, ⟨some 35, 3⟩]

/-- A ZDA sentence whose time is `12`. -/
def exampleZdaShort : List Nat := bytes "$GPZDA,12,01,01,2020,00,00*4B\r\n"

/-- The views of `exampleZdaShort`. -/
def exampleZdaShortViews : List StringView := [
  ⟨some 0, 6⟩, ⟨some 7, 2⟩, ⟨some 10, 2⟩, ⟨some 13, 2⟩, ⟨some 16, 4⟩, ⟨some 21, 2⟩,
  ⟨some 24, 2⟩, ⟨some 26, 3⟩]

/-- The outcome of the checks of `Time` on the bytes of a field, in their order: the
bytes present among the first 6 are digits (else E019), a 7th byte is `.` (else E020),
the bytes after the 7th are digits (else E019). -/
def timeChecks (b : List Nat) : Option ErrorCode :=
  if (b.take 6).all isdigit = false then some .E019
  else if 6 < b.length ∧ b.getD 6 0 ≠ 46 then some .E020
  else if (b.drop 7).all isdigit = false then some .E019
  else none

/-- The tail a latitude or longitude of more than `n` bytes must have after its `n`
digits: `.` and then digits only, none included. -/
def pointAndDigits (n : Nat) (b : List Nat) : Bool :=
  b.getD n 0 == 46 && (b.drop (n + 1)).all isdigit

/-- The result of a validator at `index` on `field`: `index + 1`, or the exception with the
code of the failed check and the indication at the field. -/
def fieldResult (index : Nat) (field : StringView) : Option ErrorCode → Except Thrown Nat
  | none => .ok (index + 1)
  | some e => .error (.exception e (field.addr 0))

/-- A GLL sentence whose latitude is four letters. -/
def exampleGllLetters : List Nat := bytes "$GPGLL,ABCD,N,01131.000,E,123519,A*3F\r\n"

/-- A GLL sentence whose latitude has two digits before the point. -/
def exampleGllTwoDigits : List Nat := bytes "$GPGLL,12.345,N,01131.000,E,123519,A*24\r\n"

/-- Example 1 with its N/S field, a `CharLiterals` of the GGA grammar, left empty. -/
def exampleGgaNoHemisphere : List Nat :=
  bytes "$GPGGA,123519,4807.038,,01131.000,E,1,08,0.9,545.4,M,46.9,M,,*09\r\n"

/-- The views of `exampleGgaNoHemisphere`. -/
def exampleGgaNoHemisphereViews : List StringView := [
  ⟨some 0, 6⟩, ⟨some 7, 6⟩, ⟨some 14, 8⟩, ⟨none, 0⟩, ⟨some 24, 9⟩, ⟨some 34, 1⟩,
  ⟨some 36, 1⟩, ⟨some 38, 2⟩, ⟨some 41, 3⟩, ⟨some 45, 5⟩, ⟨some 51, 1⟩, ⟨some 53, 4⟩,
  ⟨some 58, 1⟩, ⟨none, 0⟩, ⟨none, 0⟩, ⟨some 61, 3⟩]

/-- The bytes of a field after its leading `-`, when it has one. -/
def dropSign (b : List Nat) : List Nat := if b.head? = some 45 then b.tail else b

/-- The shape of a variable number: after the optional `-` and the digits, nothing or a
`.` followed by digits only. -/
def numberShape (b : List Nat) : Bool :=
  match (dropSign b).dropWhile isdigit with
  | [] => true
  | ch :: rest => ch == 46 && rest.all isdigit

/-- A GSV sentence with two satellites: the group of four fields is repeated twice. -/
def exampleGsv : List Nat := bytes "$GPGSV,3,1,11,03,03,111,00,04,15,270,00*7F\r\n"

/-- The views of `exampleGsv`. -/
def exampleGsvViews : List StringView := [
  ⟨some 0, 6⟩, ⟨some 7, 1⟩, ⟨some 9, 1⟩, ⟨some 11, 2⟩, ⟨some 14, 2⟩, ⟨some 17, 2⟩,
  ⟨some 20, 3⟩, ⟨some 24, 2⟩, ⟨some 27, 2⟩, ⟨some 30, 2⟩, ⟨some 33, 3⟩, ⟨some 37, 2⟩,
  ⟨some 39, 3⟩]

/-- The children of the group of the GSV grammar. -/
def gsvGroup : List Field :=
  [.FixedNumberField 2, .FixedNumberField 2, .FixedNumberField 3, .FixedNumberField 2]

/-- The children of a validator are such that its loops advance: a group `zero_or_more`
or `one_or_more` has at least one child, and the children that a group calls are
single-field validators. -/
def Field.loopsAdvance : Field → Bool
  | .RepeatableGroup .zero_or_one _ (f :: _) => !f.isGroup
  | .RepeatableGroup .zero_or_one _ [] => false
  | .RepeatableGroup .zero_or_more _ fields => !fields.isEmpty && fields.all (fun f => !f.isGroup)
  | .RepeatableGroup .one_or_more _ fields => !fields.isEmpty && fields.all (fun f => !f.isGroup)
  | .RepeatableGroup .fixed _ fields => fields.all (fun f => !f.isGroup)
  | _ => true

/-- The value of a tag field: the view `{ &tagField[2], tagField.size() - 2 }`. -/
def tagValue (tagField : StringView) : StringView := ⟨tagField.addr 2, tagField.size - 2⟩

/-- Example 1 after a tag block with the unknown code `x`. -/
def exampleTagUnknown : List Nat :=
  bytes "\\x:1*73\\$GPGGA,123519,4807.038,N,01131.000,E,1,08,0.9,545.4,M,46.9,M,,*47\r\n"

/-- Example 1 after a tag block whose field has no colon and an unknown code. -/
def exampleTagNoColon : List Nat :=
  bytes "\\zy1*32\\$GPGGA,123519,4807.038,N,01131.000,E,1,08,0.9,545.4,M,46.9,M,,*47\r\n"

/-- A number and the hyphen after it at the head of the bytes left of a grouping value:
the bytes after the hyphen, or the code of the check that fails. The value ends in the
number or right after the hyphen: E032; no digit where the number must stand: E031; the
byte after the digits is not `-`: E032. -/
def numberHyphen (b : List Nat) : Except ErrorCode (List Nat) :=
  match b.takeWhile isdigit, b.dropWhile isdigit with
  | _, [] => .error .E032
  | [], _ :: _ => .error .E031
  | _ :: _, ch :: rest =>
    if ch ≠ 45 then .error .E032 else if rest = [] then .error .E032 else .ok rest

/-- The checks of a grouping value in their order: a number and a hyphen, a number and
a hyphen, and at least one digit; what follows the digits is not looked at. -/
def groupingChecks (b : List Nat) : Option ErrorCode :=
  match numberHyphen b with
  | .error e => some e
  | .ok r1 =>
    match numberHyphen r1 with
    | .error e => some e
    | .ok r2 => if r2.takeWhile isdigit = [] then some .E031 else none

/-- Example 1 after a tag block whose grouping `1-2` lacks the third number
(Example 5 of the specification). -/
def exampleGroupingShort : List Nat :=
  bytes "\\g:1-2*73\\$GPGGA,123519,4807.038,N,01131.000,E,1,08,0.9,545.4,M,46.9,M,,*47\r\n"

/-- Example 1 after a tag block whose grouping `1-2-3x` goes on after the third
number. -/
def exampleGroupingTail : List Nat :=
  bytes "\\g:1-2-3x*15\\$GPGGA,123519,4807.038,N,01131.000,E,1,08,0.9,545.4,M,46.9,M,,*47\r\n"

/-- A query sentence whose data field `GGA~` holds the reserved byte `~`. -/
def exampleQueryTilde : List Nat := bytes "$GPGPQ,GGA~*42\r\n"

/-- The element read from `exampleQueryTilde`. -/
def exampleQueryTildeElement : TagBlockOrSentence :=
  ⟨[⟨some 0, 6⟩, ⟨some 7, 4⟩, ⟨some 11, 3⟩], .sentence, some .query, exampleQueryTilde⟩

/-- The element read from Example 1. -/
def example1Element : TagBlockOrSentence :=
  ⟨example1Views, .sentence, some .parametric, example1⟩

/-- The ten reserved characters of NMEA 0183: LF, CR, `!`, `$`, `*`, `,`, `\`, `^`, `~`
and DEL. -/
def reservedBytes : List Nat := [10, 13, 33, 36, 42, 44, 92, 94, 126, 127]

/-- Example 1 with the reserved byte `~` as the fifth byte of its first data field. -/
def exampleTildeInside : List Nat :=
  bytes "$GPGGA,1234~5,4807.038,N,01131.000,E,1,08,0.9,545.4,M,46.9,M,,*05\r\n"

/-- A proprietary sentence with the data fields `93`, `f` and `3`. -/
def exampleProprietary : List Nat := bytes "$PGRMZ,93,f,3*21\r\n"

/-- The element read from `exampleProprietary`. -/
def exampleProprietaryElement : TagBlockOrSentence :=
  ⟨[⟨some 0, 6⟩, ⟨some 7, 2⟩, ⟨some 10, 1⟩, ⟨some 12, 1⟩, ⟨some 13, 3⟩], .sentence,
    some .proprietary, exampleProprietary⟩

/-- The codes E001 (illegal start of sentence), E002 (illegal address field) and E006
(illegal character in address field) of ErrorCodes.h. -/
def unusedCodes : List ErrorCode := [.E001, .E002, .E006]

/-- The thrown object carries none of the codes: it is an `Exception` or a bare
`ErrorCode` with another code, or it carries no code at all. -/
def Thrown.avoids (codes : List ErrorCode) : Thrown → Prop
  | .exception e _ => e ∉ codes
  | .errorCode e => e ∉ codes
  | .logic_error => True
  | .undefined => True
  | .timeout => True

/-- The thrown object with its indication moved `k` bytes on. -/
def Thrown.shift (k : Nat) : Thrown → Thrown
  | .exception e ind => .exception e (ind.map (k + ·))
  | t => t

/-- The result with the indication of what was thrown moved `k` bytes on. -/
def shiftError {α : Type} (k : Nat) : Except Thrown α → Except Thrown α
  | .ok a => .ok a
  | .error t => .error (t.shift k)

/-- The view moved `k` bytes on. -/
def StringView.shift (k : Nat) (v : StringView) : StringView := ⟨v.data.map (k + ·), v.size⟩

/-- The element of the line `p ++ buffer` at the bytes of an element of `buffer`. -/
def TagBlockOrSentence.shift (p : List Nat) (element : TagBlockOrSentence) :
    TagBlockOrSentence :=
  ⟨element.m_Splitter.map (StringView.shift p.length), element.m_LineElementType,
    element.m_SentenceType, p ++ element.buffer⟩

/-- The object with its elements and its indication moved behind the bytes `p`. -/
def Nmea.shift (p : List Nat) (self : Nmea) : Nmea :=
  ⟨self.m_Line.map (TagBlockOrSentence.shift p), self.m_Error,
    self.m_Indication.map (p.length + ·)⟩

/-- The outcome with the object moved behind the bytes `p`. -/
def Outcome.shift (p : List Nat) : Outcome → Outcome
  | .returned self => .returned (self.shift p)
  | .undefined => .undefined
  | .timeout => .timeout

/-- A line with three bytes of noise, one of them not a defined character, before
Example 1 with the reserved byte `~` in its first data field. -/
def exampleNoise : List Nat := [200, 65, 10] ++ exampleTildeInside

theorem rd_ok {line : List Nat} {i : Nat} (h : i ≤ line.length) :
    rd line i = .ok (line.getD i 0) := by
  simp [rd, h]

theorem rd_eq_ok {line : List Nat} {i ch : Nat} (h : rd line i = .ok ch) :
    i ≤ line.length ∧ ch = line.getD i 0 := by
  unfold rd at h
  split at h
  · next hle => exact ⟨hle, by injection h with h; exact h.symm⟩
  · cases h

theorem rd_eq_error {line : List Nat} {i : Nat} {t : Thrown} (h : rd line i = .error t) :
    line.length < i ∧ t = .undefined := by
  unfold rd at h
  split at h
  · cases h
  · next hle => exact ⟨by omega, by injection h with h; exact h.symm⟩

theorem isdefined_lt {ch : Nat} (h : isdefined ch = true) : ch < 128 := by
  simp [isdefined] at h
  omega

theorem incr_eq_ok {line : List Nat} {c b c1 b1 : Nat} (h : incr line c b = .ok (c1, b1)) :
    b1 = b + 1 ∧ b + 1 < line.length ∧ isdefined (line.getD (b + 1) 0) = true ∧
      c1 = (c ^^^ (line.getD (b + 1) 0 % 256)) % 256 := by
  unfold incr at h
  simp only at h
  split at h
  · cases h
  · next hlt =>
    rw [rd_ok (by omega)] at h
    simp only at h
    split at h
    · cases h
    · next hdef =>
      injection h with h
      injection h with h1 h2
      have hd : isdefined (line.getD (b + 1) 0) = true := by
        cases hd : isdefined (line.getD (b + 1) 0)
        · exact absurd (by simp only [isundefined, hd, Bool.not_false]) hdef
        · rfl
      exact ⟨h2.symm, by omega, hd, h1.symm⟩

theorem incr_ok {line : List Nat} {c b : Nat} (hlt : b + 1 < line.length)
    (hdef : isdefined (line.getD (b + 1) 0) = true) :
    incr line c b = .ok ((c ^^^ (line.getD (b + 1) 0 % 256)) % 256, b + 1) := by
  unfold incr
  simp only
  rw [if_neg (by omega), rd_ok (by omega)]
  simp only [isundefined, hdef, Bool.not_true, Bool.false_eq_true, if_false]

theorem appendSpan_ok {line : List Nat} {sp : List StringView} {b e : Nat}
    (h : b ≤ line.length) :
    appendSpan line sp b e = .ok (sp ++ [span (line.getD b 0) b e]) := by
  unfold appendSpan span
  rw [rd_ok h]
  simp only [Bool.or_eq_true, beq_iff_eq]
  split
  · split <;> rfl
  · rfl

theorem appendSpan_eq_ok {line : List Nat} {sp sp1 : List StringView} {b e : Nat}
    (h : appendSpan line sp b e = .ok sp1) :
    b ≤ line.length ∧ sp1 = sp ++ [span (line.getD b 0) b e] := by
  by_cases hb : b ≤ line.length
  · rw [appendSpan_ok hb] at h
    injection h with h
    exact ⟨hb, h.symm⟩
  · unfold appendSpan at h
    simp only [rd, hb, if_false] at h
    cases h

theorem slice_self (line : List Nat) (i : Nat) : slice line i i = [] := by
  simp [slice]

theorem slice_cons {line : List Nat} {i j : Nat} (hi : i < line.length) (hij : i < j) :
    slice line i j = line.getD i 0 :: slice line (i + 1) j := by
  unfold slice
  rw [List.drop_eq_getElem_cons hi]
  have : j - i = (j - (i + 1)) + 1 := by omega
  rw [this, List.take_succ_cons]
  congr 1
  rw [List.getD_eq_getElem _ _ hi]

theorem xor_mod_lt {a b : Nat} (ha : a < 256) : (a ^^^ (b % 256)) % 256 = a ^^^ (b % 256) := by
  apply Nat.mod_eq_of_lt
  exact Nat.xor_lt_two_pow (n := 8) ha (Nat.mod_lt _ (by decide))

theorem xorBytes_lt (l : List Nat) : xorBytes l < 256 := by
  induction l with
  | nil => simp [xorBytes]
  | cons a l ih => exact Nat.xor_lt_two_pow (n := 8) (Nat.mod_lt _ (by decide)) ih

theorem xorBytes_append (l1 l2 : List Nat) :
    xorBytes (l1 ++ l2) = xorBytes l1 ^^^ xorBytes l2 := by
  induction l1 with
  | nil => simp [xorBytes]
  | cons a l ih => simp [xorBytes, ih, Nat.xor_assoc]

/-- One pass of the data-field loop, written out. -/
theorem scanDataFields_succ (line : List Nat) (fuel : Nat) (sp : List StringView)
    (start c b : Nat) (hb : b < line.length) :
    scanDataFields line (fuel + 1) sp start c b =
      if line.getD b 0 = 44 then
        match appendSpan line sp start b with
        | .error t => .error t
        | .ok sp1 =>
          match incr line c b with
          | .error t => .error t
          | .ok (c1, b1) => scanDataFields line fuel sp1 b c1 b1
      else if line.getD b 0 = 42 then
        match appendSpan line sp start b with
        | .error t => .error t
        | .ok sp1 => .ok (sp1, b, (c ^^^ 42) % 256, b)
      else
        match incr line c b with
        | .error t => .error t
        | .ok (c1, b1) => scanDataFields line fuel sp start c1 b1 := by
  rw [scanDataFields, if_neg (by omega), rd_ok (by omega)]
  simp only [beq_iff_eq]

/-- What a successful run of the data-field loop establishes. -/
theorem scanDataFields_spec (line : List Nat) :
    ∀ (fuel : Nat) (sp : List StringView) (start c b : Nat)
      (sp1 : List StringView) (start1 c1 b1 : Nat),
      c < 256 →
      scanDataFields line fuel sp start c b = .ok (sp1, start1, c1, b1) →
      b ≤ b1 ∧ b1 < line.length ∧ line.getD b1 0 = 42 ∧ start1 = b1 ∧ c1 < 256 ∧
        c1 = (c ^^^ (line.getD b 0 % 256)) ^^^ xorBytes (slice line b b1) ∧
        (∀ i, b < i → i ≤ b1 → isdefined (line.getD i 0) = true) := by
  intro fuel
  induction fuel with
  | zero => intro sp start c b sp1 start1 c1 b1 _ h; simp [scanDataFields] at h
  | succ fuel ih =>
    intro sp start c b sp1 start1 c1 b1 hc h
    by_cases hb : b < line.length
    swap
    · rw [scanDataFields, if_pos (by omega)] at h
      cases h
    rw [scanDataFields_succ line fuel sp start c b hb] at h
    have step : ∀ (sp2 : List StringView) (start2 : Nat),
        (match incr line c b with
          | .error t => (.error t : Except Thrown (List StringView × Nat × Nat × Nat))
          | .ok (c2, b2) => scanDataFields line fuel sp2 start2 c2 b2) =
            .ok (sp1, start1, c1, b1) →
        line.getD b 0 ≠ 42 →
        b ≤ b1 ∧ b1 < line.length ∧ line.getD b1 0 = 42 ∧ start1 = b1 ∧ c1 < 256 ∧
          c1 = (c ^^^ (line.getD b 0 % 256)) ^^^ xorBytes (slice line b b1) ∧
          (∀ i, b < i → i ≤ b1 → isdefined (line.getD i 0) = true) := by
      intro sp2 start2 h hne
      cases hi : incr line c b with
      | error t => rw [hi] at h; cases h
      | ok r =>
        obtain ⟨c2, b2⟩ := r
        rw [hi] at h
        simp only at h
        obtain ⟨hb2, hlt, hdef, hc2⟩ := incr_eq_ok hi
        subst hb2
        rw [xor_mod_lt hc] at hc2
        have hc2lt : c2 < 256 := by
          rw [hc2]
          exact Nat.xor_lt_two_pow (n := 8) hc (Nat.mod_lt _ (by decide))
        obtain ⟨h1, h2, h3, h4, h5, h6, h7⟩ := ih sp2 start2 c2 (b + 1) sp1 start1 c1 b1 hc2lt h
        refine ⟨by omega, h2, h3, h4, h5, ?_, ?_⟩
        · rw [h6, hc2, slice_cons hb (by omega), xorBytes, Nat.xor_cancel_right]
          rw [← Nat.xor_assoc, Nat.xor_cancel_right]
        · intro i hi1 hi2
          by_cases hib : i = b + 1
          · subst hib; exact hdef
          · exact h7 i (by omega) hi2
    split at h
    · next h44 =>
      cases ha : appendSpan line sp start b with
      | error t => rw [ha] at h; cases h
      | ok sp2 =>
        rw [ha] at h
        exact step sp2 b h (by omega)
    · split at h
      · next _ h42 =>
        cases ha : appendSpan line sp start b with
        | error t => rw [ha] at h; cases h
        | ok sp2 =>
          rw [ha] at h
          injection h with h
          injection h with h1 h
          injection h with h2 h
          injection h with h3 h4
          subst h2 h4
          refine ⟨le_refl _, hb, h42, rfl, ?_, ?_, ?_⟩
          · rw [← h3]; exact Nat.mod_lt _ (by decide)
          · rw [← h3, slice_self, xorBytes, Nat.xor_zero, h42]
            exact Nat.mod_eq_of_lt (Nat.xor_lt_two_pow (n := 8) hc (by decide))
          · intro i hi1 hi2; omega
      · next _ h42 => exact step sp start h h42

theorem slice_append (line : List Nat) {i j k : Nat} (hij : i ≤ j) (hjk : j ≤ k) :
    slice line i k = slice line i j ++ slice line j k := by
  unfold slice
  have h1 : k - i = (j - i) + (k - j) := by omega
  rw [h1, List.take_add, List.drop_drop]
  congr 3
  omega

theorem slice_snoc {line : List Nat} {i j : Nat} (hij : i ≤ j) (hj : j < line.length) :
    slice line i (j + 1) = slice line i j ++ [line.getD j 0] := by
  rw [slice_append line hij (Nat.le_succ j), slice_cons hj (Nat.lt_succ_self j), slice_self]

/-- What a successful counted `incr` establishes. -/
theorem incrN_spec (line : List Nat) :
    ∀ (n c b c1 b1 : Nat), c < 256 → incrN line n c b = .ok (c1, b1) →
      b1 = b + n ∧ (0 < n → b1 < line.length) ∧ c1 < 256 ∧
        c1 = c ^^^ xorBytes (slice line (b + 1) (b + n + 1)) ∧
        (∀ i, b < i → i ≤ b + n → isdefined (line.getD i 0) = true) := by
  intro n
  induction n with
  | zero =>
    intro c b c1 b1 hc h
    simp only [incrN] at h
    injection h with h
    injection h with h1 h2
    subst h1 h2
    refine ⟨rfl, by omega, hc, ?_, by intro i h1 h2; omega⟩
    simp [slice_self, xorBytes]
  | succ n ih =>
    intro c b c1 b1 hc h
    rw [incrN] at h
    cases hi : incr line c b with
    | error t => rw [hi] at h; cases h
    | ok r =>
      obtain ⟨c2, b2⟩ := r
      rw [hi] at h
      simp only at h
      obtain ⟨hb2, hlt, hdef, hc2⟩ := incr_eq_ok hi
      subst hb2
      rw [xor_mod_lt hc] at hc2
      have hc2lt : c2 < 256 := by
        rw [hc2]
        exact Nat.xor_lt_two_pow (n := 8) hc (Nat.mod_lt _ (by decide))
      obtain ⟨h1, h2, h3, h4, h5⟩ := ih c2 (b + 1) c1 b1 hc2lt h
      refine ⟨by omega, ?_, h3, ?_, ?_⟩
      · intro _
        by_cases hn : 0 < n
        · exact h2 hn
        · have : n = 0 := by omega
          subst this
          omega
      · rw [h4, hc2]
        have e : b + (n + 1) + 1 = b + 1 + n + 1 := by omega
        rw [e, slice_cons hlt (by omega), xorBytes, Nat.xor_assoc]
      · intro i hi1 hi2
        by_cases hib : i = b + 1
        · subst hib; exact hdef
        · exact h5 i (by omega) (by omega)

/-- What a successful pass over the address field establishes. -/
theorem addressField_spec {line : List Nat} {begin : Nat} {ty : LineElementType}
    {sty : Option SentenceType} {c0 b0 : Nat}
    (h : addressField line begin = .ok (ty, sty, c0, b0)) :
    begin < line.length ∧ b0 < line.length ∧ c0 < 256 ∧
    (∀ i, begin < i → i ≤ b0 → isdefined (line.getD i 0) = true) ∧
    ((ty = .tag_block ∧ sty = none ∧ line.getD begin 0 = 92 ∧ b0 = begin ∧ c0 = 0) ∨
     (ty = .sentence ∧ c0 = xorBytes (slice line (begin + 1) (b0 + 1)) ∧
      ((sty = some .encapsulated ∧ line.getD begin 0 = 33 ∧ b0 = begin + 5) ∨
       (sty = some .proprietary ∧ line.getD begin 0 = 36 ∧ line.getD (begin + 1) 0 = 80 ∧
          b0 = begin + 4) ∨
       (sty = some .query ∧ line.getD begin 0 = 36 ∧ line.getD (begin + 1) 0 ≠ 80 ∧
          line.getD (begin + 5) 0 = 81 ∧ b0 = begin + 6) ∨
       (sty = some .parametric ∧ line.getD begin 0 = 36 ∧ line.getD (begin + 1) 0 ≠ 80 ∧
          line.getD (begin + 5) 0 ≠ 81 ∧ b0 = begin + 6)))) := by
  unfold addressField at h
  cases hr : rd line begin with
  | error t => rw [hr] at h; cases h
  | ok ch =>
    rw [hr] at h
    obtain ⟨hle, hch⟩ := rd_eq_ok hr
    simp only [beq_iff_eq] at h
    have hlt : ch ≠ 0 → begin < line.length := by
      intro hne
      by_contra hc
      have : line.getD begin 0 = 0 := List.getD_eq_default _ _ (by omega)
      omega
    split at h
    · next h92 =>
      injection h with h
      injection h with h1 h
      injection h with h2 h
      injection h with h3 h4
      subst h1 h2 h3 h4
      have hb := hlt (by omega)
      exact ⟨hb, hb, by decide, by intro i h1 h2; omega,
        Or.inl ⟨rfl, rfl, by omega, rfl, rfl⟩⟩
    · split at h
      · next _ h33 =>
        cases h5 : incrN line 5 0 begin with
        | error t => rw [h5] at h; cases h
        | ok r =>
          obtain ⟨c, b⟩ := r
          rw [h5] at h
          simp only at h
          injection h with h
          injection h with h1 h
          injection h with h2 h
          injection h with h3 h4
          subst h1 h2 h3 h4
          obtain ⟨e1, e2, e3, e4, e5⟩ := incrN_spec line 5 0 begin c b (by decide) h5
          subst e1
          refine ⟨hlt (by omega), e2 (by decide), e3, e5, Or.inr ⟨rfl, ?_, Or.inl ⟨rfl, by omega, rfl⟩⟩⟩
          rw [e4, Nat.zero_xor]
      · split at h
        swap
        · cases h
        next _ _ h36 =>
        cases h1 : incrN line 1 0 begin with
        | error t => rw [h1] at h; cases h
        | ok r =>
          obtain ⟨ca, ba⟩ := r
          rw [h1] at h
          simp only at h
          obtain ⟨a1, a2, a3, a4, a5⟩ := incrN_spec line 1 0 begin ca ba (by decide) h1
          subst a1
          rw [Nat.zero_xor] at a4
          rw [rd_ok (by have := a2 (by decide); omega)] at h
          simp only at h
          split at h
          · next h80 =>
            cases h3 : incrN line 3 ca (begin + 1) with
            | error t => rw [h3] at h; cases h
            | ok r =>
              obtain ⟨c, b⟩ := r
              rw [h3] at h
              simp only at h
              injection h with h
              injection h with g1 h
              injection h with g2 h
              injection h with g3 g4
              subst g1 g2 g3 g4
              obtain ⟨e1, e2, e3, e4, e5⟩ := incrN_spec line 3 ca (begin + 1) c b a3 h3
              subst e1
              refine ⟨hlt (by omega), e2 (by decide), e3, ?_,
                Or.inr ⟨rfl, ?_, Or.inr (Or.inl ⟨rfl, by omega, h80, rfl⟩)⟩⟩
              · intro i hi1 hi2
                by_cases hi : i ≤ begin + 1
                · exact a5 i hi1 hi
                · exact e5 i (by omega) hi2
              · rw [e4, a4, slice_append line (i := begin + 1) (j := begin + 1 + 1)
                  (k := begin + 1 + 3 + 1) (by omega) (by omega), xorBytes_append]
          · next h80 =>
            cases h5 : incrN line 5 ca (begin + 1) with
            | error t => rw [h5] at h; cases h
            | ok r =>
              obtain ⟨c, b⟩ := r
              rw [h5] at h
              simp only at h
              obtain ⟨e1, e2, e3, e4, e5⟩ := incrN_spec line 5 ca (begin + 1) c b a3 h5
              subst e1
              have hb := e2 (by decide)
              rw [rd_ok (by omega)] at h
              simp only at h
              have hdef : ∀ i, begin < i → i ≤ begin + 1 + 5 →
                  isdefined (line.getD i 0) = true := by
                intro i hi1 hi2
                by_cases hi : i ≤ begin + 1
                · exact a5 i hi1 hi
                · exact e5 i (by omega) hi2
              have hx : c = xorBytes (slice line (begin + 1) (begin + 1 + 5 + 1)) := by
                rw [e4, a4, slice_append line (i := begin + 1) (j := begin + 1 + 1)
                  (k := begin + 1 + 5 + 1) (by omega) (by omega), xorBytes_append]
              have e : begin + 1 + 5 - 1 = begin + 5 := by omega
              rw [e] at h
              split at h
              · next h81 =>
                injection h with h
                injection h with g1 h
                injection h with g2 h
                injection h with g3 g4
                subst g1 g2 g3 g4
                exact ⟨hlt (by omega), hb, e3, hdef,
                  Or.inr ⟨rfl, hx, Or.inr (Or.inr (Or.inl ⟨rfl, by omega, h80, h81, rfl⟩))⟩⟩
              · next h81 =>
                injection h with h
                injection h with g1 h
                injection h with g2 h
                injection h with g3 g4
                subst g1 g2 g3 g4
                exact ⟨hlt (by omega), hb, e3, hdef,
                  Or.inr ⟨rfl, hx, Or.inr (Or.inr (Or.inr ⟨rfl, by omega, h80, h81, rfl⟩))⟩⟩

theorem hex2Char_ok {v : Nat} (h : v ≤ 15) : hex2Char v = .ok (hexDigit v) := by
  unfold hex2Char hexDigit
  split
  · rw [if_neg (by omega)]
  · rfl

theorem shiftRight4_le {c : Nat} (h : c < 256) : c >>> 4 ≤ 15 := by
  rw [Nat.shiftRight_eq_div_pow]
  omega

theorem land15_le (c : Nat) : c &&& 15 ≤ 15 := Nat.and_le_right

theorem idx_zero_cons {α : Type} (a : α) (l : List α) : idx (a :: l) 0 = .ok a := rfl

theorem idx_last_snoc {α : Type} (l : List α) (a : α) :
    idx (l ++ [a]) ((l ++ [a]).length - 1) = .ok a := by
  unfold idx
  have : (l ++ [a]).get? ((l ++ [a]).length - 1) = some a := by
    simp
  rw [this]

theorem checksumMismatch_eval {line : List Nat} {b cs : Nat} (hend : b + 3 ≤ line.length)
    (hcs : cs < 256) :
    checksumMismatch line ⟨some b, 3⟩ cs =
      .ok (decide (line.getD (b + 1) 0 ≠ hexDigit (cs >>> 4) ∧
        line.getD (b + 2) 0 ≠ hexDigit (cs &&& 15))) := by
  unfold checksumMismatch StringView.at
  simp only
  rw [rd_ok (by omega), rd_ok (by omega), hex2Char_ok (shiftRight4_le hcs),
    hex2Char_ok (land15_le cs)]
  generalize line.getD (b + 1) 0 = x
  generalize line.getD (b + 2) 0 = y
  generalize hexDigit (cs >>> 4) = e1
  generalize hexDigit (cs &&& 15) = e2
  by_cases h1 : x = e1 <;> by_cases h2 : y = e2 <;> simp [h1, h2]

/-- The part after the data-field loop, evaluated at a state the loop leaves. -/
theorem checksumField_eval {line : List Nat} {ty : LineElementType}
    {sty : Option SentenceType} {hd : StringView} {rest : List StringView} {b cs : Nat}
    (h42 : line.getD b 0 = 42) (hend : b + 3 ≤ line.length) (hcs : cs < 256) :
    checksumField line ty sty (hd :: rest) b cs b =
      match tooLong hd ⟨some b, 3⟩ with
      | .error t => .error t
      | .ok true => .error (.exception .E023 (hd.addr 0))
      | .ok false =>
        if line.getD (b + 1) 0 ≠ hexDigit (cs >>> 4) ∧
            line.getD (b + 2) 0 ≠ hexDigit (cs &&& 15) then
          .error (.exception .E004 (some b))
        else .ok (⟨hd :: rest ++ [⟨some b, 3⟩], ty, sty, line⟩, b + 3) := by
  unfold checksumField
  simp only
  rw [if_neg (by omega), appendSpan_ok (by omega)]
  have hspan : span (line.getD b 0) b (b + 3) = ⟨some b, 3⟩ := by
    unfold span
    rw [h42, if_neg (by decide)]
    congr 1
    omega
  rw [hspan]
  simp only
  rw [idx_last_snoc (hd :: rest)]
  rw [List.cons_append, idx_zero_cons]
  simp only
  cases ht : tooLong hd ⟨some b, 3⟩ with
  | error t => rfl
  | ok v =>
    cases v
    · simp only
      rw [checksumMismatch_eval hend hcs]
      by_cases hm : line.getD (b + 1) 0 ≠ hexDigit (cs >>> 4) ∧
          line.getD (b + 2) 0 ≠ hexDigit (cs &&& 15)
      · rw [if_pos hm, decide_eq_true hm]
        rfl
      · rw [if_neg hm, decide_eq_false hm]
    · rfl

/-- The first view the data-field loop appends starts at `start`. -/
theorem scanDataFields_head (line : List Nat) :
    ∀ (fuel : Nat) (sp : List StringView) (start c b : Nat)
      (sp1 : List StringView) (start1 c1 b1 : Nat),
      scanDataFields line fuel sp start c b = .ok (sp1, start1, c1, b1) →
      ∃ q extra, b ≤ q ∧ q ≤ b1 ∧ sp1 = sp ++ span (line.getD start 0) start q :: extra := by
  intro fuel
  induction fuel with
  | zero => intro sp start c b sp1 start1 c1 b1 h; simp [scanDataFields] at h
  | succ fuel ih =>
    intro sp start c b sp1 start1 c1 b1 h
    by_cases hb : b < line.length
    swap
    · rw [scanDataFields, if_pos (by omega)] at h
      cases h
    rw [scanDataFields_succ line fuel sp start c b hb] at h
    split at h
    · cases ha : appendSpan line sp start b with
      | error t => rw [ha] at h; cases h
      | ok sp2 =>
        rw [ha] at h
        simp only at h
        obtain ⟨_, hsp2⟩ := appendSpan_eq_ok ha
        cases hi : incr line c b with
        | error t => rw [hi] at h; cases h
        | ok r =>
          obtain ⟨c2, b2⟩ := r
          rw [hi] at h
          simp only at h
          obtain ⟨q, extra, h1, h2, h3⟩ := ih sp2 b c2 b2 sp1 start1 c1 b1 h
          obtain ⟨hb2, _⟩ := incr_eq_ok hi
          refine ⟨b, span (line.getD b 0) b q :: extra, le_refl _, by omega, ?_⟩
          rw [h3, hsp2, List.append_assoc]
          rfl
    · split at h
      · cases ha : appendSpan line sp start b with
        | error t => rw [ha] at h; cases h
        | ok sp2 =>
          rw [ha] at h
          obtain ⟨_, hsp2⟩ := appendSpan_eq_ok ha
          injection h with h
          injection h with h1 h
          injection h with h2 h
          injection h with h3 h4
          subst h4
          exact ⟨b, [], le_refl _, le_refl _, by rw [← h1, hsp2]⟩
      · cases hi : incr line c b with
        | error t => rw [hi] at h; cases h
        | ok r =>
          obtain ⟨c2, b2⟩ := r
          rw [hi] at h
          simp only at h
          obtain ⟨q, extra, h1, h2, h3⟩ := ih sp start c2 b2 sp1 start1 c1 b1 h
          obtain ⟨hb2, _⟩ := incr_eq_ok hi
          exact ⟨q, extra, by omega, h2, h3⟩

/-- The tokenizer of one element, split at the state its data-field loop leaves. -/
theorem element_eq_checksumField {line : List Nat} {begin : Nat} {ty : LineElementType}
    {sty : Option SentenceType} {c0 b0 : Nat} {sp : List StringView} {start cs b : Nat}
    (ha : addressField line begin = .ok (ty, sty, c0, b0))
    (hs : scanDataFields line line.length [] begin c0 b0 = .ok (sp, start, cs, b)) :
    parseMainStructureTagBlockOrSentence line begin = checksumField line ty sty sp start cs b := by
  unfold parseMainStructureTagBlockOrSentence
  rw [ha]
  simp only
  rw [hs]

/-- The XOR that the loop leaves is the XOR of the bytes between marker and star. -/
theorem scan_checkSum {line : List Nat} {begin fuel : Nat} {ty : LineElementType}
    {sty : Option SentenceType} {c0 b0 : Nat} {sp : List StringView} {start cs b : Nat}
    (ha : addressField line begin = .ok (ty, sty, c0, b0))
    (hs : scanDataFields line fuel [] begin c0 b0 = .ok (sp, start, cs, b)) :
    begin < b ∧ b < line.length ∧ line.getD b 0 = 42 ∧
      cs = xorBytes (slice line (begin + 1) b) := by
  obtain ⟨hbl, hb0, hc0, _, hcase⟩ := addressField_spec ha
  obtain ⟨h1, h2, h3, _, _, h6, _⟩ := scanDataFields_spec line fuel [] begin c0 b0 sp start cs b hc0 hs
  rcases hcase with ⟨_, _, h92, hb, hc⟩ | ⟨_, hc, hsty⟩
  · subst hb hc
    have hne : b0 ≠ b := by
      intro e
      rw [e] at h92
      omega
    have hlt : b0 < b := by omega
    refine ⟨hlt, h2, h3, ?_⟩
    rw [h6, slice_cons hbl hlt, xorBytes, Nat.zero_xor, Nat.xor_cancel_left]
  · have hbb : begin < b0 := by
      rcases hsty with ⟨_, _, h⟩ | ⟨_, _, _, h⟩ | ⟨_, _, _, _, h⟩ | ⟨_, _, _, _, h⟩ <;> omega
    refine ⟨by omega, h2, h3, ?_⟩
    rw [h6, hc, slice_snoc (by omega) hb0, xorBytes_append, xorBytes, xorBytes, Nat.xor_zero,
      Nat.xor_cancel_right, slice_append line (i := begin + 1) (j := b0) (k := b) (by omega) h1,
      xorBytes_append]

/-- C4. For every element (tag block or sentence of any kind) whose scan reaches the `*`
of its checksum field, the running checksum that is handed to the checksum comparison
is the XOR, as 8-bit values, of the bytes of the line strictly between the marker of the
element and that `*`. -/
theorem checkSum_is_xor_between_marker_and_star (line : List Nat) (begin : Nat)
    (ty : LineElementType) (sty : Option SentenceType) (c0 b0 : Nat)
    (sp : List StringView) (start cs b : Nat)
    (ha : addressField line begin = .ok (ty, sty, c0, b0))
    (hs : scanDataFields line line.length [] begin c0 b0 = .ok (sp, start, cs, b)) :
    begin < b ∧ line.getD b 0 = 42 ∧
      parseMainStructureTagBlockOrSentence line begin =
        checksumField line ty sty sp start cs b ∧
      cs = xorBytes (slice line (begin + 1) b) := by
  obtain ⟨h1, _, h3, h4⟩ := scan_checkSum ha hs
  exact ⟨h1, h3, element_eq_checksumField ha hs, h4⟩

/-- The element tokenizer evaluated from the state its data-field loop leaves. -/
theorem element_eval {line : List Nat} {begin : Nat} {ty : LineElementType}
    {sty : Option SentenceType} {c0 b0 : Nat} {sp : List StringView} {start cs b : Nat}
    (ha : addressField line begin = .ok (ty, sty, c0, b0))
    (hs : scanDataFields line line.length [] begin c0 b0 = .ok (sp, start, cs, b))
    (hend : b + 3 ≤ line.length) :
    ∃ q rest, sp = span (line.getD begin 0) begin q :: rest ∧
      parseMainStructureTagBlockOrSentence line begin =
        match tooLong (span (line.getD begin 0) begin q) ⟨some b, 3⟩ with
        | .error t => .error t
        | .ok true => .error (.exception .E023 ((span (line.getD begin 0) begin q).addr 0))
        | .ok false =>
          if line.getD (b + 1) 0 ≠ hexDigit (cs >>> 4) ∧
              line.getD (b + 2) 0 ≠ hexDigit (cs &&& 15) then
            .error (.exception .E004 (some b))
          else .ok (⟨sp ++ [⟨some b, 3⟩], ty, sty, line⟩, b + 3) := by
  obtain ⟨_, _, hc0, _, _⟩ := addressField_spec ha
  obtain ⟨_, _, h42, hst, hcs, _, _⟩ :=
    scanDataFields_spec line line.length [] begin c0 b0 sp start cs b hc0 hs
  obtain ⟨q, rest, _, _, hsp⟩ := scanDataFields_head line line.length [] begin c0 b0 sp start cs b hs
  rw [List.nil_append] at hsp
  refine ⟨q, rest, hsp, ?_⟩
  rw [element_eq_checksumField ha hs, hst, hsp, checksumField_eval h42 hend hcs]

/-- C2. For every element whose scan reaches its checksum field (`b` is the offset of the
`*`, `cs` the running checksum) and passes the length check, the tokenizer raises E004
with the indication at the `*` if and only if both checksum characters differ from the
expected ones, `checksumField[1] != hex2Char(cs >> 4)` and
`checksumField[2] != hex2Char(cs & 0x0F)`; otherwise (in particular with exactly one
correct digit) the element is accepted. -/
theorem checksum_error_iff_both_digits_differ (line : List Nat) (begin : Nat)
    (ty : LineElementType) (sty : Option SentenceType) (c0 b0 : Nat)
    (sp : List StringView) (start cs b : Nat) (hd : StringView)
    (ha : addressField line begin = .ok (ty, sty, c0, b0))
    (hs : scanDataFields line line.length [] begin c0 b0 = .ok (sp, start, cs, b))
    (hend : b + 3 ≤ line.length)
    (hhd : sp.head? = some hd)
    (hlen : tooLong hd ⟨some b, 3⟩ = .ok false) :
    (parseMainStructureTagBlockOrSentence line begin = .error (.exception .E004 (some b)) ↔
      (hex2Char (cs >>> 4) ≠ .ok (line.getD (b + 1) 0) ∧
        hex2Char (cs &&& 0x0F) ≠ .ok (line.getD (b + 2) 0))) ∧
    (¬ (hex2Char (cs >>> 4) ≠ .ok (line.getD (b + 1) 0) ∧
        hex2Char (cs &&& 0x0F) ≠ .ok (line.getD (b + 2) 0)) →
      parseMainStructureTagBlockOrSentence line begin =
        .ok (⟨sp ++ [⟨some b, 3⟩], ty, sty, line⟩, b + 3)) := by
  obtain ⟨_, _, hc0, _, _⟩ := addressField_spec ha
  obtain ⟨_, _, _, _, hcs, _, _⟩ :=
    scanDataFields_spec line line.length [] begin c0 b0 sp start cs b hc0 hs
  obtain ⟨q, rest, hsp, he⟩ := element_eval ha hs hend
  rw [hsp, List.head?_cons] at hhd
  injection hhd with hhd
  rw [hhd, hlen] at he
  simp only at he
  rw [he, hex2Char_ok (shiftRight4_le hcs), hex2Char_ok (land15_le cs)]
  have e1 : ((Except.ok (hexDigit (cs >>> 4)) : Except Thrown Nat) ≠
      .ok (line.getD (b + 1) 0)) ↔ line.getD (b + 1) 0 ≠ hexDigit (cs >>> 4) := by
    constructor
    · intro h e; exact h (by rw [e])
    · intro h e; injection e with e; exact h e.symm
  have e2 : ((Except.ok (hexDigit (cs &&& 15)) : Except Thrown Nat) ≠
      .ok (line.getD (b + 2) 0)) ↔ line.getD (b + 2) 0 ≠ hexDigit (cs &&& 15) := by
    constructor
    · intro h e; exact h (by rw [e])
    · intro h e; injection e with e; exact h e.symm
  rw [e1, e2]
  by_cases hm : line.getD (b + 1) 0 ≠ hexDigit (cs >>> 4) ∧
      line.getD (b + 2) 0 ≠ hexDigit (cs &&& 15)
  · rw [if_pos hm]
    exact ⟨⟨fun _ => hm, fun _ => rfl⟩, fun h => absurd hm h⟩
  · rw [if_neg hm]
    exact ⟨Iff.intro (fun h => by cases h) (fun h => absurd h hm), fun _ => rfl⟩

/-- C5. For every sentence element whose scan reaches the end of its checksum field
(`b` is the offset of the `*`, so `b + 2` is the offset of the last checksum byte, and
`begin` is the offset of the marker), the tokenizer raises E023 if and only if
`(b + 2) - begin > 79`; the indication is then the marker, and the error is raised
whatever the checksum characters are. -/
theorem length_error_iff_more_than_79 (line : List Nat) (begin : Nat)
    (sty : Option SentenceType) (c0 b0 : Nat)
    (sp : List StringView) (start cs b : Nat)
    (ha : addressField line begin = .ok (.sentence, sty, c0, b0))
    (hs : scanDataFields line line.length [] begin c0 b0 = .ok (sp, start, cs, b))
    (hend : b + 3 ≤ line.length) :
    (parseMainStructureTagBlockOrSentence line begin = .error (.exception .E023 (some begin)) ↔
      (b + 2) - begin > 79) ∧
    (¬ ((b + 2) - begin > 79) →
      ∀ i, parseMainStructureTagBlockOrSentence line begin ≠ .error (.exception .E023 i)) := by
  obtain ⟨hlt, _, _, _⟩ := scan_checkSum ha hs
  obtain ⟨_, _, _, _, hcase⟩ := addressField_spec ha
  have hm : line.getD begin 0 = 33 ∨ line.getD begin 0 = 36 := by
    rcases hcase with ⟨h, _⟩ | ⟨_, _, hsty⟩
    · cases h
    · rcases hsty with ⟨_, h, _⟩ | ⟨_, h, _⟩ | ⟨_, h, _⟩ | ⟨_, h, _⟩
      · exact Or.inl h
      · exact Or.inr h
      · exact Or.inr h
      · exact Or.inr h
  obtain ⟨q, rest, hsp, he⟩ := element_eval ha hs hend
  have hspan : span (line.getD begin 0) begin q = ⟨some begin, q - begin⟩ := by
    unfold span
    rw [if_neg (by omega)]
  rw [hspan] at he
  have hlong : tooLong ⟨some begin, q - begin⟩ ⟨some b, 3⟩ =
      .ok (decide ((b + 2) - begin > 79)) := by
    unfold tooLong
    simp only [Int.ofNat_eq_coe]
    congr 1
    apply decide_eq_decide.mpr
    omega
  rw [hlong] at he
  by_cases hl : (b + 2) - begin > 79
  · rw [decide_eq_true hl] at he
    simp only [StringView.addr, Nat.add_zero] at he
    rw [he]
    exact ⟨⟨fun _ => hl, fun _ => rfl⟩, fun h => absurd hl h⟩
  · rw [decide_eq_false hl] at he
    simp only at he
    rw [he]
    split
    · exact ⟨Iff.intro (fun h => by cases h) (fun h => absurd h hl), fun _ i h => by cases h⟩
    · exact ⟨Iff.intro (fun h => by cases h) (fun h => absurd h hl), fun _ i h => by cases h⟩

set_option maxRecDepth 100000 in
/-- Witness of C2: Example 4, whose two checksum digits are wrong, raises E004 at the `*`. -/
theorem checksum_error_iff_both_digits_differ_witness :
    addressField example1BothWrong 0 = .ok (.sentence, some .parametric, 122, 6) ∧
    scanDataFields example1BothWrong example1BothWrong.length [] 0 122 6 =
      .ok (example1Fields, 62, 71, 62) ∧
    62 + 3 ≤ example1BothWrong.length ∧
    example1Fields.head? = some ⟨some 0, 6⟩ ∧
    tooLong ⟨some 0, 6⟩ ⟨some 62, 3⟩ = .ok false ∧
    ((parseMainStructureTagBlockOrSentence example1BothWrong 0 =
        .error (.exception .E004 (some 62)) ↔
      (hex2Char (71 >>> 4) ≠ .ok (example1BothWrong.getD (62 + 1) 0) ∧
        hex2Char (71 &&& 0x0F) ≠ .ok (example1BothWrong.getD (62 + 2) 0))) ∧
    (¬ (hex2Char (71 >>> 4) ≠ .ok (example1BothWrong.getD (62 + 1) 0) ∧
        hex2Char (71 &&& 0x0F) ≠ .ok (example1BothWrong.getD (62 + 2) 0)) →
      parseMainStructureTagBlockOrSentence example1BothWrong 0 =
        .ok (⟨example1Fields ++ [⟨some 62, 3⟩], .sentence, some .parametric,
          example1BothWrong⟩, 62 + 3))) :=
  ⟨rfl, rfl, by decide, rfl, rfl,
    checksum_error_iff_both_digits_differ example1BothWrong 0 .sentence (some .parametric)
      122 6 example1Fields 62 71 62 ⟨some 0, 6⟩ rfl rfl (by decide) rfl rfl⟩

set_option maxRecDepth 100000 in
/-- Witness of C4: on Example 1 the running checksum at the `*` is 0x47. -/
theorem checkSum_is_xor_between_marker_and_star_witness :
    addressField example1 0 = .ok (.sentence, some .parametric, 122, 6) ∧
    scanDataFields example1 example1.length [] 0 122 6 = .ok (example1Fields, 62, 0x47, 62) ∧
    (0 < 62 ∧ example1.getD 62 0 = 42 ∧
      parseMainStructureTagBlockOrSentence example1 0 =
        checksumField example1 .sentence (some .parametric) example1Fields 62 0x47 62 ∧
      0x47 = xorBytes (slice example1 (0 + 1) 62)) :=
  ⟨rfl, rfl,
    checkSum_is_xor_between_marker_and_star example1 0 .sentence (some .parametric)
      122 6 example1Fields 62 0x47 62 rfl rfl⟩

set_option maxRecDepth 100000 in
/-- Witness of C5: Example 1, whose last checksum byte is at offset 64. -/
theorem length_error_iff_more_than_79_witness :
    addressField example1 0 = .ok (.sentence, some .parametric, 122, 6) ∧
    scanDataFields example1 example1.length [] 0 122 6 = .ok (example1Fields, 62, 0x47, 62) ∧
    62 + 3 ≤ example1.length ∧
    ((parseMainStructureTagBlockOrSentence example1 0 = .error (.exception .E023 (some 0)) ↔
      (62 + 2) - 0 > 79) ∧
    (¬ ((62 + 2) - 0 > 79) →
      ∀ i, parseMainStructureTagBlockOrSentence example1 0 ≠ .error (.exception .E023 i))) :=
  ⟨rfl, rfl, by decide,
    length_error_iff_more_than_79 example1 0 (some .parametric) 122 6 example1Fields 62 0x47 62
      rfl rfl (by decide)⟩

set_option maxRecDepth 100000 in
/-- C3, the failing input. Example 1 with the checksum written `40` passes
`parseMainStructure` and the whole `parse`, although the XOR of the bytes between `$`
and `*` is 0x47, whose digits are `47`. -/
theorem one_wrong_checksum_digit_is_accepted :
    (parseMainStructure Nmea.fresh example1OneWrong).2 = .ok () ∧
    (parse Nmea.fresh example1OneWrong).errorCode = some .E000 ∧
    xorBytes (slice example1OneWrong 1 62) = 0x47 ∧
    slice example1OneWrong 62 65 = bytes "*40" ∧
    [hexDigit (0x47 >>> 4), hexDigit (0x47 &&& 0x0F)] = bytes "47" :=
  ⟨rfl, rfl, rfl, rfl, rfl⟩

/-- Counterexample to C7 as stated: the empty line contains none of the bytes `$`, `!`,
backslash, and `parse` on a fresh instance ends with E000, not with E033:
`parseMainStructure` leaves by its guard with `std::logic_error`. -/
theorem empty_line_does_not_end_with_E033 :
    (∀ ch ∈ ([] : List Nat), ch ≠ 36 ∧ ch ≠ 33 ∧ ch ≠ 92) ∧
    (parseMainStructure Nmea.fresh []).2 = .error .logic_error ∧
    (parse Nmea.fresh []).errorCode = some .E000 ∧
    (parse Nmea.fresh []).errorCode ≠ some .E033 :=
  ⟨by decide, rfl, rfl, by decide⟩

set_option maxRecDepth 100000 in
/-- C10, the failing input. The line `$GPGGA,123519` ends while its data fields are
scanned, before any `*`; the parse ends with E033, thrown by `incr`, and not with E003. -/
theorem exhausted_data_fields_end_with_E033 :
    parseMainStructureTagBlockOrSentence (bytes "$GPGGA,123519") 0 =
      .error (.exception .E033 none) ∧
    (parse Nmea.fresh (bytes "$GPGGA,123519")).errorCode = some .E033 :=
  ⟨rfl, rfl⟩

/-! ## What the tokenizer can throw -/

theorem among_exception {e : ErrorCode} (i : Option Nat) (h : e ∈ framingCodes) :
    (Thrown.exception e i).among framingCodes := h

theorem incr_error {line : List Nat} {c b : Nat} {t : Thrown} (h : incr line c b = .error t) :
    t.among framingCodes := by
  unfold incr at h
  simp only at h
  split at h
  · injection h with h; subst h; exact among_exception _ (by decide)
  · rw [rd_ok (by omega)] at h
    simp only at h
    split at h
    · injection h with h; subst h; exact among_exception _ (by decide)
    · cases h

theorem incrN_error (line : List Nat) :
    ∀ (n c b : Nat) (t : Thrown), incrN line n c b = .error t → t.among framingCodes := by
  intro n
  induction n with
  | zero => intro c b t h; cases h
  | succ n ih =>
    intro c b t h
    rw [incrN] at h
    cases hi : incr line c b with
    | error t1 => rw [hi] at h; injection h with h; subst h; exact incr_error hi
    | ok r => obtain ⟨c2, b2⟩ := r; rw [hi] at h; exact ih c2 b2 t h

theorem rd_error_among {line : List Nat} {i : Nat} {t : Thrown} (h : rd line i = .error t) :
    t.among framingCodes := by
  rw [(rd_eq_error h).2]; trivial

theorem appendSpan_error {line : List Nat} {sp : List StringView} {b e : Nat} {t : Thrown}
    (h : appendSpan line sp b e = .error t) : t.among framingCodes := by
  unfold appendSpan at h
  cases hr : rd line b with
  | error t1 => rw [hr] at h; injection h with h; subst h; exact rd_error_among hr
  | ok ch =>
    rw [hr] at h
    simp only at h
    split at h
    · split at h <;> cases h
    · cases h

theorem addressField_error {line : List Nat} {begin : Nat} {t : Thrown}
    (h : addressField line begin = .error t) : t.among framingCodes := by
  unfold addressField at h
  cases hr : rd line begin with
  | error t1 => rw [hr] at h; injection h with h; subst h; exact rd_error_among hr
  | ok ch =>
    rw [hr] at h
    simp only at h
    split at h
    · cases h
    · split at h
      · cases h5 : incrN line 5 0 begin with
        | error t1 => rw [h5] at h; injection h with h; subst h; exact incrN_error _ _ _ _ _ h5
        | ok r => rw [h5] at h; cases h
      · split at h
        · cases h1 : incrN line 1 0 begin with
          | error t1 => rw [h1] at h; injection h with h; subst h; exact incrN_error _ _ _ _ _ h1
          | ok r =>
            obtain ⟨ca, ba⟩ := r
            rw [h1] at h
            simp only at h
            cases hr1 : rd line ba with
            | error t1 => rw [hr1] at h; injection h with h; subst h; exact rd_error_among hr1
            | ok p =>
              rw [hr1] at h
              simp only at h
              split at h
              · cases h3 : incrN line 3 ca ba with
                | error t1 =>
                  rw [h3] at h; injection h with h; subst h; exact incrN_error _ _ _ _ _ h3
                | ok r => rw [h3] at h; cases h
              · cases h5 : incrN line 5 ca ba with
                | error t1 =>
                  rw [h5] at h; injection h with h; subst h; exact incrN_error _ _ _ _ _ h5
                | ok r =>
                  obtain ⟨cb, bb⟩ := r
                  rw [h5] at h
                  simp only at h
                  cases hr2 : rd line (bb - 1) with
                  | error t1 =>
                    rw [hr2] at h; injection h with h; subst h; exact rd_error_among hr2
                  | ok q =>
                    rw [hr2] at h
                    simp only at h
                    split at h <;> cases h
        · injection h with h; subst h; exact among_exception _ (by decide)

theorem scanDataFields_error (line : List Nat) :
    ∀ (fuel : Nat) (sp : List StringView) (start c b : Nat) (t : Thrown),
      b < line.length → line.length - b ≤ fuel →
      scanDataFields line fuel sp start c b = .error t → t.among framingCodes := by
  intro fuel
  induction fuel with
  | zero => intro sp start c b t hb hfuel _; omega
  | succ fuel ih =>
    intro sp start c b t hb hfuel h
    rw [scanDataFields_succ line fuel sp start c b hb] at h
    have step : ∀ (sp2 : List StringView) (start2 : Nat),
        (match incr line c b with
          | .error t => (.error t : Except Thrown (List StringView × Nat × Nat × Nat))
          | .ok (c2, b2) => scanDataFields line fuel sp2 start2 c2 b2) = .error t →
        t.among framingCodes := by
      intro sp2 start2 h
      cases hi : incr line c b with
      | error t1 => rw [hi] at h; injection h with h; subst h; exact incr_error hi
      | ok r =>
        obtain ⟨c2, b2⟩ := r
        rw [hi] at h
        obtain ⟨hb2, hlt, _, _⟩ := incr_eq_ok hi
        exact ih _ _ _ _ _ (by omega) (by omega) h
    split at h
    · cases ha : appendSpan line sp start b with
      | error t1 => rw [ha] at h; injection h with h; subst h; exact appendSpan_error ha
      | ok sp2 => rw [ha] at h; exact step sp2 b h
    · split at h
      · cases ha : appendSpan line sp start b with
        | error t1 => rw [ha] at h; injection h with h; subst h; exact appendSpan_error ha
        | ok sp2 => rw [ha] at h; cases h
      · exact step sp start h

theorem checksumMismatch_error {line : List Nat} {f : StringView} {cs : Nat} {t : Thrown}
    (hcs : cs < 256) (h : checksumMismatch line f cs = .error t) : t.among framingCodes := by
  unfold checksumMismatch at h
  rw [hex2Char_ok (shiftRight4_le hcs), hex2Char_ok (land15_le cs)] at h
  unfold StringView.at at h
  cases hd : f.data with
  | none =>
    rw [hd] at h
    simp only at h
    injection h with h; subst h; trivial
  | some p =>
    rw [hd] at h
    simp only at h
    cases hr : rd line (p + 1) with
    | error t1 => rw [hr] at h; injection h with h; subst h; exact rd_error_among hr
    | ok c1 =>
      rw [hr] at h
      simp only at h
      split at h
      · cases hr2 : rd line (p + 2) with
        | error t1 => rw [hr2] at h; injection h with h; subst h; exact rd_error_among hr2
        | ok c2 => rw [hr2] at h; cases h
      · cases h

theorem checksumField_error {line : List Nat} {ty : LineElementType}
    {sty : Option SentenceType} {sp : List StringView} {start cs b : Nat} {t : Thrown}
    (hcs : cs < 256) (h : checksumField line ty sty sp start cs b = .error t) :
    t.among framingCodes := by
  unfold checksumField at h
  simp only at h
  split at h
  · injection h with h; subst h; exact among_exception _ (by decide)
  · cases ha : appendSpan line sp start (b + 3) with
    | error t1 => rw [ha] at h; injection h with h; subst h; exact appendSpan_error ha
    | ok sp2 =>
      rw [ha] at h
      simp only at h
      split at h
      · next hf cf _ _ =>
        cases hl : tooLong hf cf with
        | error t1 =>
          rw [hl] at h
          injection h with h; subst h
          unfold tooLong at hl
          split at hl
          · cases hl
          · injection hl with hl; subst hl; trivial
        | ok v =>
          rw [hl] at h
          cases v
          · simp only at h
            cases hm : checksumMismatch line cf cs with
            | error t1 =>
              rw [hm] at h; injection h with h; subst h; exact checksumMismatch_error hcs hm
            | ok w =>
              rw [hm] at h
              cases w
              · cases h
              · injection h with h; subst h; exact among_exception _ (by decide)
          · injection h with h; subst h; exact among_exception _ (by decide)
      · injection h with h; subst h; trivial

theorem element_error {line : List Nat} {begin : Nat} {t : Thrown}
    (h : parseMainStructureTagBlockOrSentence line begin = .error t) :
    t.among framingCodes := by
  unfold parseMainStructureTagBlockOrSentence at h
  cases ha : addressField line begin with
  | error t1 => rw [ha] at h; injection h with h; subst h; exact addressField_error ha
  | ok r =>
    obtain ⟨ty, sty, c0, b0⟩ := r
    rw [ha] at h
    simp only at h
    obtain ⟨_, hb0, hc0, _, _⟩ := addressField_spec ha
    cases hs : scanDataFields line line.length [] begin c0 b0 with
    | error t1 =>
      rw [hs] at h; injection h with h; subst h
      exact scanDataFields_error _ _ _ _ _ _ _ hb0 (by omega) hs
    | ok r =>
      obtain ⟨sp, start, cs, b⟩ := r
      rw [hs] at h
      simp only at h
      obtain ⟨_, _, _, _, hcs, _, _⟩ :=
        scanDataFields_spec line line.length [] begin c0 b0 sp start cs b hc0 hs
      exact checksumField_error hcs h

/-- An element that is returned ends after its marker and inside the line. -/
theorem element_ok_progress {line : List Nat} {begin b1 : Nat} {element : TagBlockOrSentence}
    (h : parseMainStructureTagBlockOrSentence line begin = .ok (element, b1)) :
    begin < line.length ∧ begin + 3 < b1 ∧ b1 ≤ line.length := by
  unfold parseMainStructureTagBlockOrSentence at h
  cases ha : addressField line begin with
  | error t1 => rw [ha] at h; cases h
  | ok r =>
    obtain ⟨ty, sty, c0, b0⟩ := r
    rw [ha] at h
    simp only at h
    obtain ⟨hbl, _, _, _, _⟩ := addressField_spec ha
    cases hs : scanDataFields line line.length [] begin c0 b0 with
    | error t1 => rw [hs] at h; cases h
    | ok r =>
      obtain ⟨sp, start, cs, b⟩ := r
      rw [hs] at h
      simp only at h
      obtain ⟨hlt, _, _, _⟩ := scan_checkSum ha hs
      unfold checksumField at h
      simp only at h
      split at h
      · cases h
      · next hle =>
        cases hap : appendSpan line sp start (b + 3) with
        | error t1 => rw [hap] at h; cases h
        | ok sp2 =>
          rw [hap] at h
          simp only at h
          split at h
          · next hf cf _ _ =>
            cases hl : tooLong hf cf with
            | error t1 => rw [hl] at h; cases h
            | ok v =>
              rw [hl] at h
              cases v
              · simp only at h
                cases hm : checksumMismatch line cf cs with
                | error t1 => rw [hm] at h; cases h
                | ok w =>
                  rw [hm] at h
                  cases w
                  · simp only at h
                    injection h with h
                    injection h with _ h2
                    exact ⟨hbl, by omega, by omega⟩
                  · cases h
              · cases h
          · cases h

theorem findStart_error (line : List Nat) :
    ∀ (fuel begin : Nat) (t : Thrown), line.length - begin < fuel →
      findStart line fuel begin = .error t → t.among framingCodes := by
  intro fuel
  induction fuel with
  | zero => intro begin t hfuel _; omega
  | succ fuel ih =>
    intro begin t hfuel h
    rw [findStart] at h
    split at h
    · injection h with h; subst h; exact among_exception _ (by decide)
    · next hne =>
      cases hr : rd line begin with
      | error t1 => rw [hr] at h; injection h with h; subst h; exact rd_error_among hr
      | ok ch =>
        rw [hr] at h
        simp only at h
        obtain ⟨hle, _⟩ := rd_eq_ok hr
        split at h
        · cases h
        · exact ih _ _ (by omega) h

theorem parseTagBlocks_error (line : List Nat) :
    ∀ (fuel : Nat) (m : List TagBlockOrSentence) (begin : Nat) (t : Thrown),
      line.length - begin < fuel →
      (parseTagBlocks line fuel m begin).2 = .error t → t.among framingCodes := by
  intro fuel
  induction fuel with
  | zero => intro m begin t hfuel _; omega
  | succ fuel ih =>
    intro m begin t hfuel h
    rw [parseTagBlocks] at h
    cases hr : rd line begin with
    | error t1 => rw [hr] at h; injection h with h; subst h; exact rd_error_among hr
    | ok ch =>
      rw [hr] at h
      simp only at h
      split at h
      · cases he : parseMainStructureTagBlockOrSentence line begin with
        | error t1 => rw [he] at h; injection h with h; subst h; exact element_error he
        | ok r =>
          obtain ⟨el, b⟩ := r
          rw [he] at h
          simp only at h
          obtain ⟨_, hprog, _⟩ := element_ok_progress he
          cases hr2 : rd line b with
          | error t1 => rw [hr2] at h; injection h with h; subst h; exact rd_error_among hr2
          | ok ch2 =>
            rw [hr2] at h
            simp only at h
            split at h
            · injection h with h; subst h; exact among_exception _ (by decide)
            · exact ih _ _ _ (by omega) h
      · cases h

theorem parseSentence_error {line : List Nat} {m : List TagBlockOrSentence} {begin : Nat}
    {t : Thrown} (h : (parseSentence line m begin).2 = .error t) : t.among framingCodes := by
  unfold parseSentence at h
  cases hr : rd line begin with
  | error t1 => rw [hr] at h; injection h with h; subst h; exact rd_error_among hr
  | ok ch =>
    rw [hr] at h
    simp only at h
    split at h
    · cases he : parseMainStructureTagBlockOrSentence line begin with
      | error t1 => rw [he] at h; injection h with h; subst h; exact element_error he
      | ok r => rw [he] at h; cases h
    · cases h

theorem parseElements_error {line : List Nat} {m : List TagBlockOrSentence} {t : Thrown}
    (h : (parseElements line m).2 = .error t) : t.among framingCodes := by
  unfold parseElements at h
  cases hf : findStart line (line.length + 1) 0 with
  | error t1 =>
    rw [hf] at h; injection h with h; subst h
    exact findStart_error _ _ _ _ (by omega) hf
  | ok b =>
    rw [hf] at h
    simp only at h
    cases ht : parseTagBlocks line (line.length + 1) m b with
    | mk m1 r =>
      rw [ht] at h
      cases r with
      | error t1 =>
        simp only at h
        injection h with h; subst h
        exact parseTagBlocks_error line (line.length + 1) m b t1 (by omega) (by rw [ht])
      | ok b1 =>
        simp only at h
        exact parseSentence_error h

theorem checkCRLF_eq_ok {line : List Nat} {b : Nat} (h : checkCRLF line b = .ok ()) :
    b + 1 < line.length ∧ line.getD b 0 = 13 ∧ line.getD (b + 1) 0 = 10 := by
  unfold checkCRLF at h
  split at h
  · cases h
  · next hb =>
    rw [rd_ok (by omega)] at h
    simp only [bne_iff_ne, ne_eq, ite_not] at h
    split at h
    · next h13 =>
      split at h
      · cases h
      · next hb1 =>
        rw [rd_ok (by omega)] at h
        simp only at h
        split at h
        · next h10 => exact ⟨by omega, h13, h10⟩
        · cases h
    · cases h

theorem checkCRLF_error {line : List Nat} {b : Nat} {t : Thrown}
    (h : checkCRLF line b = .error t) : t.among framingCodes := by
  unfold checkCRLF at h
  split at h
  · injection h with h; subst h; exact among_exception _ (by decide)
  · next hb =>
    rw [rd_ok (by omega)] at h
    simp only [bne_iff_ne, ne_eq, ite_not] at h
    split at h
    · split at h
      · injection h with h; subst h; exact among_exception _ (by decide)
      · next hb1 =>
        rw [rd_ok (by omega)] at h
        simp only at h
        split at h
        · cases h
        · injection h with h; subst h; exact among_exception _ (by decide)
    · injection h with h; subst h; exact among_exception _ (by decide)

/-- A thrown object of the tokenizer never leaves `errorCode()` at E000. -/
theorem catchAll_among {self : Nmea} {t : Thrown} (h : t.among framingCodes) :
    (catchAll self (.error t)).errorCode ≠ some .E000 := by
  cases t with
  | exception e i =>
    intro hc
    simp only [catchAll, Outcome.errorCode, Nmea.errorCode] at hc
    injection hc with hc
    subst hc
    have h1 : ErrorCode.E000 ∈ framingCodes := h
    revert h1
    decide
  | errorCode e => cases h
  | logic_error => cases h
  | undefined => intro hc; cases hc
  | timeout => cases h

/-- The first stage on a non-empty line, written with its two parts. -/
theorem parseMainStructure_eq {self : Nmea} {line : List Nat} (hne : line ≠ []) :
    parseMainStructure self line =
      match (parseElements line self.m_Line).2 with
      | .error t => (⟨(parseElements line self.m_Line).1, .E000, self.m_Indication⟩, .error t)
      | .ok b =>
        (⟨(parseElements line self.m_Line).1, .E000, self.m_Indication⟩, checkCRLF line b) := by
  unfold parseMainStructure
  have : line.length ≠ 0 := by
    intro h; exact hne (List.length_eq_zero.mp h)
  rw [if_neg this]
  simp only
  cases hp : parseElements line self.m_Line with
  | mk m r => cases r <;> rfl

/-- The fuel of the tokenizer is enough: reading the elements of a line never ends with
`Thrown.timeout`. -/
theorem parseElements_never_times_out (line : List Nat) (m : List TagBlockOrSentence) :
    (parseElements line m).2 ≠ .error .timeout := by
  intro h
  exact parseElements_error h

theorem checkCRLF_E024 {line : List Nat} {b : Nat}
    (h : line.length ≤ b ∨ line.getD b 0 ≠ 13) :
    checkCRLF line b = .error (.exception .E024 (some b)) := by
  unfold checkCRLF
  by_cases hb : b ≥ line.length
  · rw [if_pos hb]
  · rw [if_neg hb, rd_ok (by omega)]
    have h13 : line.getD b 0 ≠ 13 := by
      rcases h with h | h
      · omega
      · exact h
    simp only [bne_iff_ne, ne_eq, h13, not_false_eq_true, if_true]

theorem checkCRLF_E025 {line : List Nat} {b : Nat} (hb : b < line.length)
    (h13 : line.getD b 0 = 13) (h : line.length ≤ b + 1 ∨ line.getD (b + 1) 0 ≠ 10) :
    checkCRLF line b = .error (.exception .E025 (some (b + 1))) := by
  unfold checkCRLF
  rw [if_neg (by omega), rd_ok (by omega)]
  simp only [bne_iff_ne, ne_eq, h13, not_true_eq_false, if_false]
  by_cases hb1 : b + 1 ≥ line.length
  · rw [if_pos hb1]
  · rw [if_neg hb1, rd_ok (by omega)]
    have h10 : line.getD (b + 1) 0 ≠ 10 := by
      rcases h with h | h
      · omega
      · exact h
    simp only [h10, not_false_eq_true, if_true]

theorem parse_of_elements_ok {self : Nmea} {line : List Nat} {b : Nat} {t : Thrown}
    (hne : line ≠ []) (he : (parseElements line self.m_Line).2 = .ok b)
    (hc : checkCRLF line b = .error t) :
    parse self line =
      catchAll ⟨(parseElements line self.m_Line).1, .E000, self.m_Indication⟩ (.error t) := by
  unfold parse
  rw [parseMainStructure_eq hne, he]
  simp only
  rw [hc]

theorem parseElements_nil (m : List TagBlockOrSentence) :
    parseElements [] m = (m, .error (.exception .E033 none)) := rfl

/-- C8. If all tag blocks and the optional sentence of a line tokenise without error,
`b` being the position immediately after the last element: when the byte at `b` is
missing or is not CR, `parse` yields E024 with the indication at `b`; when it is CR but
the next byte is missing or is not LF, `parse` yields E025 with the indication at
`b + 1`. -/
theorem missing_CR_gives_E024_missing_LF_gives_E025 (self : Nmea) (line : List Nat) (b : Nat)
    (he : (parseElements line self.m_Line).2 = .ok b) :
    ((line.length ≤ b ∨ line.getD b 0 ≠ 13) →
      parse self line =
        .returned ⟨(parseElements line self.m_Line).1, .E024, some b⟩) ∧
    ((b < line.length ∧ line.getD b 0 = 13 ∧
        (line.length ≤ b + 1 ∨ line.getD (b + 1) 0 ≠ 10)) →
      parse self line =
        .returned ⟨(parseElements line self.m_Line).1, .E025, some (b + 1)⟩) := by
  have hne : line ≠ [] := by
    intro h
    rw [h, parseElements_nil] at he
    cases he
  constructor
  · intro h
    rw [parse_of_elements_ok hne he (checkCRLF_E024 h)]
    rfl
  · intro ⟨hb, h13, h⟩
    rw [parse_of_elements_ok hne he (checkCRLF_E025 hb h13 h)]
    rfl

set_option maxRecDepth 100000 in
/-- Witness of C8: Example 1 with its CR removed (Example 2) yields E024 with the
indication at offset 65, right after the checksum field. -/
theorem missing_CR_gives_E024_missing_LF_gives_E025_witness :
    (parseElements example1NoCR Nmea.fresh.m_Line).2 = .ok 65 ∧
    (example1NoCR.length ≤ 65 ∨ example1NoCR.getD 65 0 ≠ 13) ∧
    (parse Nmea.fresh example1NoCR).errorCode = some .E024 ∧
    (parse Nmea.fresh example1NoCR).indication = some (some 65) :=
  have h := (missing_CR_gives_E024_missing_LF_gives_E025 Nmea.fresh example1NoCR 65
    rfl).1 (Or.inr (by decide))
  ⟨rfl, Or.inr (by decide), by rw [h]; rfl, by rw [h]; rfl⟩

/-- C9 as amended. Every non-empty line that `parse` on a fresh instance accepts with E000
has CR LF immediately after its last element: the elements tokenise without error up
to a position `b`, and the bytes at `b` and `b + 1` are CR and LF. -/
theorem accepted_line_has_CR_LF_after_last_element (line : List Nat) (hne : line ≠ [])
    (h : (parse Nmea.fresh line).errorCode = some .E000) :
    ∃ b, (parseElements line []).2 = .ok b ∧ b + 1 < line.length ∧
      line.getD b 0 = 13 ∧ line.getD (b + 1) 0 = 10 := by
  unfold parse at h
  rw [parseMainStructure_eq hne] at h
  have hm : Nmea.fresh.m_Line = [] := rfl
  rw [hm] at h
  cases he : (parseElements line []).2 with
  | error t =>
    rw [he] at h
    exact absurd h (catchAll_among (parseElements_error he))
  | ok b =>
    rw [he] at h
    simp only at h
    cases hc : checkCRLF line b with
    | error t =>
      rw [hc] at h
      exact absurd h (catchAll_among (checkCRLF_error hc))
    | ok u => exact ⟨b, rfl, checkCRLF_eq_ok hc⟩

set_option maxRecDepth 100000 in
/-- Witness of C9 as amended: Example 1. -/
theorem accepted_line_has_CR_LF_after_last_element_witness :
    example1 ≠ [] ∧ (parse Nmea.fresh example1).errorCode = some .E000 ∧
    ∃ b, (parseElements example1 []).2 = .ok b ∧ b + 1 < example1.length ∧
      example1.getD b 0 = 13 ∧ example1.getD (b + 1) 0 = 10 :=
  ⟨by decide, rfl, accepted_line_has_CR_LF_after_last_element example1 (by decide) rfl⟩

set_option maxRecDepth 100000 in
/-- Counterexample to C9 as stated: Example 1 followed by the bytes `GARBAGE` is not empty,
is accepted with E000, and its last two bytes are `GE`, not CR LF. -/
theorem accepted_line_need_not_end_with_CR_LF :
    example1 ++ bytes "GARBAGE" ≠ [] ∧
    (parse Nmea.fresh (example1 ++ bytes "GARBAGE")).errorCode = some .E000 ∧
    (example1 ++ bytes "GARBAGE").drop ((example1 ++ bytes "GARBAGE").length - 2) = bytes "GE" ∧
    (example1 ++ bytes "GARBAGE").drop ((example1 ++ bytes "GARBAGE").length - 2) ≠ [13, 10] :=
  ⟨by decide, rfl, rfl, by decide⟩

/-! ## Lines given by their text -/

theorem getD_of_drop {line : List Nat} {off : Nat} {a r : List Nat}
    (h : line.drop off = a ++ r) (i : Nat) (hi : i < a.length) :
    off + i < line.length ∧ line.getD (off + i) 0 = a.getD i 0 := by
  have hlen : (line.drop off).length = a.length + r.length := by rw [h, List.length_append]
  rw [List.length_drop] at hlen
  have hlt : off + i < line.length := by omega
  refine ⟨hlt, ?_⟩
  rw [List.getD_eq_getElem?_getD, List.getD_eq_getElem?_getD, ← List.getElem?_drop, h,
    List.getElem?_append_left hi]

theorem getD_of_drop_cons {line : List Nat} {off x : Nat} {tl : List Nat}
    (h : line.drop off = x :: tl) : off < line.length ∧ line.getD off 0 = x := by
  have := getD_of_drop (a := [x]) (r := tl) h 0 (by simp)
  simpa using this

theorem drop_of_drop {line : List Nat} {off : Nat} {a tl : List Nat}
    (h : line.drop off = a ++ tl) : line.drop (off + a.length) = tl := by
  rw [← List.drop_drop, h, List.drop_left]

theorem commaFields_cons (f : List Nat) (fields : List (List Nat)) :
    commaFields (f :: fields) = 44 :: (f ++ commaFields fields) := by
  simp [commaFields]

theorem isvalid_facts {ch : Nat} (h : isvalid ch = true) :
    ch ≠ 44 ∧ ch ≠ 42 ∧ isdefined ch = true ∧ ch < 128 ∧ reserved.getD ch false = false := by
  unfold isvalid at h
  simp only [Bool.and_eq_true, decide_eq_true_eq, Bool.not_eq_true'] at h
  obtain ⟨⟨h1, h2⟩, h3⟩ := h
  refine ⟨?_, ?_, ?_, by omega, h3⟩
  · intro e; subst e; revert h3; decide
  · intro e; subst e; revert h3; decide
  · unfold isdefined
    simp only [Bool.and_eq_true, decide_eq_true_eq, Bool.or_eq_true]
    exact ⟨h2, Or.inl (Or.inl h1)⟩

/-- The data-field loop over `n` bytes that are neither a comma nor a star. -/
theorem scanDataFields_skip (line : List Nat) :
    ∀ (n fuel : Nat) (sp : List StringView) (start c b : Nat),
      b + n < line.length →
      (∀ i, b ≤ i → i < b + n → line.getD i 0 ≠ 44 ∧ line.getD i 0 ≠ 42) →
      (∀ i, b < i → i ≤ b + n → isdefined (line.getD i 0) = true) →
      ∃ c1, scanDataFields line (fuel + n) sp start c b =
        scanDataFields line fuel sp start c1 (b + n) := by
  intro n
  induction n with
  | zero => intro fuel sp start c b _ _ _; exact ⟨c, rfl⟩
  | succ n ih =>
    intro fuel sp start c b hb hsep hdef
    have e : fuel + (n + 1) = (fuel + n) + 1 := by omega
    rw [e, scanDataFields_succ line (fuel + n) sp start c b (by omega)]
    obtain ⟨h44, h42⟩ := hsep b (le_refl _) (by omega)
    rw [if_neg h44, if_neg h42, incr_ok (by omega) (hdef (b + 1) (by omega) (by omega))]
    simp only
    obtain ⟨c1, hc1⟩ := ih fuel sp start
      ((c ^^^ (line.getD (b + 1) 0 % 256)) % 256) (b + 1) (by omega)
      (fun i h1 h2 => hsep i (by omega) (by omega))
      (fun i h1 h2 => hdef i (by omega) (by omega))
    refine ⟨c1, ?_⟩
    rw [hc1]
    congr 1
    omega

theorem getD_mem {a : List Nat} {i : Nat} (hi : i < a.length) : a.getD i 0 ∈ a := by
  rw [List.getD_eq_getElem _ _ hi]
  exact List.getElem_mem hi

/-- The bytes after the fields start with a comma or the star. -/
theorem commaFields_star_head (fields : List (List Nat)) (tl : List Nat) :
    ∃ x rest, commaFields fields ++ 42 :: tl = x :: rest ∧ (x = 44 ∨ x = 42) := by
  cases fields with
  | nil => exact ⟨42, tl, by simp [commaFields], Or.inr rfl⟩
  | cons f fs =>
    exact ⟨44, f ++ commaFields fs ++ 42 :: tl, by simp [commaFields_cons], Or.inl rfl⟩

/-- The data-field loop over a field: from the first byte after the comma to the
separator that ends the field. -/
theorem scanDataFields_field {line : List Nat} {p : Nat} {f : List Nat} {x : Nat}
    {rest : List Nat} (hd : line.drop p = f ++ x :: rest)
    (hv : ∀ ch ∈ f, isvalid ch = true) (hx : x = 44 ∨ x = 42)
    (fuel : Nat) (sp : List StringView) (start c : Nat) :
    ∃ c1, scanDataFields line (fuel + f.length) sp start c p =
      scanDataFields line fuel sp start c1 (p + f.length) := by
  have hx0 : p + f.length < line.length ∧ line.getD (p + f.length) 0 = x := by
    have h2 : line.drop (p + f.length) = x :: rest := drop_of_drop hd
    exact getD_of_drop_cons h2
  apply scanDataFields_skip line f.length fuel sp start c p hx0.1
  · intro i h1 h2
    obtain ⟨_, hg⟩ := getD_of_drop hd (i - p) (by omega)
    have e : p + (i - p) = i := by omega
    rw [e] at hg
    rw [hg]
    have := isvalid_facts (hv _ (getD_mem (a := f) (i := i - p) (by omega)))
    exact ⟨this.1, this.2.1⟩
  · intro i h1 h2
    by_cases hi : i = p + f.length
    · rw [hi, hx0.2]
      rcases hx with h | h <;> rw [h] <;> decide
    · obtain ⟨_, hg⟩ := getD_of_drop hd (i - p) (by omega)
      have e : p + (i - p) = i := by omega
      rw [e] at hg
      rw [hg]
      exact (isvalid_facts (hv _ (getD_mem (a := f) (i := i - p) (by omega)))).2.2.1

theorem span_comma (off n : Nat) :
    span 44 off (off + 1 + n) = if n = 0 then ⟨none, 0⟩ else ⟨some (off + 1), n⟩ := by
  unfold span
  rw [if_pos (Or.inl rfl)]
  by_cases hn : n = 0
  · rw [if_pos (by omega), if_pos hn]
  · rw [if_neg (by omega), if_neg hn]
    congr 1
    omega

/-- The data-field loop over the data fields of a line given by its text: it ends at
the star and has appended the view that was open and one view for each field. -/
theorem scanDataFields_fields (line : List Nat) :
    ∀ (fields : List (List Nat)) (fuel off : Nat) (sp : List StringView) (start c : Nat)
      (tl : List Nat),
      line.drop off = commaFields fields ++ 42 :: tl →
      start ≤ line.length →
      (∀ f ∈ fields, ∀ ch ∈ f, isvalid ch = true) →
      ∃ c1, scanDataFields line (fuel + (commaFields fields).length + 1) sp start c off =
        .ok (sp ++ span (line.getD start 0) start off :: dataViews off fields,
          off + (commaFields fields).length, c1, off + (commaFields fields).length) := by
  intro fields
  induction fields with
  | nil =>
    intro fuel off sp start c tl hd hs _
    have h0 : commaFields [] = [] := rfl
    rw [h0, List.nil_append] at hd
    obtain ⟨hlt, h42⟩ := getD_of_drop_cons hd
    rw [h0, List.length_nil, Nat.add_zero, Nat.add_zero,
      scanDataFields_succ line fuel sp start c off hlt, h42, if_neg (by decide), if_pos rfl,
      appendSpan_ok hs]
    exact ⟨_, rfl⟩
  | cons f fs ih =>
    intro fuel off sp start c tl hd hs hv
    rw [commaFields_cons, List.cons_append, List.append_assoc] at hd
    obtain ⟨hlt, h44⟩ := getD_of_drop_cons hd
    have hd1 : line.drop (off + 1) = f ++ (commaFields fs ++ 42 :: tl) := by
      have := drop_of_drop (a := [44]) hd
      simpa using this
    obtain ⟨x, rest, hx, hx2⟩ := commaFields_star_head fs tl
    rw [hx] at hd1
    have hd2 : line.drop (off + 1 + f.length) = commaFields fs ++ 42 :: tl := by
      rw [drop_of_drop hd1, hx]
    have hfl : (commaFields (f :: fs)).length = 1 + f.length + (commaFields fs).length := by
      rw [commaFields_cons, List.length_cons, List.length_append]
      omega
    have e : fuel + (commaFields (f :: fs)).length + 1 =
        ((fuel + (commaFields fs).length + 1) + f.length) + 1 := by
      rw [hfl]; omega
    have hdef1 : isdefined (line.getD (off + 1) 0) = true := by
      cases f with
      | nil =>
        rw [List.nil_append] at hd1
        rw [(getD_of_drop_cons hd1).2]
        rcases hx2 with h | h <;> rw [h] <;> decide
      | cons a f1 =>
        rw [List.cons_append] at hd1
        rw [(getD_of_drop_cons hd1).2]
        exact (isvalid_facts (hv _ (List.mem_cons_self _ _) a (List.mem_cons_self _ _))).2.2.1
    have hlt1 : off + 1 < line.length := by
      have := (getD_of_drop_cons (drop_of_drop hd1)).1
      omega
    rw [e, scanDataFields_succ line _ sp start c off hlt, h44, if_pos rfl, appendSpan_ok hs,
      incr_ok hlt1 hdef1]
    simp only
    obtain ⟨c1, hc1⟩ := scanDataFields_field hd1
      (hv f (List.mem_cons_self _ _)) hx2 (fuel + (commaFields fs).length + 1)
      (sp ++ [span (line.getD start 0) start off]) off
      ((c ^^^ (line.getD (off + 1) 0 % 256)) % 256)
    rw [hc1]
    obtain ⟨c2, hc2⟩ := ih fuel (off + 1 + f.length)
      (sp ++ [span (line.getD start 0) start off]) off c1 tl hd2 (by omega)
      (fun g hg => hv g (List.mem_cons_of_mem _ hg))
    rw [hc2]
    refine ⟨c2, ?_⟩
    rw [hfl, h44, span_comma off f.length, List.append_assoc]
    have e2 : off + 1 + f.length + (commaFields fs).length =
        off + (1 + f.length + (commaFields fs).length) := by omega
    rw [e2]
    rfl

/-! ## The tables -/

theorem strcmp_eq_zero : ∀ (a b : List Nat), strcmp a b = 0 → a = b := by
  intro a
  induction a with
  | nil =>
    intro b h
    cases b with
    | nil => rfl
    | cons y ys => simp [strcmp] at h
  | cons x xs ih =>
    intro b h
    cases b with
    | nil => simp [strcmp] at h
    | cons y ys =>
      rw [strcmp] at h
      split at h
      · cases h
      · split at h
        · cases h
        · have : x = y := by omega
          rw [this, ih ys h]

theorem matchLoop_ok (buff : List Nat) (thrown : Thrown) :
    ∀ (table : List (List Nat)), matchLoop buff thrown table = .ok () → buff ∈ table := by
  intro table
  induction table with
  | nil => intro h; cases h
  | cons e rest ih =>
    intro h
    rw [matchLoop] at h
    split at h
    · next h0 => rw [strcmp_eq_zero _ _ h0]; exact List.mem_cons_self _ _
    · split at h
      · cases h
      · exact List.mem_cons_of_mem _ (ih h)

theorem matchLoop_ok_any (buff : List Nat) (t1 t2 : Thrown) :
    ∀ (table : List (List Nat)), matchLoop buff t1 table = .ok () →
      matchLoop buff t2 table = .ok () := by
  intro table
  induction table with
  | nil => intro h; cases h
  | cons e rest ih =>
    intro h
    rw [matchLoop] at h
    rw [matchLoop]
    split at h
    · next h0 => rw [if_pos h0]
    · next h0 =>
      rw [if_neg h0]
      split at h
      · cases h
      · next h1 => rw [if_neg h1]; exact ih h

theorem cstr2 {a b : Nat} (ha : a ≠ 0) (hb : b ≠ 0) : cstr [a, b, 0] = [a, b] := by
  simp [cstr, List.takeWhile_cons, ha, hb]

theorem cstr3 {a b c : Nat} (ha : a ≠ 0) (hb : b ≠ 0) (hc : c ≠ 0) :
    cstr [a, b, c, 0] = [a, b, c] := by
  simp [cstr, List.takeWhile_cons, ha, hb, hc]

theorem cstr2_length {a b : Nat} (h : (cstr [a, b, 0]).length = 2) : a ≠ 0 ∧ b ≠ 0 := by
  by_cases ha : a = 0
  · subst ha; simp [cstr, List.takeWhile_cons] at h
  · by_cases hb : b = 0
    · subst hb; simp [cstr, List.takeWhile_cons, ha] at h
    · exact ⟨ha, hb⟩

/-- Every entry of the talker table is two upper-case letters, the first of which is
not `P`. -/
theorem talkers_all :
    talkers.all (fun e => match e with
      | [a, b] => isupper a && isupper b && a != 80
      | _ => false) = true := by
  rfl

/-- A talker that `matchTalker` accepts is two upper-case letters, the first not `P`. -/
theorem matchTalker_ok {t1 t2 : Nat} {i : Option Nat} (h : matchTalker t1 t2 i = .ok ()) :
    isupper t1 = true ∧ isupper t2 = true ∧ t1 ≠ 80 ∧ t1 ≠ 0 ∧ t2 ≠ 0 := by
  unfold matchTalker at h
  have hm := matchLoop_ok _ _ _ h
  have ha := List.all_eq_true.mp talkers_all _ hm
  have hlen : (cstr [t1, t2, 0]).length = 2 := by
    revert ha
    generalize cstr [t1, t2, 0] = e
    intro ha
    match e, ha with
    | [a, b], _ => rfl
  obtain ⟨h1, h2⟩ := cstr2_length hlen
  rw [cstr2 h1 h2] at ha
  simp only [Bool.and_eq_true, bne_iff_ne, ne_eq] at ha
  exact ⟨ha.1.1, ha.1.2, ha.2, h1, h2⟩

/-- Every key of the catalog is three upper-case letters, the last of which is not `Q`. -/
theorem m_Sentences_all :
    m_Sentences.all (fun kv => match kv.1 with
      | [a, b, c] => isupper a && isupper b && isupper c && c != 81
      | _ => false) = true := by
  rfl

/-- A formatter found in the catalog is three upper-case letters, the last not `Q`. -/
theorem find_some {f1 f2 f3 : Nat} {sentence : Sentence}
    (h : find [f1, f2, f3] = some sentence) :
    isupper f1 = true ∧ isupper f2 = true ∧ isupper f3 = true ∧ f3 ≠ 81 := by
  unfold find at h
  cases hf : m_Sentences.find? (fun kv => kv.1 == [f1, f2, f3]) with
  | none => rw [hf] at h; cases h
  | some kv =>
    have hmem := List.mem_of_find?_eq_some hf
    have hkey := List.find?_some hf
    have ha := List.all_eq_true.mp m_Sentences_all _ hmem
    simp only [beq_iff_eq] at hkey
    rw [hkey] at ha
    simp only [Bool.and_eq_true, bne_iff_ne, ne_eq] at ha
    exact ⟨ha.1.1.1, ha.1.1.2, ha.1.2, ha.2⟩

theorem isupper_facts {ch : Nat} (h : isupper ch = true) :
    ch ≠ 0 ∧ isdefined ch = true ∧ (isdigit ch || isupper ch) = true ∧
      ch ≠ 44 ∧ ch ≠ 42 := by
  unfold isupper at h
  simp only [Bool.and_eq_true, decide_eq_true_eq] at h
  refine ⟨by omega, ?_, ?_, by omega, by omega⟩
  · unfold isdefined
    simp only [Bool.and_eq_true, decide_eq_true_eq, Bool.or_eq_true]
    exact ⟨by omega, Or.inl (Or.inl (by omega))⟩
  · unfold isupper
    simp only [Bool.or_eq_true, Bool.and_eq_true, decide_eq_true_eq]
    exact Or.inr h

/-! ## The tokenizer on a parametric sentence given by its text -/

theorem incrN_ok (line : List Nat) :
    ∀ (n c b : Nat), b + n < line.length →
      (∀ i, b < i → i ≤ b + n → isdefined (line.getD i 0) = true) →
      ∃ c1, incrN line n c b = .ok (c1, b + n) := by
  intro n
  induction n with
  | zero => intro c b _ _; exact ⟨c, rfl⟩
  | succ n ih =>
    intro c b hb hdef
    rw [incrN, incr_ok (by omega) (hdef (b + 1) (by omega) (by omega))]
    simp only
    obtain ⟨c1, h⟩ := ih ((c ^^^ (line.getD (b + 1) 0 % 256)) % 256) (b + 1) (by omega)
      (fun i h1 h2 => hdef i (by omega) (by omega))
    refine ⟨c1, ?_⟩
    rw [h]
    congr 2
    omega

theorem sentenceLine_length (t1 t2 f1 f2 f3 : Nat) (fields : List (List Nat)) (h1 h2 : Nat) :
    (sentenceLine t1 t2 f1 f2 f3 fields h1 h2).length = 10 + (commaFields fields).length + 1 := by
  simp [sentenceLine]
  omega

theorem sentenceLine_drop6 (t1 t2 f1 f2 f3 : Nat) (fields : List (List Nat)) (h1 h2 : Nat) :
    (sentenceLine t1 t2 f1 f2 f3 fields h1 h2).drop 6 =
      commaFields fields ++ 42 :: [h1, h2, 13, 10] := rfl

theorem sentenceLine_drop_star (t1 t2 f1 f2 f3 : Nat) (fields : List (List Nat)) (h1 h2 : Nat) :
    (sentenceLine t1 t2 f1 f2 f3 fields h1 h2).drop (6 + (commaFields fields).length) =
      [42, h1, h2, 13, 10] :=
  drop_of_drop (sentenceLine_drop6 t1 t2 f1 f2 f3 fields h1 h2)

theorem sentenceLine_slice (t1 t2 f1 f2 f3 : Nat) (fields : List (List Nat)) (h1 h2 : Nat) :
    slice (sentenceLine t1 t2 f1 f2 f3 fields h1 h2) 1 (6 + (commaFields fields).length) =
      [t1, t2, f1, f2, f3] ++ commaFields fields := by
  unfold slice
  have h : (sentenceLine t1 t2 f1 f2 f3 fields h1 h2).drop 1 =
      ([t1, t2, f1, f2, f3] ++ commaFields fields) ++ [42, h1, h2, 13, 10] := rfl
  rw [h]
  apply List.take_left'
  simp only [List.length_append, List.length_cons, List.length_nil]
  omega

/-- The address field of a parametric sentence given by its text. -/
theorem addressField_sentenceLine {t1 t2 f1 f2 f3 : Nat} (fields : List (List Nat))
    (h1 h2 : Nat) (ht1 : isupper t1 = true) (ht2 : isupper t2 = true) (hP : t1 ≠ 80)
    (hf1 : isupper f1 = true) (hf2 : isupper f2 = true) (hf3 : isupper f3 = true)
    (hQ : f3 ≠ 81) :
    ∃ c0, addressField (sentenceLine t1 t2 f1 f2 f3 fields h1 h2) 0 =
      .ok (.sentence, some .parametric, c0, 6) := by
  have hlen := sentenceLine_length t1 t2 f1 f2 f3 fields h1 h2
  obtain ⟨x, rest, hx, hx2⟩ := commaFields_star_head fields [h1, h2, 13, 10]
  have h6 : (sentenceLine t1 t2 f1 f2 f3 fields h1 h2).getD 6 0 = x := by
    have hd := sentenceLine_drop6 t1 t2 f1 f2 f3 fields h1 h2
    rw [hx] at hd
    exact (getD_of_drop_cons hd).2
  generalize hl : sentenceLine t1 t2 f1 f2 f3 fields h1 h2 = line at hlen h6
  have g0 : line.getD 0 0 = 36 := by rw [← hl]; rfl
  have g1 : line.getD 1 0 = t1 := by rw [← hl]; rfl
  have g2 : line.getD 2 0 = t2 := by rw [← hl]; rfl
  have g3 : line.getD 3 0 = f1 := by rw [← hl]; rfl
  have g4 : line.getD 4 0 = f2 := by rw [← hl]; rfl
  have g5 : line.getD 5 0 = f3 := by rw [← hl]; rfl
  obtain ⟨ca, ha⟩ := incrN_ok line 1 0 0 (by omega) (by
    intro i hi1 hi2
    have : i = 1 := by omega
    rw [this, g1]
    exact (isupper_facts ht1).2.1)
  obtain ⟨cb, hb⟩ := incrN_ok line 5 ca 1 (by omega) (by
    intro i hi1 hi2
    have : i = 2 ∨ i = 3 ∨ i = 4 ∨ i = 5 ∨ i = 6 := by omega
    rcases this with h | h | h | h | h
    · rw [h, g2]; exact (isupper_facts ht2).2.1
    · rw [h, g3]; exact (isupper_facts hf1).2.1
    · rw [h, g4]; exact (isupper_facts hf2).2.1
    · rw [h, g5]; exact (isupper_facts hf3).2.1
    · rw [h, h6]; rcases hx2 with h | h <;> rw [h] <;> decide)
  have ha1 : incrN line 1 0 0 = .ok (ca, 1) := ha
  have hb1 : incrN line 5 ca 1 = .ok (cb, 6) := hb
  refine ⟨cb, ?_⟩
  unfold addressField
  rw [rd_ok (by omega), g0]
  simp only [beq_iff_eq, if_true, ha1]
  rw [rd_ok (by omega), g1]
  simp only
  rw [if_neg hP, hb1]
  simp only
  rw [rd_ok (by omega), g5]
  simp only
  rw [if_neg hQ, if_neg (by decide), if_neg (by decide)]

/-- The element tokenizer on a parametric sentence given by its text, with upper-case
talker and formatter, valid data-field bytes and the checksum characters of the XOR:
E023 at the marker when the last checksum byte is more than 79 bytes after the marker,
and otherwise the element with the views of the text. -/
theorem element_sentenceLine (t1 t2 f1 f2 f3 : Nat) (fields : List (List Nat))
    (ht1 : isupper t1 = true) (ht2 : isupper t2 = true) (hP : t1 ≠ 80)
    (hf1 : isupper f1 = true) (hf2 : isupper f2 = true) (hf3 : isupper f3 = true)
    (hQ : f3 ≠ 81) (hv : ∀ f ∈ fields, ∀ ch ∈ f, isvalid ch = true) :
    parseMainStructureTagBlockOrSentence
      (sentenceLine t1 t2 f1 f2 f3 fields
        (hexDigit (xorBytes ([t1, t2, f1, f2, f3] ++ commaFields fields) >>> 4))
        (hexDigit (xorBytes ([t1, t2, f1, f2, f3] ++ commaFields fields) &&& 0x0F))) 0 =
      if 6 + (commaFields fields).length + 2 > 79 then .error (.exception .E023 (some 0))
      else .ok (⟨sentenceViews fields, .sentence, some .parametric,
        sentenceLine t1 t2 f1 f2 f3 fields
          (hexDigit (xorBytes ([t1, t2, f1, f2, f3] ++ commaFields fields) >>> 4))
          (hexDigit (xorBytes ([t1, t2, f1, f2, f3] ++ commaFields fields) &&& 0x0F))⟩,
        6 + (commaFields fields).length + 3) := by
  generalize hh1 : hexDigit (xorBytes ([t1, t2, f1, f2, f3] ++ commaFields fields) >>> 4) = h1
  generalize hh2 : hexDigit (xorBytes ([t1, t2, f1, f2, f3] ++ commaFields fields) &&& 0x0F) = h2
  obtain ⟨c0, ha⟩ := addressField_sentenceLine fields h1 h2 ht1 ht2 hP hf1 hf2 hf3 hQ
  have hlen := sentenceLine_length t1 t2 f1 f2 f3 fields h1 h2
  have hd6 := sentenceLine_drop6 t1 t2 f1 f2 f3 fields h1 h2
  have hds := sentenceLine_drop_star t1 t2 f1 f2 f3 fields h1 h2
  have hsl := sentenceLine_slice t1 t2 f1 f2 f3 fields h1 h2
  have g0 : (sentenceLine t1 t2 f1 f2 f3 fields h1 h2).getD 0 0 = 36 := rfl
  generalize hl : sentenceLine t1 t2 f1 f2 f3 fields h1 h2 = line at ha hlen hd6 hds hsl g0
  obtain ⟨cs, hs⟩ := scanDataFields_fields line fields 10 6 [] 0 c0 [h1, h2, 13, 10] hd6
    (by omega) hv
  rw [← hlen, List.nil_append, g0] at hs
  have hspan : span 36 0 6 = ⟨some 0, 6⟩ := rfl
  rw [hspan] at hs
  obtain ⟨_, _, hc0, _, _⟩ := addressField_spec ha
  obtain ⟨_, _, h42, _, hcs, _, _⟩ := scanDataFields_spec line line.length [] 0 c0 6 _ _ _ _ hc0 hs
  obtain ⟨_, _, _, hx⟩ := scan_checkSum ha hs
  rw [hsl] at hx
  have hb1 : line.getD (6 + (commaFields fields).length + 1) 0 = h1 := by
    have := getD_of_drop (a := [42, h1, h2, 13, 10]) (r := []) (by rw [List.append_nil]; exact hds)
      1 (by simp)
    exact this.2
  have hb2 : line.getD (6 + (commaFields fields).length + 2) 0 = h2 := by
    have := getD_of_drop (a := [42, h1, h2, 13, 10]) (r := []) (by rw [List.append_nil]; exact hds)
      2 (by simp)
    exact this.2
  rw [element_eq_checksumField ha hs, checksumField_eval h42 (by omega) hcs]
  have hlong : tooLong ⟨some 0, 6⟩ ⟨some (6 + (commaFields fields).length), 3⟩ =
      .ok (decide (6 + (commaFields fields).length + 2 > 79)) := by
    unfold tooLong
    simp only [Int.ofNat_eq_coe]
    congr 1
    apply decide_eq_decide.mpr
    omega
  rw [hlong]
  by_cases hl79 : 6 + (commaFields fields).length + 2 > 79
  · rw [decide_eq_true hl79, if_pos hl79]
    rfl
  · rw [decide_eq_false hl79, if_neg hl79]
    simp only
    rw [hb1, hb2, hx, hh1, hh2, if_neg (by intro h; exact h.1 rfl)]
    rfl

/-! ## Content validation of a parametric sentence given by its text -/

theorem checkCharactersFrom_ok {line : List Nat} {p sz : Nat} {caret : Bool} :
    ∀ (n i : Nat),
      (∀ k, k < n → p + (i + k) ≤ line.length ∧ isvalid (line.getD (p + (i + k)) 0) = true) →
      checkCharactersFrom line ⟨some p, sz⟩ caret n i = .ok () := by
  intro n
  induction n with
  | zero => intro i _; rfl
  | succ n ih =>
    intro i h
    obtain ⟨hle, hval⟩ := h 0 (by omega)
    rw [Nat.add_zero] at hle hval
    obtain ⟨_, _, _, h128, hres⟩ := isvalid_facts hval
    rw [checkCharactersFrom]
    unfold StringView.at
    simp only
    rw [rd_ok hle]
    simp only
    unfold reservedAt
    rw [if_pos h128]
    simp only
    rw [hres]
    simp only [Bool.false_and, Bool.false_eq_true, if_false]
    apply ih
    intro k hk
    have := h (k + 1) (by omega)
    have e : p + (i + (k + 1)) = p + (i + 1 + k) := by omega
    rw [e] at this
    exact this

theorem forViews_dataViews (line : List Nat) :
    ∀ (fields : List (List Nat)) (off : Nat) (tl : List Nat),
      line.drop off = commaFields fields ++ tl →
      (∀ f ∈ fields, ∀ ch ∈ f, isvalid ch = true) →
      forViews (checkDataFieldCharacters line) (dataViews off fields) = .ok () := by
  intro fields
  induction fields with
  | nil => intro off tl _ _; rfl
  | cons f fs ih =>
    intro off tl hd hv
    rw [commaFields_cons, List.cons_append, List.append_assoc] at hd
    have hd1 : line.drop (off + 1) = f ++ (commaFields fs ++ tl) := by
      have := drop_of_drop (a := [44]) hd
      simpa using this
    have hd2 : line.drop (off + 1 + f.length) = commaFields fs ++ tl := drop_of_drop hd1
    rw [dataViews, forViews]
    have hf : checkDataFieldCharacters line
        (if f.length = 0 then ⟨none, 0⟩ else ⟨some (off + 1), f.length⟩) = .ok () := by
      by_cases h0 : f.length = 0
      · rw [if_pos h0]; rfl
      · rw [if_neg h0]
        unfold checkDataFieldCharacters
        apply checkCharactersFrom_ok
        intro k hk
        rw [Nat.zero_add]
        obtain ⟨h1, h2⟩ := getD_of_drop hd1 k hk
        refine ⟨by omega, ?_⟩
        rw [h2]
        exact hv f (List.mem_cons_self _ _) _ (getD_mem hk)
    rw [hf]
    exact ih (off + 1 + f.length) tl hd2 (fun g hg => hv g (List.mem_cons_of_mem _ hg))

theorem sentenceViews_dropLast_tail (fields : List (List Nat)) :
    (sentenceViews fields).dropLast.tail = dataViews 6 fields := by
  unfold sentenceViews
  rw [List.dropLast_concat]
  rfl

theorem checkTalkerId_ok {ch1 ch2 : Nat} (i : Option Nat) (h1 : isupper ch1 = true)
    (h2 : isupper ch2 = true) : checkTalkerId ch1 ch2 i = .ok () := by
  unfold checkTalkerId
  rw [(isupper_facts h1).2.2.1, (isupper_facts h2).2.2.1]
  rfl

theorem checkSentenceFormatter_ok {ch1 ch2 ch3 : Nat} (i : Option Nat)
    (h1 : isupper ch1 = true) (h2 : isupper ch2 = true) (h3 : isupper ch3 = true) :
    checkSentenceFormatter ch1 ch2 ch3 i = .ok () := by
  unfold checkSentenceFormatter
  rw [(isupper_facts h1).2.2.1, (isupper_facts h2).2.2.1, (isupper_facts h3).2.2.1]
  rfl

/-- The header bytes of the element of a sentence given by its text. -/
theorem header_at (t1 t2 f1 f2 f3 : Nat) (fields : List (List Nat)) (h1 h2 : Nat) :
    (⟨some 0, 6⟩ : StringView).at (sentenceLine t1 t2 f1 f2 f3 fields h1 h2) 1 = .ok t1 ∧
    (⟨some 0, 6⟩ : StringView).at (sentenceLine t1 t2 f1 f2 f3 fields h1 h2) 2 = .ok t2 ∧
    (⟨some 0, 6⟩ : StringView).at (sentenceLine t1 t2 f1 f2 f3 fields h1 h2) 3 = .ok f1 ∧
    (⟨some 0, 6⟩ : StringView).at (sentenceLine t1 t2 f1 f2 f3 fields h1 h2) 4 = .ok f2 ∧
    (⟨some 0, 6⟩ : StringView).at (sentenceLine t1 t2 f1 f2 f3 fields h1 h2) 5 = .ok f3 := by
  have hlen := sentenceLine_length t1 t2 f1 f2 f3 fields h1 h2
  unfold StringView.at
  simp only
  refine ⟨?_, ?_, ?_, ?_, ?_⟩ <;> rw [rd_ok (by omega)] <;> rfl

/-- The second stage accepts the element of a sentence given by its text. -/
theorem generalContents_sentenceLine (t1 t2 f1 f2 f3 : Nat) (fields : List (List Nat))
    (h1 h2 : Nat) (ht1 : isupper t1 = true) (ht2 : isupper t2 = true)
    (hf1 : isupper f1 = true) (hf2 : isupper f2 = true) (hf3 : isupper f3 = true)
    (hv : ∀ f ∈ fields, ∀ ch ∈ f, isvalid ch = true) :
    generalContents ⟨sentenceViews fields, .sentence, some .parametric,
      sentenceLine t1 t2 f1 f2 f3 fields h1 h2⟩ = .ok () := by
  obtain ⟨a1, a2, a3, a4, a5⟩ := header_at t1 t2 f1 f2 f3 fields h1 h2
  unfold generalContents
  simp only
  have hidx : idx (sentenceViews fields) 0 = .ok ⟨some 0, 6⟩ := rfl
  rw [hidx]
  simp only
  rw [a1, a2]
  simp only
  rw [checkTalkerId_ok _ ht1 ht2]
  simp only
  rw [a3, a4, a5]
  simp only
  rw [checkSentenceFormatter_ok _ hf1 hf2 hf3]
  simp only
  rw [sentenceViews_dropLast_tail]
  exact forViews_dataViews _ fields 6 _ (sentenceLine_drop6 t1 t2 f1 f2 f3 fields h1 h2) hv

/-- The third stage on the element of a sentence given by its text comes to the field
grammar of the catalog entry. -/
theorem specificContents_sentenceLine {t1 t2 f1 f2 f3 : Nat} (fields : List (List Nat))
    (h1 h2 : Nat) (sentence : Sentence) (j : Nat)
    (ht : matchTalker t1 t2 none = .ok ()) (hf : find [f1, f2, f3] = some sentence)
    (hg : sentence.parse (sentenceLine t1 t2 f1 f2 f3 fields h1 h2) (sentenceViews fields)
      ((sentenceViews fields).length + 2) = .ok j) :
    specificContents ⟨sentenceViews fields, .sentence, some .parametric,
      sentenceLine t1 t2 f1 f2 f3 fields h1 h2⟩ = .ok () := by
  obtain ⟨a1, a2, a3, a4, a5⟩ := header_at t1 t2 f1 f2 f3 fields h1 h2
  obtain ⟨hu1, hu2, hu3, _⟩ := find_some hf
  unfold specificContents
  simp only
  have hidx : idx (sentenceViews fields) 0 = .ok ⟨some 0, 6⟩ := rfl
  rw [hidx]
  simp only
  rw [a1, a2]
  simp only
  have ht' : matchTalker t1 t2 ((⟨some 0, 6⟩ : StringView).addr 1) = .ok () :=
    matchLoop_ok_any _ _ _ _ ht
  rw [ht']
  simp only
  rw [a3, a4, a5]
  simp only
  rw [cstr3 (isupper_facts hu1).1 (isupper_facts hu2).1 (isupper_facts hu3).1, hf]
  simp only
  rw [hg]

/-! ## `parse` on a parametric sentence given by its text -/

theorem findStart_at_marker {line : List Nat} {fuel b : Nat} (hb : b < line.length)
    (hm : line.getD b 0 = 36) : findStart line (fuel + 1) b = .ok b := by
  rw [findStart, if_neg (by omega), rd_ok (by omega), hm]
  rfl

theorem parseTagBlocks_at_dollar {line : List Nat} {fuel b : Nat}
    {m : List TagBlockOrSentence} (hb : b < line.length) (hm : line.getD b 0 = 36) :
    parseTagBlocks line (fuel + 1) m b = (m, .ok b) := by
  rw [parseTagBlocks, rd_ok (by omega), hm]
  rfl

theorem parseElements_at_dollar {line : List Nat} {m : List TagBlockOrSentence}
    (hb : 0 < line.length) (hm : line.getD 0 0 = 36) :
    parseElements line m =
      match parseMainStructureTagBlockOrSentence line 0 with
      | .error t => (m, .error t)
      | .ok (element, begin) => (m ++ [element], .ok begin) := by
  unfold parseElements
  rw [findStart_at_marker hb hm]
  simp only
  rw [parseTagBlocks_at_dollar hb hm]
  simp only
  unfold parseSentence
  rw [rd_ok (by omega), hm]
  rfl

/-- The whole `parse` on a parametric sentence given by its text that is well formed but
for its length: E023 at the marker when the last checksum byte is more than 79 bytes
after the `$`, and E000 otherwise. -/
theorem parse_sentenceLine {t1 t2 f1 f2 f3 : Nat} {fields : List (List Nat)} {h1 h2 : Nat}
    {sentence : Sentence} {j : Nat}
    (hh1 : h1 = hexDigit (xorBytes ([t1, t2, f1, f2, f3] ++ commaFields fields) >>> 4))
    (hh2 : h2 = hexDigit (xorBytes ([t1, t2, f1, f2, f3] ++ commaFields fields) &&& 0x0F))
    (ht : matchTalker t1 t2 none = .ok ())
    (hv : ∀ f ∈ fields, ∀ ch ∈ f, isvalid ch = true)
    (hf : find [f1, f2, f3] = some sentence)
    (hg : sentence.parse (sentenceLine t1 t2 f1 f2 f3 fields h1 h2) (sentenceViews fields)
      ((sentenceViews fields).length + 2) = .ok j) :
    parse Nmea.fresh (sentenceLine t1 t2 f1 f2 f3 fields h1 h2) =
      if 6 + (commaFields fields).length + 2 > 79 then .returned ⟨[], .E023, some 0⟩
      else .returned ⟨[⟨sentenceViews fields, .sentence, some .parametric,
        sentenceLine t1 t2 f1 f2 f3 fields h1 h2⟩], .E000, none⟩ := by
  obtain ⟨ht1, ht2, hP, _, _⟩ := matchTalker_ok ht
  obtain ⟨hf1, hf2, hf3, hQ⟩ := find_some hf
  have hel := element_sentenceLine t1 t2 f1 f2 f3
    fields ht1 ht2 hP hf1 hf2 hf3 hQ hv
  rw [← hh1, ← hh2] at hel
  have hgen := generalContents_sentenceLine t1 t2 f1 f2 f3 fields h1 h2 ht1 ht2 hf1 hf2 hf3 hv
  have hspec := specificContents_sentenceLine fields h1 h2 sentence j ht hf hg
  have hlen := sentenceLine_length t1 t2 f1 f2 f3 fields h1 h2
  have hds := sentenceLine_drop_star t1 t2 f1 f2 f3 fields h1 h2
  have g0 : (sentenceLine t1 t2 f1 f2 f3 fields h1 h2).getD 0 0 = 36 := rfl
  have hne : sentenceLine t1 t2 f1 f2 f3 fields h1 h2 ≠ [] := by
    intro h; rw [h] at hlen; simp at hlen
  generalize hl : sentenceLine t1 t2 f1 f2 f3 fields h1 h2 = line at *
  have hpe := parseElements_at_dollar (m := Nmea.fresh.m_Line) (by omega) g0
  rw [hel] at hpe
  unfold parse
  rw [parseMainStructure_eq hne, hpe]
  by_cases hl79 : 6 + (commaFields fields).length + 2 > 79
  · rw [if_pos hl79, if_pos hl79]
    rfl
  · rw [if_neg hl79, if_neg hl79]
    simp only
    have hcr : checkCRLF line (6 + (commaFields fields).length + 3) = .ok () := by
      have a3 := getD_of_drop (a := [42, h1, h2, 13, 10]) (r := [])
        (by rw [List.append_nil]; exact hds) 3 (by simp)
      have a4 := getD_of_drop (a := [42, h1, h2, 13, 10]) (r := [])
        (by rw [List.append_nil]; exact hds) 4 (by simp)
      unfold checkCRLF
      rw [if_neg (by omega), rd_ok (by omega), a3.2]
      simp only [List.getD_cons_succ, List.getD_cons_zero, bne_self_eq_false,
        Bool.false_eq_true, if_false]
      rw [if_neg (by omega), rd_ok (by omega)]
      have e : 6 + (commaFields fields).length + 3 + 1 = 6 + (commaFields fields).length + 4 := by
        omega
      rw [e, a4.2]
      rfl
    rw [hcr]
    simp only
    have hgc : parseGeneralContents
        ⟨Nmea.fresh.m_Line ++
          [⟨sentenceViews fields, .sentence, some .parametric, line⟩], .E000,
          Nmea.fresh.m_Indication⟩ = .ok () := by
      unfold parseGeneralContents
      simp only [Nmea.fresh, List.nil_append, forElements]
      rw [hgen]
    have hsc : parseSpecificContents
        ⟨Nmea.fresh.m_Line ++
          [⟨sentenceViews fields, .sentence, some .parametric, line⟩], .E000,
          Nmea.fresh.m_Indication⟩ = .ok () := by
      unfold parseSpecificContents
      simp only [Nmea.fresh, List.nil_append, forElements]
      rw [hspec]
    rw [hgc]
    simp only
    rw [hsc]
    rfl

/-- C1. For every line `S ++ CR LF` where `S` is a parametric sentence (`$`, talker
`t1 t2`, formatter `f1 f2 f3`, the data fields each after a comma, `*`, two characters
`h1 h2`) such that the last checksum character is at most 79 bytes after the `$`, `h1 h2`
are the upper-case hex digits of the XOR of all bytes between `$` and `*`, the talker is
accepted by `matchTalker`, every data-field byte is a valid character, the formatter is a
key of the catalog and the grammar of that entry accepts the views of the data fields:
`parse` on a fresh instance ends with `errorCode() == E000`. -/
theorem wellformed_parametric_sentence_is_accepted (t1 t2 f1 f2 f3 : Nat)
    (fields : List (List Nat)) (h1 h2 : Nat) (sentence : Sentence) (j : Nat)
    (hlen : 6 + (commaFields fields).length + 2 ≤ 79)
    (hh1 : h1 = hexDigit (xorBytes ([t1, t2, f1, f2, f3] ++ commaFields fields) >>> 4))
    (hh2 : h2 = hexDigit (xorBytes ([t1, t2, f1, f2, f3] ++ commaFields fields) &&& 0x0F))
    (ht : matchTalker t1 t2 none = .ok ())
    (hv : ∀ f ∈ fields, ∀ ch ∈ f, isvalid ch = true)
    (hf : find [f1, f2, f3] = some sentence)
    (hg : sentence.parse (sentenceLine t1 t2 f1 f2 f3 fields h1 h2) (sentenceViews fields)
      ((sentenceViews fields).length + 2) = .ok j) :
    (parse Nmea.fresh (sentenceLine t1 t2 f1 f2 f3 fields h1 h2)).errorCode = some .E000 := by
  rw [parse_sentenceLine hh1 hh2 ht hv hf hg, if_neg (by omega)]
  rfl

set_option maxRecDepth 100000 in
/-- Witness of C1: Example 1, `$GPGGA,123519,4807.038,N,01131.000,E,1,08,0.9,545.4,M,46.9,M,,*47`
followed by CR LF. -/
theorem wellformed_parametric_sentence_is_accepted_witness :
    sentenceLine 71 80 71 71 65 example1Data 52 55 = example1 ∧
    6 + (commaFields example1Data).length + 2 ≤ 79 ∧
    52 = hexDigit (xorBytes ([71, 80, 71, 71, 65] ++ commaFields example1Data) >>> 4) ∧
    55 = hexDigit (xorBytes ([71, 80, 71, 71, 65] ++ commaFields example1Data) &&& 0x0F) ∧
    matchTalker 71 80 none = .ok () ∧
    (∀ f ∈ example1Data, ∀ ch ∈ f, isvalid ch = true) ∧
    find [71, 71, 65] = some GGA ∧
    GGA.parse (sentenceLine 71 80 71 71 65 example1Data 52 55) (sentenceViews example1Data)
      ((sentenceViews example1Data).length + 2) = .ok 15 ∧
    (parse Nmea.fresh (sentenceLine 71 80 71 71 65 example1Data 52 55)).errorCode =
      some .E000 :=
  ⟨rfl, by decide, rfl, rfl, rfl, by decide, rfl, rfl,
    wellformed_parametric_sentence_is_accepted 71 80 71 71 65 example1Data 52 55 GGA 15
      (by decide) rfl rfl rfl (by decide) rfl rfl⟩

/-- C6 as amended. For every parametric sentence line that is well formed but for its
length (as in C1), with `n = 6 + (commaFields fields).length + 3` the number of bytes
from the `$` through the last checksum character: if `n` is at most 80, in particular
exactly 79 or exactly 80, the parse succeeds; if `n` is 81 or more, the parse fails with
E023 and the indication at the `$`. -/
theorem envelope_of_80_bytes_succeeds_and_81_fails (t1 t2 f1 f2 f3 : Nat)
    (fields : List (List Nat)) (h1 h2 : Nat) (sentence : Sentence) (j : Nat)
    (hh1 : h1 = hexDigit (xorBytes ([t1, t2, f1, f2, f3] ++ commaFields fields) >>> 4))
    (hh2 : h2 = hexDigit (xorBytes ([t1, t2, f1, f2, f3] ++ commaFields fields) &&& 0x0F))
    (ht : matchTalker t1 t2 none = .ok ())
    (hv : ∀ f ∈ fields, ∀ ch ∈ f, isvalid ch = true)
    (hf : find [f1, f2, f3] = some sentence)
    (hg : sentence.parse (sentenceLine t1 t2 f1 f2 f3 fields h1 h2) (sentenceViews fields)
      ((sentenceViews fields).length + 2) = .ok j) :
    (6 + (commaFields fields).length + 3 ≤ 80 →
      (parse Nmea.fresh (sentenceLine t1 t2 f1 f2 f3 fields h1 h2)).errorCode = some .E000) ∧
    (81 ≤ 6 + (commaFields fields).length + 3 →
      (parse Nmea.fresh (sentenceLine t1 t2 f1 f2 f3 fields h1 h2)).errorCode = some .E023 ∧
      (parse Nmea.fresh (sentenceLine t1 t2 f1 f2 f3 fields h1 h2)).indication =
        some (some 0)) := by
  constructor
  · intro h
    rw [parse_sentenceLine hh1 hh2 ht hv hf hg, if_neg (by omega)]
    rfl
  · intro h
    rw [parse_sentenceLine hh1 hh2 ht hv hf hg, if_pos (by omega)]
    exact ⟨rfl, rfl⟩

set_option maxRecDepth 100000 in
/-- Witness of C6 as amended: Example 1, 65 bytes from `$` to the last checksum character. -/
theorem envelope_of_80_bytes_succeeds_and_81_fails_witness :
    52 = hexDigit (xorBytes ([71, 80, 71, 71, 65] ++ commaFields example1Data) >>> 4) ∧
    55 = hexDigit (xorBytes ([71, 80, 71, 71, 65] ++ commaFields example1Data) &&& 0x0F) ∧
    matchTalker 71 80 none = .ok () ∧
    (∀ f ∈ example1Data, ∀ ch ∈ f, isvalid ch = true) ∧
    find [71, 71, 65] = some GGA ∧
    GGA.parse (sentenceLine 71 80 71 71 65 example1Data 52 55) (sentenceViews example1Data)
      ((sentenceViews example1Data).length + 2) = .ok 15 ∧
    6 + (commaFields example1Data).length + 3 ≤ 80 ∧
    (parse Nmea.fresh (sentenceLine 71 80 71 71 65 example1Data 52 55)).errorCode =
      some .E000 :=
  ⟨rfl, rfl, rfl, by decide, rfl, rfl, by decide,
    (envelope_of_80_bytes_succeeds_and_81_fails 71 80 71 71 65 example1Data 52 55 GGA 15
      rfl rfl rfl (by decide) rfl rfl).1 (by decide)⟩

set_option maxRecDepth 100000 in
/-- Counterexample to C6 as stated: a well-formed GGA line whose envelope, from the `$`
through the last checksum character, has exactly 80 bytes (82 with CR LF) is accepted
with E000 and is not rejected with E023. -/
theorem envelope_of_80_bytes_is_accepted :
    example80.length = 80 + 2 ∧
    example80.drop 80 = [13, 10] ∧
    example80.getD 0 0 = 36 ∧
    example80.getD 77 0 = 42 ∧
    (parse Nmea.fresh example80).errorCode = some .E000 ∧
    (parse Nmea.fresh example80).errorCode ≠ some .E023 :=
  ⟨rfl, rfl, rfl, rfl, rfl, by decide⟩

/-! ## Lines without a start marker; the E003 guard of the data-field loop -/

theorem findStart_no_marker (line : List Nat) :
    ∀ (fuel b : Nat), b ≤ line.length → line.length - b < fuel →
      (∀ i, b ≤ i → i < line.length →
        line.getD i 0 ≠ 36 ∧ line.getD i 0 ≠ 33 ∧ line.getD i 0 ≠ 92) →
      findStart line fuel b = .error (.exception .E033 none) := by
  intro fuel
  induction fuel with
  | zero => intro b _ h _; omega
  | succ fuel ih =>
    intro b hb hfuel hno
    rw [findStart]
    by_cases he : b = line.length
    · rw [if_pos he]
    · rw [if_neg he, rd_ok hb]
      obtain ⟨h1, h2, h3⟩ := hno b (le_refl _) (by omega)
      simp only [Bool.or_eq_true, beq_iff_eq, h1, h2, h3, or_self, if_false]
      exact ih (b + 1) (by omega) (by omega) (fun i hi1 hi2 => hno i (by omega) hi2)

theorem parse_without_marker (self : Nmea) (line : List Nat) (hne : line ≠ [])
    (hno : ∀ ch ∈ line, ch ≠ 36 ∧ ch ≠ 33 ∧ ch ≠ 92) :
    parse self line = .returned ⟨self.m_Line, .E033, none⟩ := by
  have hf : findStart line (line.length + 1) 0 = .error (.exception .E033 none) := by
    apply findStart_no_marker line _ 0 (by omega) (by omega)
    intro i _ hi
    exact hno _ (getD_mem hi)
  unfold parse
  rw [parseMainStructure_eq hne]
  have hp : parseElements line self.m_Line = (self.m_Line, .error (.exception .E033 none)) := by
    unfold parseElements
    rw [hf]
  rw [hp]
  rfl

/-- C7 as amended. For every non-empty input line that contains none of the bytes `$`,
`!`, backslash, `parse` on a fresh instance ends with `errorCode() == E033` (and without
an indication): reaching the end of a non-empty line before a start marker is reported
as E033. -/
theorem nonempty_line_without_marker_gives_E033 (line : List Nat) (hne : line ≠ [])
    (hno : ∀ ch ∈ line, ch ≠ 36 ∧ ch ≠ 33 ∧ ch ≠ 92) :
    (parse Nmea.fresh line).errorCode = some .E033 ∧
    (parse Nmea.fresh line).indication = some none := by
  rw [parse_without_marker Nmea.fresh line hne hno]
  exact ⟨rfl, rfl⟩

/-- Witness of C7 as amended: the line `GPGGA,1*00` with its CR LF has no start marker. -/
theorem nonempty_line_without_marker_gives_E033_witness :
    bytes "GPGGA,1*00\r\n" ≠ [] ∧
    (∀ ch ∈ bytes "GPGGA,1*00\r\n", ch ≠ 36 ∧ ch ≠ 33 ∧ ch ≠ 92) ∧
    (parse Nmea.fresh (bytes "GPGGA,1*00\r\n")).errorCode = some .E033 ∧
    (parse Nmea.fresh (bytes "GPGGA,1*00\r\n")).indication = some none :=
  ⟨by decide, by decide,
    nonempty_line_without_marker_gives_E033 (bytes "GPGGA,1*00\r\n") (by decide) (by decide)⟩

theorem incr_error_code {line : List Nat} {c b : Nat} {t : Thrown}
    (h : incr line c b = .error t) :
    t = .exception .E033 none ∨ t = .exception .E007 (some (b + 1)) := by
  unfold incr at h
  simp only at h
  split at h
  · injection h with h; exact Or.inl h.symm
  · rw [rd_ok (by omega)] at h
    simp only at h
    split at h
    · injection h with h; exact Or.inr h.symm
    · cases h

/-- The guard `if (end <= begin) throw Exception(ErrorCode::E003, ...)` at the top of the
data-field loop is dead: entered with `begin < end`, the loop never throws E003. -/
theorem scanDataFields_never_E003 (line : List Nat) :
    ∀ (fuel : Nat) (sp : List StringView) (start c b : Nat), b < line.length →
      ∀ i, scanDataFields line fuel sp start c b ≠ .error (.exception .E003 i) := by
  intro fuel
  induction fuel with
  | zero => intro sp start c b _ i h; simp [scanDataFields] at h
  | succ fuel ih =>
    intro sp start c b hb i h
    rw [scanDataFields_succ line fuel sp start c b hb] at h
    have step : ∀ (sp2 : List StringView) (start2 : Nat),
        (match incr line c b with
          | .error t => (.error t : Except Thrown (List StringView × Nat × Nat × Nat))
          | .ok (c2, b2) => scanDataFields line fuel sp2 start2 c2 b2) ≠
            .error (.exception .E003 i) := by
      intro sp2 start2 h
      cases hi : incr line c b with
      | error t1 =>
        rw [hi] at h
        injection h with h
        rcases incr_error_code hi with e | e <;> rw [e] at h <;> cases h
      | ok r =>
        obtain ⟨c2, b2⟩ := r
        rw [hi] at h
        obtain ⟨hb2, hlt, _, _⟩ := incr_eq_ok hi
        exact ih sp2 start2 c2 b2 (by omega) i h
    split at h
    · cases ha : appendSpan line sp start b with
      | error t1 =>
        rw [ha] at h
        injection h with h
        unfold appendSpan at ha
        cases hr : rd line start with
        | error t2 =>
          rw [hr] at ha
          injection ha with ha
          rw [(rd_eq_error hr).2] at ha
          rw [← ha] at h
          cases h
        | ok ch =>
          rw [hr] at ha
          simp only at ha
          split at ha
          · split at ha <;> cases ha
          · cases ha
      | ok sp2 => rw [ha] at h; exact step sp2 b h
    · split at h
      · cases ha : appendSpan line sp start b with
        | error t1 =>
          rw [ha] at h
          injection h with h
          unfold appendSpan at ha
          cases hr : rd line start with
          | error t2 =>
            rw [hr] at ha
            injection ha with ha
            rw [(rd_eq_error hr).2] at ha
            rw [← ha] at h
            cases h
          | ok ch =>
            rw [hr] at ha
            simp only at ha
            split at ha
            · split at ha <;> cases ha
            · cases ha
        | ok sp2 => rw [ha] at h; cases h
      · exact step sp start h

/-! ## The elements the tokenizer returns -/

/-- An element that is returned, taken apart: the address field, the data-field loop,
and the views of the element. -/
theorem element_eq_ok {line : List Nat} {begin b1 : Nat} {element : TagBlockOrSentence}
    (h : parseMainStructureTagBlockOrSentence line begin = .ok (element, b1)) :
    ∃ ty sty c0 b0 sp start cs b,
      addressField line begin = .ok (ty, sty, c0, b0) ∧
      scanDataFields line line.length [] begin c0 b0 = .ok (sp, start, cs, b) ∧
      b + 3 ≤ line.length ∧ element = ⟨sp ++ [⟨some b, 3⟩], ty, sty, line⟩ ∧ b1 = b + 3 := by
  have h0 := h
  unfold parseMainStructureTagBlockOrSentence at h
  cases ha : addressField line begin with
  | error t1 => rw [ha] at h; cases h
  | ok r =>
    obtain ⟨ty, sty, c0, b0⟩ := r
    rw [ha] at h
    simp only at h
    cases hs : scanDataFields line line.length [] begin c0 b0 with
    | error t1 => rw [hs] at h; cases h
    | ok r =>
      obtain ⟨sp, start, cs, b⟩ := r
      rw [hs] at h
      simp only at h
      have hend : b + 3 ≤ line.length := by
        unfold checksumField at h
        simp only at h
        split at h
        · cases h
        · omega
      obtain ⟨q, rest, hsp, he⟩ := element_eval ha hs hend
      rw [he] at h0
      refine ⟨ty, sty, c0, b0, sp, start, cs, b, rfl, hs, hend, ?_⟩
      split at h0
      · cases h0
      · cases h0
      · split at h0
        · cases h0
        · injection h0 with h0
          injection h0 with h1 h2
          exact ⟨h1.symm, h2.symm⟩

/-- The data-field loop appends one view, and one more for each comma it passes. -/
theorem scanDataFields_length (line : List Nat) :
    ∀ (fuel : Nat) (sp : List StringView) (start c b : Nat)
      (sp1 : List StringView) (start1 c1 b1 : Nat),
      scanDataFields line fuel sp start c b = .ok (sp1, start1, c1, b1) →
      sp1.length = sp.length + 1 + (slice line b b1).count 44 := by
  intro fuel
  induction fuel with
  | zero => intro sp start c b sp1 start1 c1 b1 h; simp [scanDataFields] at h
  | succ fuel ih =>
    intro sp start c b sp1 start1 c1 b1 h
    by_cases hb : b < line.length
    swap
    · rw [scanDataFields, if_pos (by omega)] at h
      cases h
    have hle := (scanDataFields_head line (fuel + 1) sp start c b sp1 start1 c1 b1 h)
    rw [scanDataFields_succ line fuel sp start c b hb] at h
    split at h
    · next h44 =>
      cases ha : appendSpan line sp start b with
      | error t => rw [ha] at h; cases h
      | ok sp2 =>
        rw [ha] at h
        simp only at h
        obtain ⟨_, hsp2⟩ := appendSpan_eq_ok ha
        cases hi : incr line c b with
        | error t => rw [hi] at h; cases h
        | ok r =>
          obtain ⟨c2, b2⟩ := r
          rw [hi] at h
          simp only at h
          obtain ⟨hb2, _⟩ := incr_eq_ok hi
          subst hb2
          have h1 := ih sp2 b c2 (b + 1) sp1 start1 c1 b1 h
          obtain ⟨q, extra, hq1, hq2, _⟩ :=
            scanDataFields_head line fuel sp2 b c2 (b + 1) sp1 start1 c1 b1 h
          rw [h1, hsp2, slice_cons hb (by omega), h44, List.count_cons_self,
            List.length_append, List.length_singleton]
          omega
    · next h44 =>
      split at h
      · cases ha : appendSpan line sp start b with
        | error t => rw [ha] at h; cases h
        | ok sp2 =>
          rw [ha] at h
          obtain ⟨_, hsp2⟩ := appendSpan_eq_ok ha
          injection h with h
          injection h with h1 h
          injection h with h2 h
          injection h with h3 h4
          subst h4
          rw [← h1, hsp2, slice_self, List.length_append, List.length_singleton]
          rfl
      · cases hi : incr line c b with
        | error t => rw [hi] at h; cases h
        | ok r =>
          obtain ⟨c2, b2⟩ := r
          rw [hi] at h
          simp only at h
          obtain ⟨hb2, _⟩ := incr_eq_ok hi
          subst hb2
          have h1 := ih sp start c2 (b + 1) sp1 start1 c1 b1 h
          obtain ⟨q, extra, hq1, hq2, _⟩ :=
            scanDataFields_head line fuel sp start c2 (b + 1) sp1 start1 c1 b1 h
          rw [h1, slice_cons hb (by omega), List.count_cons_of_ne (Ne.symm h44)]

/-- C11. Every element the tokenizer returns has at least 2 views; its last view is
exactly the 3 bytes that start at the `*` that ended the scan (offset `b`); for a sentence
element the first view starts at the marker `$` or `!`; and the number of views is 2 plus
the number of commas between the end of the skipped address bytes (offset `b0`) and that
`*`. -/
theorem element_views_header_commas_checksum (line : List Nat) (begin : Nat)
    (ty : LineElementType) (sty : Option SentenceType) (c0 b0 : Nat)
    (sp : List StringView) (start cs b : Nat) (element : TagBlockOrSentence) (b1 : Nat)
    (ha : addressField line begin = .ok (ty, sty, c0, b0))
    (hs : scanDataFields line line.length [] begin c0 b0 = .ok (sp, start, cs, b))
    (h : parseMainStructureTagBlockOrSentence line begin = .ok (element, b1)) :
    2 ≤ element.m_Splitter.length ∧
    element.m_Splitter.getLast? = some ⟨some b, 3⟩ ∧
    line.getD b 0 = 42 ∧ b + 3 ≤ line.length ∧ b1 = b + 3 ∧
    (element.m_LineElementType = .sentence →
      ∃ n, 0 < n ∧ element.m_Splitter.head? = some ⟨some begin, n⟩ ∧
        (line.getD begin 0 = 36 ∨ line.getD begin 0 = 33)) ∧
    element.m_Splitter.length = 2 + (slice line b0 b).count 44 := by
  obtain ⟨ty', sty', c0', b0', sp', start', cs', b', ha', hs', hend, hel, hb1⟩ := element_eq_ok h
  rw [ha] at ha'
  injection ha' with ha'
  injection ha' with e1 ha'
  injection ha' with e2 ha'
  injection ha' with e3 e4
  subst e1 e2 e3 e4
  rw [hs] at hs'
  injection hs' with hs'
  injection hs' with e1 hs'
  injection hs' with e2 hs'
  injection hs' with e3 e4
  subst e1 e2 e3 e4
  have hlen := scanDataFields_length line line.length [] begin c0 b0 sp start cs b hs
  obtain ⟨q, rest, hq1, hq2, hsp⟩ :=
    scanDataFields_head line line.length [] begin c0 b0 sp start cs b hs
  obtain ⟨_, _, h42, _⟩ := scan_checkSum ha hs
  obtain ⟨_, _, _, _, hcase⟩ := addressField_spec ha
  rw [List.length_nil, Nat.zero_add] at hlen
  rw [List.nil_append] at hsp
  subst hel
  simp only
  refine ⟨?_, ?_, h42, hend, hb1, ?_, ?_⟩
  · rw [List.length_append, List.length_singleton]; omega
  · rw [List.getLast?_append]
    rfl
  · intro hty
    rcases hcase with ⟨hc, _⟩ | ⟨_, _, hsty⟩
    · rw [hc] at hty; cases hty
    · have hm : (line.getD begin 0 = 36 ∨ line.getD begin 0 = 33) ∧ begin < b0 := by
        rcases hsty with ⟨_, g, e⟩ | ⟨_, g, _, e⟩ | ⟨_, g, _, _, e⟩ | ⟨_, g, _, _, e⟩
        · exact ⟨Or.inr g, by omega⟩
        · exact ⟨Or.inl g, by omega⟩
        · exact ⟨Or.inl g, by omega⟩
        · exact ⟨Or.inl g, by omega⟩
      refine ⟨q - begin, by omega, ?_, hm.1⟩
      rw [hsp]
      have hspan : span (line.getD begin 0) begin q = ⟨some begin, q - begin⟩ := by
        unfold span
        rw [if_neg (by omega)]
      rw [hspan]
      rfl
  · rw [List.length_append, List.length_singleton, hlen]
    omega

set_option maxRecDepth 100000 in
/-- Witness of C11: Example 1, with 16 views, 14 commas after the address and the `*` at
offset 62. -/
theorem element_views_header_commas_checksum_witness :
    addressField example1 0 = .ok (.sentence, some .parametric, 122, 6) ∧
    scanDataFields example1 example1.length [] 0 122 6 = .ok (example1Fields, 62, 0x47, 62) ∧
    parseMainStructureTagBlockOrSentence example1 0 =
      .ok (⟨example1Views, .sentence, some .parametric, example1⟩, 65) ∧
    example1Views.length = 2 + (slice example1 6 62).count 44 ∧
    example1Views.getLast? = some ⟨some 62, 3⟩ :=
  have h := element_views_header_commas_checksum example1 0 .sentence (some .parametric) 122 6
    example1Fields 62 0x47 62
    ⟨example1Views, .sentence, some .parametric, example1⟩ 65 rfl rfl rfl
  ⟨rfl, rfl, rfl, h.2.2.2.2.2.2, h.2.1⟩

/-- The type of a returned element follows the marker at which it was read. -/
theorem element_type {line : List Nat} {begin b1 : Nat} {element : TagBlockOrSentence}
    (h : parseMainStructureTagBlockOrSentence line begin = .ok (element, b1)) :
    (line.getD begin 0 = 92 → element.m_LineElementType = .tag_block) ∧
    (line.getD begin 0 ≠ 92 → element.m_LineElementType = .sentence) := by
  obtain ⟨ty, sty, c0, b0, sp, start, cs, b, ha, _, _, hel, _⟩ := element_eq_ok h
  obtain ⟨_, _, _, _, hcase⟩ := addressField_spec ha
  subst hel
  simp only
  rcases hcase with ⟨hc, _, g, _⟩ | ⟨hc, _, hsty⟩
  · exact ⟨fun _ => hc, fun hne => absurd g hne⟩
  · refine ⟨fun h92 => ?_, fun _ => hc⟩
    rcases hsty with ⟨_, g, _⟩ | ⟨_, g, _⟩ | ⟨_, g, _⟩ | ⟨_, g, _⟩ <;> omega

/-- The tag-block loop only appends tag blocks. -/
theorem parseTagBlocks_fst (line : List Nat) :
    ∀ (fuel : Nat) (m : List TagBlockOrSentence) (begin : Nat),
      ∃ tags, (parseTagBlocks line fuel m begin).1 = m ++ tags ∧
        ∀ e ∈ tags, e.m_LineElementType = .tag_block := by
  intro fuel
  induction fuel with
  | zero => intro m begin; exact ⟨[], by simp [parseTagBlocks], by simp⟩
  | succ fuel ih =>
    intro m begin
    rw [parseTagBlocks]
    cases hr : rd line begin with
    | error t1 => exact ⟨[], by simp, by simp⟩
    | ok ch =>
      simp only
      obtain ⟨_, hch⟩ := rd_eq_ok hr
      split
      · next h92 =>
        cases he : parseMainStructureTagBlockOrSentence line begin with
        | error t1 => exact ⟨[], by simp, by simp⟩
        | ok r =>
          obtain ⟨el, b⟩ := r
          simp only
          have hty : el.m_LineElementType = .tag_block := by
            apply (element_type he).1
            rw [← hch]
            simpa using h92
          cases hr2 : rd line b with
          | error t1 =>
            refine ⟨[el], rfl, ?_⟩
            intro e he'
            rw [List.mem_singleton.mp he']
            exact hty
          | ok ch2 =>
            simp only
            split
            · refine ⟨[el], rfl, ?_⟩
              intro e he'
              rw [List.mem_singleton.mp he']
              exact hty
            · obtain ⟨tags, h1, h2⟩ := ih (m ++ [el]) (b + 1)
              refine ⟨el :: tags, ?_, ?_⟩
              · rw [h1, List.append_assoc]
                rfl
              · intro e he'
                rcases List.mem_cons.mp he' with h | h
                · rw [h]; exact hty
                · exact h2 e h
      · exact ⟨[], by simp, by simp⟩

/-- The sentence step appends at most one element, a sentence. -/
theorem parseSentence_fst (line : List Nat) (m : List TagBlockOrSentence) (begin : Nat) :
    ∃ rest, (parseSentence line m begin).1 = m ++ rest ∧ rest.length ≤ 1 ∧
      ∀ e ∈ rest, e.m_LineElementType = .sentence := by
  unfold parseSentence
  cases hr : rd line begin with
  | error t1 => exact ⟨[], by simp, by simp, by simp⟩
  | ok ch =>
    simp only
    obtain ⟨_, hch⟩ := rd_eq_ok hr
    split
    · next hm =>
      cases he : parseMainStructureTagBlockOrSentence line begin with
      | error t1 => exact ⟨[], by simp, by simp, by simp⟩
      | ok r =>
        obtain ⟨el, b⟩ := r
        refine ⟨[el], rfl, by simp, ?_⟩
        intro e he'
        rw [List.mem_singleton.mp he']
        apply (element_type he).2
        rw [← hch]
        simp only [Bool.or_eq_true, beq_iff_eq] at hm
        omega
    · exact ⟨[], by simp, by simp, by simp⟩

/-- The elements read from a line: tag blocks, then at most one sentence. -/
theorem parseElements_fst (line : List Nat) (m : List TagBlockOrSentence) :
    ∃ tags rest, (parseElements line m).1 = m ++ tags ++ rest ∧
      (∀ e ∈ tags, e.m_LineElementType = .tag_block) ∧ rest.length ≤ 1 ∧
      ∀ e ∈ rest, e.m_LineElementType = .sentence := by
  unfold parseElements
  cases hf : findStart line (line.length + 1) 0 with
  | error t1 => exact ⟨[], [], by simp, by simp, by simp, by simp⟩
  | ok b =>
    simp only
    obtain ⟨tags, h1, h2⟩ := parseTagBlocks_fst line (line.length + 1) m b
    cases ht : parseTagBlocks line (line.length + 1) m b with
    | mk m1 r =>
      rw [ht] at h1
      simp only at h1
      cases r with
      | error t1 => exact ⟨tags, [], by simp [h1], h2, by simp, by simp⟩
      | ok b1 =>
        simp only
        obtain ⟨rest, g1, g2, g3⟩ := parseSentence_fst line m1 b1
        exact ⟨tags, rest, by rw [g1, h1], h2, g2, g3⟩

/-- C12. After `parseMainStructure` succeeds on a fresh instance, the element list
consists of zero or more tag-block elements followed by at most one sentence element. -/
theorem elements_are_tag_blocks_then_at_most_one_sentence (line : List Nat) (self : Nmea)
    (h : parseMainStructure Nmea.fresh line = (self, .ok ())) :
    ∃ tags rest, self.m_Line = tags ++ rest ∧
      (∀ e ∈ tags, e.m_LineElementType = .tag_block) ∧ rest.length ≤ 1 ∧
      ∀ e ∈ rest, e.m_LineElementType = .sentence := by
  have hne : line ≠ [] := by
    intro h0
    rw [h0] at h
    cases h
  rw [parseMainStructure_eq hne] at h
  obtain ⟨tags, rest, h1, h2, h3, h4⟩ := parseElements_fst line Nmea.fresh.m_Line
  refine ⟨tags, rest, ?_, h2, h3, h4⟩
  have hm : Nmea.fresh.m_Line = [] := rfl
  rw [hm, List.nil_append] at h1
  rw [hm] at h
  split at h
  · cases h
  · injection h with h _
    rw [← h]
    exact h1

set_option maxRecDepth 100000 in
/-- Witness of C12: Example 1, whose element list is one sentence. -/
theorem elements_are_tag_blocks_then_at_most_one_sentence_witness :
    parseMainStructure Nmea.fresh example1 =
      (⟨[⟨example1Views, .sentence, some .parametric, example1⟩], .E000, none⟩, .ok ()) ∧
    ∃ tags rest,
      [(⟨example1Views, .sentence, some .parametric, example1⟩ : TagBlockOrSentence)] =
        tags ++ rest ∧
      (∀ e ∈ tags, e.m_LineElementType = .tag_block) ∧ rest.length ≤ 1 ∧
      ∀ e ∈ rest, e.m_LineElementType = .sentence :=
  ⟨rfl, elements_are_tag_blocks_then_at_most_one_sentence example1
    ⟨[⟨example1Views, .sentence, some .parametric, example1⟩], .E000, none⟩ rfl⟩

/-! ## The search in the reference tables -/

theorem strcmp_self : ∀ (a : List Nat), strcmp a a = 0 := by
  intro a
  induction a with
  | nil => rfl
  | cons x xs ih => rw [strcmp, if_neg (Nat.lt_irrefl x), if_neg (Nat.lt_irrefl x)]; exact ih

theorem matchLoop_result (buff : List Nat) (thrown : Thrown) :
    ∀ (table : List (List Nat)),
      matchLoop buff thrown table = .ok () ∨ matchLoop buff thrown table = .error thrown := by
  intro table
  induction table with
  | nil => exact Or.inr rfl
  | cons e rest ih =>
    rw [matchLoop]
    split
    · exact Or.inl rfl
    · split
      · exact Or.inr rfl
      · exact ih

/-- On a table in strictly ascending order the search finds every entry. -/
theorem matchLoop_of_mem (buff : List Nat) (thrown : Thrown) :
    ∀ (table : List (List Nat)), List.Pairwise (fun a b => strcmp a b < 0) table →
      buff ∈ table → matchLoop buff thrown table = .ok () := by
  intro table
  induction table with
  | nil => intro _ h; cases h
  | cons e rest ih =>
    intro hs hm
    rw [matchLoop]
    rcases List.mem_cons.mp hm with h | h
    · rw [h, if_pos (strcmp_self e)]
    · have hlt : strcmp e buff < 0 := (List.pairwise_cons.mp hs).1 buff h
      rw [if_neg (by omega), if_neg (by omega)]
      exact ih (List.pairwise_cons.mp hs).2 h

set_option maxRecDepth 100000 in
/-- The formatter table is in strictly ascending order. -/
theorem formatters_sorted : List.Pairwise (fun a b => strcmp a b < 0) formatters := by
  decide

/-- Every entry of the formatter table is three bytes, none of them NUL. -/
theorem formatters_all :
    formatters.all (fun e => e.length == 3 && !(e.contains 0)) = true := by
  rfl

theorem cstr3_short {a b c : Nat} (h : a = 0 ∨ b = 0 ∨ c = 0) :
    (cstr [a, b, c, 0]).length < 3 := by
  by_cases ha : a = 0
  · subst ha; simp [cstr, List.takeWhile_cons]
  · by_cases hb : b = 0
    · subst hb; simp [cstr, List.takeWhile_cons, ha]
    · have hc : c = 0 := by omega
      subst hc; simp [cstr, List.takeWhile_cons, ha, hb]

/-- The C string of the buffer is an entry of the table exactly when the three bytes are. -/
theorem cstr3_mem_formatters (a b c : Nat) :
    cstr [a, b, c, 0] ∈ formatters ↔ [a, b, c] ∈ formatters := by
  by_cases h : a = 0 ∨ b = 0 ∨ c = 0
  · constructor
    · intro hm
      have h1 := List.all_eq_true.mp formatters_all _ hm
      simp only [Bool.and_eq_true, beq_iff_eq] at h1
      have := cstr3_short h
      omega
    · intro hm
      have h1 := List.all_eq_true.mp formatters_all _ hm
      simp only [Bool.and_eq_true, beq_iff_eq, Bool.not_eq_true', List.contains_eq_any_beq,
        List.any_cons, List.any_nil, Bool.or_false, Bool.or_eq_false_iff, beq_eq_false_iff_ne,
        ne_eq] at h1
      omega
  · have h1 : a ≠ 0 ∧ b ≠ 0 ∧ c ≠ 0 := by omega
    rw [cstr3 h1.1 h1.2.1 h1.2.2]

/-- C14. The formatter table of `matchSentenceFormatter` is in strictly ascending order,
and `matchSentenceFormatter(ch1, ch2, ch3)` returns normally if and only if the
three-character string is an entry of the table; otherwise it throws the bare
`ErrorCode::E009`, which carries no indication. -/
theorem matchSentenceFormatter_is_membership_in_sorted_table :
    List.Pairwise (fun a b => strcmp a b < 0) formatters ∧
    ∀ ch1 ch2 ch3 : Nat,
      (matchSentenceFormatter ch1 ch2 ch3 = .ok () ↔ [ch1, ch2, ch3] ∈ formatters) ∧
      ([ch1, ch2, ch3] ∉ formatters →
        matchSentenceFormatter ch1 ch2 ch3 = .error (.errorCode .E009)) := by
  refine ⟨formatters_sorted, ?_⟩
  intro ch1 ch2 ch3
  have hiff : matchSentenceFormatter ch1 ch2 ch3 = .ok () ↔ [ch1, ch2, ch3] ∈ formatters := by
    unfold matchSentenceFormatter
    constructor
    · intro h
      exact (cstr3_mem_formatters ch1 ch2 ch3).mp (matchLoop_ok _ _ _ h)
    · intro h
      exact matchLoop_of_mem _ _ _ formatters_sorted ((cstr3_mem_formatters ch1 ch2 ch3).mpr h)
  refine ⟨hiff, ?_⟩
  intro hn
  have hr : matchSentenceFormatter ch1 ch2 ch3 = .ok () ∨
      matchSentenceFormatter ch1 ch2 ch3 = .error (.errorCode .E009) := by
    unfold matchSentenceFormatter
    exact matchLoop_result _ _ _
  rcases hr with h | h
  · exact absurd (hiff.mp h) hn
  · exact h

/-- C13, the failing input. The string `DM` is an entry of the talker table, and
`matchTalker('D', 'M', i)` throws E005: the entry stands after `VD`, out of order, and
the search stops at `EC`, the first entry greater than `DM`. -/
theorem matchTalker_rejects_listed_talker_DM :
    bytes "DM" ∈ talkers ∧
    ∀ i : Option Nat, matchTalker 68 77 i = .error (.exception .E005 i) :=
  ⟨by decide, fun _ => rfl⟩

/-- Every entry of the talker table other than `DM` is accepted. -/
theorem talkers_accepted :
    talkers.all (fun e => match e with
      | [a, b] => e == bytes "DM" ||
          (match matchTalker a b none with
            | .ok _ => true
            | .error _ => false)
      | _ => false) = true := by
  rfl

/-- The talkers `matchTalker` accepts are the entries of its table other than `DM`. -/
theorem matchTalker_ok_iff (ch1 ch2 : Nat) (i : Option Nat) :
    matchTalker ch1 ch2 i = .ok () ↔ [ch1, ch2] ∈ talkers ∧ [ch1, ch2] ≠ bytes "DM" := by
  constructor
  · intro h
    obtain ⟨_, _, _, h1, h2⟩ := matchTalker_ok h
    have hm := matchLoop_ok _ _ _ h
    rw [cstr2 h1 h2] at hm
    refine ⟨hm, ?_⟩
    intro hd
    injection hd with e1 hd
    injection hd with e2 _
    subst e1 e2
    cases h
  · intro ⟨hm, hne⟩
    have ha := List.all_eq_true.mp talkers_accepted _ hm
    simp only [Bool.or_eq_true, beq_iff_eq] at ha
    rcases ha with h | h
    · exact absurd h hne
    · cases hr : matchTalker ch1 ch2 none with
      | error t => rw [hr] at h; cases h
      | ok u => exact matchLoop_ok_any _ _ _ _ hr

/-! ## The dispatch on the formatter -/

/-- The element loop of `parseSpecificContents` passes over tag blocks. -/
theorem forElements_specific_tags :
    ∀ (tags rest : List TagBlockOrSentence),
      (∀ e ∈ tags, e.m_LineElementType = .tag_block) →
      forElements specificContents (tags ++ rest) = forElements specificContents rest := by
  intro tags
  induction tags with
  | nil => intro rest _; rfl
  | cons e tl ih =>
    intro rest h
    have he : specificContents e = .ok () := by
      unfold specificContents
      simp only [h e (List.mem_cons_self _ _)]
    rw [List.cons_append, forElements, he]
    exact ih rest (fun x hx => h x (List.mem_cons_of_mem _ hx))

/-- The keys of the catalog are the 16 keys of the specification, each once. -/
theorem m_Sentences_keys :
    m_Sentences.map Prod.fst = catalogKeys ∧ catalogKeys.Nodup ∧ catalogKeys.length = 16 :=
  ⟨rfl, by decide, rfl⟩

theorem find?_key_none {α : Type} (k : List Nat) :
    ∀ (l : List (List Nat × α)), k ∉ l.map Prod.fst →
      l.find? (fun kv => kv.1 == k) = none := by
  intro l
  induction l with
  | nil => intro _; rfl
  | cons x tl ih =>
    intro h
    rw [List.map_cons, List.mem_cons, not_or] at h
    rw [List.find?_cons]
    have hx : (x.1 == k) = false := by
      rw [beq_eq_false_iff_ne]
      exact fun e => h.1 e.symm
    rw [hx]
    exact ih h.2

theorem find?_key_some {α : Type} (k : List Nat) (s : α) :
    ∀ (l : List (List Nat × α)), (l.map Prod.fst).Nodup → (k, s) ∈ l →
      l.find? (fun kv => kv.1 == k) = some (k, s) := by
  intro l
  induction l with
  | nil => intro _ h; cases h
  | cons x tl ih =>
    intro hn hm
    rw [List.map_cons, List.nodup_cons] at hn
    rw [List.find?_cons]
    rcases List.mem_cons.mp hm with h | h
    · rw [← h]
      simp
    · have hx : (x.1 == k) = false := by
        rw [beq_eq_false_iff_ne]
        intro e
        apply hn.1
        rw [e]
        exact List.mem_map_of_mem Prod.fst h
      rw [hx]
      exact ih hn.2 h

/-- The lookup finds nothing for a string that is not a catalog key. -/
theorem find_none {k : List Nat} (h : k ∉ catalogKeys) : find k = none := by
  unfold find
  rw [find?_key_none k m_Sentences (by rw [m_Sentences_keys.1]; exact h)]
  rfl

/-- The lookup finds the grammar stored under a key. -/
theorem find_of_mem {k : List Nat} {s : Sentence} (h : (k, s) ∈ m_Sentences) :
    find k = some s := by
  unfold find
  rw [find?_key_some k s m_Sentences (by rw [m_Sentences_keys.1]; exact m_Sentences_keys.2.1) h]
  rfl

/-- Every catalog key is three bytes, none of them NUL. -/
theorem catalogKeys_all :
    catalogKeys.all (fun e => e.length == 3 && !(e.contains 0)) = true := by
  rfl

/-- The lookup by the C string of the buffer is the lookup by the three bytes. -/
theorem find_cstr3 (a b c : Nat) : find (cstr [a, b, c, 0]) = find [a, b, c] := by
  by_cases h : a = 0 ∨ b = 0 ∨ c = 0
  · have h1 : cstr [a, b, c, 0] ∉ catalogKeys := by
      intro hm
      have h1 := List.all_eq_true.mp catalogKeys_all _ hm
      simp only [Bool.and_eq_true, beq_iff_eq] at h1
      have := cstr3_short h
      omega
    have h2 : [a, b, c] ∉ catalogKeys := by
      intro hm
      have h1 := List.all_eq_true.mp catalogKeys_all _ hm
      simp only [Bool.and_eq_true, beq_iff_eq, Bool.not_eq_true', List.contains_eq_any_beq,
        List.any_cons, List.any_nil, Bool.or_false, Bool.or_eq_false_iff, beq_eq_false_iff_ne,
        ne_eq] at h1
      omega
    rw [find_none h1, find_none h2]
  · have h1 : a ≠ 0 ∧ b ≠ 0 ∧ c ≠ 0 := by omega
    rw [cstr3 h1.1 h1.2.1 h1.2.2]

/-- The grammar stage on a parametric or encapsulated sentence with an accepted talker. -/
theorem specificContents_dispatch {el : TagBlockOrSentence} {hd : StringView}
    {ch1 ch2 ch3 ch4 ch5 : Nat}
    (hs : el.m_LineElementType = .sentence)
    (hp : el.m_SentenceType = some .parametric ∨ el.m_SentenceType = some .encapsulated)
    (hh : el.m_Splitter.head? = some hd)
    (h1 : hd.at el.buffer 1 = .ok ch1) (h2 : hd.at el.buffer 2 = .ok ch2)
    (h3 : hd.at el.buffer 3 = .ok ch3) (h4 : hd.at el.buffer 4 = .ok ch4)
    (h5 : hd.at el.buffer 5 = .ok ch5)
    (hk : matchTalker ch1 ch2 (hd.addr 1) = .ok ()) :
    specificContents el =
      match find [ch3, ch4, ch5] with
      | some sentence => discard (sentence.parse el.buffer el.m_Splitter (el.m_Splitter.length + 2))
      | none => .error (.exception .E009 (hd.addr 0)) := by
  have hi : idx el.m_Splitter 0 = .ok hd := by
    unfold idx
    cases hsp : el.m_Splitter with
    | nil => rw [hsp] at hh; cases hh
    | cons x tl =>
      rw [hsp] at hh
      simp only [List.head?_cons, Option.some.injEq] at hh
      rw [hh]
      rfl
  unfold specificContents
  simp only [hs]
  rcases hp with hp | hp
  · rw [hp]
    simp only [hi, h1, h2, h3, h4, h5, hk, find_cstr3]
    cases find [ch3, ch4, ch5] with
    | none => rfl
    | some s =>
      simp only
      cases s.parse el.buffer el.m_Splitter (el.m_Splitter.length + 2) <;> rfl
  · rw [hp]
    simp only [hi, h1, h2, h3, h4, h5, hk, find_cstr3]
    cases find [ch3, ch4, ch5] with
    | none => rfl
    | some s =>
      simp only
      cases s.parse el.buffer el.m_Splitter (el.m_Splitter.length + 2) <;> rfl

/-- The elements of a line read into a fresh instance, when one of them is a sentence:
tag blocks followed by that sentence. -/
theorem elements_with_sentence {line : List Nat} {self : Nmea} {el : TagBlockOrSentence}
    (hm : parseMainStructure Nmea.fresh line = (self, .ok ()))
    (he : el ∈ self.m_Line) (hs : el.m_LineElementType = .sentence) :
    ∃ tags, self.m_Line = tags ++ [el] ∧ ∀ e ∈ tags, e.m_LineElementType = .tag_block := by
  have hne : line ≠ [] := by
    intro h0
    rw [h0] at hm
    cases hm
  rw [parseMainStructure_eq hne] at hm
  obtain ⟨tags, rest, g1, g2, g3, _⟩ := parseElements_fst line Nmea.fresh.m_Line
  have hfm : Nmea.fresh.m_Line = [] := rfl
  rw [hfm, List.nil_append] at g1
  rw [hfm] at hm
  have hl : self.m_Line = tags ++ rest := by
    split at hm
    · cases hm
    · injection hm with hm _
      rw [← hm]
      exact g1
  refine ⟨tags, ?_, g2⟩
  rw [hl] at he ⊢
  rcases List.mem_append.mp he with h | h
  · have := g2 el h
    rw [hs] at this
    cases this
  · cases rest with
    | nil => cases h
    | cons x tl =>
      cases tl with
      | nil => rw [List.mem_singleton.mp h]
      | cons y tl2 => simp at g3

/-- C15. For a parametric or encapsulated sentence that passes the tokenizer and the
content validation and whose talker id `matchTalker` accepts: if its three-character
formatter is not one of the 16 catalog keys, `parse` ends with E009 and the indication at
the first header byte; if it is the key of a catalog entry, the result is that of the
entry's `Sentence::parse` on the element's fields. The keys of `m_Sentences` are the 16
keys listed. -/
theorem unknown_formatter_gives_E009_known_runs_its_grammar
    (line : List Nat) (self : Nmea) (el : TagBlockOrSentence) (hd : StringView)
    (ch1 ch2 ch3 ch4 ch5 : Nat)
    (hm : parseMainStructure Nmea.fresh line = (self, .ok ()))
    (hg : parseGeneralContents self = .ok ())
    (he : el ∈ self.m_Line)
    (hs : el.m_LineElementType = .sentence)
    (hp : el.m_SentenceType = some .parametric ∨ el.m_SentenceType = some .encapsulated)
    (hh : el.m_Splitter.head? = some hd)
    (h1 : hd.at el.buffer 1 = .ok ch1) (h2 : hd.at el.buffer 2 = .ok ch2)
    (h3 : hd.at el.buffer 3 = .ok ch3) (h4 : hd.at el.buffer 4 = .ok ch4)
    (h5 : hd.at el.buffer 5 = .ok ch5)
    (hk : matchTalker ch1 ch2 (hd.addr 1) = .ok ()) :
    m_Sentences.map Prod.fst = catalogKeys ∧
    ([ch3, ch4, ch5] ∉ catalogKeys →
      parse Nmea.fresh line =
        .returned { self with m_Error := .E009, m_Indication := hd.addr 0 }) ∧
    (∀ sentence : Sentence, ([ch3, ch4, ch5], sentence) ∈ m_Sentences →
      parse Nmea.fresh line =
        catchAll self
          (discard (sentence.parse el.buffer el.m_Splitter (el.m_Splitter.length + 2)))) := by
  obtain ⟨tags, hl, ht⟩ := elements_with_sentence hm he hs
  have hpar : parse Nmea.fresh line = catchAll self (specificContents el) := by
    unfold parse
    rw [hm]
    simp only [hg]
    unfold parseSpecificContents
    rw [hl, forElements_specific_tags tags [el] ht, forElements, forElements]
    cases specificContents el <;> rfl
  rw [hpar, specificContents_dispatch hs hp hh h1 h2 h3 h4 h5 hk]
  refine ⟨m_Sentences_keys.1, ?_, ?_⟩
  · intro hn
    rw [find_none hn]
    rfl
  · intro sentence hmem
    rw [find_of_mem hmem]

set_option maxRecDepth 100000 in
/-- Witness of C15: Example 3, `$GPXXX,1*52` with CR LF, ends with E009 and the
indication at offset 0. -/
theorem unknown_formatter_gives_E009_known_runs_its_grammar_witness :
    parse Nmea.fresh example3 = .returned ⟨[example3Element], .E009, some 0⟩ :=
  (unknown_formatter_gives_E009_known_runs_its_grammar example3
    ⟨[example3Element], .E000, none⟩ example3Element ⟨some 0, 6⟩ 71 80 88 88 88
    rfl rfl (by decide) rfl (Or.inl rfl) rfl rfl rfl rfl rfl rfl rfl).2.1 (by decide)

/-! ## The single-field validators -/

/-- The method `FieldBase::parse` of a single-field class, with fuel left. -/
theorem Field.parse_single (line : List Nat) (splitter : List StringView) (fuel : Nat)
    (f : Field) (index : Nat) (hf : f.isGroup = false) :
    Field.parse line splitter (fuel + 1) f index =
      if index ≥ checksumIndex splitter then throwE015 splitter
      else Field.doParse line splitter index f := by
  cases f <;> first | rfl | cases hf

/-- With two views or more the checksum index is that of the last view. -/
theorem checksumIndex_eq {splitter : List StringView} (h : 2 ≤ splitter.length) :
    checksumIndex splitter = splitter.length - 1 := by
  unfold checksumIndex
  rw [if_neg (by omega)]

/-- The exception of `FieldBase::parse` points at the checksum field. -/
theorem throwE015_eq {splitter : List StringView} (h : 2 ≤ splitter.length) :
    ∃ last, splitter.getLast? = some last ∧
      throwE015 splitter = .error (.exception .E015 (last.addr 0)) := by
  have hne : splitter ≠ [] := by
    intro h0
    rw [h0] at h
    simp at h
  refine ⟨splitter.getLast hne, List.getLast?_eq_getLast _ hne, ?_⟩
  unfold throwE015 idx
  rw [checksumIndex_eq h, List.get?_eq_getElem?, List.getLast_eq_getElem,
    List.getElem?_eq_getElem (by omega)]

theorem ok_of_unit_step {x : Except Thrown Unit} {j k : Nat}
    (h : (match x with
      | .error t => (.error t : Except Thrown Nat)
      | .ok () => .ok k) = .ok j) : j = k := by
  cases x with
  | error t => cases h
  | ok u => cases h; rfl

theorem LatLong_doParse_ok {line : List Nat} {splitter : List StringView} {index num j : Nat}
    (h : LatLong.doParse line splitter index num = .ok j) : j = index + 1 := by
  unfold LatLong.doParse at h
  repeat' split at h
  all_goals first | (cases h; done) | (cases h; rfl)

theorem Time_doParse_ok {line : List Nat} {splitter : List StringView} {index j : Nat}
    (h : Time.doParse line splitter index = .ok j) : j = index + 1 := by
  unfold Time.doParse at h
  repeat' split at h
  all_goals first | (cases h; done) | (cases h; rfl)

theorem VariableNumbers_doParse_ok {line : List Nat} {splitter : List StringView}
    {index j : Nat} (h : VariableNumbers.doParse line splitter index = .ok j) :
    j = index + 1 := by
  unfold VariableNumbers.doParse at h
  repeat' split at h
  all_goals first | (cases h; done) | (cases h; rfl)

theorem FixedField_doParse_ok {line : List Nat} {splitter : List StringView}
    {index n j : Nat} {ok : Nat → Bool} {e : ErrorCode}
    (h : FixedField.doParse line splitter index n ok e = .ok j) : j = index + 1 := by
  unfold FixedField.doParse at h
  repeat' split at h
  all_goals first | (cases h; done) | (cases h; rfl) | exact ok_of_unit_step h

/-- A single-field `doParse` that returns, returns `index + 1`. -/
theorem Field_doParse_ok {line : List Nat} {splitter : List StringView} {index j : Nat}
    {f : Field} (hf : f.isGroup = false) (h : Field.doParse line splitter index f = .ok j) :
    j = index + 1 := by
  cases f with
  | RepeatableGroup _ _ _ => cases hf
  | Latitude => exact LatLong_doParse_ok h
  | Longitude => exact LatLong_doParse_ok h
  | Time => exact Time_doParse_ok h
  | VariableNumbers => exact VariableNumbers_doParse_ok h
  | FixedNumberField n => exact FixedField_doParse_ok h
  | FixedHexField n => exact FixedField_doParse_ok h
  | Status =>
    simp only [Field.doParse] at h
    repeat' split at h
    all_goals first | (cases h; done) | (cases h; rfl)
  | CharLiterals p l =>
    simp only [Field.doParse] at h
    repeat' split at h
    all_goals first | (cases h; done) | (cases h; rfl)
  | VariableHexField =>
    simp only [Field.doParse] at h
    repeat' split at h
    all_goals first | (cases h; done) | (cases h; rfl)
  | FixedAlphaField n =>
    simp only [Field.doParse] at h
    repeat' split at h
    all_goals first | (cases h; done) | (cases h; rfl)
  | VariableText n =>
    simp only [Field.doParse] at h
    repeat' split at h
    all_goals first | (cases h; done) | (cases h; rfl)
  | FixedTextField n =>
    simp only [Field.doParse] at h
    repeat' split at h
    all_goals first | (cases h; done) | (cases h; rfl)
  | FixedSixBitField n =>
    simp only [Field.doParse] at h
    repeat' split at h
    all_goals first | (cases h; done) | (cases h; rfl)
  | VariableSixBitField =>
    simp only [Field.doParse] at h
    repeat' split at h
    all_goals first | (cases h; done) | (cases h; rfl)

/-- C17. For every single-field validator, every list of at least two views and every
index: at an index of `len - 1` or more, `parse` throws E015 with the indication at the
checksum field, whatever the bytes of the line are; below it, a call that returns,
returns `index + 1`. -/
theorem single_field_validator_E015_or_index_plus_one
    (line : List Nat) (splitter : List StringView) (fuel : Nat) (f : Field) (index : Nat)
    (hf : f.isGroup = false) (h2 : 2 ≤ splitter.length) :
    (index ≥ splitter.length - 1 →
      ∃ last, splitter.getLast? = some last ∧
        ∀ buffer : List Nat, Field.parse buffer splitter (fuel + 1) f index =
          .error (.exception .E015 (last.addr 0))) ∧
    (index < splitter.length - 1 →
      ∀ j, Field.parse line splitter (fuel + 1) f index = .ok j → j = index + 1) := by
  constructor
  · intro hi
    obtain ⟨last, hl, ht⟩ := throwE015_eq h2
    refine ⟨last, hl, ?_⟩
    intro buffer
    rw [Field.parse_single buffer splitter fuel f index hf, checksumIndex_eq h2, if_pos hi]
    exact ht
  · intro hi j h
    rw [Field.parse_single line splitter fuel f index hf, checksumIndex_eq h2,
      if_neg (by omega)] at h
    exact Field_doParse_ok hf h

set_option maxRecDepth 100000 in
/-- Witness of C17: the validator `Time` on the views of Example 1, at the checksum
index 15 and at the index 1 of the field `123519`. -/
theorem single_field_validator_E015_or_index_plus_one_witness :
    (∃ last, example1Views.getLast? = some last ∧
      ∀ buffer : List Nat, Field.parse buffer example1Views 1 .Time 15 =
        .error (.exception .E015 (last.addr 0))) ∧
    Field.parse example1 example1Views 1 .Time 1 = .ok 2 ∧
    ∀ j, Field.parse example1 example1Views 1 .Time 1 = .ok j → j = 1 + 1 :=
  ⟨(single_field_validator_E015_or_index_plus_one example1 example1Views 0 .Time 15 rfl
      (by decide)).1 (by decide),
    rfl,
    (single_field_validator_E015_or_index_plus_one example1 example1Views 0 .Time 1 rfl
      (by decide)).2 (by decide)⟩

/-! ## The loop of `Sentence::parse` -/

theorem forFields_append (parse : Field → Nat → Except Thrown Nat) :
    ∀ (pre post : List Field) (index : Nat),
      forFields parse (pre ++ post) index =
        match forFields parse pre index with
        | .error t => .error t
        | .ok k => forFields parse post k := by
  intro pre
  induction pre with
  | nil => intro post index; rfl
  | cons f tl ih =>
    intro post index
    rw [List.cons_append, forFields, forFields]
    cases parse f index with
    | error t => rfl
    | ok k => exact ih post k

set_option maxRecDepth 100000 in
/-- C16, the counterexample. On the ACK sentence `$GPACK,123,456*59` the one validator of
the grammar succeeds and the loop finishes at index 2, below the checksum index 3;
`Sentence::parse` returns, and `parse` ends with E000. -/
theorem extra_data_fields_are_accepted :
    forFields (fun f j => Field.parse exampleAckTwo exampleAckTwoViews 6 f j) ACK.m_Fields 1
      = .ok 2 ∧
    2 < checksumIndex exampleAckTwoViews ∧
    ACK.parse exampleAckTwo exampleAckTwoViews 6 = .ok 2 ∧
    find (bytes "ACK") = some ACK ∧
    parse Nmea.fresh exampleAckTwo =
      .returned ⟨[⟨exampleAckTwoViews, .sentence, some .parametric, exampleAckTwo⟩],
        .E000, none⟩ :=
  ⟨rfl, by decide, rfl, rfl, rfl⟩

/-- C16, amended. With at least two views, `Sentence::parse` returns whenever all its
validators succeed, at whatever index they finish: data fields beyond those the grammar
consumes are accepted. A sentence with too few data fields is rejected with E015: when
the validators before a single-field validator succeed and finish at the checksum index
or beyond, `Sentence::parse` throws E015 with the indication at the checksum field. -/
theorem Sentence_parse_returns_when_validators_succeed_E015_when_fields_run_out
    (self : Sentence) (line : List Nat) (splitter : List StringView) (fuel : Nat)
    (h2 : 2 ≤ splitter.length) :
    (∀ j, forFields (fun f i => Field.parse line splitter (fuel + 1) f i) self.m_Fields 1
        = .ok j →
      self.parse line splitter (fuel + 1) = .ok j) ∧
    (∀ (pre post : List Field) (f : Field) (k : Nat),
      self.m_Fields = pre ++ f :: post → f.isGroup = false →
      forFields (fun f i => Field.parse line splitter (fuel + 1) f i) pre 1 = .ok k →
      k ≥ splitter.length - 1 →
      ∃ last, splitter.getLast? = some last ∧
        self.parse line splitter (fuel + 1) = .error (.exception .E015 (last.addr 0))) := by
  have hp : self.parse line splitter (fuel + 1) =
      forFields (fun f i => Field.parse line splitter (fuel + 1) f i) self.m_Fields 1 := by
    unfold Sentence.parse
    rw [if_neg (by omega)]
  constructor
  · intro j h
    rw [hp, h]
  · intro pre post f k hm hf hpre hk
    obtain ⟨last, hl, ht⟩ := throwE015_eq h2
    refine ⟨last, hl, ?_⟩
    rw [hp, hm, forFields_append, hpre]
    simp only
    rw [forFields, Field.parse_single line splitter fuel f k hf, checksumIndex_eq h2,
      if_pos hk, ht]

set_option maxRecDepth 100000 in
/-- Witness of the amended C16: the grammar of ACK on a sentence with two data fields
(accepted) and on one without data field (E015 at the checksum field, offset 6). -/
theorem Sentence_parse_returns_when_validators_succeed_E015_when_fields_run_out_witness :
    ACK.parse exampleAckTwo exampleAckTwoViews (5 + 1) = .ok 2 ∧
    ∃ last, exampleAckNoneViews.getLast? = some last ∧
      ACK.parse exampleAckNone exampleAckNoneViews (3 + 1) =
        .error (.exception .E015 (last.addr 0)) :=
  ⟨(Sentence_parse_returns_when_validators_succeed_E015_when_fields_run_out ACK
      exampleAckTwo exampleAckTwoViews 5 (by decide)).1 2 rfl,
    (Sentence_parse_returns_when_validators_succeed_E015_when_fields_run_out ACK
      exampleAckNone exampleAckNoneViews 3 (by decide)).2 [] [] (.FixedTextField 3) 1
      rfl rfl rfl (by decide)⟩

/-! ## Views and their bytes -/

theorem slice_length {line : List Nat} {p n : Nat} (h : p + n ≤ line.length) :
    (slice line p (p + n)).length = n := by
  simp only [slice, List.length_take, List.length_drop]
  omega

theorem slice_getD {line : List Nat} {p n i : Nat} (hi : i < n) :
    (slice line p (p + n)).getD i 0 = line.getD (p + i) 0 := by
  unfold slice
  rw [List.getD_eq_getElem?_getD, List.getD_eq_getElem?_getD, List.getElem?_take_of_lt (by omega),
    List.getElem?_drop]

theorem slice_drop_take {line : List Nat} {p n i k : Nat} (hk : i + k ≤ n) :
    ((slice line p (p + n)).drop i).take k = slice line (p + i) (p + i + k) := by
  unfold slice
  rw [List.drop_take, List.take_take, List.drop_drop]
  congr 1
  omega

/-- A view in the line has as many bytes as its size. -/
theorem StringView.bytes_length {line : List Nat} {v : StringView}
    (h : v.inLine line = true) : (v.bytes line).length = v.size := by
  unfold StringView.inLine at h
  unfold StringView.bytes
  cases hd : v.data with
  | none =>
    rw [hd] at h
    simp only [beq_iff_eq] at h
    simp [h]
  | some p =>
    rw [hd] at h
    simp only [decide_eq_true_eq] at h
    exact slice_length h

/-- A view of positive size in the line is not null. -/
theorem StringView.data_of_size {line : List Nat} {v : StringView}
    (h : v.inLine line = true) (hs : v.size ≠ 0) :
    ∃ p, v.data = some p ∧ p + v.size ≤ line.length := by
  unfold StringView.inLine at h
  cases hd : v.data with
  | none =>
    rw [hd] at h
    simp only [beq_iff_eq] at h
    exact absurd h hs
  | some p =>
    rw [hd] at h
    simp only [decide_eq_true_eq] at h
    exact ⟨p, rfl, h⟩

/-- The byte `field[i]` of a view in the line, for `i` below the size. -/
theorem StringView.at_eq {line : List Nat} {v : StringView} {i : Nat}
    (h : v.inLine line = true) (hi : i < v.size) :
    v.at line i = .ok ((v.bytes line).getD i 0) := by
  obtain ⟨p, hd, hp⟩ := StringView.data_of_size h (by omega)
  unfold StringView.at StringView.bytes
  rw [hd]
  simp only
  rw [rd_ok (by omega), slice_getD hi]

/-- The checking loop over the bytes `i`, ..., `i + n - 1` of a view. -/
theorem allFrom_eq {line : List Nat} {v : StringView} (ok : Nat → Bool) (t : Thrown)
    (h : v.inLine line = true) :
    ∀ (n i : Nat), i + n ≤ v.size →
      allFrom line v ok (fun _ => t) n i =
        if (((v.bytes line).drop i).take n).all ok then .ok () else .error t := by
  intro n
  induction n with
  | zero => intro i _; simp [allFrom]
  | succ n ih =>
    intro i hi
    rw [allFrom, StringView.at_eq h (by omega)]
    simp only
    have hlen := StringView.bytes_length h
    have hdrop : (v.bytes line).drop i =
        (v.bytes line).getD i 0 :: (v.bytes line).drop (i + 1) := by
      rw [List.getD_eq_getElem?_getD, List.getElem?_eq_getElem (by omega), Option.getD_some]
      exact List.drop_eq_getElem_cons (by omega)
    rw [hdrop, List.take_succ_cons, List.all_cons]
    cases hc : ok ((v.bytes line).getD i 0) with
    | false => simp
    | true =>
      simp only [if_true, Bool.true_and]
      exact ih (i + 1) (by omega)

/-- The digit scan over the bytes `i`, ..., `i + n - 1` of a view, all of them digits. -/
theorem digitRun_all {line : List Nat} {v : StringView} (h : v.inLine line = true) :
    ∀ (n i : Nat), i + n ≤ v.size →
      (((v.bytes line).drop i).take n).all isdigit = true →
      digitRun line v n i = .ok (i + n) := by
  intro n
  induction n with
  | zero => intro i _ _; rfl
  | succ n ih =>
    intro i hi hall
    rw [digitRun, StringView.at_eq h (by omega)]
    simp only
    have hlen := StringView.bytes_length h
    have hdrop : (v.bytes line).drop i =
        (v.bytes line).getD i 0 :: (v.bytes line).drop (i + 1) := by
      rw [List.getD_eq_getElem?_getD, List.getElem?_eq_getElem (by omega), Option.getD_some]
      exact List.drop_eq_getElem_cons (by omega)
    rw [hdrop, List.take_succ_cons, List.all_cons, Bool.and_eq_true] at hall
    rw [if_pos hall.1, ih (i + 1) (by omega) hall.2]
    congr 1
    omega

/-- The element `splitter[index]`. -/
theorem idx_of_getElem? {α : Type} {v : List α} {i : Nat} {a : α} (h : v[i]? = some a) :
    idx v i = .ok a := by
  unfold idx
  rw [List.get?_eq_getElem?, h]

/-- A single-field validator at a data field runs its `doParse`. -/
theorem Field.parse_data_field (line : List Nat) (splitter : List StringView) (fuel : Nat)
    (f : Field) (index : Nat) (hf : f.isGroup = false) (hi : index < checksumIndex splitter) :
    Field.parse line splitter (fuel + 1) f index = Field.doParse line splitter index f := by
  rw [Field.parse_single line splitter fuel f index hf, if_neg (by omega)]

theorem slice_one {line : List Nat} {p : Nat} (h : p + 1 ≤ line.length) :
    slice line p (p + 1) = [line.getD p 0] := by
  rw [slice_cons (by omega) (by omega), slice_self]

/-- C18. The validator `Status` at a data field: an empty field fails with E016, a
non-empty field whose length is not 1 fails with E013, the one-byte fields `A` and `V`
are accepted and are the only ones, any other one-byte field fails with E017. The RMC
sentence of Example 6, whose Status field is empty, ends with E016. -/
theorem Status_accepts_exactly_A_and_V
    (line : List Nat) (splitter : List StringView) (fuel index : Nat) (field : StringView)
    (hi : index < checksumIndex splitter) (hf : splitter[index]? = some field)
    (hin : field.inLine line = true) :
    (field.size = 0 → Field.parse line splitter (fuel + 1) .Status index =
      .error (.exception .E016 (field.addr 0))) ∧
    (field.size ≠ 0 → field.size ≠ 1 → Field.parse line splitter (fuel + 1) .Status index =
      .error (.exception .E013 (field.addr 0))) ∧
    (field.size = 1 → field.bytes line ≠ [65] → field.bytes line ≠ [86] →
      Field.parse line splitter (fuel + 1) .Status index =
        .error (.exception .E017 (field.addr 0))) ∧
    (Field.parse line splitter (fuel + 1) .Status index = .ok (index + 1) ↔
      field.bytes line = [65] ∨ field.bytes line = [86]) ∧
    (parse Nmea.fresh example6).errorCode = some .E016 := by
  have hp := Field.parse_data_field line splitter fuel .Status index rfl hi
  simp only [Field.doParse, idx_of_getElem? hf] at hp
  have hlen := StringView.bytes_length hin
  have hone : field.size = 1 →
      field.at line 0 = .ok ((field.bytes line).getD 0 0) ∧
      field.bytes line = [(field.bytes line).getD 0 0] := by
    intro h1
    refine ⟨StringView.at_eq hin (by omega), ?_⟩
    rw [h1] at hlen
    cases hb : field.bytes line with
    | nil => rw [hb] at hlen; cases hlen
    | cons x tl =>
      cases tl with
      | nil => rfl
      | cons y tl2 => rw [hb] at hlen; simp at hlen
  refine ⟨?_, ?_, ?_, ?_, by decide⟩
  · intro h0
    rw [hp, if_pos h0]
  · intro h0 h1
    rw [hp, if_neg h0, if_pos h1]
  · intro h1 hA hV
    obtain ⟨hat, hb⟩ := hone h1
    rw [hp, if_neg (by omega), if_neg (by omega), hat]
    simp only
    generalize (field.bytes line).getD 0 0 = ch at hb
    rw [hb] at hA hV
    have h65 : ch ≠ 65 := fun e => hA (by rw [e])
    have h86 : ch ≠ 86 := fun e => hV (by rw [e])
    simp [h65, h86]
  · rw [hp]
    constructor
    · intro h
      split at h
      · cases h
      · split at h
        · cases h
        · next h0 h1 =>
          obtain ⟨hat, hb⟩ := hone (by omega)
          rw [hat] at h
          simp only at h
          generalize (field.bytes line).getD 0 0 = ch at hb h
          rw [hb]
          split at h
          · next hc =>
            simp only [Bool.or_eq_true, beq_iff_eq] at hc
            rcases hc with hc | hc
            · exact Or.inl (by rw [hc])
            · exact Or.inr (by rw [hc])
          · cases h
    · intro h
      have h1 : field.size = 1 := by
        rcases h with h | h <;> rw [h] at hlen <;> exact hlen.symm
      obtain ⟨hat, hb⟩ := hone h1
      rw [if_neg (by omega), if_neg (by omega), hat]
      simp only
      generalize (field.bytes line).getD 0 0 = ch at hb
      rw [hb] at h
      have hc : ch = 65 ∨ ch = 86 := by
        rcases h with h | h
        · injection h with h _; exact Or.inl h
        · injection h with h _; exact Or.inr h
      rcases hc with hc | hc <;> subst hc <;> rfl

set_option maxRecDepth 100000 in
/-- Witness of C18: the empty Status field of Example 6, at index 2. -/
theorem Status_accepts_exactly_A_and_V_witness :
    Field.parse example6 example6Views 1 .Status 2 = .error (.exception .E016 none) ∧
    parse Nmea.fresh example6 =
      .returned ⟨[⟨example6Views, .sentence, some .parametric, example6⟩], .E016, none⟩ :=
  ⟨(Status_accepts_exactly_A_and_V example6 example6Views 0 2 ⟨none, 0⟩ (by decide) rfl
      rfl).1 rfl, rfl⟩

theorem take_drop_all {l : List Nat} {k m : Nat} (h : l.length ≤ k + m) :
    (l.drop k).take m = l.drop k := by
  apply List.take_of_length_le
  rw [List.length_drop]
  omega

/-- The method `LatLong::doParse` on a field of `num` bytes or more that begins with
`num` digits. -/
theorem LatLong.doParse_digits {line : List Nat} {splitter : List StringView}
    {index num : Nat} {field : StringView}
    (hf : splitter[index]? = some field) (hin : field.inLine line = true)
    (hn : num ≤ field.size) (hd : ((field.bytes line).take num).all isdigit = true) :
    LatLong.doParse line splitter index num =
      if field.size = num ∨ pointAndDigits num (field.bytes line) = true then .ok (index + 1)
      else .error (.exception .E018 (field.addr 0)) := by
  have hlen := StringView.bytes_length hin
  unfold LatLong.doParse
  rw [idx_of_getElem? hf]
  simp only
  rw [if_neg (by omega), digitRun_all hin num 0 (by omega) (by rw [List.drop_zero]; exact hd)]
  simp only [Nat.zero_add]
  by_cases hs : field.size = num
  · rw [if_pos hs, if_pos (Or.inl hs)]
  · rw [if_neg hs, StringView.at_eq hin (by omega)]
    simp only
    rw [allFrom_eq isdigit _ hin (field.size - (num + 1)) (num + 1) (by omega),
      take_drop_all (by omega)]
    unfold pointAndDigits
    generalize (field.bytes line).getD num 0 = ch
    by_cases hc : ch = 46
    · subst hc
      cases hall : ((field.bytes line).drop (num + 1)).all isdigit with
      | false => simp [hs]
      | true => simp
    · have hb : (ch == 46) = false := by simpa using hc
      simp [hs, hb, hc]

/-- C19, the counterexample. The latitude `4807.`, four digits and a point with no digit
after it, is accepted by `Latitude`, and the GLL sentence that carries it ends with
E000. -/
theorem latitude_with_point_and_no_digit_is_accepted :
    StringView.bytes exampleGllPoint ⟨some 7, 5⟩ = bytes "4807." ∧
    exampleGllPointViews[1]? = some ⟨some 7, 5⟩ ∧
    Field.parse exampleGllPoint exampleGllPointViews 1 .Latitude 1 = .ok 2 ∧
    parse Nmea.fresh exampleGllPoint =
      .returned ⟨[⟨exampleGllPointViews, .sentence, some .parametric, exampleGllPoint⟩],
        .E000, none⟩ := by
  refine ⟨by decide, rfl, rfl, ?_⟩
  set_option maxRecDepth 100000 in rfl

/-- C19, amended. The validators `Latitude` (n = 4) and `Longitude` (n = 5) at a data
field: a field shorter than n bytes fails with E013; a field that begins with n decimal
digits is accepted if and only if it has exactly n bytes or the digits are followed by
`.` and decimal digits only, none included, and fails with E018 otherwise. -/
theorem LatLong_accepts_digits_optionally_point_and_digits
    (line : List Nat) (splitter : List StringView) (fuel index : Nat) (field : StringView)
    (f : Field) (n : Nat)
    (hfn : (f = .Latitude ∧ n = 4) ∨ (f = .Longitude ∧ n = 5))
    (hi : index < checksumIndex splitter) (hf : splitter[index]? = some field)
    (hin : field.inLine line = true) :
    (field.size < n → Field.parse line splitter (fuel + 1) f index =
      .error (.exception .E013 (field.addr 0))) ∧
    (n ≤ field.size → ((field.bytes line).take n).all isdigit = true →
      (Field.parse line splitter (fuel + 1) f index = .ok (index + 1) ↔
        field.size = n ∨ pointAndDigits n (field.bytes line) = true) ∧
      (¬ (field.size = n ∨ pointAndDigits n (field.bytes line) = true) →
        Field.parse line splitter (fuel + 1) f index =
          .error (.exception .E018 (field.addr 0)))) := by
  have hg : f.isGroup = false := by
    rcases hfn with ⟨h, _⟩ | ⟨h, _⟩ <;> rw [h] <;> rfl
  have hp : Field.parse line splitter (fuel + 1) f index =
      LatLong.doParse line splitter index n := by
    rw [Field.parse_data_field line splitter fuel f index hg hi]
    rcases hfn with ⟨h, h4⟩ | ⟨h, h5⟩ <;> rw [h] <;> simp only [Field.doParse] <;> subst n <;> rfl
  rw [hp]
  constructor
  · intro hlt
    unfold LatLong.doParse
    rw [idx_of_getElem? hf]
    simp only
    rw [if_pos hlt]
  · intro hn hd
    rw [LatLong.doParse_digits hf hin hn hd]
    constructor
    · constructor
      · intro h
        by_cases hc : field.size = n ∨ pointAndDigits n (field.bytes line) = true
        · exact hc
        · rw [if_neg hc] at h
          cases h
      · intro h
        rw [if_pos h]
    · intro h
      rw [if_neg h]

set_option maxRecDepth 100000 in
/-- Witness of the amended C19: the latitude `4807.038` and the longitude `01131.000` of
Example 1 are accepted. -/
theorem LatLong_accepts_digits_optionally_point_and_digits_witness :
    Field.parse example1 example1Views 1 .Latitude 2 = .ok (2 + 1) ∧
    Field.parse example1 example1Views 1 .Longitude 4 = .ok (4 + 1) :=
  ⟨((LatLong_accepts_digits_optionally_point_and_digits example1 example1Views 0 2
      ⟨some 14, 8⟩ .Latitude 4 (Or.inl ⟨rfl, rfl⟩) (by decide) rfl rfl).2 (by decide)
      (by decide)).1.mpr (Or.inr (by decide)),
    ((LatLong_accepts_digits_optionally_point_and_digits example1 example1Views 0 4
      ⟨some 25, 9⟩ .Longitude 5 (Or.inr ⟨rfl, rfl⟩) (by decide) rfl rfl).2 (by decide)
      (by decide)).1.mpr (Or.inr (by decide))⟩

set_option maxRecDepth 100000 in
/-- The result of the digit scan of `LatLong::doParse` is not used when the field has
exactly n bytes, and is taken for the place of the point otherwise: the latitudes `ABCD`
and `12.345` are accepted. -/
theorem latitude_of_letters_or_two_digits_is_accepted :
    (parse Nmea.fresh exampleGllLetters).errorCode = some .E000 ∧
    (parse Nmea.fresh exampleGllTwoDigits).errorCode = some .E000 :=
  ⟨by decide, by decide⟩

theorem take_min_length {l : List Nat} (k : Nat) : l.take (min k l.length) = l.take k := by
  by_cases h : k ≤ l.length
  · rw [Nat.min_eq_left h]
  · rw [Nat.min_eq_right (by omega), List.take_of_length_le (Nat.le_refl _),
      List.take_of_length_le (by omega)]

/-- The method `Time::doParse` on a view in the line. -/
theorem Time.doParse_eq {line : List Nat} {splitter : List StringView} {index : Nat}
    {field : StringView} (hf : splitter[index]? = some field)
    (hin : field.inLine line = true) :
    Time.doParse line splitter index = fieldResult index field (timeChecks (field.bytes line)) := by
  have hlen := StringView.bytes_length hin
  have htk : (field.bytes line).take (min 6 field.size) = (field.bytes line).take 6 := by
    rw [← hlen]
    exact take_min_length 6
  have hA := allFrom_eq isdigit (.exception .E019 (field.addr 0)) hin (min 6 field.size) 0
    (by omega)
  rw [List.drop_zero, htk] at hA
  have hB : field.size > 6 → field.at line 6 = .ok ((field.bytes line).getD 6 0) :=
    fun h6 => StringView.at_eq hin h6
  have hC : field.size > 7 →
      allFrom line field isdigit (fun _ => .exception .E019 (field.addr 0)) (field.size - 7) 7 =
        if ((field.bytes line).drop 7).all isdigit then .ok () else
          .error (.exception .E019 (field.addr 0)) := by
    intro h7
    rw [allFrom_eq isdigit _ hin (field.size - 7) 7 (by omega), take_drop_all (by omega)]
  have hD : ¬ field.size > 7 → (field.bytes line).drop 7 = [] :=
    fun h7 => List.drop_eq_nil_of_le (by omega)
  unfold Time.doParse
  rw [idx_of_getElem? hf]
  simp only
  rw [hA]
  unfold timeChecks
  rw [hlen]
  generalize (field.bytes line).getD 6 0 = ch at hB
  cases h1 : ((field.bytes line).take 6).all isdigit with
  | false => simp [fieldResult]
  | true =>
    by_cases h6 : field.size > 6
    · rw [if_pos h6, hB h6]
      by_cases hc : ch = 46
      · by_cases h7 : field.size > 7
        · rw [if_pos h7, hC h7]
          cases h2 : ((field.bytes line).drop 7).all isdigit with
          | false => simp [fieldResult, hc]
          | true => simp [fieldResult, hc]
        · rw [if_neg h7, hD h7]
          simp [fieldResult, hc]
      · simp [fieldResult, hc, h6]
    · have h7 : ¬ field.size > 7 := by omega
      rw [if_neg h6, if_neg h7, hD h7]
      simp [fieldResult, h6]

set_option maxRecDepth 100000 in
/-- C20, the counterexample. The time `12`, of two bytes, is accepted by `Time`, and the
ZDA sentence that carries it ends with E000. -/
theorem time_of_two_digits_is_accepted :
    StringView.bytes exampleZdaShort ⟨some 7, 2⟩ = bytes "12" ∧
    exampleZdaShortViews[1]? = some ⟨some 7, 2⟩ ∧
    Field.parse exampleZdaShort exampleZdaShortViews 1 .Time 1 = .ok 2 ∧
    parse Nmea.fresh exampleZdaShort =
      .returned ⟨[⟨exampleZdaShortViews, .sentence, some .parametric, exampleZdaShort⟩],
        .E000, none⟩ :=
  ⟨by decide, rfl, rfl, rfl⟩

/-- C20, amended. The validator `Time` at a data field applies three checks in this
order: the bytes present among the first 6 are decimal digits (otherwise E019), a 7th
byte, if present, is `.` (otherwise E020), and every byte after the 7th is a decimal
digit (otherwise E019). It accepts the field exactly when the three checks pass; the
first 6 bytes need not be present. -/
theorem Time_checks_the_bytes_present_in_order
    (line : List Nat) (splitter : List StringView) (fuel index : Nat) (field : StringView)
    (hi : index < checksumIndex splitter) (hf : splitter[index]? = some field)
    (hin : field.inLine line = true) :
    Field.parse line splitter (fuel + 1) .Time index =
      fieldResult index field (timeChecks (field.bytes line)) := by
  rw [Field.parse_data_field line splitter fuel .Time index rfl hi]
  exact Time.doParse_eq hf hin

set_option maxRecDepth 100000 in
/-- Witness of the amended C20: the time `123519` of Example 1 is accepted. -/
theorem Time_checks_the_bytes_present_in_order_witness :
    timeChecks (StringView.bytes example1 ⟨some 7, 6⟩) = none ∧
    Field.parse example1 example1Views (0 + 1) .Time 1 =
      fieldResult 1 ⟨some 7, 6⟩ (timeChecks (StringView.bytes example1 ⟨some 7, 6⟩)) :=
  ⟨by decide, Time_checks_the_bytes_present_in_order example1 example1Views 0 1 ⟨some 7, 6⟩
    (by decide) rfl rfl⟩

/-! ## The validator `CharLiterals` -/

/-- The constructor of `CharLiterals` does not use its argument: the presence of the
object is `optional` whatever is asked for. -/
theorem CharLiterals_new_is_optional (p : Precence) (l : List Nat) :
    (CharLiterals.new p).add l = .CharLiterals .optional l := by
  rfl

/-- The method `CharLiterals::doParse` at a data field, by the members of the object:
on an empty field the member `m_Precence` decides, on another one the first byte must
be one of the literals. -/
theorem CharLiterals_doParse
    (line : List Nat) (splitter : List StringView) (fuel index : Nat) (field : StringView)
    (p : Precence) (l : List Nat)
    (hi : index < checksumIndex splitter) (hf : splitter[index]? = some field)
    (hin : field.inLine line = true) :
    (field.size = 0 → p = .mandatory →
      Field.parse line splitter (fuel + 1) (.CharLiterals p l) index =
        .error (.exception .E016 (field.addr 0))) ∧
    (field.size = 0 → p = .optional →
      Field.parse line splitter (fuel + 1) (.CharLiterals p l) index = .ok (index + 1)) ∧
    (field.size ≠ 0 →
      Field.parse line splitter (fuel + 1) (.CharLiterals p l) index =
        if (field.bytes line).getD 0 0 ∈ l then .ok (index + 1)
        else .error (.exception .E017 (field.addr 0))) := by
  have hp := Field.parse_data_field line splitter fuel (.CharLiterals p l) index rfl hi
  simp only [Field.doParse, idx_of_getElem? hf] at hp
  refine ⟨?_, ?_, ?_⟩
  · intro h0 hm
    rw [hp, if_pos h0, if_pos hm]
  · intro h0 ho
    rw [hp, if_pos h0, if_neg (by rw [ho]; decide)]
  · intro h0
    rw [hp, if_neg h0]
    cases l with
    | nil => simp
    | cons x tl =>
      rw [if_neg (by simp), StringView.at_eq hin (by omega)]
      simp only
      generalize (field.bytes line).getD 0 0 = ch
      by_cases hm : ch ∈ x :: tl
      · rw [if_pos hm, if_pos]
        rw [List.any_eq_true]
        exact ⟨ch, hm, by simp⟩
      · rw [if_neg hm, if_neg]
        rw [List.any_eq_true]
        intro ⟨y, hy, he⟩
        simp only [beq_iff_eq] at he
        exact hm (he ▸ hy)

set_option maxRecDepth 100000 in
/-- C21, the failing input. The N/S field of the GGA grammar is a `CharLiterals`
constructed with the default presence `mandatory`; the object built is `optional`, its
validator accepts the empty field at index 3, and the GGA sentence with that field
empty ends with E000 instead of E016. -/
theorem mandatory_CharLiterals_accepts_empty_field :
    GGA.m_Fields[2]? = some ((CharLiterals.new .mandatory).add (bytes "NS")) ∧
    (CharLiterals.new .mandatory).add (bytes "NS") = .CharLiterals .optional (bytes "NS") ∧
    exampleGgaNoHemisphereViews[3]? = some ⟨none, 0⟩ ∧
    Field.parse exampleGgaNoHemisphere exampleGgaNoHemisphereViews 1
      ((CharLiterals.new .mandatory).add (bytes "NS")) 3 = .ok 4 ∧
    parse Nmea.fresh exampleGgaNoHemisphere =
      .returned ⟨[⟨exampleGgaNoHemisphereViews, .sentence, some .parametric,
        exampleGgaNoHemisphere⟩], .E000, none⟩ :=
  ⟨rfl, rfl, rfl, rfl, rfl⟩

/-! ## The validators `FixedNumberField` and `FixedHexField` -/

/-- The checking loop over all the bytes of a view. -/
theorem allFrom_all {line : List Nat} {v : StringView} (ok : Nat → Bool) (t : Thrown)
    (h : v.inLine line = true) :
    allFrom line v ok (fun _ => t) v.size 0 =
      if (v.bytes line).all ok then .ok () else .error t := by
  have hlen := StringView.bytes_length h
  rw [allFrom_eq ok t h v.size 0 (by omega), List.drop_zero,
    List.take_of_length_le (by omega)]

/-- The view `std::string_view(&(field[1]), field.size() - 1)` of a non-empty view. -/
theorem StringView.tail_view {line : List Nat} {v : StringView}
    (h : v.inLine line = true) (hs : v.size ≠ 0) :
    StringView.inLine line ⟨v.addr 1, v.size - 1⟩ = true ∧
    StringView.bytes line ⟨v.addr 1, v.size - 1⟩ = (v.bytes line).tail ∧
    StringView.addr ⟨v.addr 1, v.size - 1⟩ 0 = v.addr 1 := by
  obtain ⟨p, hd, hp⟩ := StringView.data_of_size h hs
  have ha : v.addr 1 = some (p + 1) := by
    unfold StringView.addr
    rw [hd]
  have hvb : v.bytes line = slice line p (p + v.size) := by
    unfold StringView.bytes
    rw [hd]
  rw [ha, hvb]
  refine ⟨?_, ?_, rfl⟩
  · show decide (p + 1 + (v.size - 1) ≤ line.length) = true
    simp only [decide_eq_true_eq]
    omega
  · show slice line (p + 1) (p + 1 + (v.size - 1)) = (slice line p (p + v.size)).tail
    rw [slice_cons (show p < line.length by omega) (show p < p + v.size by omega),
      List.tail_cons]
    congr 1
    omega

/-- A non-empty view in the line: its bytes are the first one and the others. -/
theorem StringView.bytes_cons {line : List Nat} {v : StringView}
    (h : v.inLine line = true) (hs : v.size ≠ 0) :
    v.bytes line = (v.bytes line).getD 0 0 :: (v.bytes line).tail := by
  have hlen := StringView.bytes_length h
  cases hb : v.bytes line with
  | nil => rw [hb] at hlen; exact absurd hlen.symm hs
  | cons x tl => rfl

/-- The common body of `FixedNumberField::doParse` and `FixedHexField::doParse` on a
view in the line, by the bytes of the field. -/
theorem FixedField_doParse_eq {line : List Nat} {splitter : List StringView}
    {index n : Nat} {field : StringView} (ok : Nat → Bool) (e : ErrorCode)
    (hf : splitter[index]? = some field) (hin : field.inLine line = true) :
    FixedField.doParse line splitter index n ok e =
      if field.bytes line = [] then .ok (index + 1)
      else if (field.bytes line).head? = some 45 then
        if (field.bytes line).length ≠ n + 1 then .error (.exception .E013 (field.addr 0))
        else if (field.bytes line).tail.all ok then .ok (index + 1)
        else .error (.exception e (field.addr 1))
      else
        if (field.bytes line).length ≠ n then .error (.exception .E013 (field.addr 0))
        else if (field.bytes line).all ok then .ok (index + 1)
        else .error (.exception e (field.addr 0)) := by
  have hlen := StringView.bytes_length hin
  unfold FixedField.doParse
  rw [idx_of_getElem? hf]
  simp only
  by_cases h0 : field.size = 0
  · have hb : field.bytes line = [] := List.length_eq_zero.mp (by omega)
    rw [if_pos h0, if_pos hb]
  · have hb : field.bytes line ≠ [] := fun hb => h0 (by rw [← hlen, hb]; rfl)
    obtain ⟨hwin, hwb, hwa⟩ := StringView.tail_view hin h0
    have hcons := StringView.bytes_cons hin h0
    rw [if_neg h0, if_neg hb, StringView.at_eq hin (by omega), hlen]
    simp only
    rw [allFrom_all ok _ hwin, allFrom_all ok _ hin, hwb, hwa]
    generalize (field.bytes line).getD 0 0 = ch at hcons
    have hhead : (field.bytes line).head? = some ch := by rw [hcons]; rfl
    rw [hhead]
    by_cases hc : ch = 45
    · subst hc
      simp only [beq_self_eq_true, if_true]
      by_cases hl : field.size = n + 1
      · simp only [hl, ne_eq, not_true_eq_false, if_false]
        cases (field.bytes line).tail.all ok <;> rfl
      · simp only [ne_eq, hl, not_false_eq_true, if_true]
    · have hbeq : (ch == 45) = false := by simpa using hc
      have hne : ¬ (some ch = some 45) := by simpa using hc
      rw [hbeq, if_neg hne]
      simp only [Bool.false_eq_true, if_false]
      by_cases hl : field.size = n
      · simp only [hl, ne_eq, not_true_eq_false, if_false]
        cases (field.bytes line).all ok <;> rfl
      · simp only [ne_eq, hl, not_false_eq_true, if_true]

/-- C22. The validator `FixedNumberField(n)` at a data field accepts the field if and
only if it is empty, or is exactly n decimal digits, or is `-` followed by exactly n
decimal digits. A non-empty field of the wrong length (n + 1 with a leading `-`, n
otherwise) fails with E013, whatever its other bytes are; a field of the right length
with a byte that is not a digit fails with E018. -/
theorem FixedNumberField_accepts_empty_or_n_digits_with_optional_minus
    (line : List Nat) (splitter : List StringView) (fuel index : Nat) (field : StringView)
    (n : Nat)
    (hi : index < checksumIndex splitter) (hf : splitter[index]? = some field)
    (hin : field.inLine line = true) :
    (Field.parse line splitter (fuel + 1) (.FixedNumberField n) index = .ok (index + 1) ↔
      field.bytes line = [] ∨
      ((field.bytes line).length = n ∧ (field.bytes line).all isdigit = true) ∨
      ∃ d, field.bytes line = 45 :: d ∧ d.length = n ∧ d.all isdigit = true) ∧
    (∀ d, field.bytes line = 45 :: d → d.length ≠ n →
      Field.parse line splitter (fuel + 1) (.FixedNumberField n) index =
        .error (.exception .E013 (field.addr 0))) ∧
    (∀ ch d, field.bytes line = ch :: d → ch ≠ 45 → (ch :: d).length ≠ n →
      Field.parse line splitter (fuel + 1) (.FixedNumberField n) index =
        .error (.exception .E013 (field.addr 0))) ∧
    (∀ d, field.bytes line = 45 :: d → d.length = n → d.all isdigit = false →
      Field.parse line splitter (fuel + 1) (.FixedNumberField n) index =
        .error (.exception .E018 (field.addr 1))) ∧
    (∀ ch d, field.bytes line = ch :: d → ch ≠ 45 → (ch :: d).length = n →
      (ch :: d).all isdigit = false →
      Field.parse line splitter (fuel + 1) (.FixedNumberField n) index =
        .error (.exception .E018 (field.addr 0))) := by
  have hp : Field.parse line splitter (fuel + 1) (.FixedNumberField n) index =
      FixedField.doParse line splitter index n isdigit .E018 :=
    Field.parse_data_field line splitter fuel (.FixedNumberField n) index rfl hi
  rw [hp, FixedField_doParse_eq isdigit .E018 hf hin]
  generalize field.bytes line = b
  refine ⟨?_, ?_, ?_, ?_, ?_⟩
  · cases b with
    | nil => simp
    | cons ch d =>
      by_cases hc : ch = 45
      · subst hc
        have h45 : isdigit 45 = false := by decide
        by_cases hl : d.length = n
        · cases hd : d.all isdigit <;> simp [hl, h45]
        · simp [hl, h45]
      · by_cases hl : d.length + 1 = n
        · cases hd : (ch :: d).all isdigit <;> simp [hl, hc]
        · simp [hl, hc]
  · intro d hb hl
    subst hb
    simp [hl]
  · intro ch d hb hc hl
    subst hb
    have hl2 : d.length + 1 ≠ n := by simpa using hl
    simp [hc, hl2]
  · intro d hb hl hd
    subst hb
    have hd2 : ¬ (∀ x ∈ d, isdigit x = true) := by
      intro h
      rw [List.all_eq_true.mpr h] at hd
      cases hd
    simp [hl, hd2]
  · intro ch d hb hc hl hd
    subst hb
    have hl2 : d.length + 1 = n := by simpa using hl
    have hd2 : ¬ (isdigit ch = true ∧ ∀ x ∈ d, isdigit x = true) := by
      intro h
      have : (ch :: d).all isdigit = true := by
        rw [List.all_cons, Bool.and_eq_true]
        exact ⟨h.1, List.all_eq_true.mpr h.2⟩
      rw [this] at hd
      cases hd
    simp [hc, hl2, hd2]

set_option maxRecDepth 100000 in
/-- Witness of C22: the month `01` of the ZDA sentence `$GPZDA,12,01,01,2020,00,00*4B`
under `FixedNumberField(2)`, at index 2. -/
theorem FixedNumberField_accepts_empty_or_n_digits_with_optional_minus_witness :
    StringView.bytes exampleZdaShort ⟨some 10, 2⟩ = bytes "01" ∧
    Field.parse exampleZdaShort exampleZdaShortViews (0 + 1) (.FixedNumberField 2) 2 =
      .ok (2 + 1) :=
  ⟨by decide,
    (FixedNumberField_accepts_empty_or_n_digits_with_optional_minus exampleZdaShort
      exampleZdaShortViews 0 2 ⟨some 10, 2⟩ 2 (by decide) rfl rfl).1.mpr
      (Or.inr (Or.inl ⟨by decide, by decide⟩))⟩

/-! ## The validator `VariableNumbers` -/

theorem drop_takeWhile_length (p : Nat → Bool) :
    ∀ (l : List Nat), l.drop (l.takeWhile p).length = l.dropWhile p := by
  intro l
  induction l with
  | nil => rfl
  | cons x tl ih =>
    rw [List.takeWhile_cons, List.dropWhile_cons]
    cases p x with
    | false => rfl
    | true => exact ih

theorem dropWhile_append_all (p : Nat → Bool) :
    ∀ (l r : List Nat), l.all p = true → (l ++ r).dropWhile p = r.dropWhile p := by
  intro l
  induction l with
  | nil => intro r _; rfl
  | cons x tl ih =>
    intro r h
    rw [List.all_cons, Bool.and_eq_true] at h
    rw [List.cons_append, List.dropWhile_cons, h.1]
    exact ih r h.2

theorem takeWhile_all (p : Nat → Bool) (l : List Nat) : (l.takeWhile p).all p = true := by
  rw [List.all_eq_true]
  intro x hx
  exact (List.mem_takeWhile_imp hx)

theorem drop_cons_getD {l : List Nat} {i : Nat} (h : i < l.length) :
    l.drop i = l.getD i 0 :: l.drop (i + 1) := by
  rw [List.getD_eq_getElem?_getD, List.getElem?_eq_getElem h, Option.getD_some]
  exact List.drop_eq_getElem_cons h

/-- The digit scan over the bytes `i`, ..., `i + n - 1` of a view stops at the first byte
that is not a digit. -/
theorem digitRun_eq {line : List Nat} {v : StringView} (h : v.inLine line = true) :
    ∀ (n i : Nat), i + n ≤ v.size →
      digitRun line v n i =
        .ok (i + ((((v.bytes line).drop i).take n).takeWhile isdigit).length) := by
  intro n
  induction n with
  | zero => intro i _; simp [digitRun]
  | succ n ih =>
    intro i hi
    have hlen := StringView.bytes_length h
    rw [digitRun, StringView.at_eq h (by omega), drop_cons_getD (by omega),
      List.take_succ_cons, List.takeWhile_cons]
    simp only
    cases hc : isdigit ((v.bytes line).getD i 0) with
    | false => simp
    | true =>
      simp only [if_true, List.length_cons]
      rw [ih (i + 1) (by omega)]
      congr 1
      omega

/-- The method `VariableNumbers::doParse` on a view in the line, by the bytes of the
field. -/
theorem VariableNumbers_doParse_eq {line : List Nat} {splitter : List StringView}
    {index : Nat} {field : StringView}
    (hf : splitter[index]? = some field) (hin : field.inLine line = true) :
    VariableNumbers.doParse line splitter index =
      if numberShape (field.bytes line) = true then .ok (index + 1)
      else .error (.exception .E018 (field.addr 0)) := by
  have hlen := StringView.bytes_length hin
  unfold VariableNumbers.doParse
  rw [idx_of_getElem? hf]
  simp only
  split
  · next t heq =>
    exfalso
    by_cases h0 : field.size > 0
    · rw [if_pos h0, StringView.at_eq hin h0] at heq
      cases heq
    · rw [if_neg h0] at heq
      cases heq
  next s heq =>
  -- the place `s` after the sign and the bytes from there
  have hsign : s ≤ field.size ∧ (field.bytes line).drop s = dropSign (field.bytes line) := by
    by_cases h0 : field.size > 0
    · have hcons := StringView.bytes_cons hin (by omega)
      rw [if_pos h0, StringView.at_eq hin h0] at heq
      simp only at heq
      generalize (field.bytes line).getD 0 0 = ch at hcons heq
      injection heq with heq
      by_cases hc : ch = 45
      · have h1 : s = 1 := by rw [← heq]; simp [hc]
        subst h1
        refine ⟨by omega, ?_⟩
        unfold dropSign
        rw [if_pos (by rw [hcons, hc]; rfl), List.drop_one]
      · have h1 : s = 0 := by rw [← heq]; simp [hc]
        subst h1
        refine ⟨by omega, ?_⟩
        unfold dropSign
        rw [if_neg (by rw [hcons]; simpa using hc), List.drop_zero]
    · rw [if_neg h0] at heq
      injection heq with heq
      subst heq
      refine ⟨by omega, ?_⟩
      have hb : field.bytes line = [] := List.length_eq_zero.mp (by omega)
      rw [hb]
      rfl
  obtain ⟨hs, hdrop⟩ := hsign
  rw [digitRun_eq hin (field.size - s) s (by omega), take_drop_all (by omega), hdrop]
  simp only
  have hrest := drop_takeWhile_length isdigit (dropSign (field.bytes line))
  rw [← hdrop, List.drop_drop] at hrest
  rw [← hdrop]
  generalize hj : s + (((field.bytes line).drop s).takeWhile isdigit).length = j
    at hrest
  have hjle : j ≤ field.size := by
    have := (List.takeWhile_prefix isdigit (l := (field.bytes line).drop s)).length_le
    rw [List.length_drop] at this
    omega
  unfold numberShape
  rw [hdrop] at hrest
  rw [← hrest]
  by_cases hend : j = field.size
  · rw [if_pos hend, List.drop_eq_nil_of_le (by omega)]
    rfl
  · rw [if_neg hend, StringView.at_eq hin (by omega), drop_cons_getD (by omega)]
    simp only
    rw [allFrom_eq isdigit _ hin (field.size - (j + 1)) (j + 1) (by omega),
      take_drop_all (by omega)]
    generalize (field.bytes line).getD j 0 = ch
    by_cases hc : ch = 46
    · subst hc
      by_cases hd : ((field.bytes line).drop (j + 1)).all isdigit = true
      · simp [hd]
      · simp [hd]
    · have hb : (ch == 46) = false := by simpa using hc
      simp [hb, hc]

/-- The shape of a variable number, spelled out: an optional `-`, digits, and then
nothing or a `.` followed by digits. -/
theorem numberShape_iff (b : List Nat) :
    numberShape b = true ↔
      ∃ sign digits frac, b = sign ++ digits ++ frac ∧ (sign = [] ∨ sign = [45]) ∧
        digits.all isdigit = true ∧
        (frac = [] ∨ ∃ d, frac = 46 :: d ∧ d.all isdigit = true) := by
  constructor
  · intro h
    refine ⟨if b.head? = some 45 then [45] else [], (dropSign b).takeWhile isdigit,
      (dropSign b).dropWhile isdigit, ?_, ?_, takeWhile_all isdigit _, ?_⟩
    · rw [List.append_assoc, List.takeWhile_append_dropWhile]
      unfold dropSign
      by_cases h45 : b.head? = some 45
      · rw [if_pos h45, if_pos h45]
        cases b with
        | nil => cases h45
        | cons x tl =>
          simp only [List.head?_cons, Option.some.injEq] at h45
          rw [h45]
          rfl
      · rw [if_neg h45, if_neg h45]
        rfl
    · by_cases h45 : b.head? = some 45
      · exact Or.inr (if_pos h45)
      · exact Or.inl (if_neg h45)
    · unfold numberShape at h
      cases hr : (dropSign b).dropWhile isdigit with
      | nil => exact Or.inl rfl
      | cons ch rest =>
        rw [hr] at h
        simp only [Bool.and_eq_true, beq_iff_eq] at h
        exact Or.inr ⟨rest, by rw [h.1], h.2⟩
  · intro ⟨sign, digits, frac, hb, hsign, hd, hfrac⟩
    have hdw : (digits ++ frac).dropWhile isdigit = frac := by
      rw [dropWhile_append_all isdigit digits frac hd]
      rcases hfrac with h | ⟨d, h, _⟩
      · rw [h]
        rfl
      · rw [h]
        rfl
    have hds : dropSign b = digits ++ frac := by
      unfold dropSign
      rcases hsign with h | h
      · rw [h, List.nil_append] at hb
        rw [hb, if_neg]
        cases digits with
        | nil =>
          rcases hfrac with h | ⟨d, h, _⟩
          · rw [h]
            simp
          · rw [h]
            simp
        | cons x tl =>
          rw [List.all_cons, Bool.and_eq_true] at hd
          intro h45
          simp only [List.cons_append, List.head?_cons, Option.some.injEq] at h45
          rw [h45] at hd
          exact absurd hd.1 (by decide)
      · rw [h, List.append_assoc] at hb
        rw [hb]
        rfl
    unfold numberShape
    rw [hds, hdw]
    rcases hfrac with h | ⟨d, h, hd2⟩
    · rw [h]
    · rw [h]
      simp only [beq_self_eq_true, Bool.true_and]
      exact hd2

/-- C23. The validator `VariableNumbers` at a data field accepts the field if and only
if it has the shape: an optional leading `-`, then zero or more decimal digits, then
optionally a `.` followed by zero or more decimal digits; every other field fails with
E018. The empty field, `-`, `5.` and `.5` have the shape. -/
theorem VariableNumbers_accepts_optional_minus_digits_optional_point_digits
    (line : List Nat) (splitter : List StringView) (fuel index : Nat) (field : StringView)
    (hi : index < checksumIndex splitter) (hf : splitter[index]? = some field)
    (hin : field.inLine line = true) :
    (Field.parse line splitter (fuel + 1) .VariableNumbers index = .ok (index + 1) ↔
      ∃ sign digits frac, field.bytes line = sign ++ digits ++ frac ∧
        (sign = [] ∨ sign = [45]) ∧ digits.all isdigit = true ∧
        (frac = [] ∨ ∃ d, frac = 46 :: d ∧ d.all isdigit = true)) ∧
    (Field.parse line splitter (fuel + 1) .VariableNumbers index = .ok (index + 1) ∨
      Field.parse line splitter (fuel + 1) .VariableNumbers index =
        .error (.exception .E018 (field.addr 0))) ∧
    numberShape [] = true ∧ numberShape (bytes "-") = true ∧
    numberShape (bytes "5.") = true ∧ numberShape (bytes ".5") = true := by
  have hp : Field.parse line splitter (fuel + 1) .VariableNumbers index =
      VariableNumbers.doParse line splitter index :=
    Field.parse_data_field line splitter fuel .VariableNumbers index rfl hi
  rw [hp, VariableNumbers_doParse_eq hf hin, ← numberShape_iff]
  refine ⟨?_, ?_, by decide, by decide, by decide, by decide⟩
  · by_cases h : numberShape (field.bytes line) = true
    · rw [if_pos h]
      exact ⟨fun _ => h, fun _ => rfl⟩
    · rw [if_neg h]
      exact Iff.intro (fun h1 => by cases h1) (fun h1 => absurd h1 h)
  · by_cases h : numberShape (field.bytes line) = true
    · rw [if_pos h]
      exact Or.inl rfl
    · rw [if_neg h]
      exact Or.inr rfl

set_option maxRecDepth 100000 in
/-- Witness of C23: the field `0.9` of Example 1, at index 8, is accepted. -/
theorem VariableNumbers_accepts_optional_minus_digits_optional_point_digits_witness :
    StringView.bytes example1 ⟨some 42, 3⟩ = bytes "0.9" ∧
    Field.parse example1 example1Views (0 + 1) .VariableNumbers 8 = .ok (8 + 1) :=
  ⟨by decide,
    (VariableNumbers_accepts_optional_minus_digits_optional_point_digits example1
      example1Views 0 8 ⟨some 42, 3⟩ (by decide) rfl rfl).1.mpr
      ⟨[], [48], [46, 57], by decide, Or.inl rfl, by decide, Or.inr ⟨[57], rfl, by decide⟩⟩⟩

/-! ## The method `RepeatableGroup::parse` -/

/-- The case `zero_or_one` of `RepeatableGroup::parse`: the only child called is
`m_Fields[0]`. -/
theorem zero_or_one_eq (line : List Nat) (splitter : List StringView) (fuel n : Nat)
    (f : Field) (rest : List Field) (index : Nat) :
    Field.parse line splitter (fuel + 1) (.RepeatableGroup .zero_or_one n (f :: rest)) index =
      if index < checksumIndex splitter then
        match idx splitter index with
        | .error t => .error t
        | .ok field =>
          if field.size ≠ 0 then Field.parse line splitter fuel f index else .ok index
      else .ok index := by
  rfl

/-- The cases `zero_or_more` and `one_or_more` of `RepeatableGroup::parse`. -/
theorem zero_or_more_eq (line : List Nat) (splitter : List StringView) (fuel n : Nat)
    (fields : List Field) (index : Nat) :
    Field.parse line splitter (fuel + 1) (.RepeatableGroup .zero_or_more n fields) index =
      whileFields (checksumIndex splitter)
        (forFields (fun f i => Field.parse line splitter fuel f i) fields) fuel index := by
  rfl

theorem one_or_more_eq (line : List Nat) (splitter : List StringView) (fuel n : Nat)
    (fields : List Field) (index : Nat) :
    Field.parse line splitter (fuel + 1) (.RepeatableGroup .one_or_more n fields) index =
      if index ≥ checksumIndex splitter then throwE015 splitter
      else whileFields (checksumIndex splitter)
        (forFields (fun f i => Field.parse line splitter fuel f i) fields) fuel index := by
  rfl

/-- The group `zero_or_one` returns the index unchanged, without error, when no data
field remains or the field at the index is empty; on a non-empty data field its result
is that of its first child. -/
theorem zero_or_one_group_result (line : List Nat) (splitter : List StringView)
    (fuel n : Nat) (f : Field) (rest : List Field) (index : Nat) (field : StringView)
    (hf : splitter[index]? = some field) :
    (¬ index < checksumIndex splitter ∨ field.size = 0 →
      Field.parse line splitter (fuel + 1) (.RepeatableGroup .zero_or_one n (f :: rest)) index
        = .ok index) ∧
    (index < checksumIndex splitter → field.size ≠ 0 →
      Field.parse line splitter (fuel + 1) (.RepeatableGroup .zero_or_one n (f :: rest)) index
        = Field.parse line splitter fuel f index) := by
  rw [zero_or_one_eq, idx_of_getElem? hf]
  constructor
  · intro h
    by_cases hi : index < checksumIndex splitter
    · rcases h with h | h
      · exact absurd hi h
      · rw [if_pos hi]
        simp only
        rw [if_neg (by omega)]
    · rw [if_neg hi]
  · intro hi hs
    rw [if_pos hi]
    simp only
    rw [if_pos hs]

/-- The exception of `FieldBase::parse` is not a normal return. -/
theorem throwE015_ne_ok (splitter : List StringView) (j : Nat) :
    throwE015 splitter ≠ .ok j := by
  unfold throwE015
  cases idx splitter (checksumIndex splitter) with
  | error t => intro h; cases h
  | ok field => intro h; cases h

/-- A single-field validator that returns was called below the checksum index and
returns `index + 1`. -/
theorem single_ok {line : List Nat} {splitter : List StringView} {fuel : Nat} {f : Field}
    {i j : Nat} (hf : f.isGroup = false)
    (h : Field.parse line splitter (fuel + 1) f i = .ok j) :
    i < checksumIndex splitter ∧ j = i + 1 := by
  rw [Field.parse_single line splitter fuel f i hf] at h
  by_cases hi : i ≥ checksumIndex splitter
  · rw [if_pos hi] at h
    exact absurd h (throwE015_ne_ok splitter j)
  · rw [if_neg hi] at h
    exact ⟨by omega, Field_doParse_ok hf h⟩

/-- A pass over single-field children that completes advances the index by their
number and stays within the data fields. -/
theorem pass_ok {line : List Nat} {splitter : List StringView} {fuel : Nat} :
    ∀ (fields : List Field) (i j : Nat), (∀ f ∈ fields, f.isGroup = false) →
      forFields (fun f i => Field.parse line splitter (fuel + 1) f i) fields i = .ok j →
      j = i + fields.length ∧ (fields ≠ [] → j ≤ checksumIndex splitter) := by
  intro fields
  induction fields with
  | nil =>
    intro i j _ h
    rw [forFields] at h
    injection h with h
    exact ⟨by rw [← h]; rfl, fun hne => absurd rfl hne⟩
  | cons f tl ih =>
    intro i j hs h
    rw [forFields] at h
    cases hp : Field.parse line splitter (fuel + 1) f i with
    | error t => rw [hp] at h; cases h
    | ok i1 =>
      rw [hp] at h
      simp only at h
      obtain ⟨hlt, h1⟩ := single_ok (hs f (List.mem_cons_self _ _)) hp
      obtain ⟨h2, h3⟩ := ih i1 j (fun x hx => hs x (List.mem_cons_of_mem _ hx)) h
      refine ⟨by rw [h2, h1, List.length_cons]; omega, fun _ => ?_⟩
      cases tl with
      | nil =>
        rw [h2, h1]
        simp only [List.length_nil]
        omega
      | cons g tl2 => exact h3 (by simp)

/-- The `while` loop over passes that advance by `k`, from an index not beyond the
checksum index: when it returns, it returns the checksum index, and the fields consumed
are a multiple of `k`. -/
theorem whileFields_ok {cs k : Nat} {body : Nat → Except Thrown Nat}
    (hbody : ∀ i j, body i = .ok j → j = i + k ∧ j ≤ cs) :
    ∀ (m i j : Nat), i ≤ cs → whileFields cs body m i = .ok j → j = cs ∧ k ∣ (j - i) := by
  intro m
  induction m with
  | zero =>
    intro i j hi h
    rw [whileFields] at h
    split at h
    · cases h
    · injection h with h
      subst h
      exact ⟨by omega, by simp⟩
  | succ m ih =>
    intro i j hi h
    rw [whileFields] at h
    split at h
    · next hlt =>
      cases hb : body i with
      | error t => rw [hb] at h; cases h
      | ok i1 =>
        rw [hb] at h
        simp only at h
        obtain ⟨h1, h2⟩ := hbody i i1 hb
        obtain ⟨h3, h4⟩ := ih i1 j h2 h
        refine ⟨h3, ?_⟩
        have : j - i = (j - i1) + k := by omega
        rw [this]
        exact Dvd.dvd.add h4 (dvd_refl k)
    · injection h with h
      subst h
      exact ⟨by omega, by simp⟩

/-- After `m` complete passes the `while` loop goes on from the index reached. -/
theorem whileFields_after {cs : Nat} {body : Nat → Except Thrown Nat}
    (hbody : ∀ i j, body i = .ok j → i < cs) :
    ∀ (m r i j : Nat), repeatFields body m i = .ok j →
      whileFields cs body (m + r) i = whileFields cs body r j := by
  intro m
  induction m with
  | zero =>
    intro r i j h
    rw [repeatFields] at h
    injection h with h
    rw [h, Nat.zero_add]
  | succ m ih =>
    intro r i j h
    rw [repeatFields] at h
    cases hb : body i with
    | error t => rw [hb] at h; cases h
    | ok i1 =>
      rw [hb] at h
      simp only at h
      have hlt := hbody i i1 hb
      have : m + 1 + r = (m + r) + 1 := by omega
      rw [this, whileFields, if_pos hlt, hb]
      exact ih r i1 j h

/-- A pass in which the children before a single-field child use up the data fields
throws E015 at the checksum field. -/
theorem pass_partial {line : List Nat} {splitter : List StringView} {fuel : Nat}
    {pre : List Field} (post : List Field) {f : Field} {i : Nat} (h2 : 2 ≤ splitter.length)
    (hf : f.isGroup = false)
    (hpre : forFields (fun f i => Field.parse line splitter (fuel + 1) f i) pre i =
      .ok (checksumIndex splitter)) :
    forFields (fun f i => Field.parse line splitter (fuel + 1) f i) (pre ++ f :: post) i =
      throwE015 splitter := by
  obtain ⟨last, _, ht⟩ := throwE015_eq h2
  rw [forFields_append, hpre]
  simp only
  rw [forFields, Field.parse_single line splitter fuel f _ hf, if_pos (Nat.le_refl _), ht]

/-- A run of complete passes that ends below the checksum index began below it. -/
theorem repeatFields_start_lt {cs : Nat} {body : Nat → Except Thrown Nat}
    (hbody : ∀ i j, body i = .ok j → i < cs) {m i j : Nat}
    (h : repeatFields body m i = .ok j) (hj : j < cs) : i < cs := by
  cases m with
  | zero =>
    rw [repeatFields] at h
    injection h with h
    omega
  | succ m =>
    rw [repeatFields] at h
    cases hb : body i with
    | error t => rw [hb] at h; cases h
    | ok i1 => exact hbody i i1 hb

/-- C25. A `RepeatableGroup` with k >= 1 single-field children, on a field list of at
least two views. With `one_or_more` it throws E015 when no data field remains
(index >= checksum index); with `zero_or_more` it then returns the index unchanged.
Called at an index not beyond the checksum index, a `one_or_more` or `zero_or_more`
group that returns, returns the checksum index, and the number of fields it consumed
is a multiple of k. A partial final repetition throws E015: when, after some complete
passes, the children before one of the children use up the data fields, the group
throws E015 at the checksum field. -/
theorem repeated_group_ends_at_checksum_index_after_whole_passes
    (line : List Nat) (splitter : List StringView) (fuel n : Nat) (fields : List Field)
    (index : Nat)
    (hk : fields ≠ []) (hsingle : ∀ f ∈ fields, f.isGroup = false)
    (h2 : 2 ≤ splitter.length) :
    (index ≥ checksumIndex splitter → ∃ last, splitter.getLast? = some last ∧
      Field.parse line splitter (fuel + 2) (.RepeatableGroup .one_or_more n fields) index =
        .error (.exception .E015 (last.addr 0))) ∧
    (index ≥ checksumIndex splitter →
      Field.parse line splitter (fuel + 2) (.RepeatableGroup .zero_or_more n fields) index =
        .ok index) ∧
    (index ≤ checksumIndex splitter → ∀ it j, it = .one_or_more ∨ it = .zero_or_more →
      Field.parse line splitter (fuel + 2) (.RepeatableGroup it n fields) index = .ok j →
      j = checksumIndex splitter ∧ fields.length ∣ (j - index)) ∧
    (∀ it m i pre f post, it = .one_or_more ∨ it = .zero_or_more → m ≤ fuel →
      repeatFields (forFields (fun f i => Field.parse line splitter (fuel + 1) f i) fields)
        m index = .ok i →
      fields = pre ++ f :: post → pre ≠ [] →
      forFields (fun f i => Field.parse line splitter (fuel + 1) f i) pre i =
        .ok (checksumIndex splitter) →
      ∃ last, splitter.getLast? = some last ∧
        Field.parse line splitter (fuel + 2) (.RepeatableGroup it n fields) index =
          .error (.exception .E015 (last.addr 0))) := by
  obtain ⟨last, hlast, ht⟩ := throwE015_eq h2
  have hbody : ∀ i j,
      forFields (fun f i => Field.parse line splitter (fuel + 1) f i) fields i = .ok j →
      j = i + fields.length ∧ j ≤ checksumIndex splitter := by
    intro i j h
    obtain ⟨h1, h3⟩ := pass_ok fields i j hsingle h
    exact ⟨h1, h3 hk⟩
  have hklen : 0 < fields.length := List.length_pos.mpr hk
  have hlt : ∀ i j,
      forFields (fun f i => Field.parse line splitter (fuel + 1) f i) fields i = .ok j →
      i < checksumIndex splitter := by
    intro i j h
    have := hbody i j h
    omega
  refine ⟨?_, ?_, ?_, ?_⟩
  · intro hi
    refine ⟨last, hlast, ?_⟩
    rw [one_or_more_eq, if_pos hi, ht]
  · intro hi
    rw [zero_or_more_eq, whileFields, if_neg (by omega)]
  · intro hi it j hit h
    rcases hit with hit | hit
    · rw [hit, one_or_more_eq] at h
      by_cases hge : index ≥ checksumIndex splitter
      · rw [if_pos hge] at h
        exact absurd h (throwE015_ne_ok splitter j)
      · rw [if_neg hge] at h
        exact whileFields_ok hbody (fuel + 1) index j hi h
    · rw [hit, zero_or_more_eq] at h
      exact whileFields_ok hbody (fuel + 1) index j hi h
  · intro it m i pre f post hit hm hrep hfields hpre hrun
    refine ⟨last, hlast, ?_⟩
    have hfsingle : f.isGroup = false := hsingle f (by rw [hfields]; simp)
    have hpresingle : ∀ g ∈ pre, g.isGroup = false :=
      fun g hg => hsingle g (by rw [hfields]; exact List.mem_append_left _ hg)
    have hi : i < checksumIndex splitter := by
      obtain ⟨h1, _⟩ := pass_ok pre i _ hpresingle hrun
      have := List.length_pos.mpr hpre
      omega
    have hindex : index < checksumIndex splitter := repeatFields_start_lt hlt hrep hi
    have hloop : whileFields (checksumIndex splitter)
        (forFields (fun f i => Field.parse line splitter (fuel + 1) f i) fields) (fuel + 1)
        index = .error (.exception .E015 (last.addr 0)) := by
      have hw := whileFields_after hlt m ((fuel - m) + 1) index i hrep
      have hsplit : m + ((fuel - m) + 1) = fuel + 1 := by omega
      rw [hsplit] at hw
      rw [hw, whileFields, if_pos hi]
      have hpass := pass_partial post h2 hfsingle hrun
      rw [← hfields] at hpass
      rw [hpass, ht]
    rcases hit with hit | hit
    · rw [hit, one_or_more_eq, if_neg (by omega)]
      exact hloop
    · rw [hit, zero_or_more_eq]
      exact hloop

set_option maxRecDepth 100000 in
/-- Witness of C25: the group of the GSV grammar on a sentence with two satellites
starts at index 4 and returns the checksum index 12, eight fields on; with the last
field removed from the views it throws E015. -/
theorem repeated_group_ends_at_checksum_index_after_whole_passes_witness :
    Field.parse exampleGsv exampleGsvViews (11 + 2) (.RepeatableGroup .one_or_more 0 gsvGroup) 4
      = .ok 12 ∧
    (12 = checksumIndex exampleGsvViews ∧ gsvGroup.length ∣ (12 - 4)) ∧
    ∃ last, (exampleGsvViews.take 12).getLast? = some last ∧
      Field.parse exampleGsv (exampleGsvViews.take 12) (11 + 2)
        (.RepeatableGroup .one_or_more 0 gsvGroup) 4 = .error (.exception .E015 (last.addr 0)) :=
  ⟨rfl,
    (repeated_group_ends_at_checksum_index_after_whole_passes exampleGsv exampleGsvViews 11 0
      gsvGroup 4 (List.cons_ne_nil _ _) (by decide) (by decide)).2.2.1 (by decide) .one_or_more 12
      (Or.inl rfl) rfl,
    (repeated_group_ends_at_checksum_index_after_whole_passes exampleGsv
      (exampleGsvViews.take 12) 11 0 gsvGroup 4 (List.cons_ne_nil _ _) (by decide)
      (by decide)).2.2.2
      .one_or_more 1 8 [.FixedNumberField 2, .FixedNumberField 2, .FixedNumberField 3]
      (.FixedNumberField 2) [] (Or.inl rfl) (by decide) rfl rfl (List.cons_ne_nil _ _) rfl⟩

/-! ## Termination of the field grammar -/

theorem at_error {line : List Nat} {v : StringView} {i : Nat} {t : Thrown}
    (h : v.at line i = .error t) : t ≠ .timeout := by
  unfold StringView.at at h
  split at h
  · cases h
    intro hc
    cases hc
  · rw [(rd_eq_error h).2]
    intro hc
    cases hc

theorem idx_error {α : Type} {v : List α} {i : Nat} {t : Thrown}
    (h : idx v i = .error t) : t ≠ .timeout := by
  unfold idx at h
  split at h
  · cases h
  · cases h
    intro hc
    cases hc

theorem allFrom_error {line : List Nat} {v : StringView} {ok : Nat → Bool}
    {thrown : Nat → Thrown} (hthrown : ∀ i, thrown i ≠ .timeout) :
    ∀ (n i : Nat) (t : Thrown), allFrom line v ok thrown n i = .error t → t ≠ .timeout := by
  intro n
  induction n with
  | zero => intro i t h; rw [allFrom] at h; cases h
  | succ n ih =>
    intro i t h
    rw [allFrom] at h
    split at h
    · next heq =>
      cases h
      exact at_error heq
    · split at h
      · exact ih (i + 1) t h
      · cases h
        exact hthrown i

theorem digitRun_error {line : List Nat} {v : StringView} :
    ∀ (n i : Nat) (t : Thrown), digitRun line v n i = .error t → t ≠ .timeout := by
  intro n
  induction n with
  | zero => intro i t h; rw [digitRun] at h; cases h
  | succ n ih =>
    intro i t h
    rw [digitRun] at h
    split at h
    · next heq =>
      cases h
      exact at_error heq
    · split at h
      · exact ih (i + 1) t h
      · cases h

theorem exception_ne_timeout (e : ErrorCode) (i : Option Nat) :
    Thrown.exception e i ≠ .timeout := by
  intro h
  cases h

theorem throwE015_error {splitter : List StringView} {t : Thrown}
    (h : throwE015 splitter = .error t) : t ≠ .timeout := by
  unfold throwE015 at h
  split at h
  · next heq =>
    cases h
    exact idx_error heq
  · cases h
    exact exception_ne_timeout _ _

theorem error_of_unit_step {x : Except Thrown Unit} {k : Nat} {t : Thrown}
    (h : (match x with
      | .error t => (.error t : Except Thrown Nat)
      | .ok () => .ok k) = .error t) : x = .error t := by
  cases x with
  | error t1 => cases h; rfl
  | ok u => cases h

theorem LatLong_doParse_error {line : List Nat} {splitter : List StringView}
    {index num : Nat} {t : Thrown}
    (h : LatLong.doParse line splitter index num = .error t) : t ≠ .timeout := by
  unfold LatLong.doParse at h
  repeat' split at h
  all_goals first
    | (cases h; done)
    | (cases h; exact exception_ne_timeout _ _)
    | (cases h; exact idx_error (by assumption))
    | (cases h; exact at_error (by assumption))
    | (cases h; exact allFrom_error (fun _ => exception_ne_timeout _ _) _ _ _ (by assumption))
    | (cases h; exact digitRun_error _ _ _ (by assumption))

theorem Time_doParse_error {line : List Nat} {splitter : List StringView}
    {index : Nat} {t : Thrown}
    (h : Time.doParse line splitter index = .error t) : t ≠ .timeout := by
  unfold Time.doParse at h
  repeat' split at h
  all_goals first
    | (cases h; done)
    | (cases h; exact idx_error (by assumption))
    | (cases h; exact allFrom_error (fun _ => exception_ne_timeout _ _) _ _ _ (by assumption))
    | (cases h
       rename_i heq
       repeat' split at heq
       all_goals first
         | (cases heq; done)
         | (cases heq; exact exception_ne_timeout _ _)
         | (cases heq; exact at_error (by assumption)))

theorem VariableNumbers_doParse_error {line : List Nat} {splitter : List StringView}
    {index : Nat} {t : Thrown}
    (h : VariableNumbers.doParse line splitter index = .error t) : t ≠ .timeout := by
  unfold VariableNumbers.doParse at h
  repeat' split at h
  all_goals first
    | (cases h; done)
    | (cases h; exact exception_ne_timeout _ _)
    | (cases h; exact idx_error (by assumption))
    | (cases h; exact at_error (by assumption))
    | (cases h; exact allFrom_error (fun _ => exception_ne_timeout _ _) _ _ _ (by assumption))
    | (cases h; exact digitRun_error _ _ _ (by assumption))
    | (cases h
       rename_i heq
       repeat' split at heq
       all_goals first
         | (cases heq; done)
         | (cases heq; exact at_error (by assumption)))

theorem FixedField_doParse_error {line : List Nat} {splitter : List StringView}
    {index n : Nat} {ok : Nat → Bool} {e : ErrorCode} {t : Thrown}
    (h : FixedField.doParse line splitter index n ok e = .error t) : t ≠ .timeout := by
  unfold FixedField.doParse at h
  repeat' split at h
  all_goals first
    | (cases h; done)
    | (cases h; exact exception_ne_timeout _ _)
    | (cases h; exact idx_error (by assumption))
    | (cases h; exact at_error (by assumption))
    | (cases h; exact allFrom_error (fun _ => exception_ne_timeout _ _) _ _ _ (by assumption))
    | exact allFrom_error (fun _ => exception_ne_timeout _ _) _ _ _ (error_of_unit_step h)

/-- No `doParse` of a single-field class runs out of fuel: it has no loop but the
counted ones. -/
theorem Field_doParse_error {line : List Nat} {splitter : List StringView} {index : Nat}
    {f : Field} {t : Thrown} (h : Field.doParse line splitter index f = .error t) :
    t ≠ .timeout := by
  cases f with
  | RepeatableGroup _ _ _ => cases h
  | Latitude => exact LatLong_doParse_error h
  | Longitude => exact LatLong_doParse_error h
  | Time => exact Time_doParse_error h
  | VariableNumbers => exact VariableNumbers_doParse_error h
  | FixedNumberField n => exact FixedField_doParse_error h
  | FixedHexField n => exact FixedField_doParse_error h
  | VariableHexField =>
    simp only [Field.doParse] at h
    repeat' split at h
    all_goals first
      | (cases h; done)
      | (cases h; exact idx_error (by assumption))
      | (cases h; exact allFrom_error (fun _ => exception_ne_timeout _ _) _ _ _ (by assumption))
      | (cases h
         rename_i heq
         repeat' split at heq
         all_goals first
           | (cases heq; done)
           | (cases heq; exact at_error (by assumption)))
  | Status =>
    simp only [Field.doParse] at h
    repeat' split at h
    all_goals first
      | (cases h; done)
      | (cases h; exact exception_ne_timeout _ _)
      | (cases h; exact idx_error (by assumption))
      | (cases h; exact at_error (by assumption))
  | CharLiterals p l =>
    simp only [Field.doParse] at h
    repeat' split at h
    all_goals first
      | (cases h; done)
      | (cases h; exact exception_ne_timeout _ _)
      | (cases h; exact idx_error (by assumption))
      | (cases h; exact at_error (by assumption))
  | FixedAlphaField n =>
    simp only [Field.doParse] at h
    repeat' split at h
    all_goals first
      | (cases h; done)
      | (cases h; exact exception_ne_timeout _ _)
      | (cases h; exact idx_error (by assumption))
      | (cases h; exact allFrom_error (fun _ => exception_ne_timeout _ _) _ _ _ (by assumption))
  | VariableText n =>
    simp only [Field.doParse] at h
    repeat' split at h
    all_goals first
      | (cases h; done)
      | (cases h; exact exception_ne_timeout _ _)
      | (cases h; exact idx_error (by assumption))
  | FixedTextField n =>
    simp only [Field.doParse] at h
    repeat' split at h
    all_goals first
      | (cases h; done)
      | (cases h; exact exception_ne_timeout _ _)
      | (cases h; exact idx_error (by assumption))
  | FixedSixBitField n =>
    simp only [Field.doParse] at h
    repeat' split at h
    all_goals first
      | (cases h; done)
      | (cases h; exact exception_ne_timeout _ _)
      | (cases h; exact idx_error (by assumption))
      | (cases h; exact allFrom_error (fun _ => exception_ne_timeout _ _) _ _ _ (by assumption))
  | VariableSixBitField =>
    simp only [Field.doParse] at h
    repeat' split at h
    all_goals first
      | (cases h; done)
      | (cases h; exact idx_error (by assumption))
      | (cases h; exact allFrom_error (fun _ => exception_ne_timeout _ _) _ _ _ (by assumption))

/-- A single-field validator with fuel left does not run out of it. -/
theorem single_error {line : List Nat} {splitter : List StringView} {fuel : Nat} {f : Field}
    {i : Nat} (hf : f.isGroup = false) :
    Field.parse line splitter (fuel + 1) f i ≠ .error .timeout := by
  intro h
  rw [Field.parse_single line splitter fuel f i hf] at h
  split at h
  · exact throwE015_error h rfl
  · exact Field_doParse_error h rfl

theorem forFields_error {parse : Field → Nat → Except Thrown Nat} :
    ∀ (fields : List Field) (i : Nat),
      (∀ f ∈ fields, ∀ i, parse f i ≠ .error .timeout) →
      forFields parse fields i ≠ .error .timeout := by
  intro fields
  induction fields with
  | nil => intro i _ h; cases h
  | cons f tl ih =>
    intro i hs h
    rw [forFields] at h
    cases hp : parse f i with
    | error t =>
      rw [hp] at h
      cases h
      exact hs f (List.mem_cons_self _ _) i hp
    | ok i1 =>
      rw [hp] at h
      exact ih i1 (fun g hg => hs g (List.mem_cons_of_mem _ hg)) h

/-- The `while` loop ends within `cs - i` passes when every pass advances. -/
theorem whileFields_error {cs : Nat} {body : Nat → Except Thrown Nat}
    (hbody : ∀ i, body i ≠ .error .timeout) (hadv : ∀ i j, body i = .ok j → i < j) :
    ∀ (m i : Nat), cs - i ≤ m → whileFields cs body m i ≠ .error .timeout := by
  intro m
  induction m with
  | zero =>
    intro i hm h
    rw [whileFields, if_neg (by omega)] at h
    cases h
  | succ m ih =>
    intro i hm h
    rw [whileFields] at h
    split at h
    · cases hb : body i with
      | error t =>
        rw [hb] at h
        cases h
        exact hbody i hb
      | ok i1 =>
        rw [hb] at h
        have := hadv i i1 hb
        exact ih i1 (by omega) h
    · cases h

theorem repeatFields_error {body : Nat → Except Thrown Nat}
    (hbody : ∀ i, body i ≠ .error .timeout) :
    ∀ (n i : Nat), repeatFields body n i ≠ .error .timeout := by
  intro n
  induction n with
  | zero => intro i h; cases h
  | succ n ih =>
    intro i h
    rw [repeatFields] at h
    cases hb : body i with
    | error t =>
      rw [hb] at h
      cases h
      exact hbody i hb
    | ok i1 =>
      rw [hb] at h
      exact ih i1 h

/-- The loop over children without any child makes no progress: it runs out of every
fuel. -/
theorem whileFields_stuck {cs : Nat} {body : Nat → Except Thrown Nat} {i : Nat}
    (hi : i < cs) (hbody : body i = .ok i ∨ body i = .error .timeout) :
    ∀ (m : Nat), whileFields cs body m i = .error .timeout := by
  intro m
  induction m with
  | zero => rw [whileFields, if_pos hi]
  | succ m ih =>
    rw [whileFields, if_pos hi]
    rcases hbody with h | h
    · rw [h]
      exact ih
    · rw [h]

/-- A validator whose loops advance does not run out of fuel, when the fuel covers the
data fields left. -/
theorem loopsAdvance_error {line : List Nat} {splitter : List StringView} {fuel : Nat}
    {f : Field} {i : Nat} (hf : f.loopsAdvance = true)
    (hm : checksumIndex splitter - i ≤ fuel + 1) :
    Field.parse line splitter (fuel + 2) f i ≠ .error .timeout := by
  cases f with
  | RepeatableGroup it n fields =>
    have hchildren : ∀ (fs : List Field), fs.all (fun f => !f.isGroup) = true →
        ∀ i, forFields (fun f i => Field.parse line splitter (fuel + 1) f i) fs i ≠
          .error .timeout := by
      intro fs hall i
      apply forFields_error
      intro g hg j
      have := List.all_eq_true.mp hall g hg
      exact single_error (by simpa using this)
    have hadv : ∀ (fs : List Field), fs.isEmpty = false →
        fs.all (fun f => !f.isGroup) = true → ∀ i j,
        forFields (fun f i => Field.parse line splitter (fuel + 1) f i) fs i = .ok j →
        i < j := by
      intro fs hne hall i j h
      have hs : ∀ g ∈ fs, g.isGroup = false := by
        intro g hg
        have := List.all_eq_true.mp hall g hg
        simpa using this
      obtain ⟨h1, _⟩ := pass_ok fs i j hs h
      have : 0 < fs.length := by
        cases fs with
        | nil => cases hne
        | cons x tl => simp
      omega
    cases it with
    | zero_or_one =>
      cases fields with
      | nil => cases hf
      | cons g rest =>
        have hg : g.isGroup = false := by simpa [Field.loopsAdvance] using hf
        rw [zero_or_one_eq]
        intro h
        split at h
        · split at h
          · next heq =>
            cases h
            exact idx_error heq rfl
          · split at h
            · exact single_error hg h
            · cases h
        · cases h
    | zero_or_more =>
      simp only [Field.loopsAdvance, Bool.and_eq_true, Bool.not_eq_true'] at hf
      rw [zero_or_more_eq]
      exact whileFields_error (hchildren fields hf.2) (hadv fields hf.1 hf.2) (fuel + 1) i hm
    | one_or_more =>
      simp only [Field.loopsAdvance, Bool.and_eq_true, Bool.not_eq_true'] at hf
      rw [one_or_more_eq]
      intro h
      split at h
      · exact throwE015_error h rfl
      · exact whileFields_error (hchildren fields hf.2) (hadv fields hf.1 hf.2) (fuel + 1) i
          hm h
    | fixed =>
      simp only [Field.loopsAdvance] at hf
      exact repeatFields_error (hchildren fields hf) n i
  | Status => exact single_error rfl
  | Latitude => exact single_error rfl
  | Longitude => exact single_error rfl
  | Time => exact single_error rfl
  | CharLiterals p l => exact single_error rfl
  | VariableNumbers => exact single_error rfl
  | FixedNumberField n => exact single_error rfl
  | FixedHexField n => exact single_error rfl
  | VariableHexField => exact single_error rfl
  | FixedAlphaField n => exact single_error rfl
  | VariableText n => exact single_error rfl
  | FixedTextField n => exact single_error rfl
  | FixedSixBitField n => exact single_error rfl
  | VariableSixBitField => exact single_error rfl

/-- In every grammar of the catalog the loops advance. -/
theorem m_Sentences_loopsAdvance :
    m_Sentences.all (fun kv => kv.2.m_Fields.all Field.loopsAdvance) = true := by
  rfl

/-- The method `Sentence::parse` of a grammar whose loops advance does not run out of the
fuel `splitter.size() + 2` that `parseSpecificContents` gives it. -/
theorem Sentence_parse_error {self : Sentence} {line : List Nat}
    {splitter : List StringView} (h : self.m_Fields.all Field.loopsAdvance = true) :
    self.parse line splitter (splitter.length + 2) ≠ .error .timeout := by
  unfold Sentence.parse
  intro ht
  split at ht
  · split at ht
    · next heq =>
      cases ht
      exact idx_error heq rfl
    · cases ht
  · next h2 =>
    refine forFields_error self.m_Fields 1 ?_ ht
    intro f hf i
    apply loopsAdvance_error (List.all_eq_true.mp h f hf)
    rw [checksumIndex_eq (by omega)]
    omega

/-- C30, the counterexample. A pass of a group without children returns the index it
started with, and so does a pass whose only child is a `zero_or_one` group standing at
an empty field; the repetition loop of such a group never ends: in the model it runs
out of every fuel. -/
theorem loop_pass_without_progress_never_ends :
    4 < checksumIndex exampleGsvViews ∧
    forFields (fun f i => Field.parse exampleGsv exampleGsvViews 1 f i) [] 4 = .ok 4 ∧
    (∀ fuel, Field.parse exampleGsv exampleGsvViews fuel
      (.RepeatableGroup .zero_or_more 0 []) 4 = .error .timeout) ∧
    13 < checksumIndex example1Views ∧
    example1Views[13]? = some ⟨none, 0⟩ ∧
    forFields (fun f i => Field.parse example1 example1Views 2 f i)
      [.RepeatableGroup .zero_or_one 0 [.Status]] 13 = .ok 13 ∧
    (∀ fuel, Field.parse example1 example1Views fuel
      (.RepeatableGroup .one_or_more 0 [.RepeatableGroup .zero_or_one 0 [.Status]]) 13 =
        .error .timeout) := by
  refine ⟨by decide, rfl, ?_, by decide, rfl, rfl, ?_⟩
  · intro fuel
    cases fuel with
    | zero => rfl
    | succ fuel =>
      rw [zero_or_more_eq]
      exact whileFields_stuck (by decide) (Or.inl rfl) fuel
  · intro fuel
    cases fuel with
    | zero => rfl
    | succ fuel =>
      rw [one_or_more_eq, if_neg (by decide)]
      apply whileFields_stuck (by decide)
      cases fuel with
      | zero => exact Or.inr rfl
      | succ fuel => exact Or.inl rfl

/-- C30, amended. For every `RepeatableGroup` of iteration `zero_or_more` or
`one_or_more` whose child list is not empty and holds single-field validators only, and
every field list: each pass of the repetition loop that completes without error returns
a strictly larger field index, larger by the number of children, and the group ends,
with a result or an exception, within the fuel of one pass per data field left. The
grammars of the catalog have such groups only, and their validation by
`Sentence::parse` ends for every line and field list. -/
theorem loop_pass_of_single_field_children_advances_and_validation_ends
    (line : List Nat) (splitter : List StringView) (fuel n : Nat) (fields : List Field)
    (index : Nat)
    (hk : fields ≠ []) (hsingle : ∀ f ∈ fields, f.isGroup = false) :
    (∀ i j, forFields (fun f i => Field.parse line splitter (fuel + 1) f i) fields i = .ok j →
      j = i + fields.length ∧ i < j) ∧
    (∀ it, it = .one_or_more ∨ it = .zero_or_more →
      checksumIndex splitter - index ≤ fuel + 1 →
      Field.parse line splitter (fuel + 2) (.RepeatableGroup it n fields) index ≠
        .error .timeout) ∧
    (∀ kv ∈ m_Sentences, ∀ (buffer : List Nat) (views : List StringView),
      kv.2.parse buffer views (views.length + 2) ≠ .error .timeout) := by
  have hall : fields.all (fun f => !f.isGroup) = true := by
    rw [List.all_eq_true]
    intro f hf
    rw [hsingle f hf]
    rfl
  have hne : fields.isEmpty = false := by
    cases fields with
    | nil => exact absurd rfl hk
    | cons x tl => rfl
  refine ⟨?_, ?_, ?_⟩
  · intro i j h
    obtain ⟨h1, _⟩ := pass_ok fields i j hsingle h
    have := List.length_pos.mpr hk
    exact ⟨h1, by omega⟩
  · intro it hit hm
    apply loopsAdvance_error _ hm
    rcases hit with hit | hit
    · rw [hit]
      simp only [Field.loopsAdvance, hne, hall]
      rfl
    · rw [hit]
      simp only [Field.loopsAdvance, hne, hall]
      rfl
  · intro kv hkv buffer views
    exact Sentence_parse_error (List.all_eq_true.mp m_Sentences_loopsAdvance kv hkv)

set_option maxRecDepth 100000 in
/-- Witness of the amended C30: the group of the GSV grammar, from index 4 of a
sentence with two satellites. -/
theorem loop_pass_of_single_field_children_advances_and_validation_ends_witness :
    (8 = 4 + gsvGroup.length ∧ 4 < 8) ∧
    Field.parse exampleGsv exampleGsvViews (11 + 2) (.RepeatableGroup .one_or_more 0 gsvGroup) 4
      ≠ .error .timeout :=
  ⟨(loop_pass_of_single_field_children_advances_and_validation_ends exampleGsv
      exampleGsvViews 11 0 gsvGroup 4 (List.cons_ne_nil _ _) (by decide)).1 4 8 rfl,
    (loop_pass_of_single_field_children_advances_and_validation_ends exampleGsv
      exampleGsvViews 11 0 gsvGroup 4 (List.cons_ne_nil _ _) (by decide)).2.1 .one_or_more
      (Or.inl rfl) (by decide)⟩

/-! ## The fields of a tag block -/

theorem forViews_append (body : StringView → Except Thrown Unit) :
    ∀ (pre post : List StringView), (∀ v ∈ pre, body v = .ok ()) →
      forViews body (pre ++ post) = forViews body post := by
  intro pre
  induction pre with
  | nil => intro post _; rfl
  | cons v tl ih =>
    intro post h
    rw [List.cons_append, forViews, h v (List.mem_cons_self _ _)]
    exact ih post (fun x hx => h x (List.mem_cons_of_mem _ hx))

/-- The value view of a tag field of two bytes or more lies in the line and holds the
bytes after the code and the colon. -/
theorem tagValue_view {line : List Nat} {tagField : StringView}
    (hin : tagField.inLine line = true) (h2 : 2 ≤ tagField.size) :
    (tagValue tagField).inLine line = true ∧
    (tagValue tagField).bytes line = (tagField.bytes line).drop 2 := by
  obtain ⟨p, hd, hp⟩ := StringView.data_of_size hin (by omega)
  have ha : tagField.addr 2 = some (p + 2) := by
    unfold StringView.addr
    rw [hd]
  have hvb : tagField.bytes line = slice line p (p + tagField.size) := by
    unfold StringView.bytes
    rw [hd]
  unfold tagValue
  rw [ha, hvb]
  constructor
  · show decide (p + 2 + (tagField.size - 2) ≤ line.length) = true
    simp only [decide_eq_true_eq]
    omega
  · show slice line (p + 2) (p + 2 + (tagField.size - 2)) =
      (slice line p (p + tagField.size)).drop 2
    have h := @slice_drop_take line p tagField.size 2 (tagField.size - 2) (by omega)
    rw [← h, List.take_of_length_le]
    rw [List.length_drop, slice_length hp]

/-- The body of the tag-block loop on a field of two bytes or more. -/
theorem checkTagField_eq {line : List Nat} {tagField : StringView}
    (hin : tagField.inLine line = true) (h2 : 2 ≤ tagField.size)
    (hsz : tagField.size < 2 ^ 64) :
    checkTagField line tagField =
      if (tagField.bytes line).getD 1 0 ≠ 58 then .error (.exception .E028 (tagField.addr 1))
      else if (tagField.bytes line).getD 0 0 = 99 then
        checkPositivInteger line (tagValue tagField)
      else if (tagField.bytes line).getD 0 0 = 100 then
        checkIdentification line (tagValue tagField)
      else if (tagField.bytes line).getD 0 0 = 103 then
        checkSentenceGrouping line (tagValue tagField)
      else if (tagField.bytes line).getD 0 0 = 110 then
        checkPositivInteger line (tagValue tagField)
      else if (tagField.bytes line).getD 0 0 = 114 then
        checkPositivInteger line (tagValue tagField)
      else if (tagField.bytes line).getD 0 0 = 115 then
        checkIdentification line (tagValue tagField)
      else if (tagField.bytes line).getD 0 0 = 116 then .ok ()
      else .error (.exception .E027 (tagField.addr 0)) := by
  have hmod : (tagField.size + 2 ^ 64 - 2) % 2 ^ 64 = tagField.size - 2 := by
    generalize (2 : Nat) ^ 64 = N at hsz
    have h : tagField.size + N - 2 = (tagField.size - 2) + N := by omega
    rw [h, Nat.add_mod_right, Nat.mod_eq_of_lt (by omega)]
  have hval : tagValue tagField = ⟨tagField.addr 2, tagField.size - 2⟩ := rfl
  unfold checkTagField
  rw [StringView.at_eq hin (show 1 < tagField.size by omega),
    StringView.at_eq hin (show 0 < tagField.size by omega)]
  simp only
  rw [hmod, ← hval]
  generalize (tagField.bytes line).getD 1 0 = colon
  generalize (tagField.bytes line).getD 0 0 = code
  by_cases hc : colon = 58
  · simp only [hc, bne_self_eq_false, Bool.false_eq_true, if_false, ne_eq, not_true_eq_false,
      beq_iff_eq]
  · have hb : (colon != 58) = true := by simpa using hc
    simp only [hb, if_true, ne_eq, hc, not_false_eq_true]

/-- C26. A field of a tag block, other than the checksum field, with at least 2 bytes:
if the byte at offset 1 is not `:` the check throws E028 with the indication at that
byte, whatever the code byte is; otherwise, if the code byte at offset 0 is not one of
c, d, g, n, r, s, t, it throws E027 with the indication at the code byte; otherwise the
value after the colon goes to the check selected by the code (c, n, r:
`checkPositivInteger`; d, s: `checkIdentification`; g: `checkSentenceGrouping`; t: no
check). The fields are processed in textual order: the first field whose check throws
decides the result of the element. -/
theorem tag_field_colon_then_code_then_value
    (line : List Nat) (tagField : StringView)
    (hin : tagField.inLine line = true) (h2 : 2 ≤ tagField.size)
    (hsz : tagField.size < 2 ^ 64) :
    ((tagField.bytes line).getD 1 0 ≠ 58 →
      checkTagField line tagField = .error (.exception .E028 (tagField.addr 1))) ∧
    ((tagField.bytes line).getD 1 0 = 58 →
      ((tagField.bytes line).getD 0 0 ∉ [99, 100, 103, 110, 114, 115, 116] →
        checkTagField line tagField = .error (.exception .E027 (tagField.addr 0))) ∧
      ((tagField.bytes line).getD 0 0 ∈ [99, 110, 114] →
        checkTagField line tagField = checkPositivInteger line (tagValue tagField)) ∧
      ((tagField.bytes line).getD 0 0 ∈ [100, 115] →
        checkTagField line tagField = checkIdentification line (tagValue tagField)) ∧
      ((tagField.bytes line).getD 0 0 = 103 →
        checkTagField line tagField = checkSentenceGrouping line (tagValue tagField)) ∧
      ((tagField.bytes line).getD 0 0 = 116 → checkTagField line tagField = .ok ())) ∧
    ((tagValue tagField).inLine line = true ∧
      (tagValue tagField).bytes line = (tagField.bytes line).drop 2) ∧
    (∀ (element : TagBlockOrSentence) (pre post : List StringView) (checksum : StringView),
      element.m_LineElementType = .tag_block → element.buffer = line →
      element.m_Splitter = pre ++ (tagField :: post) ++ [checksum] →
      (∀ v ∈ pre, checkTagField line v = .ok ()) →
      (∀ t, checkTagField line tagField = .error t → generalContents element = .error t) ∧
      (checkTagField line tagField = .ok () →
        generalContents element = forViews (checkTagField line) post)) := by
  have heq := checkTagField_eq hin h2 hsz
  refine ⟨?_, ?_, tagValue_view hin h2, ?_⟩
  · intro hc
    rw [heq, if_pos hc]
  · intro hc
    rw [heq, if_neg (by rw [hc]; exact fun h => h rfl)]
    generalize (tagField.bytes line).getD 0 0 = code
    refine ⟨?_, ?_, ?_, ?_, ?_⟩
    · intro hn
      simp only [List.mem_cons, List.mem_singleton, List.not_mem_nil, or_false, not_or] at hn
      obtain ⟨n1, n2, n3, n4, n5, n6, n7⟩ := hn
      rw [if_neg n1, if_neg n2, if_neg n3, if_neg n4, if_neg n5, if_neg n6, if_neg n7]
    · intro hm
      simp only [List.mem_cons, List.mem_singleton, List.not_mem_nil, or_false] at hm
      rcases hm with h | h | h <;> subst h <;> rfl
    · intro hm
      simp only [List.mem_cons, List.mem_singleton, List.not_mem_nil, or_false] at hm
      rcases hm with h | h <;> subst h <;> rfl
    · intro h
      subst h
      rfl
    · intro h
      subst h
      rfl
  · intro element pre post checksum hty hbuf hsp hpre
    have hg : generalContents element =
        match checkTagField line tagField with
        | .error t => .error t
        | .ok () => forViews (checkTagField line) post := by
      unfold generalContents
      simp only [hty, hbuf, hsp]
      rw [if_neg (by simp), List.dropLast_concat, forViews_append _ pre _ hpre, forViews]
    rw [hg]
    constructor
    · intro t ht
      rw [ht]
    · intro hok
      rw [hok]

set_option maxRecDepth 100000 in
/-- Witness of C26: the tag field `x:1` throws E027 at its code byte, offset 1 of the
line, and the line ends with E027; the line with the tag field `zy1` ends with E028,
the indication at offset 2. -/
theorem tag_field_colon_then_code_then_value_witness :
    checkTagField exampleTagUnknown ⟨some 1, 3⟩ = .error (.exception .E027 (some 1)) ∧
    ((parse Nmea.fresh exampleTagUnknown).errorCode,
      (parse Nmea.fresh exampleTagUnknown).indication) = (some .E027, some (some 1)) ∧
    ((parse Nmea.fresh exampleTagNoColon).errorCode,
      (parse Nmea.fresh exampleTagNoColon).indication) = (some .E028, some (some 2)) :=
  ⟨((tag_field_colon_then_code_then_value exampleTagUnknown ⟨some 1, 3⟩ rfl (by decide)
      (by decide)).2.1 (by decide)).1 (by decide), by decide, by decide⟩

/-! ## The function `checkSentenceGrouping` -/

/-- The number loop of `checkSentenceGrouping` from a byte of the field: it stops at the
first byte that is not a digit; at the end of the field it throws E032 when strict and
stops otherwise. -/
theorem groupingNumber_eq {line : List Nat} {v : StringView} (strict : Bool)
    (h : v.inLine line = true) :
    ∀ (fuel i : Nat), i < v.size → v.size - i ≤ fuel →
      groupingNumber line v strict fuel i =
        if ((v.bytes line).drop i).dropWhile isdigit = [] then
          (if strict then .error (.exception .E032 none) else .ok v.size)
        else .ok (i + (((v.bytes line).drop i).takeWhile isdigit).length) := by
  have hlen := StringView.bytes_length h
  intro fuel
  induction fuel with
  | zero => intro i hi hf; omega
  | succ fuel ih =>
    intro i hi hf
    rw [groupingNumber, StringView.at_eq h hi, drop_cons_getD (by omega),
      List.dropWhile_cons, List.takeWhile_cons]
    simp only
    cases hc : isdigit ((v.bytes line).getD i 0) with
    | false => simp
    | true =>
      simp only [Bool.not_true, Bool.false_eq_true, if_false, if_true, List.length_cons]
      by_cases hend : v.size ≤ i + 1
      · rw [if_pos hend, List.drop_eq_nil_of_le (by omega)]
        simp only [List.dropWhile_nil, if_true]
        cases strict
        · simp only [Bool.false_eq_true, if_false]
          congr 1
          omega
        · rfl
      · rw [if_neg hend, ih (i + 1) (by omega) (by omega)]
        by_cases hd : ((v.bytes line).drop (i + 1)).dropWhile isdigit = []
        · rw [if_pos hd, if_pos hd]
        · rw [if_neg hd, if_neg hd]
          congr 1
          omega

/-- The body of the loop of `checkSentenceGrouping`, a number and its hyphen, from a byte
of the field. -/
theorem groupingPart_eq {line : List Nat} {v : StringView} (h : v.inLine line = true)
    (i : Nat) (hi : i < v.size) :
    (∀ e, numberHyphen ((v.bytes line).drop i) = .error e →
      ∃ ind, groupingPart line v i = .error (.exception e ind)) ∧
    (∀ rest, numberHyphen ((v.bytes line).drop i) = .ok rest →
      ∃ j, groupingPart line v i = .ok j ∧ j < v.size ∧ (v.bytes line).drop j = rest) := by
  have hlen := StringView.bytes_length h
  have hnum := groupingNumber_eq true h (v.size + 1) i hi (by omega)
  have hrest := drop_takeWhile_length isdigit ((v.bytes line).drop i)
  rw [List.drop_drop] at hrest
  unfold groupingPart numberHyphen
  simp only
  rw [hnum]
  cases hdw : ((v.bytes line).drop i).dropWhile isdigit with
  | nil =>
    simp only [if_true]
    constructor
    · intro e he
      cases he
      exact ⟨none, rfl⟩
    · intro rest he
      cases he
  | cons ch rest =>
    rw [hdw] at hrest
    rw [if_neg (by simp)]
    simp only
    cases htw : ((v.bytes line).drop i).takeWhile isdigit with
    | nil =>
      rw [htw] at hrest
      simp only [List.length_nil, Nat.add_zero, if_true]
      constructor
      · intro e he
        cases he
        exact ⟨_, rfl⟩
      · intro r he
        cases he
    | cons d ds =>
      rw [htw] at hrest
      generalize hj : i + (d :: ds).length = j at hrest
      have hne : j ≠ i := by
        rw [← hj, List.length_cons]
        omega
      have hjlt : j < v.size := by
        by_contra hge
        rw [List.drop_eq_nil_of_le (by omega)] at hrest
        cases hrest
      have hch : (v.bytes line).getD j 0 = ch ∧ (v.bytes line).drop (j + 1) = rest := by
        rw [drop_cons_getD (by omega)] at hrest
        injection hrest with h1 h2
        exact ⟨h1, h2⟩
      rw [if_neg hne, StringView.at_eq h hjlt, hch.1]
      simp only
      by_cases h45 : ch = 45
      · subst h45
        simp only [bne_self_eq_false, Bool.false_eq_true, if_false, ne_eq, not_true_eq_false]
        by_cases hr : rest = []
        · have hsz : v.size ≤ j + 1 := by
            by_contra hlt
            have := hch.2
            rw [hr, drop_cons_getD (by omega)] at this
            cases this
          rw [if_pos hsz, if_pos hr]
          constructor
          · intro e he
            cases he
            exact ⟨none, rfl⟩
          · intro r he
            cases he
        · have hsz : ¬ v.size ≤ j + 1 := by
            intro hle
            apply hr
            rw [← hch.2]
            exact List.drop_eq_nil_of_le (by omega)
          rw [if_neg hsz, if_neg hr]
          constructor
          · intro e he
            cases he
          · intro r he
            cases he
            exact ⟨j + 1, rfl, by omega, hch.2⟩
      · have hb : (ch != 45) = true := by simpa using h45
        rw [hb]
        simp only [if_true, ne_eq, h45, not_false_eq_true]
        constructor
        · intro e he
          cases he
          exact ⟨_, rfl⟩
        · intro r he
          cases he

/-- The function `checkSentenceGrouping` on a view in the line, by the checks on the
bytes of the value. -/
theorem checkSentenceGrouping_eq {line : List Nat} {v : StringView}
    (h : v.inLine line = true) :
    (groupingChecks (v.bytes line) = none → checkSentenceGrouping line v = .ok ()) ∧
    (∀ e, groupingChecks (v.bytes line) = some e →
      ∃ ind, checkSentenceGrouping line v = .error (.exception e ind)) := by
  have hlen := StringView.bytes_length h
  unfold checkSentenceGrouping groupingChecks
  by_cases h0 : v.size ≤ 0
  · have hb : v.bytes line = [] := List.length_eq_zero.mp (by omega)
    rw [if_pos h0, hb]
    constructor
    · intro hn
      cases hn
    · intro e he
      cases he
      exact ⟨none, rfl⟩
  · rw [if_neg h0]
    obtain ⟨p1e, p1o⟩ := groupingPart_eq h 0 (by omega)
    rw [List.drop_zero] at p1e p1o
    cases hn1 : numberHyphen (v.bytes line) with
    | error e1 =>
      obtain ⟨ind, hg⟩ := p1e e1 hn1
      rw [hg]
      constructor
      · intro hn
        cases hn
      · intro e he
        cases he
        exact ⟨ind, rfl⟩
    | ok r1 =>
      obtain ⟨i1, hg1, hi1, hd1⟩ := p1o r1 hn1
      rw [hg1]
      simp only
      obtain ⟨p2e, p2o⟩ := groupingPart_eq h i1 hi1
      rw [hd1] at p2e p2o
      cases hn2 : numberHyphen r1 with
      | error e2 =>
        obtain ⟨ind, hg⟩ := p2e e2 hn2
        rw [hg]
        constructor
        · intro hn
          cases hn
        · intro e he
          cases he
          exact ⟨ind, rfl⟩
      | ok r2 =>
        obtain ⟨i2, hg2, hi2, hd2⟩ := p2o r2 hn2
        rw [hg2]
        simp only
        rw [groupingNumber_eq false h (v.size + 1) i2 hi2 (by omega), hd2]
        simp only [Bool.false_eq_true, if_false]
        have hr2 : r2 ≠ [] := by
          intro hr
          rw [hr] at hd2
          have := congrArg List.length hd2
          rw [List.length_drop] at this
          simp only [List.length_nil] at this
          omega
        by_cases htw : r2.takeWhile isdigit = []
        · have hdw : r2.dropWhile isdigit ≠ [] := by
            intro hdw
            have := List.takeWhile_append_dropWhile isdigit r2
            rw [htw, hdw] at this
            exact hr2 this.symm
          rw [if_neg hdw, if_pos htw, htw]
          simp only [List.length_nil, Nat.add_zero, if_true]
          constructor
          · intro hn
            cases hn
          · intro e he
            cases he
            exact ⟨_, rfl⟩
        · rw [if_neg htw]
          have hpos : 0 < (r2.takeWhile isdigit).length := List.length_pos.mpr htw
          constructor
          · intro _
            by_cases hdw : r2.dropWhile isdigit = []
            · rw [if_pos hdw]
              simp only
              rw [if_neg (by omega)]
            · rw [if_neg hdw]
              simp only
              rw [if_neg (by omega)]
          · intro e he
            cases he

theorem takeWhile_append_stop (p : Nat → Bool) (x : Nat) (r : List Nat) (hx : p x = false) :
    ∀ (l : List Nat), l.all p = true → (l ++ x :: r).takeWhile p = l := by
  intro l
  induction l with
  | nil =>
    intro _
    simp [List.takeWhile_cons, hx]
  | cons y tl ih =>
    intro h
    rw [List.all_cons, Bool.and_eq_true] at h
    simp [List.takeWhile_cons, h.1, ih h.2]

/-- A number and its hyphen stand at the head of the bytes exactly when the bytes are
one digit or more, `-`, and at least one more byte. -/
theorem numberHyphen_ok_iff (b rest : List Nat) :
    numberHyphen b = .ok rest ↔
      ∃ n, n ≠ [] ∧ n.all isdigit = true ∧ b = n ++ 45 :: rest ∧ rest ≠ [] := by
  have h45 : isdigit 45 = false := by decide
  constructor
  · intro h
    have hsplit := List.takeWhile_append_dropWhile isdigit b
    unfold numberHyphen at h
    cases hdw : b.dropWhile isdigit with
    | nil =>
      cases htw : b.takeWhile isdigit with
      | nil =>
        rw [hdw, htw] at h
        cases h
      | cons d ds =>
        rw [hdw, htw] at h
        cases h
    | cons ch r =>
      cases htw : b.takeWhile isdigit with
      | nil =>
        rw [hdw, htw] at h
        cases h
      | cons d ds =>
        rw [hdw, htw] at h
        simp only at h
        split at h
        · cases h
        · next hch =>
          split at h
          · cases h
          · next hr =>
            injection h with h
            subst h
            have hch2 : ch = 45 := by
              by_contra hne
              exact hch hne
            refine ⟨d :: ds, by simp, ?_, ?_, hr⟩
            · rw [← htw]
              exact takeWhile_all isdigit b
            · rw [← hsplit, htw, hdw, hch2]
  · intro ⟨n, hn, hd, hb, hr⟩
    unfold numberHyphen
    rw [hb, takeWhile_append_stop isdigit 45 rest h45 n hd,
      dropWhile_append_all isdigit n (45 :: rest) hd, List.dropWhile_cons, h45]
    cases n with
    | nil => exact absurd rfl hn
    | cons d ds =>
      simp only [Bool.false_eq_true, if_false, ne_eq, not_true_eq_false]
      rw [if_neg hr]

/-- The checks of a grouping value pass exactly when the value begins with three
numbers of one digit or more each, separated by hyphens. -/
theorem groupingChecks_none_iff (b : List Nat) :
    groupingChecks b = none ↔
      ∃ n1 n2 n3 rest, n1 ≠ [] ∧ n2 ≠ [] ∧ n3 ≠ [] ∧
        n1.all isdigit = true ∧ n2.all isdigit = true ∧ n3.all isdigit = true ∧
        b = n1 ++ 45 :: (n2 ++ 45 :: (n3 ++ rest)) := by
  constructor
  · intro h
    unfold groupingChecks at h
    cases h1 : numberHyphen b with
    | error e => rw [h1] at h; cases h
    | ok r1 =>
      rw [h1] at h
      simp only at h
      cases h2 : numberHyphen r1 with
      | error e => rw [h2] at h; cases h
      | ok r2 =>
        rw [h2] at h
        simp only at h
        split at h
        · cases h
        · next htw =>
          obtain ⟨n1, hn1, hd1, hb1, _⟩ := (numberHyphen_ok_iff b r1).mp h1
          obtain ⟨n2, hn2, hd2, hb2, _⟩ := (numberHyphen_ok_iff r1 r2).mp h2
          refine ⟨n1, n2, r2.takeWhile isdigit, r2.dropWhile isdigit, hn1, hn2, htw, hd1, hd2,
            takeWhile_all isdigit r2, ?_⟩
          rw [List.takeWhile_append_dropWhile, ← hb2, ← hb1]
  · intro ⟨n1, n2, n3, rest, hn1, hn2, hn3, hd1, hd2, hd3, hb⟩
    have hne3 : n3 ++ rest ≠ [] := by
      cases n3 with
      | nil => exact absurd rfl hn3
      | cons x tl => simp
    have hne2 : n2 ++ 45 :: (n3 ++ rest) ≠ [] := by simp
    have h1 : numberHyphen b = .ok (n2 ++ 45 :: (n3 ++ rest)) :=
      (numberHyphen_ok_iff b _).mpr ⟨n1, hn1, hd1, hb, hne2⟩
    have h2 : numberHyphen (n2 ++ 45 :: (n3 ++ rest)) = .ok (n3 ++ rest) :=
      (numberHyphen_ok_iff _ _).mpr ⟨n2, hn2, hd2, rfl, hne3⟩
    unfold groupingChecks
    rw [h1]
    simp only
    rw [h2]
    simp only
    rw [if_neg]
    cases n3 with
    | nil => exact absurd rfl hn3
    | cons x tl =>
      rw [List.all_cons, Bool.and_eq_true] at hd3
      rw [List.cons_append, List.takeWhile_cons, hd3.1]
      simp

theorem numberHyphen_error {b : List Nat} {e : ErrorCode} (h : numberHyphen b = .error e) :
    e = .E031 ∨ e = .E032 := by
  unfold numberHyphen at h
  cases hdw : b.dropWhile isdigit with
  | nil =>
    cases htw : b.takeWhile isdigit with
    | nil => rw [hdw, htw] at h; cases h; exact Or.inr rfl
    | cons d ds => rw [hdw, htw] at h; cases h; exact Or.inr rfl
  | cons ch r =>
    cases htw : b.takeWhile isdigit with
    | nil => rw [hdw, htw] at h; cases h; exact Or.inl rfl
    | cons d ds =>
      rw [hdw, htw] at h
      simp only at h
      split at h
      · cases h; exact Or.inr rfl
      · split at h
        · cases h; exact Or.inr rfl
        · cases h

theorem groupingChecks_some {b : List Nat} {e : ErrorCode} (h : groupingChecks b = some e) :
    e = .E031 ∨ e = .E032 := by
  unfold groupingChecks at h
  cases h1 : numberHyphen b with
  | error e1 =>
    rw [h1] at h
    cases h
    exact numberHyphen_error h1
  | ok r1 =>
    rw [h1] at h
    simp only at h
    cases h2 : numberHyphen r1 with
    | error e2 =>
      rw [h2] at h
      cases h
      exact numberHyphen_error h2
    | ok r2 =>
      rw [h2] at h
      simp only at h
      split at h
      · cases h; exact Or.inl rfl
      · cases h

set_option maxRecDepth 100000 in
/-- C27, the counterexample. The value `1-2-3x`, with a byte after the third number, is
accepted by `checkSentenceGrouping`, and the line whose tag block carries it ends with
E000. -/
theorem grouping_value_with_bytes_after_third_number_is_accepted :
    StringView.bytes exampleGroupingTail ⟨some 3, 6⟩ = bytes "1-2-3x" ∧
    tagValue ⟨some 1, 8⟩ = ⟨some 3, 6⟩ ∧
    checkSentenceGrouping exampleGroupingTail ⟨some 3, 6⟩ = .ok () ∧
    (parse Nmea.fresh exampleGroupingTail).errorCode = some .E000 :=
  ⟨by decide, rfl, rfl, by decide⟩

/-- C27, amended. The function `checkSentenceGrouping` accepts a value if and only if
the value begins with the three-part form N-N-N where each N is one or more decimal
digits; what follows the third number is not examined. Otherwise it throws E031 or
E032, as the checks in their order give: a missing number, E031; a separator that is
not a hyphen, or a value that ends before the third number, E032. The value `1-2` fails
with E032. -/
theorem checkSentenceGrouping_accepts_values_beginning_with_three_numbers
    (line : List Nat) (field : StringView) (hin : field.inLine line = true) :
    (checkSentenceGrouping line field = .ok () ↔
      ∃ n1 n2 n3 rest, n1 ≠ [] ∧ n2 ≠ [] ∧ n3 ≠ [] ∧
        n1.all isdigit = true ∧ n2.all isdigit = true ∧ n3.all isdigit = true ∧
        field.bytes line = n1 ++ 45 :: (n2 ++ 45 :: (n3 ++ rest))) ∧
    (∀ e, groupingChecks (field.bytes line) = some e →
      (e = .E031 ∨ e = .E032) ∧
      ∃ ind, checkSentenceGrouping line field = .error (.exception e ind)) ∧
    groupingChecks (bytes "1-2") = some .E032 ∧
    groupingChecks (bytes "1-2-") = some .E032 ∧
    groupingChecks (bytes "1x2-3") = some .E032 ∧
    groupingChecks (bytes "-2-3") = some .E031 ∧
    groupingChecks (bytes "1-2-x") = some .E031 ∧
    checkSentenceGrouping (bytes "1-2") ⟨some 0, 3⟩ = .error (.exception .E032 none) := by
  obtain ⟨hnone, hsome⟩ := checkSentenceGrouping_eq hin
  refine ⟨?_, ?_, by decide, by decide, by decide, by decide, by decide, rfl⟩
  · rw [← groupingChecks_none_iff]
    constructor
    · intro hok
      cases hg : groupingChecks (field.bytes line) with
      | none => rfl
      | some e =>
        obtain ⟨ind, he⟩ := hsome e hg
        rw [he] at hok
        cases hok
    · exact hnone
  · intro e he
    exact ⟨groupingChecks_some he, hsome e he⟩

set_option maxRecDepth 100000 in
/-- Witness of the amended C27: the grouping `1-2` of Example 5 fails with E032, and so
does the line that carries it. -/
theorem checkSentenceGrouping_accepts_values_beginning_with_three_numbers_witness :
    StringView.bytes exampleGroupingShort ⟨some 3, 3⟩ = bytes "1-2" ∧
    ((.E032 = ErrorCode.E031 ∨ .E032 = ErrorCode.E032) ∧
      ∃ ind, checkSentenceGrouping exampleGroupingShort ⟨some 3, 3⟩ =
        .error (.exception .E032 ind)) ∧
    (parse Nmea.fresh exampleGroupingShort).errorCode = some .E032 :=
  ⟨by decide,
    (checkSentenceGrouping_accepts_values_beginning_with_three_numbers exampleGroupingShort
      ⟨some 3, 3⟩ rfl).2.1 .E032 (by decide),
    by decide⟩

/-! ## Query sentences and repeated calls of `parse` -/

theorem checkTalkerId_error {ch1 ch2 : Nat} {i : Option Nat} {t : Thrown}
    (h : checkTalkerId ch1 ch2 i = .error t) : t = .exception .E010 i := by
  unfold checkTalkerId at h
  split at h
  · cases h
  · cases h
    rfl

theorem checkSentenceFormatter_error {ch1 ch2 ch3 : Nat} {i : Option Nat} {t : Thrown}
    (h : checkSentenceFormatter ch1 ch2 ch3 i = .error t) : t = .exception .E012 i := by
  unfold checkSentenceFormatter at h
  split at h
  · cases h
  · cases h
    rfl

theorem idx_undefined {α : Type} {v : List α} {i : Nat} {t : Thrown}
    (h : idx v i = .error t) : t = .undefined := by
  unfold idx at h
  split at h
  · cases h
  · cases h
    rfl

/-- The content validation of a query sentence never throws E008: it does not call
`checkDataFieldCharacters`. -/
theorem generalContents_query_never_E008 (element : TagBlockOrSentence)
    (hs : element.m_LineElementType = .sentence)
    (hq : element.m_SentenceType = some .query) (i : Option Nat) :
    generalContents element ≠ .error (.exception .E008 i) := by
  intro h
  unfold generalContents at h
  simp only [hs, hq] at h
  repeat' split at h
  all_goals first
    | (cases h; done)
    | (cases h; cases idx_undefined (by assumption))
    | (cases h; cases checkTalkerId_error (by assumption))
    | (cases checkSentenceFormatter_error h)

set_option maxRecDepth 100000 in
/-- C28, the failing input. The query sentence `$GPGPQ,GGA~*42` tokenises; its data
field `GGA~` holds the reserved byte `~`, on which `checkDataFieldCharacters` throws
E008; the content validation does not call it for a query sentence and returns, and
`parse` ends with E000. -/
theorem query_data_field_with_reserved_byte_is_accepted :
    parseMainStructure Nmea.fresh exampleQueryTilde =
      (⟨[exampleQueryTildeElement], .E000, none⟩, .ok ()) ∧
    StringView.bytes exampleQueryTilde ⟨some 7, 4⟩ = bytes "GGA~" ∧
    reservedAt 126 = .ok true ∧
    checkDataFieldCharacters exampleQueryTilde ⟨some 7, 4⟩ =
      .error (.exception .E008 (some 7)) ∧
    parseGeneralContents ⟨[exampleQueryTildeElement], .E000, none⟩ = .ok () ∧
    parse Nmea.fresh exampleQueryTilde =
      .returned ⟨[exampleQueryTildeElement], .E000, none⟩ :=
  ⟨rfl, by decide, rfl, rfl, rfl, rfl⟩

set_option maxRecDepth 100000 in
/-- C29, the failing input. After `parse` of Example 3, which ends with E009, the
element of Example 3 is still in `m_Line`; `parse` of Example 1 on the same instance
appends its element, validates both and ends with E009 again, where a fresh instance
ends with E000. Likewise after a line that ends with E033 the call on the empty line
leaves E033, where a fresh instance has E000. -/
theorem second_parse_reports_the_error_of_the_first_line :
    parse Nmea.fresh example3 = .returned ⟨[example3Element], .E009, some 0⟩ ∧
    parse Nmea.fresh example1 = .returned ⟨[example1Element], .E000, none⟩ ∧
    parse ⟨[example3Element], .E009, some 0⟩ example1 =
      .returned ⟨[example3Element, example1Element], .E009, some 0⟩ ∧
    parse Nmea.fresh (bytes "x") = .returned ⟨[], .E033, none⟩ ∧
    parse ⟨[], .E033, none⟩ [] = .returned ⟨[], .E033, none⟩ ∧
    parse Nmea.fresh [] = .returned ⟨[], .E000, none⟩ :=
  ⟨rfl, rfl, rfl, rfl, rfl, rfl⟩

/-! ## The indices that `Sentence::parse` reaches -/

theorem forFields_le {cs : Nat} {parse : Field → Nat → Except Thrown Nat} :
    ∀ (fields : List Field) (i j : Nat),
      (∀ f ∈ fields, ∀ i j, i ≤ cs → parse f i = .ok j → j ≤ cs) →
      i ≤ cs → forFields parse fields i = .ok j → j ≤ cs := by
  intro fields
  induction fields with
  | nil =>
    intro i j _ hi h
    rw [forFields] at h
    injection h with h
    omega
  | cons f tl ih =>
    intro i j hs hi h
    rw [forFields] at h
    cases hp : parse f i with
    | error t => rw [hp] at h; cases h
    | ok i1 =>
      rw [hp] at h
      exact ih i1 j (fun g hg => hs g (List.mem_cons_of_mem _ hg))
        (hs f (List.mem_cons_self _ _) i i1 hi hp) h

theorem whileFields_le {cs : Nat} {body : Nat → Except Thrown Nat}
    (hbody : ∀ i j, i ≤ cs → body i = .ok j → j ≤ cs) :
    ∀ (m i j : Nat), i ≤ cs → whileFields cs body m i = .ok j → j ≤ cs := by
  intro m
  induction m with
  | zero =>
    intro i j hi h
    rw [whileFields] at h
    split at h
    · cases h
    · injection h with h
      omega
  | succ m ih =>
    intro i j hi h
    rw [whileFields] at h
    split at h
    · cases hb : body i with
      | error t => rw [hb] at h; cases h
      | ok i1 =>
        rw [hb] at h
        exact ih i1 j (hbody i i1 hi hb) h
    · injection h with h
      omega

theorem repeatFields_le {cs : Nat} {body : Nat → Except Thrown Nat}
    (hbody : ∀ i j, i ≤ cs → body i = .ok j → j ≤ cs) :
    ∀ (n i j : Nat), i ≤ cs → repeatFields body n i = .ok j → j ≤ cs := by
  intro n
  induction n with
  | zero =>
    intro i j hi h
    rw [repeatFields] at h
    injection h with h
    omega
  | succ n ih =>
    intro i j hi h
    rw [repeatFields] at h
    cases hb : body i with
    | error t => rw [hb] at h; cases h
    | ok i1 =>
      rw [hb] at h
      exact ih i1 j (hbody i i1 hi hb) h

/-- A validator called at an index not beyond the checksum index returns such an index:
no call that `Sentence::parse` makes, directly or through a group, is at an index beyond
the checksum index. -/
theorem Field_parse_le (line : List Nat) (splitter : List StringView) :
    ∀ (fuel : Nat) (f : Field) (i j : Nat), i ≤ checksumIndex splitter →
      Field.parse line splitter fuel f i = .ok j → j ≤ checksumIndex splitter := by
  intro fuel
  induction fuel with
  | zero =>
    intro f i j _ h
    cases f <;> cases h
  | succ fuel ih =>
    intro f i j hi h
    have hchildren : ∀ (fs : List Field) (i j : Nat), i ≤ checksumIndex splitter →
        forFields (fun f i => Field.parse line splitter fuel f i) fs i = .ok j →
        j ≤ checksumIndex splitter :=
      fun fs i j hi h => forFields_le fs i j (fun g _ a b ha hb => ih g a b ha hb) hi h
    by_cases hg : f.isGroup = false
    · exact (single_ok hg h).2 ▸ (single_ok hg h).1
    · cases f with
      | RepeatableGroup it n fields =>
        cases it with
        | zero_or_one =>
          cases fields with
          | nil =>
            have heq : Field.parse line splitter (fuel + 1)
                (.RepeatableGroup .zero_or_one n []) i =
                if i < checksumIndex splitter then
                  match idx splitter i with
                  | .error t => .error t
                  | .ok field => if field.size ≠ 0 then .error .undefined else .ok i
                else .ok i := rfl
            rw [heq] at h
            repeat' split at h
            all_goals first
              | (cases h; done)
              | (injection h with h; omega)
          | cons g rest =>
            rw [zero_or_one_eq] at h
            repeat' split at h
            all_goals first
              | (cases h; done)
              | exact ih g i j hi h
              | (injection h with h; omega)
        | zero_or_more =>
          rw [zero_or_more_eq] at h
          exact whileFields_le (hchildren fields) fuel i j hi h
        | one_or_more =>
          rw [one_or_more_eq] at h
          split at h
          · exact absurd h (throwE015_ne_ok splitter j)
          · exact whileFields_le (hchildren fields) fuel i j hi h
        | fixed =>
          exact repeatFields_le (hchildren fields) n i j hi h
      | _ => exact absurd rfl hg

/-! ## The character classes -/

/-- The classes on the 128 values of the table. -/
theorem classes_below_128 :
    ∀ ch, ch < 128 →
      (isdefined ch = (isvalid ch || isreserved ch)) ∧
      (isvalid ch && isreserved ch) = false ∧
      isreserved ch = decide (ch ∈ reservedBytes) ∧
      reserved.getD ch false = isreserved ch := by
  decide

/-- C32. The character classes partition the defined bytes: for every byte value,
`isdefined` holds if and only if `isvalid` or `isreserved` holds, `isvalid` and
`isreserved` never hold together, `isreserved` holds exactly for LF, CR, `!`, `$`, `*`,
`,`, `\`, `^`, `~` and DEL, and every value outside 0..127 is undefined, not valid and
not reserved. -/
theorem character_classes_partition_the_defined_bytes (ch : Nat) :
    (isdefined ch = true ↔ isvalid ch = true ∨ isreserved ch = true) ∧
    ¬ (isvalid ch = true ∧ isreserved ch = true) ∧
    (isreserved ch = true ↔ ch ∈ reservedBytes) ∧
    (127 < ch → isdefined ch = false ∧ isundefined ch = true ∧ isvalid ch = false ∧
      isreserved ch = false) := by
  have hbig : 127 < ch → isdefined ch = false ∧ isundefined ch = true ∧ isvalid ch = false ∧
      isreserved ch = false := by
    intro h
    have h1 : decide (ch ≤ 127) = false := by simpa using h
    simp only [isdefined, isundefined, isvalid, isreserved, h1, Bool.false_and,
      Bool.and_false, Bool.not_false, and_self]
  by_cases h : ch < 128
  · obtain ⟨h1, h2, h3, _⟩ := classes_below_128 ch h
    refine ⟨?_, ?_, ?_, hbig⟩
    · rw [h1, Bool.or_eq_true]
    · intro ⟨hv, hr⟩
      rw [hv, hr] at h2
      cases h2
    · rw [h3, decide_eq_true_eq]
  · obtain ⟨hd, _, hv, hr⟩ := hbig (by omega)
    refine ⟨?_, ?_, ?_, hbig⟩
    · rw [hd, hv, hr]
      simp
    · rw [hv]
      simp
    · rw [hr]
      constructor
      · intro hc
        cases hc
      · intro hm
        have : ch ≤ 127 := by
          simp only [reservedBytes, List.mem_cons, List.mem_singleton, List.not_mem_nil,
            or_false] at hm
          omega
        omega

/-! ## The functions `checkDataFieldCharacters` and `checkProprietaryDataFieldCharacters` -/

/-- The only exception of the character loop is E008 with the address of the first byte
of the field. -/
theorem checkCharactersFrom_exception {line : List Nat} {field : StringView} {caret : Bool} :
    ∀ (n i : Nat) (e : ErrorCode) (ind : Option Nat),
      checkCharactersFrom line field caret n i = .error (.exception e ind) →
      e = .E008 ∧ ind = field.addr 0 := by
  intro n
  induction n with
  | zero => intro i e ind h; rw [checkCharactersFrom] at h; cases h
  | succ n ih =>
    intro i e ind h
    rw [checkCharactersFrom] at h
    split at h
    · next heq =>
      cases h
      unfold StringView.at at heq
      split at heq
      · cases heq
      · cases (rd_eq_error heq).2
    · split at h
      · next heq =>
        cases h
        unfold reservedAt at heq
        split at heq
        · cases heq
        · cases heq
      · split at h
        · cases h
          exact ⟨rfl, rfl⟩
        · exact ih (i + 1) e ind h

/-- The character loop over the bytes `i`, ..., `i + n - 1` of a view whose bytes are
defined characters. -/
theorem checkCharactersFrom_eq {line : List Nat} {v : StringView} (caret : Bool)
    (h : v.inLine line = true) (hdef : ∀ ch ∈ v.bytes line, isdefined ch = true) :
    ∀ (n i : Nat), i + n ≤ v.size →
      checkCharactersFrom line v caret n i =
        if (((v.bytes line).drop i).take n).all (fun ch => isvalid ch || (caret && ch == 94))
        then .ok () else .error (.exception .E008 (v.addr 0)) := by
  have hlen := StringView.bytes_length h
  intro n
  induction n with
  | zero => intro i _; simp [checkCharactersFrom]
  | succ n ih =>
    intro i hi
    have hmem : (v.bytes line).getD i 0 ∈ v.bytes line := by
      rw [List.getD_eq_getElem?_getD, List.getElem?_eq_getElem (by omega), Option.getD_some]
      exact List.getElem_mem _
    have hd := hdef _ hmem
    rw [checkCharactersFrom, StringView.at_eq h (by omega), drop_cons_getD (by omega),
      List.take_succ_cons, List.all_cons, ih (i + 1) (by omega)]
    generalize (v.bytes line).getD i 0 = ch at hd
    have hlt : ch < 128 := isdefined_lt hd
    obtain ⟨h1, h2, _, h4⟩ := classes_below_128 ch hlt
    have hres : reservedAt ch = .ok (isreserved ch) := by
      unfold reservedAt
      rw [if_pos hlt, h4]
    simp only
    rw [hres]
    simp only
    rw [hd] at h1
    cases hv : isvalid ch with
    | true =>
      rw [hv] at h2
      have hr : isreserved ch = false := by simpa using h2
      rw [hr]
      simp
    | false =>
      rw [hv] at h1
      have hr : isreserved ch = true := by simpa using h1.symm
      rw [hr]
      by_cases hc : (caret && ch == 94) = true
      · simp [hc]
      · have hc2 : (caret && ch == 94) = false := by simpa using hc
        simp [hc2]

/-- C33. For a field all of whose bytes are defined characters,
`checkDataFieldCharacters` returns normally if and only if every byte of the field
satisfies `isvalid`, and `checkProprietaryDataFieldCharacters` if and only if every byte
satisfies `isvalid` or is `^`; in all other cases they throw E008. -/
theorem data_field_characters_pass_iff_all_bytes_valid
    (line : List Nat) (field : StringView) (hin : field.inLine line = true)
    (hdef : ∀ ch ∈ field.bytes line, isdefined ch = true) :
    (checkDataFieldCharacters line field = .ok () ↔
      ∀ ch ∈ field.bytes line, isvalid ch = true) ∧
    (checkProprietaryDataFieldCharacters line field = .ok () ↔
      ∀ ch ∈ field.bytes line, isvalid ch = true ∨ ch = 94) ∧
    (checkDataFieldCharacters line field = .ok () ∨
      checkDataFieldCharacters line field = .error (.exception .E008 (field.addr 0))) ∧
    (checkProprietaryDataFieldCharacters line field = .ok () ∨
      checkProprietaryDataFieldCharacters line field =
        .error (.exception .E008 (field.addr 0))) := by
  have hlen := StringView.bytes_length hin
  have h1 := checkCharactersFrom_eq false hin hdef field.size 0 (by omega)
  have h2 := checkCharactersFrom_eq true hin hdef field.size 0 (by omega)
  rw [List.drop_zero, List.take_of_length_le (by omega)] at h1 h2
  unfold checkDataFieldCharacters checkProprietaryDataFieldCharacters
  rw [h1, h2]
  refine ⟨?_, ?_, ?_, ?_⟩
  · by_cases ha : (field.bytes line).all (fun ch => isvalid ch || (false && ch == 94)) = true
    · rw [if_pos ha]
      simp only [List.all_eq_true, Bool.false_and, Bool.or_false] at ha
      exact ⟨fun _ => ha, fun _ => rfl⟩
    · rw [if_neg ha]
      simp only [List.all_eq_true, Bool.false_and, Bool.or_false] at ha
      exact Iff.intro (fun h => by cases h) (fun h => absurd h ha)
  · by_cases ha : (field.bytes line).all (fun ch => isvalid ch || (true && ch == 94)) = true
    · rw [if_pos ha]
      simp only [List.all_eq_true, Bool.true_and, Bool.or_eq_true, beq_iff_eq] at ha
      exact ⟨fun _ => ha, fun _ => rfl⟩
    · rw [if_neg ha]
      simp only [List.all_eq_true, Bool.true_and, Bool.or_eq_true, beq_iff_eq] at ha
      exact Iff.intro (fun h => by cases h) (fun h => absurd h ha)
  · by_cases ha : (field.bytes line).all (fun ch => isvalid ch || (false && ch == 94)) = true
    · rw [if_pos ha]
      exact Or.inl rfl
    · rw [if_neg ha]
      exact Or.inr rfl
  · by_cases ha : (field.bytes line).all (fun ch => isvalid ch || (true && ch == 94)) = true
    · rw [if_pos ha]
      exact Or.inl rfl
    · rw [if_neg ha]
      exact Or.inr rfl

set_option maxRecDepth 100000 in
/-- Witness of C33: the field `4807.038` of Example 1 passes both checks. -/
theorem data_field_characters_pass_iff_all_bytes_valid_witness :
    StringView.bytes example1 ⟨some 14, 8⟩ = bytes "4807.038" ∧
    checkDataFieldCharacters example1 ⟨some 14, 8⟩ = .ok () ∧
    checkProprietaryDataFieldCharacters example1 ⟨some 14, 8⟩ = .ok () :=
  ⟨by decide,
    (data_field_characters_pass_iff_all_bytes_valid example1 ⟨some 14, 8⟩ rfl
      (by decide)).1.mpr (by decide),
    (data_field_characters_pass_iff_all_bytes_valid example1 ⟨some 14, 8⟩ rfl
      (by decide)).2.1.mpr (by decide)⟩

set_option maxRecDepth 100000 in
/-- C31, the counterexample. In the first data field `1234~5` of the line, at offsets 7
to 12, the first reserved byte is `~` at offset 11; `checkDataFieldCharacters` throws
E008 with the address of the first byte of the field, and `parse` ends with E008 and
the indication at offset 7. -/
theorem E008_indication_is_not_at_the_reserved_byte :
    StringView.bytes exampleTildeInside ⟨some 7, 6⟩ = bytes "1234~5" ∧
    (bytes "1234").all (fun ch => !isreserved ch) = true ∧ isreserved 126 = true ∧
    exampleTildeInside.getD 11 0 = 126 ∧
    checkDataFieldCharacters exampleTildeInside ⟨some 7, 6⟩ =
      .error (.exception .E008 (some 7)) ∧
    ((parse Nmea.fresh exampleTildeInside).errorCode,
      (parse Nmea.fresh exampleTildeInside).indication) = (some .E008, some (some 7)) :=
  ⟨by decide, by decide, by decide, by decide, rfl, by decide⟩

/-- C31, amended. When `checkDataFieldCharacters` or
`checkProprietaryDataFieldCharacters` rejects a data field, the code is E008 and the
indication is the address of the first byte of that field, wherever its first reserved
byte stands. -/
theorem E008_indication_is_the_start_of_the_field
    (line : List Nat) (field : StringView) (e : ErrorCode) (ind : Option Nat)
    (h : checkDataFieldCharacters line field = .error (.exception e ind) ∨
      checkProprietaryDataFieldCharacters line field = .error (.exception e ind)) :
    e = .E008 ∧ ind = field.addr 0 := by
  rcases h with h | h
  · exact checkCharactersFrom_exception field.size 0 e ind h
  · exact checkCharactersFrom_exception field.size 0 e ind h

set_option maxRecDepth 100000 in
/-- Witness of the amended C31: the field `1234~5` at offset 7. -/
theorem E008_indication_is_the_start_of_the_field_witness :
    .E008 = ErrorCode.E008 ∧ some 7 = StringView.addr ⟨some 7, 6⟩ 0 :=
  E008_indication_is_the_start_of_the_field exampleTildeInside ⟨some 7, 6⟩ .E008 (some 7)
    (Or.inl rfl)

/-! ## The views of an element, read back from a successful scan -/

/-- A byte of a slice stands at an offset of the line inside the slice. -/
theorem mem_slice {line : List Nat} {p e ch : Nat} (h : ch ∈ slice line p e) :
    ∃ i, p ≤ i ∧ i < e ∧ i < line.length ∧ line.getD i 0 = ch := by
  unfold slice at h
  obtain ⟨n, hn⟩ := List.mem_iff_getElem?.mp h
  rw [List.getElem?_take] at hn
  split at hn
  · rw [List.getElem?_drop] at hn
    obtain ⟨hlt, _⟩ := List.getElem?_eq_some_iff.mp hn
    refine ⟨p + n, by omega, by omega, hlt, ?_⟩
    rw [List.getD_eq_getElem?_getD, hn]
    rfl
  · cases hn

/-- The view appended for a span that starts at a comma or a backslash: its bytes are
those after that byte. -/
theorem span_data {line : List Nat} {ch s e : Nat} (hch : ch = 44 ∨ ch = 92) (hse : s ≤ e)
    (he : e ≤ line.length) :
    (span ch s e).inLine line = true ∧ (span ch s e).bytes line = slice line (s + 1) e := by
  unfold span
  rw [if_pos hch]
  by_cases h2 : e - s < 2
  · rw [if_pos h2]
    refine ⟨rfl, ?_⟩
    have hz : e - (s + 1) = 0 := by omega
    simp only [StringView.bytes, slice, hz, List.take_zero]
  · rw [if_neg h2]
    refine ⟨?_, ?_⟩
    · simp only [StringView.inLine, decide_eq_true_eq]
      omega
    · simp only [StringView.bytes]
      congr 1
      omega

/-- The view appended for a span that starts at another byte: its bytes are those of the
span. -/
theorem span_header {line : List Nat} {ch s e : Nat} (hch : ¬ (ch = 44 ∨ ch = 92)) (hse : s ≤ e)
    (he : e ≤ line.length) :
    span ch s e = ⟨some s, e - s⟩ ∧ (span ch s e).inLine line = true ∧
      (span ch s e).bytes line = slice line s e := by
  unfold span
  rw [if_neg hch]
  refine ⟨rfl, ?_, ?_⟩
  · simp only [StringView.inLine, decide_eq_true_eq]
    omega
  · simp only [StringView.bytes]
    congr 1
    omega

/-- What a successful run of the data-field loop has appended: the view that was open,
closed at the first comma or at the star (offset `q`), then one view for each comma up
to the star; the data views, each after its comma, are the text from `q` to the star,
and none holds a comma, a star or an undefined byte. -/
theorem scanDataFields_views (line : List Nat) :
    ∀ (fuel : Nat) (sp : List StringView) (start c b : Nat)
      (sp1 : List StringView) (start1 c1 b1 : Nat),
      scanDataFields line fuel sp start c b = .ok (sp1, start1, c1, b1) →
      ∃ q datas, b ≤ q ∧ q ≤ b1 ∧ b1 < line.length ∧
        sp1 = sp ++ span (line.getD start 0) start q :: datas ∧
        (∀ i, b ≤ i → i < q → line.getD i 0 ≠ 44 ∧ line.getD i 0 ≠ 42 ∧
          (b < i → isdefined (line.getD i 0) = true)) ∧
        (b < q → isdefined (line.getD q 0) = true) ∧
        commaFields (datas.map (StringView.bytes line)) = slice line q b1 ∧
        (∀ v ∈ datas, v.inLine line = true ∧
          ∀ ch ∈ v.bytes line, ch ≠ 44 ∧ ch ≠ 42 ∧ isdefined ch = true) := by
  intro fuel
  induction fuel with
  | zero => intro sp start c b sp1 start1 c1 b1 h; simp [scanDataFields] at h
  | succ fuel ih =>
    intro sp start c b sp1 start1 c1 b1 h
    by_cases hb : b < line.length
    swap
    · rw [scanDataFields, if_pos (by omega)] at h
      cases h
    rw [scanDataFields_succ line fuel sp start c b hb] at h
    split at h
    · next h44 =>
      cases ha : appendSpan line sp start b with
      | error t => rw [ha] at h; cases h
      | ok sp2 =>
        rw [ha] at h
        simp only at h
        obtain ⟨_, hsp2⟩ := appendSpan_eq_ok ha
        cases hi : incr line c b with
        | error t => rw [hi] at h; cases h
        | ok r =>
          obtain ⟨c2, b2⟩ := r
          rw [hi] at h
          simp only at h
          obtain ⟨hb2, _, hdef, _⟩ := incr_eq_ok hi
          subst hb2
          obtain ⟨q, datas, hq1, hq2, hb1, hsp1, hrange, hqdef, hcover, hall⟩ :=
            ih sp2 b c2 (b + 1) sp1 start1 c1 b1 h
          have hview := @span_data line (line.getD b 0) b q (Or.inl h44) (by omega) (by omega)
          refine ⟨b, span (line.getD b 0) b q :: datas, Nat.le_refl b, by omega, hb1, ?_,
            ?_, ?_, ?_, ?_⟩
          · rw [hsp1, hsp2, List.append_assoc]
            rfl
          · intro i h1 h2
            omega
          · intro h1
            omega
          · rw [List.map_cons, commaFields_cons, hview.2, hcover,
              slice_cons hb (by omega), h44,
              ← slice_append line (i := b + 1) (j := q) (k := b1) (by omega) hq2]
          · intro v hv
            rcases List.mem_cons.mp hv with e | hv
            · subst e
              refine ⟨hview.1, ?_⟩
              intro ch hch
              rw [hview.2] at hch
              obtain ⟨i, g1, g2, _, g4⟩ := mem_slice hch
              obtain ⟨r1, r2, r3⟩ := hrange i g1 g2
              rw [← g4]
              refine ⟨r1, r2, ?_⟩
              by_cases hib : i = b + 1
              · rw [hib]; exact hdef
              · exact r3 (by omega)
            · exact hall v hv
    · next h44 =>
      split at h
      · next h42 =>
        cases ha : appendSpan line sp start b with
        | error t => rw [ha] at h; cases h
        | ok sp2 =>
          rw [ha] at h
          obtain ⟨_, hsp2⟩ := appendSpan_eq_ok ha
          injection h with h
          injection h with h1 h
          injection h with h2 h
          injection h with h3 h4
          subst h4
          refine ⟨b, [], Nat.le_refl b, Nat.le_refl b, hb, ?_, ?_, ?_, ?_, ?_⟩
          · rw [← h1, hsp2]
          · intro i g1 g2
            omega
          · intro g
            omega
          · rw [slice_self]
            rfl
          · intro v hv
            cases hv
      · next h42 =>
        cases hi : incr line c b with
        | error t => rw [hi] at h; cases h
        | ok r =>
          obtain ⟨c2, b2⟩ := r
          rw [hi] at h
          simp only at h
          obtain ⟨hb2, _, hdef, _⟩ := incr_eq_ok hi
          subst hb2
          obtain ⟨q, datas, hq1, hq2, hb1, hsp1, hrange, hqdef, hcover, hall⟩ :=
            ih sp start c2 (b + 1) sp1 start1 c1 b1 h
          refine ⟨q, datas, by omega, hq2, hb1, hsp1, ?_, ?_, hcover, hall⟩
          · intro i g1 g2
            by_cases hib : i = b
            · subst hib
              exact ⟨h44, h42, fun g => absurd g (Nat.lt_irrefl i)⟩
            · obtain ⟨r1, r2, r3⟩ := hrange i (by omega) g2
              refine ⟨r1, r2, ?_⟩
              intro _
              by_cases hib1 : i = b + 1
              · rw [hib1]; exact hdef
              · exact r3 (by omega)
          · intro _
            by_cases hqb : q = b + 1
            · rw [hqb]; exact hdef
            · exact hqdef (by omega)

/-- An element that is returned, with its views read back: the header view ends at
offset `q`, the first comma after the skipped address bytes or the star. -/
theorem element_views {line : List Nat} {begin b1 : Nat} {element : TagBlockOrSentence}
    (h : parseMainStructureTagBlockOrSentence line begin = .ok (element, b1)) :
    ∃ ty sty c0 b0 b q datas,
      addressField line begin = .ok (ty, sty, c0, b0) ∧
      b0 ≤ q ∧ q ≤ b ∧ line.getD b 0 = 42 ∧ b + 3 ≤ line.length ∧ b1 = b + 3 ∧
      element = ⟨span (line.getD begin 0) begin q :: datas ++ [⟨some b, 3⟩], ty, sty, line⟩ ∧
      (∀ i, begin < i → i < q → isdefined (line.getD i 0) = true) ∧
      (∀ i, b0 ≤ i → i < q → line.getD i 0 ≠ 44 ∧ line.getD i 0 ≠ 42) ∧
      commaFields (datas.map (StringView.bytes line)) = slice line q b ∧
      (∀ v ∈ datas, v.inLine line = true ∧
        ∀ ch ∈ v.bytes line, ch ≠ 44 ∧ ch ≠ 42 ∧ isdefined ch = true) := by
  obtain ⟨ty, sty, c0, b0, sp, start, cs, b, ha, hs, hend, hel, hb1⟩ := element_eq_ok h
  obtain ⟨_, _, hc0, hadef, _⟩ := addressField_spec ha
  obtain ⟨_, _, h42, _, _, _, hsdef⟩ :=
    scanDataFields_spec line line.length [] begin c0 b0 sp start cs b hc0 hs
  obtain ⟨q, datas, hq1, hq2, _, hsp, hrange, _, hcover, hall⟩ :=
    scanDataFields_views line line.length [] begin c0 b0 sp start cs b hs
  rw [List.nil_append] at hsp
  refine ⟨ty, sty, c0, b0, b, q, datas, ha, hq1, hq2, h42, hend, hb1, ?_, ?_, ?_, hcover, hall⟩
  · rw [hel, hsp]
  · intro i g1 g2
    by_cases hi : i ≤ b0
    · exact hadef i g1 hi
    · exact hsdef i (by omega) (by omega)
  · intro i g1 g2
    exact ⟨(hrange i g1 g2).1, (hrange i g1 g2).2.1⟩

/-- C35. The tokenizer classifies an element from its leading bytes alone: marker `\`
gives a tag block; marker `!` an encapsulated sentence; marker `$` followed by `P` a
proprietary sentence; marker `$` followed by another byte a query sentence when the byte
at offset 5 from the marker is `Q`, and a parametric sentence otherwise. -/
theorem element_kind_follows_its_leading_bytes (line : List Nat) (begin b1 : Nat)
    (element : TagBlockOrSentence)
    (h : parseMainStructureTagBlockOrSentence line begin = .ok (element, b1)) :
    (line.getD begin 0 = 92 → element.m_LineElementType = .tag_block) ∧
    (line.getD begin 0 = 33 → element.m_LineElementType = .sentence ∧
      element.m_SentenceType = some .encapsulated) ∧
    (line.getD begin 0 = 36 → line.getD (begin + 1) 0 = 80 →
      element.m_LineElementType = .sentence ∧ element.m_SentenceType = some .proprietary) ∧
    (line.getD begin 0 = 36 → line.getD (begin + 1) 0 ≠ 80 → line.getD (begin + 5) 0 = 81 →
      element.m_LineElementType = .sentence ∧ element.m_SentenceType = some .query) ∧
    (line.getD begin 0 = 36 → line.getD (begin + 1) 0 ≠ 80 → line.getD (begin + 5) 0 ≠ 81 →
      element.m_LineElementType = .sentence ∧ element.m_SentenceType = some .parametric) ∧
    (line.getD begin 0 = 92 ∨ line.getD begin 0 = 33 ∨ line.getD begin 0 = 36) := by
  obtain ⟨ty, sty, c0, b0, sp, start, cs, b, ha, _, _, hel, _⟩ := element_eq_ok h
  obtain ⟨_, _, _, _, hcase⟩ := addressField_spec ha
  subst hel
  simp only
  rcases hcase with ⟨h1, h2, h3, _, _⟩ | ⟨h1, _, ⟨h2, h3, _⟩ | ⟨h2, h3, h4, _⟩ |
    ⟨h2, h3, h4, h5, _⟩ | ⟨h2, h3, h4, h5, _⟩⟩
  · refine ⟨fun _ => h1, ?_, ?_, ?_, ?_, Or.inl h3⟩ <;> intro g <;> omega
  · refine ⟨?_, fun _ => ⟨h1, h2⟩, ?_, ?_, ?_, Or.inr (Or.inl h3)⟩ <;> intro g <;> omega
  · refine ⟨?_, ?_, fun _ _ => ⟨h1, h2⟩, ?_, ?_, Or.inr (Or.inr h3)⟩
    · intro g; omega
    · intro g; omega
    · intro _ g; omega
    · intro _ g; omega
  · refine ⟨?_, ?_, ?_, fun _ _ _ => ⟨h1, h2⟩, ?_, Or.inr (Or.inr h3)⟩
    · intro g; omega
    · intro g; omega
    · intro _ g; omega
    · intro _ _ g; omega
  · refine ⟨?_, ?_, ?_, ?_, fun _ _ _ => ⟨h1, h2⟩, Or.inr (Or.inr h3)⟩
    · intro g; omega
    · intro g; omega
    · intro _ g; omega
    · intro _ _ g; omega

set_option maxRecDepth 100000 in
/-- Witness of C35: the element of `$GPGPQ,GGA~*42`, whose byte at offset 5 is `Q`, is a
query sentence. -/
theorem element_kind_follows_its_leading_bytes_witness :
    parseMainStructureTagBlockOrSentence exampleQueryTilde 0 =
      .ok (exampleQueryTildeElement, 14) ∧
    exampleQueryTildeElement.m_LineElementType = .sentence ∧
    exampleQueryTildeElement.m_SentenceType = some .query :=
  ⟨rfl, (element_kind_follows_its_leading_bytes exampleQueryTilde 0 14
    exampleQueryTildeElement rfl).2.2.2.1 (by decide) (by decide) (by decide)⟩

/-- The header view and the data views of a returned element lie in the line and hold
defined bytes only. -/
theorem element_views_defined {line : List Nat} {begin b1 : Nat} {element : TagBlockOrSentence}
    (h : parseMainStructureTagBlockOrSentence line begin = .ok (element, b1)) :
    ∀ v ∈ element.m_Splitter.dropLast, v.inLine line = true ∧
      ∀ ch ∈ v.bytes line, isdefined ch = true := by
  obtain ⟨ty, sty, c0, b0, b, q, datas, ha, hq1, hq2, _, hend, _, hel, hdef, _, _, hall⟩ :=
    element_views h
  obtain ⟨hbl, _, _, _, hcase⟩ := addressField_spec ha
  subst hel
  simp only
  intro v hv
  rw [List.dropLast_concat] at hv
  rcases List.mem_cons.mp hv with e | hv
  · subst e
    have hb0 : begin ≤ b0 := by
      rcases hcase with ⟨_, _, _, g, _⟩ | ⟨_, _, ⟨_, _, g⟩ | ⟨_, _, _, g⟩ | ⟨_, _, _, _, g⟩ |
        ⟨_, _, _, _, g⟩⟩ <;> omega
    by_cases h92 : line.getD begin 0 = 92
    · obtain ⟨g1, g2⟩ := @span_data line (line.getD begin 0) begin q (Or.inr h92)
        (by omega) (by omega)
      refine ⟨g1, ?_⟩
      intro ch hch
      rw [g2] at hch
      obtain ⟨i, k1, k2, _, k4⟩ := mem_slice hch
      rw [← k4]
      exact hdef i (by omega) k2
    · have hm : line.getD begin 0 = 33 ∨ line.getD begin 0 = 36 := by
        rcases hcase with ⟨_, _, g, _⟩ | ⟨_, _, ⟨_, g, _⟩ | ⟨_, g, _⟩ | ⟨_, g, _⟩ | ⟨_, g, _⟩⟩
        · exact absurd g h92
        · exact Or.inl g
        · exact Or.inr g
        · exact Or.inr g
        · exact Or.inr g
      obtain ⟨_, g1, g2⟩ := @span_header line (line.getD begin 0) begin q (by omega)
        (by omega) (by omega)
      refine ⟨g1, ?_⟩
      intro ch hch
      rw [g2] at hch
      obtain ⟨i, k1, k2, _, k4⟩ := mem_slice hch
      rw [← k4]
      by_cases hib : i = begin
      · rw [hib]
        rcases hm with g | g <;> rw [g] <;> rfl
      · exact hdef i (by omega) k2
  · exact ⟨(hall v hv).1, fun ch hch => ((hall v hv).2 ch hch).2.2⟩

/-- C37. After the tokenizer has returned an element, every byte of its header view and
of each of its data views is a defined character (a value in 0..127 that is at least 32
or is CR or LF); hence every lookup in the 128-entry table `reserved` that
`checkDataFieldCharacters` and `checkProprietaryDataFieldCharacters` perform on those
views is within bounds, and neither call has undefined behaviour. -/
theorem tokenized_views_hold_defined_bytes_and_table_lookups_stay_in_bounds
    (line : List Nat) (begin b1 : Nat) (element : TagBlockOrSentence)
    (h : parseMainStructureTagBlockOrSentence line begin = .ok (element, b1)) :
    ∀ v ∈ element.m_Splitter.dropLast,
      (∀ ch ∈ v.bytes line, isdefined ch = true ∧ ch ≤ 127 ∧ (32 ≤ ch ∨ ch = 13 ∨ ch = 10) ∧
        ch < reserved.length ∧ reservedAt ch = .ok (reserved.getD ch false)) ∧
      checkDataFieldCharacters line v ≠ .error .undefined ∧
      checkProprietaryDataFieldCharacters line v ≠ .error .undefined := by
  intro v hv
  obtain ⟨hin, hdef⟩ := element_views_defined h v hv
  have hlen := StringView.bytes_length hin
  refine ⟨?_, ?_, ?_⟩
  · intro ch hch
    have hd := hdef ch hch
    have hlt := isdefined_lt hd
    refine ⟨hd, by omega, ?_, hlt, ?_⟩
    · simp only [isdefined, Bool.and_eq_true, Bool.or_eq_true, decide_eq_true_eq,
        beq_iff_eq] at hd
      omega
    · unfold reservedAt
      rw [if_pos hlt]
  · unfold checkDataFieldCharacters
    rw [checkCharactersFrom_eq false hin hdef v.size 0 (by omega)]
    split <;> intro g <;> cases g
  · unfold checkProprietaryDataFieldCharacters
    rw [checkCharactersFrom_eq true hin hdef v.size 0 (by omega)]
    split <;> intro g <;> cases g

set_option maxRecDepth 100000 in
/-- Witness of C37: the views of Example 1 without the checksum view. -/
theorem tokenized_views_hold_defined_bytes_and_table_lookups_stay_in_bounds_witness :
    example1Element.m_Splitter.dropLast = example1Fields ∧
    ∀ v ∈ example1Element.m_Splitter.dropLast,
      (∀ ch ∈ v.bytes example1, isdefined ch = true ∧ ch ≤ 127 ∧
        (32 ≤ ch ∨ ch = 13 ∨ ch = 10) ∧
        ch < reserved.length ∧ reservedAt ch = .ok (reserved.getD ch false)) ∧
      checkDataFieldCharacters example1 v ≠ .error .undefined ∧
      checkProprietaryDataFieldCharacters example1 v ≠ .error .undefined :=
  ⟨by decide, tokenized_views_hold_defined_bytes_and_table_lookups_stay_in_bounds
    example1 0 65 example1Element rfl⟩

/-- C39. The views of a sentence element cover its text without loss: the bytes of the
header view, then those of each data view after a `,`, then those of the checksum view
are exactly the bytes of the line from the marker of the element through the last
checksum byte; and no data view holds a `,` or a `*`. -/
theorem sentence_views_cover_the_text_of_the_element (line : List Nat) (begin b1 : Nat)
    (element : TagBlockOrSentence)
    (h : parseMainStructureTagBlockOrSentence line begin = .ok (element, b1))
    (hs : element.m_LineElementType = .sentence) :
    ∃ header datas checksum,
      element.m_Splitter = header :: datas ++ [checksum] ∧
      header.data = some begin ∧ checksum = ⟨some (b1 - 3), 3⟩ ∧
      begin + 3 ≤ b1 ∧ b1 ≤ line.length ∧
      header.bytes line ++ commaFields (datas.map (StringView.bytes line)) ++
        checksum.bytes line = slice line begin b1 ∧
      ∀ v ∈ datas, 44 ∉ v.bytes line ∧ 42 ∉ v.bytes line := by
  obtain ⟨ty, sty, c0, b0, b, q, datas, ha, hq1, hq2, _, hend, hb1, hel, _, _, hcover, hall⟩ :=
    element_views h
  obtain ⟨hbl, _, _, _, hcase⟩ := addressField_spec ha
  subst hel
  simp only at hs
  have hm : (line.getD begin 0 = 33 ∨ line.getD begin 0 = 36) ∧ begin ≤ b0 := by
    rcases hcase with ⟨g, _⟩ | ⟨_, _, ⟨_, g, e⟩ | ⟨_, g, _, e⟩ | ⟨_, g, _, _, e⟩ | ⟨_, g, _, _, e⟩⟩
    · rw [hs] at g; cases g
    · exact ⟨Or.inl g, by omega⟩
    · exact ⟨Or.inr g, by omega⟩
    · exact ⟨Or.inr g, by omega⟩
    · exact ⟨Or.inr g, by omega⟩
  obtain ⟨g0, _, g2⟩ := @span_header line (line.getD begin 0) begin q (by omega)
    (by omega) (by omega)
  refine ⟨span (line.getD begin 0) begin q, datas, ⟨some b, 3⟩, rfl, ?_, ?_, by omega,
    by omega, ?_, ?_⟩
  · rw [g0]
  · rw [hb1, Nat.add_sub_cancel]
  · rw [g2, hcover, hb1, ← slice_append line (i := begin) (j := q) (k := b) (by omega) hq2]
    exact (slice_append line (i := begin) (j := b) (k := b + 3) (by omega) (by omega)).symm
  · intro v hv
    refine ⟨fun hmem => ?_, fun hmem => ?_⟩
    · exact ((hall v hv).2 44 hmem).1 rfl
    · exact ((hall v hv).2 42 hmem).2.1 rfl

set_option maxRecDepth 100000 in
/-- Witness of C39: the views of Example 1 cover its first 65 bytes, all but CR LF. -/
theorem sentence_views_cover_the_text_of_the_element_witness :
    example1.length = 67 ∧
    ∃ header datas checksum,
      example1Element.m_Splitter = header :: datas ++ [checksum] ∧
      header.data = some 0 ∧ checksum = ⟨some (65 - 3), 3⟩ ∧
      0 + 3 ≤ 65 ∧ 65 ≤ example1.length ∧
      header.bytes example1 ++ commaFields (datas.map (StringView.bytes example1)) ++
        checksum.bytes example1 = slice example1 0 65 ∧
      ∀ v ∈ datas, 44 ∉ v.bytes example1 ∧ 42 ∉ v.bytes example1 :=
  ⟨by decide, sentence_views_cover_the_text_of_the_element example1 0 65 example1Element
    rfl rfl⟩

/-! ## The index never moves backward -/

theorem forFields_ge {parse : Field → Nat → Except Thrown Nat} :
    ∀ (fields : List Field) (i j : Nat),
      (∀ f ∈ fields, ∀ i j, parse f i = .ok j → i ≤ j) →
      forFields parse fields i = .ok j → i ≤ j := by
  intro fields
  induction fields with
  | nil =>
    intro i j _ h
    rw [forFields] at h
    injection h with h
    omega
  | cons f tl ih =>
    intro i j hs h
    rw [forFields] at h
    cases hp : parse f i with
    | error t => rw [hp] at h; cases h
    | ok i1 =>
      rw [hp] at h
      have h1 := hs f (List.mem_cons_self _ _) i i1 hp
      have h2 := ih i1 j (fun g hg => hs g (List.mem_cons_of_mem _ hg)) h
      omega

theorem whileFields_ge {cs : Nat} {body : Nat → Except Thrown Nat}
    (hbody : ∀ i j, body i = .ok j → i ≤ j) :
    ∀ (m i j : Nat), whileFields cs body m i = .ok j → i ≤ j := by
  intro m
  induction m with
  | zero =>
    intro i j h
    rw [whileFields] at h
    split at h
    · cases h
    · injection h with h
      omega
  | succ m ih =>
    intro i j h
    rw [whileFields] at h
    split at h
    · cases hb : body i with
      | error t => rw [hb] at h; cases h
      | ok i1 =>
        rw [hb] at h
        have h1 := hbody i i1 hb
        have h2 := ih i1 j h
        omega
    · injection h with h
      omega

theorem repeatFields_ge {body : Nat → Except Thrown Nat}
    (hbody : ∀ i j, body i = .ok j → i ≤ j) :
    ∀ (n i j : Nat), repeatFields body n i = .ok j → i ≤ j := by
  intro n
  induction n with
  | zero =>
    intro i j h
    rw [repeatFields] at h
    injection h with h
    omega
  | succ n ih =>
    intro i j h
    rw [repeatFields] at h
    cases hb : body i with
    | error t => rw [hb] at h; cases h
    | ok i1 =>
      rw [hb] at h
      have h1 := hbody i i1 hb
      have h2 := ih i1 j h
      omega

/-- A validator that returns does not return an index before the one it was called at. -/
theorem Field_parse_ge (line : List Nat) (splitter : List StringView) :
    ∀ (fuel : Nat) (f : Field) (i j : Nat),
      Field.parse line splitter fuel f i = .ok j → i ≤ j := by
  intro fuel
  induction fuel with
  | zero =>
    intro f i j h
    cases f <;> cases h
  | succ fuel ih =>
    intro f i j h
    have hchildren : ∀ (fs : List Field) (i j : Nat),
        forFields (fun f i => Field.parse line splitter fuel f i) fs i = .ok j → i ≤ j :=
      fun fs i j h => forFields_ge fs i j (fun g _ a b hb => ih g a b hb) h
    by_cases hg : f.isGroup = false
    · have := (single_ok hg h).2
      omega
    · cases f with
      | RepeatableGroup it n fields =>
        cases it with
        | zero_or_one =>
          cases fields with
          | nil =>
            have heq : Field.parse line splitter (fuel + 1)
                (.RepeatableGroup .zero_or_one n []) i =
                if i < checksumIndex splitter then
                  match idx splitter i with
                  | .error t => .error t
                  | .ok field => if field.size ≠ 0 then .error .undefined else .ok i
                else .ok i := rfl
            rw [heq] at h
            repeat' split at h
            all_goals first
              | (cases h; done)
              | (injection h with h; omega)
          | cons g rest =>
            rw [zero_or_one_eq] at h
            repeat' split at h
            all_goals first
              | (cases h; done)
              | exact ih g i j h
              | (injection h with h; omega)
        | zero_or_more =>
          rw [zero_or_more_eq] at h
          exact whileFields_ge (hchildren fields) fuel i j h
        | one_or_more =>
          rw [one_or_more_eq] at h
          split at h
          · exact absurd h (throwE015_ne_ok splitter j)
          · exact whileFields_ge (hchildren fields) fuel i j h
        | fixed =>
          exact repeatFields_ge (hchildren fields) n i j h
      | _ => exact absurd rfl hg

/-- C38. The field-index invariant of the grammar engine: for every validator (a
single-field validator or a group, nested in any way), every list of at least 2 views and
every start index `i` up to the checksum index `len - 1`, a validation that succeeds
with the result `j` has `i ≤ j ≤ len - 1`: the index never moves backward and the
checksum field is never consumed. The same holds for the result of `Sentence::parse`,
which starts at index 1. -/
theorem validators_keep_the_index_between_start_and_checksum_index
    (line : List Nat) (splitter : List StringView) (fuel : Nat) (h2 : 2 ≤ splitter.length) :
    (∀ (f : Field) (i j : Nat), i ≤ splitter.length - 1 →
      Field.parse line splitter fuel f i = .ok j → i ≤ j ∧ j ≤ splitter.length - 1) ∧
    (∀ (sentence : Sentence) (j : Nat),
      sentence.parse line splitter fuel = .ok j → 1 ≤ j ∧ j ≤ splitter.length - 1) := by
  have hcs := checksumIndex_eq h2
  refine ⟨?_, ?_⟩
  · intro f i j hi h
    refine ⟨Field_parse_ge line splitter fuel f i j h, ?_⟩
    rw [← hcs]
    exact Field_parse_le line splitter fuel f i j (by omega) h
  · intro sentence j h
    unfold Sentence.parse at h
    rw [if_neg (by omega)] at h
    refine ⟨?_, ?_⟩
    · exact forFields_ge sentence.m_Fields 1 j
        (fun g _ a b hb => Field_parse_ge line splitter fuel g a b hb) h
    · rw [← hcs]
      exact forFields_le sentence.m_Fields 1 j
        (fun g _ a b ha hb => Field_parse_le line splitter fuel g a b ha hb) (by omega) h

set_option maxRecDepth 100000 in
/-- Witness of C38: on the GSV sentence with two satellites (13 views) the group of the
GSV grammar started at index 4 returns 12, and the GSV grammar returns 12. -/
theorem validators_keep_the_index_between_start_and_checksum_index_witness :
    Field.parse exampleGsv exampleGsvViews (11 + 2) (.RepeatableGroup .one_or_more 0 gsvGroup) 4
      = .ok 12 ∧
    GSV.parse exampleGsv exampleGsvViews (11 + 2) = .ok 12 ∧
    (4 ≤ 12 ∧ 12 ≤ exampleGsvViews.length - 1) ∧ (1 ≤ 12 ∧ 12 ≤ exampleGsvViews.length - 1) :=
  ⟨rfl, rfl,
    (validators_keep_the_index_between_start_and_checksum_index exampleGsv exampleGsvViews
      (11 + 2) (by decide)).1 (.RepeatableGroup .one_or_more 0 gsvGroup) 4 12 (by decide) rfl,
    (validators_keep_the_index_between_start_and_checksum_index exampleGsv exampleGsvViews
      (11 + 2) (by decide)).2 GSV 12 rfl⟩

/-! ## Where the elements of a line come from -/

theorem parseTagBlocks_mem (line : List Nat) :
    ∀ (fuel : Nat) (m : List TagBlockOrSentence) (begin : Nat) (e : TagBlockOrSentence),
      e ∈ (parseTagBlocks line fuel m begin).1 →
      e ∈ m ∨ ∃ b b1, parseMainStructureTagBlockOrSentence line b = .ok (e, b1) := by
  intro fuel
  induction fuel with
  | zero => intro m begin e h; exact Or.inl h
  | succ fuel ih =>
    intro m begin e h
    rw [parseTagBlocks] at h
    cases hr : rd line begin with
    | error t1 => rw [hr] at h; exact Or.inl h
    | ok ch =>
      rw [hr] at h
      simp only at h
      split at h
      · cases he : parseMainStructureTagBlockOrSentence line begin with
        | error t1 => rw [he] at h; exact Or.inl h
        | ok r =>
          obtain ⟨el, b⟩ := r
          rw [he] at h
          simp only at h
          have hmem : ∀ x, x ∈ m ++ [el] →
              x ∈ m ∨ ∃ b b1, parseMainStructureTagBlockOrSentence line b = .ok (x, b1) := by
            intro x hx
            rcases List.mem_append.mp hx with g | g
            · exact Or.inl g
            · rw [List.mem_singleton.mp g]
              exact Or.inr ⟨begin, b, he⟩
          cases hr2 : rd line b with
          | error t1 => rw [hr2] at h; exact hmem e h
          | ok ch2 =>
            rw [hr2] at h
            simp only at h
            split at h
            · exact hmem e h
            · rcases ih (m ++ [el]) (b + 1) e h with g | g
              · exact hmem e g
              · exact Or.inr g
      · exact Or.inl h

theorem parseSentence_mem (line : List Nat) (m : List TagBlockOrSentence) (begin : Nat)
    (e : TagBlockOrSentence) (h : e ∈ (parseSentence line m begin).1) :
    e ∈ m ∨ ∃ b b1, parseMainStructureTagBlockOrSentence line b = .ok (e, b1) := by
  unfold parseSentence at h
  cases hr : rd line begin with
  | error t1 => rw [hr] at h; exact Or.inl h
  | ok ch =>
    rw [hr] at h
    simp only at h
    split at h
    · cases he : parseMainStructureTagBlockOrSentence line begin with
      | error t1 => rw [he] at h; exact Or.inl h
      | ok r =>
        obtain ⟨el, b⟩ := r
        rw [he] at h
        simp only at h
        rcases List.mem_append.mp h with g | g
        · exact Or.inl g
        · rw [List.mem_singleton.mp g]
          exact Or.inr ⟨begin, b, he⟩
    · exact Or.inl h

/-- Every element that the first stage appends was returned by the element tokenizer at
some offset of the line. -/
theorem parseElements_mem (line : List Nat) (m : List TagBlockOrSentence)
    (e : TagBlockOrSentence) (h : e ∈ (parseElements line m).1) :
    e ∈ m ∨ ∃ b b1, parseMainStructureTagBlockOrSentence line b = .ok (e, b1) := by
  unfold parseElements at h
  cases hf : findStart line (line.length + 1) 0 with
  | error t1 => rw [hf] at h; exact Or.inl h
  | ok b =>
    rw [hf] at h
    simp only at h
    have h1 := parseTagBlocks_mem line (line.length + 1) m b
    cases ht : parseTagBlocks line (line.length + 1) m b with
    | mk m1 r =>
      rw [ht] at h h1
      simp only at h1
      cases r with
      | error t1 => exact h1 e h
      | ok b1 =>
        simp only at h
        rcases parseSentence_mem line m1 b1 e h with g | g
        · exact h1 e g
        · exact Or.inr g

/-- The elements of a line read into a fresh instance were returned by the element
tokenizer, and the error code is E000 after the first stage. -/
theorem parseMainStructure_mem {line : List Nat} {self : Nmea} {e : TagBlockOrSentence}
    (hm : parseMainStructure Nmea.fresh line = (self, .ok ())) (he : e ∈ self.m_Line) :
    self.m_Error = .E000 ∧ self.m_Indication = none ∧
      ∃ b b1, parseMainStructureTagBlockOrSentence line b = .ok (e, b1) := by
  have hne : line ≠ [] := by
    intro h0
    rw [h0] at hm
    cases hm
  rw [parseMainStructure_eq hne] at hm
  have hfm : Nmea.fresh.m_Line = [] := rfl
  rw [hfm] at hm
  split at hm
  · cases hm
  · injection hm with hm _
    subst hm
    refine ⟨rfl, rfl, ?_⟩
    rcases parseElements_mem line [] e he with g | g
    · cases g
    · exact g

/-! ## Proprietary sentences -/

/-- For a defined byte, being valid or `^` is being reserved only when `^`. -/
theorem valid_or_caret_iff {ch : Nat} (hd : isdefined ch = true) :
    (isvalid ch || (true && ch == 94)) = true ↔ (isreserved ch = true → ch = 94) := by
  obtain ⟨h1, h2, _, _⟩ := classes_below_128 ch (isdefined_lt hd)
  rw [hd] at h1
  cases hv : isvalid ch <;> cases hr : isreserved ch <;> rw [hv, hr] at h1 h2 <;>
    simp at h1 h2 ⊢

/-- The loop of `checkProprietaryDataFieldCharacters` over data views of defined bytes:
it returns when no byte is reserved other than `^`, and throws E008 otherwise. -/
theorem forViews_proprietary {line : List Nat} :
    ∀ (datas : List StringView),
      (∀ v ∈ datas, v.inLine line = true ∧ ∀ ch ∈ v.bytes line, isdefined ch = true) →
      (forViews (checkProprietaryDataFieldCharacters line) datas = .ok () ∧
        ∀ v ∈ datas, ∀ ch ∈ v.bytes line, isreserved ch = true → ch = 94) ∨
      ((∃ ind, forViews (checkProprietaryDataFieldCharacters line) datas =
          .error (.exception .E008 ind)) ∧
        ¬ ∀ v ∈ datas, ∀ ch ∈ v.bytes line, isreserved ch = true → ch = 94) := by
  intro datas
  induction datas with
  | nil =>
    intro _
    exact Or.inl ⟨rfl, fun v hv => by cases hv⟩
  | cons v tl ih =>
    intro hall
    obtain ⟨hin, hdef⟩ := hall v (List.mem_cons_self _ _)
    have hlen := StringView.bytes_length hin
    have h1 := checkCharactersFrom_eq true hin hdef v.size 0 (by omega)
    rw [List.drop_zero, List.take_of_length_le (by omega)] at h1
    rw [forViews]
    unfold checkProprietaryDataFieldCharacters
    rw [h1]
    by_cases ha : (v.bytes line).all (fun ch => isvalid ch || (true && ch == 94)) = true
    · rw [if_pos ha]
      simp only
      have hv : ∀ ch ∈ v.bytes line, isreserved ch = true → ch = 94 := by
        intro ch hch
        exact (valid_or_caret_iff (hdef ch hch)).mp (List.all_eq_true.mp ha ch hch)
      rcases ih (fun x hx => hall x (List.mem_cons_of_mem _ hx)) with ⟨g1, g2⟩ | ⟨g1, g2⟩
      · refine Or.inl ⟨g1, ?_⟩
        intro x hx
        rcases List.mem_cons.mp hx with e | hx
        · rw [e]; exact hv
        · exact g2 x hx
      · refine Or.inr ⟨g1, ?_⟩
        intro hc
        exact g2 (fun x hx => hc x (List.mem_cons_of_mem _ hx))
    · rw [if_neg ha]
      refine Or.inr ⟨⟨v.addr 0, rfl⟩, ?_⟩
      intro hc
      apply ha
      rw [List.all_eq_true]
      intro ch hch
      exact (valid_or_caret_iff (hdef ch hch)).mpr (hc v (List.mem_cons_self _ _) ch hch)

/-- C36. For a line that tokenizes into one proprietary sentence whose header view has at
least 5 bytes and that is followed by CR LF, `parse` on a fresh instance ends with E000
if and only if the header bytes at offsets 2, 3 and 4 are uppercase letters and no byte
of a data view is reserved other than `^`; it ends with E011 when a header byte fails
and otherwise with E008. The third stage does nothing for the element: no talker table,
formatter table or catalog entry takes part. -/
theorem proprietary_sentence_E000_iff_header_upper_and_data_clean
    (line : List Nat) (self : Nmea) (element : TagBlockOrSentence)
    (header : StringView) (datas : List StringView) (checksum : StringView)
    (hm : parseMainStructure Nmea.fresh line = (self, .ok ()))
    (hl : self.m_Line = [element])
    (hp : element.m_SentenceType = some .proprietary)
    (hv : element.m_Splitter = header :: datas ++ [checksum])
    (h5 : 5 ≤ header.size) :
    ((parse Nmea.fresh line).errorCode = some .E000 ↔
      (∀ k, 2 ≤ k → k ≤ 4 → isupper ((header.bytes line).getD k 0) = true) ∧
      (∀ v ∈ datas, ∀ ch ∈ v.bytes line, isreserved ch = true → ch = 94)) ∧
    (¬ (∀ k, 2 ≤ k → k ≤ 4 → isupper ((header.bytes line).getD k 0) = true) →
      (parse Nmea.fresh line).errorCode = some .E011) ∧
    ((∀ k, 2 ≤ k → k ≤ 4 → isupper ((header.bytes line).getD k 0) = true) →
      ¬ (∀ v ∈ datas, ∀ ch ∈ v.bytes line, isreserved ch = true → ch = 94) →
      (parse Nmea.fresh line).errorCode = some .E008) ∧
    specificContents element = .ok () := by
  have hmem : element ∈ self.m_Line := by rw [hl]; exact List.mem_singleton.mpr rfl
  obtain ⟨hE, _, begin, b1, he⟩ := parseMainStructure_mem hm hmem
  obtain ⟨ty, sty, c0, b0, b, q, datas1, ha, hq1, hq2, _, hend, _, hel, _, _, _, _⟩ :=
    element_views he
  have hdefs := element_views_defined he
  obtain ⟨_, _, _, _, hcase⟩ := addressField_spec ha
  have hsty : sty = some .proprietary := by rw [hel] at hp; exact hp
  have hty : ty = .sentence := by
    rcases hcase with ⟨_, g, _⟩ | ⟨g, _⟩
    · rw [g] at hsty; cases hsty
    · exact g
  have hbuf : element.buffer = line := by rw [hel]
  have hlt : element.m_LineElementType = .sentence := by rw [hel]; exact hty
  have hhd : header ∈ element.m_Splitter.dropLast := by
    rw [hv, List.dropLast_concat]
    exact List.mem_cons_self _ _
  have hds : ∀ v ∈ datas, v ∈ element.m_Splitter.dropLast := by
    intro v hmv
    rw [hv, List.dropLast_concat]
    exact List.mem_cons_of_mem _ hmv
  have hin := (hdefs header hhd).1
  have hspec : specificContents element = .ok () := by
    unfold specificContents
    simp only [hlt, hp]
  have hat : ∀ k, k ≤ 4 → header.at line k = .ok ((header.bytes line).getD k 0) :=
    fun k hk => StringView.at_eq hin (by omega)
  have hgen : generalContents element =
      if isupper ((header.bytes line).getD 2 0) && isupper ((header.bytes line).getD 3 0) &&
          isupper ((header.bytes line).getD 4 0) then
        forViews (checkProprietaryDataFieldCharacters line) datas
      else .error (.exception .E011 (header.addr 2)) := by
    unfold generalContents
    simp only [hlt, hp, hbuf, hv]
    have hidx : idx (header :: datas ++ [checksum]) 0 = .ok header := rfl
    have hdl : (header :: datas ++ [checksum]).dropLast.tail = datas := by
      rw [List.dropLast_concat]
      rfl
    rw [hidx, hdl]
    simp only
    rw [hat 2 (by omega), hat 3 (by omega), hat 4 (by omega)]
    by_cases hc : (isupper ((header.bytes line).getD 2 0) &&
        isupper ((header.bytes line).getD 3 0) && isupper ((header.bytes line).getD 4 0)) = true
    · simp only [checkProprietaryTalkerId, hc, if_true]
    · simp only [checkProprietaryTalkerId, hc, if_false]
      rfl
  have hpar : parse Nmea.fresh line = catchAll self (generalContents element) := by
    unfold parse
    rw [hm]
    simp only
    unfold parseGeneralContents parseSpecificContents
    rw [hl]
    simp only [forElements, hspec]
    cases generalContents element <;> rfl
  have hup : (isupper ((header.bytes line).getD 2 0) && isupper ((header.bytes line).getD 3 0) &&
      isupper ((header.bytes line).getD 4 0)) = true ↔
      ∀ k, 2 ≤ k → k ≤ 4 → isupper ((header.bytes line).getD k 0) = true := by
    simp only [Bool.and_eq_true]
    constructor
    · intro g k k1 k2
      have hk : k = 2 ∨ k = 3 ∨ k = 4 := by omega
      rcases hk with e | e | e <;> subst e
      · exact g.1.1
      · exact g.1.2
      · exact g.2
    · intro g
      exact ⟨⟨g 2 (by omega) (by omega), g 3 (by omega) (by omega)⟩, g 4 (by omega) (by omega)⟩
  rw [hpar, hgen]
  by_cases hU : (isupper ((header.bytes line).getD 2 0) &&
      isupper ((header.bytes line).getD 3 0) && isupper ((header.bytes line).getD 4 0)) = true
  · rw [if_pos hU]
    have hU1 := hup.mp hU
    rcases forViews_proprietary datas (fun v hmv => hdefs v (hds v hmv)) with
      ⟨g1, g2⟩ | ⟨⟨ind, g1⟩, g2⟩
    · rw [g1]
      have hok : (catchAll self (.ok ())).errorCode = some .E000 := by
        show some self.m_Error = some .E000
        rw [hE]
      exact ⟨⟨fun _ => ⟨hU1, g2⟩, fun _ => hok⟩, fun hn => absurd hU1 hn,
        fun _ hn => absurd g2 hn, hspec⟩
    · rw [g1]
      refine ⟨?_, fun hn => absurd hU1 hn, fun _ _ => rfl, hspec⟩
      exact Iff.intro (fun g => by cases g) (fun g => absurd g.2 g2)
  · rw [if_neg hU]
    have hU1 : ¬ ∀ k, 2 ≤ k → k ≤ 4 → isupper ((header.bytes line).getD k 0) = true :=
      fun g => hU (hup.mpr g)
    refine ⟨?_, fun _ => rfl, fun g => absurd g hU1, hspec⟩
    exact Iff.intro (fun g => by cases g) (fun g => absurd g.1 hU1)

set_option maxRecDepth 100000 in
/-- Witness of C36: `$PGRMZ,93,f,3*21` with CR LF ends with E000. -/
theorem proprietary_sentence_E000_iff_header_upper_and_data_clean_witness :
    parseMainStructure Nmea.fresh exampleProprietary =
      (⟨[exampleProprietaryElement], .E000, none⟩, .ok ()) ∧
    (parse Nmea.fresh exampleProprietary).errorCode = some .E000 :=
  ⟨rfl, (proprietary_sentence_E000_iff_header_upper_and_data_clean exampleProprietary
    ⟨[exampleProprietaryElement], .E000, none⟩ exampleProprietaryElement
    ⟨some 0, 6⟩ [⟨some 7, 2⟩, ⟨some 10, 1⟩, ⟨some 12, 1⟩] ⟨some 13, 3⟩
    rfl rfl rfl rfl (by decide)).1.mpr ⟨by decide, by decide⟩⟩

/-! ## The codes that are never raised: the tokenizer -/

theorem avoids_exception {e : ErrorCode} {i : Option Nat} (h : e ∉ unusedCodes) :
    (Thrown.exception e i).avoids unusedCodes := h

theorem rd_avoids {line : List Nat} {i : Nat} {t : Thrown} (h : rd line i = .error t) :
    t.avoids unusedCodes := by
  rw [(rd_eq_error h).2]; trivial

theorem incr_avoids {line : List Nat} {c b : Nat} {t : Thrown}
    (h : incr line c b = .error t) : t.avoids unusedCodes := by
  rcases incr_error_code h with e | e <;> rw [e] <;> exact avoids_exception (by decide)

theorem incrN_avoids (line : List Nat) :
    ∀ (n c b : Nat) (t : Thrown), incrN line n c b = .error t → t.avoids unusedCodes := by
  intro n
  induction n with
  | zero => intro c b t h; cases h
  | succ n ih =>
    intro c b t h
    rw [incrN] at h
    cases hi : incr line c b with
    | error t1 => rw [hi] at h; injection h with h; subst h; exact incr_avoids hi
    | ok r => obtain ⟨c2, b2⟩ := r; rw [hi] at h; exact ih c2 b2 t h

theorem appendSpan_avoids {line : List Nat} {sp : List StringView} {b e : Nat} {t : Thrown}
    (h : appendSpan line sp b e = .error t) : t.avoids unusedCodes := by
  unfold appendSpan at h
  repeat' split at h
  all_goals first
    | (cases h; done)
    | (cases h; exact rd_avoids (by assumption))

/-- Entered at a byte `\`, `!` or `$`, the address-field part does not reach its branch
`throw Exception(ErrorCode::E001, ...)`. -/
theorem addressField_avoids {line : List Nat} {begin : Nat} {t : Thrown}
    (hm : line.getD begin 0 = 92 ∨ line.getD begin 0 = 33 ∨ line.getD begin 0 = 36)
    (h : addressField line begin = .error t) : t.avoids unusedCodes := by
  unfold addressField at h
  cases hr : rd line begin with
  | error t1 => rw [hr] at h; cases h; exact rd_avoids hr
  | ok ch =>
    rw [hr] at h
    obtain ⟨_, hch⟩ := rd_eq_ok hr
    simp only [beq_iff_eq] at h
    repeat' split at h
    all_goals first
      | (cases h; done)
      | (cases h; exact rd_avoids (by assumption))
      | (cases h; exact incrN_avoids _ _ _ _ _ (by assumption))
      | (exfalso; omega)

theorem scanDataFields_avoids (line : List Nat) :
    ∀ (fuel : Nat) (sp : List StringView) (start c b : Nat) (t : Thrown),
      scanDataFields line fuel sp start c b = .error t → t.avoids unusedCodes := by
  intro fuel
  induction fuel with
  | zero =>
    intro sp start c b t h
    rw [scanDataFields] at h
    cases h
    trivial
  | succ fuel ih =>
    intro sp start c b t h
    rw [scanDataFields] at h
    repeat' split at h
    all_goals first
      | (cases h; done)
      | (cases h; exact avoids_exception (by decide))
      | (cases h; exact rd_avoids (by assumption))
      | (cases h; exact appendSpan_avoids (by assumption))
      | (cases h; exact incr_avoids (by assumption))
      | exact ih _ _ _ _ _ h

theorem at_avoids {line : List Nat} {v : StringView} {i : Nat} {t : Thrown}
    (h : v.at line i = .error t) : t.avoids unusedCodes := by
  unfold StringView.at at h
  split at h
  · cases h; trivial
  · exact rd_avoids h

theorem idx_avoids {α : Type} {v : List α} {i : Nat} {t : Thrown}
    (h : idx v i = .error t) : t.avoids unusedCodes := by
  unfold idx at h
  split at h
  · cases h
  · cases h; trivial

theorem hex2Char_avoids {v : Nat} {t : Thrown} (h : hex2Char v = .error t) :
    t.avoids unusedCodes := by
  unfold hex2Char at h
  repeat' split at h
  all_goals first
    | (cases h; done)
    | (cases h; trivial)

theorem tooLong_avoids {hd cf : StringView} {t : Thrown} (h : tooLong hd cf = .error t) :
    t.avoids unusedCodes := by
  unfold tooLong at h
  split at h
  · cases h
  · cases h; trivial

theorem checksumMismatch_avoids {line : List Nat} {f : StringView} {cs : Nat} {t : Thrown}
    (h : checksumMismatch line f cs = .error t) : t.avoids unusedCodes := by
  unfold checksumMismatch at h
  repeat' split at h
  all_goals first
    | (cases h; done)
    | (cases h; exact at_avoids (by assumption))
    | (cases h; exact hex2Char_avoids (by assumption))

theorem checksumField_avoids {line : List Nat} {ty : LineElementType}
    {sty : Option SentenceType} {sp : List StringView} {start cs b : Nat} {t : Thrown}
    (h : checksumField line ty sty sp start cs b = .error t) : t.avoids unusedCodes := by
  unfold checksumField at h
  simp only at h
  repeat' split at h
  all_goals first
    | (cases h; done)
    | (cases h; trivial)
    | (cases h; exact avoids_exception (by decide))
    | (cases h; exact appendSpan_avoids (by assumption))
    | (cases h; exact tooLong_avoids (by assumption))
    | (cases h; exact checksumMismatch_avoids (by assumption))

/-- Entered at a byte `\`, `!` or `$`, the element tokenizer raises none of E001, E002
and E006. -/
theorem element_avoids {line : List Nat} {begin : Nat} {t : Thrown}
    (hm : line.getD begin 0 = 92 ∨ line.getD begin 0 = 33 ∨ line.getD begin 0 = 36)
    (h : parseMainStructureTagBlockOrSentence line begin = .error t) :
    t.avoids unusedCodes := by
  unfold parseMainStructureTagBlockOrSentence at h
  repeat' split at h
  all_goals first
    | (cases h; done)
    | (cases h; exact addressField_avoids hm (by assumption))
    | (cases h; exact scanDataFields_avoids _ _ _ _ _ _ _ (by assumption))
    | exact checksumField_avoids h

theorem findStart_avoids (line : List Nat) :
    ∀ (fuel begin : Nat) (t : Thrown), findStart line fuel begin = .error t →
      t.avoids unusedCodes := by
  intro fuel
  induction fuel with
  | zero => intro begin t h; rw [findStart] at h; cases h; trivial
  | succ fuel ih =>
    intro begin t h
    rw [findStart] at h
    repeat' split at h
    all_goals first
      | (cases h; done)
      | (cases h; exact avoids_exception (by decide))
      | (cases h; exact rd_avoids (by assumption))
      | exact ih _ _ h

theorem parseTagBlocks_avoids (line : List Nat) :
    ∀ (fuel : Nat) (m : List TagBlockOrSentence) (begin : Nat) (t : Thrown),
      (parseTagBlocks line fuel m begin).2 = .error t → t.avoids unusedCodes := by
  intro fuel
  induction fuel with
  | zero => intro m begin t h; rw [parseTagBlocks] at h; cases h; trivial
  | succ fuel ih =>
    intro m begin t h
    rw [parseTagBlocks] at h
    cases hr : rd line begin with
    | error t1 => rw [hr] at h; cases h; exact rd_avoids hr
    | ok ch =>
      rw [hr] at h
      obtain ⟨_, hch⟩ := rd_eq_ok hr
      simp only [beq_iff_eq] at h
      split at h
      · next h92 =>
        cases he : parseMainStructureTagBlockOrSentence line begin with
        | error t1 =>
          rw [he] at h
          cases h
          exact element_avoids (Or.inl (by omega)) he
        | ok r =>
          obtain ⟨el, b⟩ := r
          rw [he] at h
          simp only at h
          repeat' split at h
          all_goals first
            | (cases h; done)
            | (cases h; exact avoids_exception (by decide))
            | (cases h; exact rd_avoids (by assumption))
            | exact ih _ _ _ h
      · cases h

theorem parseSentence_avoids {line : List Nat} {m : List TagBlockOrSentence} {begin : Nat}
    {t : Thrown} (h : (parseSentence line m begin).2 = .error t) : t.avoids unusedCodes := by
  unfold parseSentence at h
  cases hr : rd line begin with
  | error t1 => rw [hr] at h; cases h; exact rd_avoids hr
  | ok ch =>
    rw [hr] at h
    obtain ⟨_, hch⟩ := rd_eq_ok hr
    simp only [Bool.or_eq_true, beq_iff_eq] at h
    split at h
    · next hm =>
      cases he : parseMainStructureTagBlockOrSentence line begin with
      | error t1 =>
        rw [he] at h
        cases h
        exact element_avoids (by omega) he
      | ok r => rw [he] at h; cases h
    · cases h

theorem parseElements_avoids {line : List Nat} {m : List TagBlockOrSentence} {t : Thrown}
    (h : (parseElements line m).2 = .error t) : t.avoids unusedCodes := by
  unfold parseElements at h
  cases hf : findStart line (line.length + 1) 0 with
  | error t1 => rw [hf] at h; cases h; exact findStart_avoids _ _ _ _ hf
  | ok b =>
    rw [hf] at h
    simp only at h
    have h1 := parseTagBlocks_avoids line (line.length + 1) m b
    cases ht : parseTagBlocks line (line.length + 1) m b with
    | mk m1 r =>
      rw [ht] at h h1
      cases r with
      | error t1 => cases h; exact h1 _ rfl
      | ok b1 => exact parseSentence_avoids h

theorem checkCRLF_avoids {line : List Nat} {b : Nat} {t : Thrown}
    (h : checkCRLF line b = .error t) : t.avoids unusedCodes := by
  unfold checkCRLF at h
  repeat' split at h
  all_goals first
    | (cases h; done)
    | (cases h; exact avoids_exception (by decide))
    | (cases h; exact rd_avoids (by assumption))

/-- The first stage raises none of E001, E002 and E006. -/
theorem parseMainStructure_avoids {self : Nmea} {line : List Nat} {t : Thrown}
    (h : (parseMainStructure self line).2 = .error t) : t.avoids unusedCodes := by
  by_cases hne : line = []
  · subst hne
    cases h
    trivial
  · rw [parseMainStructure_eq hne] at h
    split at h
    · next heq => cases h; exact parseElements_avoids heq
    · exact checkCRLF_avoids h

/-! ## The codes that are never raised: the content stages -/

theorem allFrom_avoids {line : List Nat} {v : StringView} {ok : Nat → Bool}
    {thrown : Nat → Thrown} (hthrown : ∀ i, (thrown i).avoids unusedCodes) :
    ∀ (n i : Nat) (t : Thrown), allFrom line v ok thrown n i = .error t →
      t.avoids unusedCodes := by
  intro n
  induction n with
  | zero => intro i t h; rw [allFrom] at h; cases h
  | succ n ih =>
    intro i t h
    rw [allFrom] at h
    repeat' split at h
    all_goals first
      | (cases h; exact at_avoids (by assumption))
      | (cases h; exact hthrown _)
      | exact ih _ _ h

theorem digitRun_avoids {line : List Nat} {v : StringView} :
    ∀ (n i : Nat) (t : Thrown), digitRun line v n i = .error t → t.avoids unusedCodes := by
  intro n
  induction n with
  | zero => intro i t h; rw [digitRun] at h; cases h
  | succ n ih =>
    intro i t h
    rw [digitRun] at h
    repeat' split at h
    all_goals first
      | (cases h; done)
      | (cases h; exact at_avoids (by assumption))
      | exact ih _ _ h

theorem checkCharactersFrom_avoids {line : List Nat} {v : StringView} {caret : Bool} :
    ∀ (n i : Nat) (t : Thrown), checkCharactersFrom line v caret n i = .error t →
      t.avoids unusedCodes := by
  intro n
  induction n with
  | zero => intro i t h; rw [checkCharactersFrom] at h; cases h
  | succ n ih =>
    intro i t h
    rw [checkCharactersFrom] at h
    unfold reservedAt at h
    repeat' split at h
    all_goals first
      | (cases h; done)
      | (cases h; exact at_avoids (by assumption))
      | (cases h; exact avoids_exception (by decide))
      | exact ih _ _ h
      | (rename_i heq
         split at heq
         · cases heq
         · cases heq; cases h; trivial)

theorem matchLoop_avoids {buff : List Nat} {thrown : Thrown}
    (hthrown : thrown.avoids unusedCodes) :
    ∀ (table : List (List Nat)) (t : Thrown), matchLoop buff thrown table = .error t →
      t.avoids unusedCodes := by
  intro table
  induction table with
  | nil => intro t h; rw [matchLoop] at h; cases h; exact hthrown
  | cons elem rest ih =>
    intro t h
    rw [matchLoop] at h
    repeat' split at h
    all_goals first
      | (cases h; done)
      | (cases h; exact hthrown)
      | exact ih _ h

theorem groupingNumber_avoids {line : List Nat} {v : StringView} {strict : Bool} :
    ∀ (fuel i : Nat) (t : Thrown), groupingNumber line v strict fuel i = .error t →
      t.avoids unusedCodes := by
  intro fuel
  induction fuel with
  | zero => intro i t h; rw [groupingNumber] at h; cases h; trivial
  | succ fuel ih =>
    intro i t h
    rw [groupingNumber] at h
    repeat' split at h
    all_goals first
      | (cases h; done)
      | (cases h; exact at_avoids (by assumption))
      | (cases h; exact avoids_exception (by decide))
      | exact ih _ _ h

theorem groupingPart_avoids {line : List Nat} {v : StringView} {i : Nat} {t : Thrown}
    (h : groupingPart line v i = .error t) : t.avoids unusedCodes := by
  unfold groupingPart at h
  simp only at h
  repeat' split at h
  all_goals first
    | (cases h; done)
    | (cases h; exact at_avoids (by assumption))
    | (cases h; exact avoids_exception (by decide))
    | (cases h; exact groupingNumber_avoids _ _ _ (by assumption))

theorem checkSentenceGrouping_avoids {line : List Nat} {v : StringView} {t : Thrown}
    (h : checkSentenceGrouping line v = .error t) : t.avoids unusedCodes := by
  unfold checkSentenceGrouping at h
  simp only at h
  repeat' split at h
  all_goals first
    | (cases h; done)
    | (cases h; exact avoids_exception (by decide))
    | (cases h; exact groupingPart_avoids (by assumption))
    | (cases h; exact groupingNumber_avoids _ _ _ (by assumption))

theorem checkPositivInteger_avoids {line : List Nat} {v : StringView} {t : Thrown}
    (h : checkPositivInteger line v = .error t) : t.avoids unusedCodes :=
  allFrom_avoids (fun _ => avoids_exception (by decide)) _ _ _ h

theorem checkIdentification_avoids {line : List Nat} {v : StringView} {t : Thrown}
    (h : checkIdentification line v = .error t) : t.avoids unusedCodes := by
  unfold checkIdentification at h
  split at h
  · cases h; exact avoids_exception (by decide)
  · exact allFrom_avoids (fun _ => avoids_exception (by decide)) _ _ _ h

theorem checkTagField_avoids {line : List Nat} {v : StringView} {t : Thrown}
    (h : checkTagField line v = .error t) : t.avoids unusedCodes := by
  unfold checkTagField at h
  generalize (v.size + 2 ^ 64 - 2) % 2 ^ 64 = n at h
  simp only at h
  repeat' split at h
  all_goals first
    | (cases h; done)
    | (cases h; exact at_avoids (by assumption))
    | (cases h; exact avoids_exception (by decide))
    | exact checkPositivInteger_avoids h
    | exact checkIdentification_avoids h
    | exact checkSentenceGrouping_avoids h

theorem forViews_avoids {body : StringView → Except Thrown Unit}
    (hbody : ∀ v t, body v = .error t → t.avoids unusedCodes) :
    ∀ (views : List StringView) (t : Thrown), forViews body views = .error t →
      t.avoids unusedCodes := by
  intro views
  induction views with
  | nil => intro t h; cases h
  | cons v tl ih =>
    intro t h
    rw [forViews] at h
    split at h
    · next heq => cases h; exact hbody _ _ heq
    · exact ih _ h

theorem generalContents_avoids {element : TagBlockOrSentence} {t : Thrown}
    (h : generalContents element = .error t) : t.avoids unusedCodes := by
  unfold generalContents checkTalkerId checkProprietaryTalkerId checkSentenceFormatter at h
  simp only at h
  repeat' split at h
  all_goals first
    | (cases h; done)
    | (cases h; trivial)
    | (cases h; exact idx_avoids (by assumption))
    | (cases h; exact avoids_exception (by decide))
    | exact forViews_avoids (fun _ _ g => checkTagField_avoids g) _ _ h
    | exact forViews_avoids (fun _ _ g => checkCharactersFrom_avoids _ _ _ g) _ _ h
    | (rename_i heq
       repeat' split at heq
       all_goals first
         | (cases heq; done)
         | (cases heq; cases h; exact avoids_exception (by decide)))

theorem forElements_avoids {body : TagBlockOrSentence → Except Thrown Unit}
    (hbody : ∀ e t, body e = .error t → t.avoids unusedCodes) :
    ∀ (elements : List TagBlockOrSentence) (t : Thrown),
      forElements body elements = .error t → t.avoids unusedCodes := by
  intro elements
  induction elements with
  | nil => intro t h; cases h
  | cons e tl ih =>
    intro t h
    rw [forElements] at h
    split at h
    · next heq => cases h; exact hbody _ _ heq
    · exact ih _ h

/-! ## The codes that are never raised: the field grammar and `parse` -/

theorem allFrom_exception_avoids {line : List Nat} {v : StringView} {ok : Nat → Bool}
    {e : ErrorCode} {ind : Option Nat} {n i : Nat} {t : Thrown}
    (h : allFrom line v ok (fun _ => .exception e ind) n i = .error t)
    (he : e ∉ unusedCodes) : t.avoids unusedCodes :=
  allFrom_avoids (fun _ => avoids_exception he) _ _ _ h

theorem matchLoop_thrown_avoids {buff : List Nat} {thrown : Thrown}
    {table : List (List Nat)} {t : Thrown}
    (h : matchLoop buff thrown table = .error t) (hthrown : thrown.avoids unusedCodes) :
    t.avoids unusedCodes :=
  matchLoop_avoids hthrown _ _ h

theorem throwE015_avoids {splitter : List StringView} {t : Thrown}
    (h : throwE015 splitter = .error t) : t.avoids unusedCodes := by
  unfold throwE015 at h
  split at h
  · next heq => cases h; exact idx_avoids heq
  · cases h; exact avoids_exception (by decide)

theorem LatLong_doParse_avoids {line : List Nat} {splitter : List StringView}
    {index num : Nat} {t : Thrown}
    (h : LatLong.doParse line splitter index num = .error t) : t.avoids unusedCodes := by
  unfold LatLong.doParse at h
  repeat' split at h
  all_goals first
    | (cases h; done)
    | (cases h; exact avoids_exception (by decide))
    | (cases h; exact idx_avoids (by assumption))
    | (cases h; exact at_avoids (by assumption))
    | (cases h; exact allFrom_exception_avoids (by assumption) (by decide))
    | (cases h; exact digitRun_avoids _ _ _ (by assumption))

theorem Time_doParse_avoids {line : List Nat} {splitter : List StringView}
    {index : Nat} {t : Thrown}
    (h : Time.doParse line splitter index = .error t) : t.avoids unusedCodes := by
  unfold Time.doParse at h
  repeat' split at h
  all_goals first
    | (cases h; done)
    | (cases h; exact idx_avoids (by assumption))
    | (cases h; exact allFrom_exception_avoids (by assumption) (by decide))
    | (cases h
       rename_i heq
       repeat' split at heq
       all_goals first
         | (cases heq; done)
         | (cases heq; exact avoids_exception (by decide))
         | (cases heq; exact at_avoids (by assumption)))

theorem VariableNumbers_doParse_avoids {line : List Nat} {splitter : List StringView}
    {index : Nat} {t : Thrown}
    (h : VariableNumbers.doParse line splitter index = .error t) : t.avoids unusedCodes := by
  unfold VariableNumbers.doParse at h
  repeat' split at h
  all_goals first
    | (cases h; done)
    | (cases h; exact avoids_exception (by decide))
    | (cases h; exact idx_avoids (by assumption))
    | (cases h; exact at_avoids (by assumption))
    | (cases h; exact allFrom_exception_avoids (by assumption) (by decide))
    | (cases h; exact digitRun_avoids _ _ _ (by assumption))
    | (cases h
       rename_i heq
       repeat' split at heq
       all_goals first
         | (cases heq; done)
         | (cases heq; exact at_avoids (by assumption)))

theorem FixedField_doParse_avoids {line : List Nat} {splitter : List StringView}
    {index n : Nat} {ok : Nat → Bool} {e : ErrorCode} {t : Thrown} (he : e ∉ unusedCodes)
    (h : FixedField.doParse line splitter index n ok e = .error t) :
    t.avoids unusedCodes := by
  unfold FixedField.doParse at h
  repeat' split at h
  all_goals first
    | (cases h; done)
    | (cases h; exact avoids_exception (by decide))
    | (cases h; exact idx_avoids (by assumption))
    | (cases h; exact at_avoids (by assumption))
    | (cases h; exact allFrom_exception_avoids (by assumption) he)
    | exact allFrom_avoids (fun _ => avoids_exception he) _ _ _ (error_of_unit_step h)

/-- No `doParse` of a single-field class raises E001, E002 or E006. -/
theorem Field_doParse_avoids {line : List Nat} {splitter : List StringView} {index : Nat}
    {f : Field} {t : Thrown} (h : Field.doParse line splitter index f = .error t) :
    t.avoids unusedCodes := by
  cases f with
  | RepeatableGroup _ _ _ => cases h
  | Latitude => exact LatLong_doParse_avoids h
  | Longitude => exact LatLong_doParse_avoids h
  | Time => exact Time_doParse_avoids h
  | VariableNumbers => exact VariableNumbers_doParse_avoids h
  | FixedNumberField n => exact FixedField_doParse_avoids (by decide) h
  | FixedHexField n => exact FixedField_doParse_avoids (by decide) h
  | VariableHexField =>
    simp only [Field.doParse] at h
    repeat' split at h
    all_goals first
      | (cases h; done)
      | (cases h; exact idx_avoids (by assumption))
      | (cases h; exact allFrom_exception_avoids (by assumption) (by decide))
      | (cases h
         rename_i heq
         repeat' split at heq
         all_goals first
           | (cases heq; done)
           | (cases heq; exact at_avoids (by assumption)))
  | Status =>
    simp only [Field.doParse] at h
    repeat' split at h
    all_goals first
      | (cases h; done)
      | (cases h; exact avoids_exception (by decide))
      | (cases h; exact idx_avoids (by assumption))
      | (cases h; exact at_avoids (by assumption))
  | CharLiterals p l =>
    simp only [Field.doParse] at h
    repeat' split at h
    all_goals first
      | (cases h; done)
      | (cases h; exact avoids_exception (by decide))
      | (cases h; exact idx_avoids (by assumption))
      | (cases h; exact at_avoids (by assumption))
  | FixedAlphaField n =>
    simp only [Field.doParse] at h
    repeat' split at h
    all_goals first
      | (cases h; done)
      | (cases h; exact avoids_exception (by decide))
      | (cases h; exact idx_avoids (by assumption))
      | (cases h; exact allFrom_exception_avoids (by assumption) (by decide))
  | VariableText n =>
    simp only [Field.doParse] at h
    repeat' split at h
    all_goals first
      | (cases h; done)
      | (cases h; exact avoids_exception (by decide))
      | (cases h; exact idx_avoids (by assumption))
  | FixedTextField n =>
    simp only [Field.doParse] at h
    repeat' split at h
    all_goals first
      | (cases h; done)
      | (cases h; exact avoids_exception (by decide))
      | (cases h; exact idx_avoids (by assumption))
  | FixedSixBitField n =>
    simp only [Field.doParse] at h
    repeat' split at h
    all_goals first
      | (cases h; done)
      | (cases h; exact avoids_exception (by decide))
      | (cases h; exact idx_avoids (by assumption))
      | (cases h; exact allFrom_exception_avoids (by assumption) (by decide))
  | VariableSixBitField =>
    simp only [Field.doParse] at h
    repeat' split at h
    all_goals first
      | (cases h; done)
      | (cases h; exact idx_avoids (by assumption))
      | (cases h; exact allFrom_exception_avoids (by assumption) (by decide))

theorem forFields_avoids {parse : Field → Nat → Except Thrown Nat} :
    ∀ (fields : List Field) (i : Nat) (t : Thrown),
      (∀ f ∈ fields, ∀ i t, parse f i = .error t → t.avoids unusedCodes) →
      forFields parse fields i = .error t → t.avoids unusedCodes := by
  intro fields
  induction fields with
  | nil => intro i t _ h; cases h
  | cons f tl ih =>
    intro i t hs h
    rw [forFields] at h
    split at h
    · next heq => cases h; exact hs f (List.mem_cons_self _ _) _ _ heq
    · exact ih _ _ (fun g hg => hs g (List.mem_cons_of_mem _ hg)) h

theorem whileFields_avoids {cs : Nat} {body : Nat → Except Thrown Nat}
    (hbody : ∀ i t, body i = .error t → t.avoids unusedCodes) :
    ∀ (m i : Nat) (t : Thrown), whileFields cs body m i = .error t →
      t.avoids unusedCodes := by
  intro m
  induction m with
  | zero =>
    intro i t h
    rw [whileFields] at h
    split at h
    · cases h; trivial
    · cases h
  | succ m ih =>
    intro i t h
    rw [whileFields] at h
    repeat' split at h
    all_goals first
      | (cases h; done)
      | (cases h; exact hbody _ _ (by assumption))
      | exact ih _ _ h

theorem repeatFields_avoids {body : Nat → Except Thrown Nat}
    (hbody : ∀ i t, body i = .error t → t.avoids unusedCodes) :
    ∀ (n i : Nat) (t : Thrown), repeatFields body n i = .error t →
      t.avoids unusedCodes := by
  intro n
  induction n with
  | zero => intro i t h; cases h
  | succ n ih =>
    intro i t h
    rw [repeatFields] at h
    split at h
    · next heq => cases h; exact hbody _ _ heq
    · exact ih _ _ h

/-- No validator, single or group, raises E001, E002 or E006. -/
theorem Field_parse_avoids (line : List Nat) (splitter : List StringView) :
    ∀ (fuel : Nat) (f : Field) (i : Nat) (t : Thrown),
      Field.parse line splitter fuel f i = .error t → t.avoids unusedCodes := by
  intro fuel
  induction fuel with
  | zero =>
    intro f i t h
    cases f <;> (cases h; trivial)
  | succ fuel ih =>
    intro f i t h
    have hchildren : ∀ (fs : List Field) (i : Nat) (t : Thrown),
        forFields (fun f i => Field.parse line splitter fuel f i) fs i = .error t →
        t.avoids unusedCodes :=
      fun fs i t h => forFields_avoids fs i t (fun g _ a b hb => ih g a b hb) h
    by_cases hg : f.isGroup = false
    · rw [Field.parse_single line splitter fuel f i hg] at h
      split at h
      · exact throwE015_avoids h
      · exact Field_doParse_avoids h
    · cases f with
      | RepeatableGroup it n fields =>
        cases it with
        | zero_or_one =>
          cases fields with
          | nil =>
            have heq : Field.parse line splitter (fuel + 1)
                (.RepeatableGroup .zero_or_one n []) i =
                if i < checksumIndex splitter then
                  match idx splitter i with
                  | .error t => .error t
                  | .ok field => if field.size ≠ 0 then .error .undefined else .ok i
                else .ok i := rfl
            rw [heq] at h
            repeat' split at h
            all_goals first
              | (cases h; done)
              | (cases h; trivial)
              | (cases h; exact idx_avoids (by assumption))
          | cons g rest =>
            rw [zero_or_one_eq] at h
            repeat' split at h
            all_goals first
              | (cases h; done)
              | (cases h; exact idx_avoids (by assumption))
              | exact ih g i t h
        | zero_or_more =>
          rw [zero_or_more_eq] at h
          exact whileFields_avoids (hchildren fields) fuel i t h
        | one_or_more =>
          rw [one_or_more_eq] at h
          split at h
          · exact throwE015_avoids h
          · exact whileFields_avoids (hchildren fields) fuel i t h
        | fixed =>
          exact repeatFields_avoids (hchildren fields) n i t h
      | _ => exact absurd rfl hg

theorem Sentence_parse_avoids {sentence : Sentence} {line : List Nat}
    {splitter : List StringView} {fuel : Nat} {t : Thrown}
    (h : sentence.parse line splitter fuel = .error t) : t.avoids unusedCodes := by
  unfold Sentence.parse at h
  repeat' split at h
  all_goals first
    | (cases h; done)
    | (cases h; exact avoids_exception (by decide))
    | (cases h; exact idx_avoids (by assumption))
    | exact forFields_avoids _ _ _
        (fun g _ a b hb => Field_parse_avoids line splitter fuel g a b hb) h

theorem specificContents_avoids {element : TagBlockOrSentence} {t : Thrown}
    (h : specificContents element = .error t) : t.avoids unusedCodes := by
  unfold specificContents matchTalker matchSentenceFormatter at h
  simp only at h
  repeat' split at h
  all_goals first
    | (cases h; done)
    | (cases h; trivial)
    | (cases h; exact idx_avoids (by assumption))
    | (cases h; exact avoids_exception (by decide))
    | (cases h; exact Sentence_parse_avoids (by assumption))
    | (cases h
       exact matchLoop_thrown_avoids (by assumption) (avoids_exception (by decide)))
    | exact matchLoop_thrown_avoids h (show ErrorCode.E009 ∉ unusedCodes by decide)

/-- The error code after `parse` on a fresh instance is none of E001, E002 and E006. -/
theorem catchAll_avoids {self : Nmea} {r : Except Thrown Unit}
    (hself : self.m_Error ∉ unusedCodes)
    (hr : ∀ t, r = .error t → t.avoids unusedCodes) :
    ∀ e ∈ unusedCodes, (catchAll self r).errorCode ≠ some e := by
  intro e he hc
  cases r with
  | ok u =>
    cases u
    simp only [catchAll, Outcome.errorCode, Nmea.errorCode] at hc
    injection hc with hc
    exact hself (hc ▸ he)
  | error t =>
    have ht := hr t rfl
    cases t with
    | exception e1 i =>
      simp only [catchAll, Outcome.errorCode, Nmea.errorCode] at hc
      injection hc with hc
      exact ht (hc ▸ he)
    | errorCode e1 =>
      simp only [catchAll, Outcome.errorCode, Nmea.errorCode] at hc
      injection hc with hc
      exact ht (hc ▸ he)
    | logic_error =>
      simp only [catchAll, Outcome.errorCode, Nmea.errorCode] at hc
      injection hc with hc
      exact hself (hc ▸ he)
    | undefined => cases hc
    | timeout => cases hc

/-- The error code the first stage leaves on a fresh instance is E000. -/
theorem parseMainStructure_fresh_code (line : List Nat) :
    (parseMainStructure Nmea.fresh line).1.m_Error = .E000 := by
  by_cases hne : line = []
  · subst hne
    rfl
  · rw [parseMainStructure_eq hne]
    split <;> rfl

/-- C40. For every input line, `parse` on a fresh instance with the reference catalog
never ends with the error code E001, E002 or E006: the element tokenizer is only entered
at a byte `\`, `$` or `!`, where its branch for an illegal start of sentence is not
reached, and no other path raises one of the three codes. -/
theorem parse_never_ends_with_E001_E002_or_E006 (line : List Nat) :
    (parse Nmea.fresh line).errorCode ≠ some .E001 ∧
    (parse Nmea.fresh line).errorCode ≠ some .E002 ∧
    (parse Nmea.fresh line).errorCode ≠ some .E006 := by
  have hall : ∀ e ∈ unusedCodes, (parse Nmea.fresh line).errorCode ≠ some e := by
    unfold parse
    have hcode := parseMainStructure_fresh_code line
    have hmain := @parseMainStructure_avoids Nmea.fresh line
    cases hp : parseMainStructure Nmea.fresh line with
    | mk self r =>
      rw [hp] at hcode hmain
      simp only at hcode hmain
      have hself : self.m_Error ∉ unusedCodes := by
        rw [hcode]
        decide
      cases r with
      | error t =>
        simp only
        exact catchAll_avoids hself (fun t1 ht1 => by cases ht1; exact hmain rfl)
      | ok u =>
        cases u
        simp only
        unfold parseGeneralContents parseSpecificContents
        cases hg : forElements generalContents self.m_Line with
        | error t =>
          simp only
          exact catchAll_avoids hself (fun t1 ht1 => by
            cases ht1
            exact forElements_avoids (fun _ _ g => generalContents_avoids g) _ _ hg)
        | ok u =>
          cases u
          simp only
          exact catchAll_avoids hself (fun t1 ht1 =>
            forElements_avoids (fun _ _ g => specificContents_avoids g) _ _ ht1)
  exact ⟨hall _ (by decide), hall _ (by decide), hall _ (by decide)⟩

/-! ## Bytes before the first marker: the tokenizer -/

theorem getD_shift (p L : List Nat) (i : Nat) :
    (p ++ L).getD (p.length + i) 0 = L.getD i 0 := by
  rw [List.getD_eq_getElem?_getD, List.getD_eq_getElem?_getD,
    List.getElem?_append_right (by omega), Nat.add_sub_cancel_left]

theorem rd_shift (p L : List Nat) (i : Nat) : rd (p ++ L) (p.length + i) = rd L i := by
  unfold rd
  rw [List.length_append, getD_shift]
  by_cases h : i ≤ L.length
  · rw [if_pos (by omega), if_pos h]
  · rw [if_neg (by omega), if_neg h]

theorem rd_error_shift {line : List Nat} {i : Nat} {t : Thrown} (k : Nat)
    (h : rd line i = .error t) : t.shift k = t := by
  rw [(rd_eq_error h).2]
  rfl

theorem incr_shift (p L : List Nat) (c b : Nat) :
    incr (p ++ L) c (p.length + b) =
      match incr L c b with
      | .ok (c1, b1) => .ok (c1, p.length + b1)
      | .error t => .error (t.shift p.length) := by
  unfold incr
  simp only
  rw [List.length_append, Nat.add_assoc, rd_shift]
  by_cases h : L.length ≤ b + 1
  · rw [if_pos (by omega), if_pos h]
    rfl
  · rw [if_neg (by omega), if_neg h, rd_ok (by omega)]
    simp only
    split <;> rfl

theorem incrN_shift (p L : List Nat) :
    ∀ (n c b : Nat), incrN (p ++ L) n c (p.length + b) =
      match incrN L n c b with
      | .ok (c1, b1) => .ok (c1, p.length + b1)
      | .error t => .error (t.shift p.length) := by
  intro n
  induction n with
  | zero => intro c b; rfl
  | succ n ih =>
    intro c b
    rw [incrN, incrN, incr_shift]
    cases hi : incr L c b with
    | error t => rfl
    | ok r =>
      obtain ⟨c1, b1⟩ := r
      simp only
      exact ih c1 b1

theorem appendSpan_shift (p L : List Nat) (sp : List StringView) (b e : Nat) :
    appendSpan (p ++ L) (sp.map (StringView.shift p.length)) (p.length + b) (p.length + e) =
      match appendSpan L sp b e with
      | .ok sp1 => .ok (sp1.map (StringView.shift p.length))
      | .error t => .error (t.shift p.length) := by
  unfold appendSpan
  rw [rd_shift]
  cases hr : rd L b with
  | error t =>
    simp only
    rw [rd_error_shift _ hr]
  | ok ch =>
    simp only
    have h1 : p.length + e - (p.length + b) = e - b := by omega
    have h2 : p.length + e - (p.length + b + 1) = e - (b + 1) := by omega
    rw [h1, h2]
    by_cases hc : (ch == 44 || ch == 92) = true <;> by_cases h3 : e - b < 2 <;>
      simp [hc, h3, StringView.shift, Nat.add_assoc]

theorem addressField_shift (p L : List Nat) (b : Nat) :
    addressField (p ++ L) (p.length + b) =
      match addressField L b with
      | .ok (ty, sty, c, b1) => .ok (ty, sty, c, p.length + b1)
      | .error t => .error (t.shift p.length) := by
  unfold addressField
  rw [rd_shift]
  cases hr : rd L b with
  | error t =>
    simp only
    rw [rd_error_shift _ hr]
  | ok ch =>
    simp only [beq_iff_eq]
    by_cases h92 : ch = 92
    · rw [if_pos h92, if_pos h92]
    · rw [if_neg h92, if_neg h92]
      by_cases h33 : ch = 33
      · rw [if_pos h33, if_pos h33, incrN_shift p L 5 0 b]
        cases incrN L 5 0 b with
        | error t => rfl
        | ok r => rfl
      · rw [if_neg h33, if_neg h33]
        by_cases h36 : ch = 36
        · rw [if_pos h36, if_pos h36, incrN_shift p L 1 0 b]
          cases h1 : incrN L 1 0 b with
          | error t => rfl
          | ok r =>
            obtain ⟨c1, b1⟩ := r
            simp only
            obtain ⟨_, _, hc1, _, _⟩ := incrN_spec L 1 0 b c1 b1 (by omega) h1
            rw [rd_shift]
            cases hr1 : rd L b1 with
            | error t =>
              simp only
              rw [rd_error_shift _ hr1]
            | ok q =>
              simp only
              by_cases h80 : q = 80
              · rw [if_pos h80, if_pos h80, incrN_shift p L 3 c1 b1]
                cases incrN L 3 c1 b1 with
                | error t => rfl
                | ok r => rfl
              · rw [if_neg h80, if_neg h80, incrN_shift p L 5 c1 b1]
                cases h5 : incrN L 5 c1 b1 with
                | error t => rfl
                | ok r =>
                  obtain ⟨c2, b2⟩ := r
                  simp only
                  obtain ⟨hb2, _, _, _, _⟩ := incrN_spec L 5 c1 b1 c2 b2 hc1 h5
                  have hsub : p.length + b2 - 1 = p.length + (b2 - 1) := by omega
                  rw [hsub, rd_shift]
                  cases hr2 : rd L (b2 - 1) with
                  | error t =>
                    simp only
                    rw [rd_error_shift _ hr2]
                  | ok q2 =>
                    simp only
                    split <;> rfl
        · rw [if_neg h36, if_neg h36]
          rfl

/-- The data-field loop behind the bytes `p`, with fuel to spare. -/
theorem scanDataFields_shift (p L : List Nat) :
    ∀ (fuel d : Nat) (sp : List StringView) (start c b : Nat),
      b < L.length → L.length - b ≤ fuel →
      scanDataFields (p ++ L) (fuel + d) (sp.map (StringView.shift p.length))
          (p.length + start) c (p.length + b) =
        match scanDataFields L fuel sp start c b with
        | .ok (sp1, start1, c1, b1) =>
          .ok (sp1.map (StringView.shift p.length), p.length + start1, c1, p.length + b1)
        | .error t => .error (t.shift p.length) := by
  intro fuel
  induction fuel with
  | zero => intro d sp start c b hb hf; omega
  | succ fuel ih =>
    intro d sp start c b hb hf
    have hfuel : fuel + 1 + d = (fuel + d) + 1 := by omega
    rw [hfuel, scanDataFields_succ (p ++ L) (fuel + d) _ _ c _
        (by rw [List.length_append]; omega),
      scanDataFields_succ L fuel sp start c b hb, getD_shift]
    have step : ∀ (sp2 : List StringView) (start2 : Nat),
        (match incr (p ++ L) c (p.length + b) with
          | .error t => (.error t : Except Thrown (List StringView × Nat × Nat × Nat))
          | .ok (c1, b1) =>
            scanDataFields (p ++ L) (fuel + d) (sp2.map (StringView.shift p.length))
              (p.length + start2) c1 b1) =
        match (match incr L c b with
          | .error t => (.error t : Except Thrown (List StringView × Nat × Nat × Nat))
          | .ok (c1, b1) => scanDataFields L fuel sp2 start2 c1 b1) with
        | .ok (sp1, start1, c1, b1) =>
          .ok (sp1.map (StringView.shift p.length), p.length + start1, c1, p.length + b1)
        | .error t => .error (t.shift p.length) := by
      intro sp2 start2
      rw [incr_shift]
      cases hi : incr L c b with
      | error t => rfl
      | ok r =>
        obtain ⟨c1, b1⟩ := r
        simp only
        obtain ⟨hb1, hlt, _, _⟩ := incr_eq_ok hi
        exact ih d sp2 start2 c1 b1 (by omega) (by omega)
    by_cases h44 : L.getD b 0 = 44
    · rw [if_pos h44, if_pos h44, appendSpan_shift]
      cases ha : appendSpan L sp start b with
      | error t => rfl
      | ok sp2 =>
        simp only
        exact step sp2 b
    · rw [if_neg h44, if_neg h44]
      by_cases h42 : L.getD b 0 = 42
      · rw [if_pos h42, if_pos h42, appendSpan_shift]
        cases ha : appendSpan L sp start b with
        | error t => rfl
        | ok sp2 => rfl
      · rw [if_neg h42, if_neg h42]
        exact step sp start

theorem at_shift (p L : List Nat) (v : StringView) (i : Nat) :
    (v.shift p.length).at (p ++ L) i = v.at L i := by
  unfold StringView.at StringView.shift
  cases v.data with
  | none => rfl
  | some q =>
    simp only [Option.map_some']
    rw [Nat.add_assoc, rd_shift]

theorem addr_shift (k : Nat) (v : StringView) (i : Nat) :
    (v.shift k).addr i = (v.addr i).map (k + ·) := by
  unfold StringView.addr StringView.shift
  cases v.data with
  | none => rfl
  | some q =>
    simp only [Option.map_some']
    rw [Nat.add_assoc]

theorem at_error_shift {line : List Nat} {v : StringView} {i : Nat} {t : Thrown} (k : Nat)
    (h : v.at line i = .error t) : t.shift k = t := by
  unfold StringView.at at h
  split at h
  · cases h; rfl
  · exact rd_error_shift k h

theorem idx_map {α β : Type} (f : α → β) (l : List α) (i : Nat) :
    idx (l.map f) i =
      match idx l i with
      | .ok a => .ok (f a)
      | .error t => .error t := by
  unfold idx
  rw [List.get?_eq_getElem?, List.get?_eq_getElem?, List.getElem?_map]
  cases l[i]? <;> rfl

theorem idx_error_shift {α : Type} {l : List α} {i : Nat} {t : Thrown} (k : Nat)
    (h : idx l i = .error t) : t.shift k = t := by
  unfold idx at h
  split at h
  · cases h
  · cases h; rfl

theorem tooLong_shift (k : Nat) (hd cf : StringView) :
    tooLong (hd.shift k) (cf.shift k) = tooLong hd cf := by
  unfold tooLong StringView.shift
  cases hd.data with
  | none => rfl
  | some h =>
    cases cf.data with
    | none => rfl
    | some c =>
      simp only [Option.map_some']
      have e : Int.ofNat (k + c + (cf.size - 1)) - Int.ofNat (k + h) =
          Int.ofNat (c + (cf.size - 1)) - Int.ofNat h := by
        simp only [Int.ofNat_eq_coe]
        omega
      rw [e]

theorem tooLong_error_shift {hd cf : StringView} {t : Thrown} (k : Nat)
    (h : tooLong hd cf = .error t) : t.shift k = t := by
  unfold tooLong at h
  split at h
  · cases h
  · cases h; rfl

theorem checksumMismatch_shift (p L : List Nat) (v : StringView) (cs : Nat) :
    checksumMismatch (p ++ L) (v.shift p.length) cs = checksumMismatch L v cs := by
  unfold checksumMismatch
  rw [at_shift, at_shift]

theorem hex2Char_error_shift {v : Nat} {t : Thrown} (k : Nat)
    (h : hex2Char v = .error t) : t.shift k = t := by
  unfold hex2Char at h
  split at h
  · split at h
    · cases h; rfl
    · cases h
  · cases h

theorem checksumMismatch_error_shift {line : List Nat} {v : StringView} {cs : Nat}
    {t : Thrown} (k : Nat) (h : checksumMismatch line v cs = .error t) : t.shift k = t := by
  unfold checksumMismatch at h
  repeat' split at h
  all_goals first
    | (cases h; done)
    | (cases h; exact at_error_shift k (by assumption))
    | (cases h; exact hex2Char_error_shift k (by assumption))

theorem checksumField_shift (p L : List Nat) (ty : LineElementType)
    (sty : Option SentenceType) (sp : List StringView) (start cs b : Nat) :
    checksumField (p ++ L) ty sty (sp.map (StringView.shift p.length)) (p.length + start) cs
        (p.length + b) =
      match checksumField L ty sty sp start cs b with
      | .ok (element, b1) => .ok (element.shift p, p.length + b1)
      | .error t => .error (t.shift p.length) := by
  unfold checksumField
  simp only
  rw [List.length_append]
  by_cases hlen : L.length < b + 3
  · rw [if_pos (by omega), if_pos hlen]
    rfl
  · rw [if_neg (by omega), if_neg hlen, Nat.add_assoc, appendSpan_shift]
    cases ha : appendSpan L sp start (b + 3) with
    | error t => rfl
    | ok sp1 =>
      simp only [List.length_map]
      rw [idx_map, idx_map]
      cases h0 : idx sp1 0 with
      | error t => rfl
      | ok hd =>
        cases h1 : idx sp1 (sp1.length - 1) with
        | error t => rfl
        | ok cf =>
          simp only
          rw [tooLong_shift]
          cases hl : tooLong hd cf with
          | error t =>
            simp only
            rw [tooLong_error_shift _ hl]
          | ok long =>
            cases long with
            | true =>
              simp only
              rw [addr_shift]
              rfl
            | false =>
              simp only
              rw [checksumMismatch_shift]
              cases hm : checksumMismatch L cf cs with
              | error t =>
                simp only
                rw [checksumMismatch_error_shift _ hm]
              | ok bad =>
                cases bad with
                | true =>
                  simp only
                  rw [addr_shift]
                  rfl
                | false => rfl

/-- The element tokenizer behind the bytes `p`: the same element at the same bytes, and
what it throws has its indication moved by the length of `p`. -/
theorem element_shift (p L : List Nat) (b : Nat) :
    parseMainStructureTagBlockOrSentence (p ++ L) (p.length + b) =
      match parseMainStructureTagBlockOrSentence L b with
      | .ok (element, b1) => .ok (element.shift p, p.length + b1)
      | .error t => .error (t.shift p.length) := by
  unfold parseMainStructureTagBlockOrSentence
  rw [addressField_shift]
  cases ha : addressField L b with
  | error t => rfl
  | ok r =>
    obtain ⟨ty, sty, c0, b0⟩ := r
    simp only
    obtain ⟨_, hb0, _, _, _⟩ := addressField_spec ha
    have hs := scanDataFields_shift p L L.length p.length [] b c0 b0 hb0 (by omega)
    rw [List.length_append, Nat.add_comm p.length L.length, List.map_nil] at *
    rw [hs]
    cases hscan : scanDataFields L L.length [] b c0 b0 with
    | error t => rfl
    | ok r =>
      obtain ⟨sp, start, cs, b2⟩ := r
      simp only
      exact checksumField_shift p L ty sty sp start cs b2

/-! ## Bytes before the first marker: the first stage -/

/-- The search for the first character passes bytes that are no marker. -/
theorem findStart_skip (line : List Nat) :
    ∀ (n b fuel : Nat), b + n < line.length →
      (∀ i, b ≤ i → i < b + n →
        line.getD i 0 ≠ 36 ∧ line.getD i 0 ≠ 33 ∧ line.getD i 0 ≠ 92) →
      findStart line (n + fuel) b = findStart line fuel (b + n) := by
  intro n
  induction n with
  | zero => intro b fuel _ _; rw [Nat.zero_add, Nat.add_zero]
  | succ n ih =>
    intro b fuel hlen hno
    have hfuel : n + 1 + fuel = (n + fuel) + 1 := by omega
    obtain ⟨h1, h2, h3⟩ := hno b (Nat.le_refl b) (by omega)
    rw [hfuel, findStart, if_neg (by omega), rd_ok (by omega)]
    simp only [Bool.or_eq_true, beq_iff_eq]
    rw [if_neg (by omega), ih (b + 1) fuel (by omega) (fun i g1 g2 => hno i (by omega) (by omega))]
    congr 1
    omega

/-- The search for the first character stops at a marker. -/
theorem findStart_marker {line : List Nat} {fuel b : Nat} (hb : b < line.length)
    (hm : line.getD b 0 = 36 ∨ line.getD b 0 = 33 ∨ line.getD b 0 = 92) :
    findStart line (fuel + 1) b = .ok b := by
  rw [findStart, if_neg (by omega), rd_ok (by omega)]
  simp only [Bool.or_eq_true, beq_iff_eq]
  rw [if_pos (by omega)]

theorem parseTagBlocks_shift (p L : List Nat) :
    ∀ (fuel d : Nat) (m : List TagBlockOrSentence) (b : Nat), L.length - b < fuel →
      parseTagBlocks (p ++ L) (fuel + d) (m.map (TagBlockOrSentence.shift p)) (p.length + b) =
        match parseTagBlocks L fuel m b with
        | (m1, .ok b1) => (m1.map (TagBlockOrSentence.shift p), .ok (p.length + b1))
        | (m1, .error t) => (m1.map (TagBlockOrSentence.shift p), .error (t.shift p.length)) := by
  intro fuel
  induction fuel with
  | zero => intro d m b hf; omega
  | succ fuel ih =>
    intro d m b hf
    have hfuel : fuel + 1 + d = (fuel + d) + 1 := by omega
    rw [hfuel, parseTagBlocks, parseTagBlocks, rd_shift]
    cases hr : rd L b with
    | error t =>
      simp only
      rw [rd_error_shift _ hr]
    | ok ch =>
      simp only [beq_iff_eq]
      by_cases h92 : ch = 92
      · rw [if_pos h92, if_pos h92, element_shift]
        cases he : parseMainStructureTagBlockOrSentence L b with
        | error t => rfl
        | ok r =>
          obtain ⟨el, b1⟩ := r
          simp only
          obtain ⟨_, hprog, _⟩ := element_ok_progress he
          rw [rd_shift]
          cases hr1 : rd L b1 with
          | error t =>
            simp only [List.map_append, List.map_cons, List.map_nil]
            rw [rd_error_shift _ hr1]
          | ok ch1 =>
            simp only [bne_iff_ne, ne_eq, ite_not]
            by_cases hc : ch1 = 92
            · rw [if_pos hc, if_pos hc]
              have := ih d (m ++ [el]) (b1 + 1) (by omega)
              rw [List.map_append, List.map_cons, List.map_nil] at this
              exact this
            · rw [if_neg hc, if_neg hc]
              simp only [List.map_append, List.map_cons, List.map_nil]
              rfl
      · rw [if_neg h92, if_neg h92]

theorem parseSentence_shift (p L : List Nat) (m : List TagBlockOrSentence) (b : Nat) :
    parseSentence (p ++ L) (m.map (TagBlockOrSentence.shift p)) (p.length + b) =
      match parseSentence L m b with
      | (m1, .ok b1) => (m1.map (TagBlockOrSentence.shift p), .ok (p.length + b1))
      | (m1, .error t) => (m1.map (TagBlockOrSentence.shift p), .error (t.shift p.length)) := by
  unfold parseSentence
  rw [rd_shift]
  cases hr : rd L b with
  | error t =>
    simp only
    rw [rd_error_shift _ hr]
  | ok ch =>
    simp only [Bool.or_eq_true, beq_iff_eq]
    by_cases hm : ch = 36 ∨ ch = 33
    · rw [if_pos hm, if_pos hm, element_shift]
      cases he : parseMainStructureTagBlockOrSentence L b with
      | error t => rfl
      | ok r =>
        obtain ⟨el, b1⟩ := r
        simp only [List.map_append, List.map_cons, List.map_nil]
    · rw [if_neg hm, if_neg hm]

theorem checkCRLF_shift (p L : List Nat) (b : Nat) :
    checkCRLF (p ++ L) (p.length + b) = shiftError p.length (checkCRLF L b) := by
  unfold checkCRLF
  rw [List.length_append]
  by_cases h1 : b ≥ L.length
  · rw [if_pos (by omega), if_pos h1]
    rfl
  · rw [if_neg (by omega), if_neg h1, rd_shift, rd_ok (by omega)]
    simp only [bne_iff_ne, ne_eq, ite_not]
    by_cases h13 : L.getD b 0 = 13
    · rw [if_pos h13, if_pos h13]
      by_cases h2 : b + 1 ≥ L.length
      · rw [if_pos (by omega), if_pos h2]
        rfl
      · rw [if_neg (by omega), if_neg h2, Nat.add_assoc, rd_shift, rd_ok (by omega)]
        simp only
        split <;> rfl
    · rw [if_neg h13, if_neg h13]
      rfl

/-- The first stage on a line that begins with bytes `p` that are no marker, before a
line `L` that begins with a marker: the elements are those of `L` at the same bytes. -/
theorem parseMainStructure_shift (p L : List Nat)
    (hp : ∀ ch ∈ p, ch ≠ 36 ∧ ch ≠ 33 ∧ ch ≠ 92)
    (hL : L.head? = some 36 ∨ L.head? = some 33 ∨ L.head? = some 92) :
    parseMainStructure Nmea.fresh (p ++ L) =
      ((parseMainStructure Nmea.fresh L).1.shift p,
        shiftError p.length (parseMainStructure Nmea.fresh L).2) := by
  have hLne : L ≠ [] := by
    intro h0
    rw [h0] at hL
    simp at hL
  have hLlen : 0 < L.length := List.length_pos.mpr hLne
  have hpL : p ++ L ≠ [] := by
    intro h0
    exact hLne (List.append_eq_nil.mp h0).2
  have hm0 : L.getD 0 0 = 36 ∨ L.getD 0 0 = 33 ∨ L.getD 0 0 = 92 := by
    cases L with
    | nil => exact absurd rfl hLne
    | cons x tl =>
      simp only [List.head?_cons, Option.some.injEq] at hL
      exact hL
  have hfs : findStart (p ++ L) ((p ++ L).length + 1) 0 = .ok p.length := by
    have h := findStart_skip (p ++ L) p.length 0 (L.length + 1)
      (by rw [List.length_append]; omega)
      (fun i _ g2 => by
        have hi : i < p.length := by omega
        have hmem : (p ++ L).getD i 0 ∈ p := by
          rw [List.getD_eq_getElem?_getD, List.getElem?_append_left hi,
            List.getElem?_eq_getElem hi]
          exact List.getElem_mem hi
        exact hp _ hmem)
    rw [List.length_append, Nat.add_assoc, h, Nat.zero_add]
    apply findStart_marker
    · rw [List.length_append]; omega
    · have := getD_shift p L 0
      rw [Nat.add_zero] at this
      rw [this]
      exact hm0
  have hfL : findStart L (L.length + 1) 0 = .ok 0 := findStart_marker hLlen hm0
  have htb : parseTagBlocks (p ++ L) (L.length + 1 + p.length) [] p.length =
      match parseTagBlocks L (L.length + 1) [] 0 with
      | (m1, .ok b1) => (m1.map (TagBlockOrSentence.shift p), .ok (p.length + b1))
      | (m1, .error t) => (m1.map (TagBlockOrSentence.shift p), .error (t.shift p.length)) :=
    parseTagBlocks_shift p L (L.length + 1) p.length [] 0 (by omega)
  have hfuel : (p ++ L).length + 1 = L.length + 1 + p.length := by
    rw [List.length_append]; omega
  rw [parseMainStructure_eq hpL, parseMainStructure_eq hLne]
  have hfm : Nmea.fresh.m_Line = [] := rfl
  rw [hfm]
  unfold parseElements
  rw [hfs, hfL]
  simp only
  rw [hfuel, htb]
  cases ht : parseTagBlocks L (L.length + 1) [] 0 with
  | mk m1 r =>
    cases r with
    | error t => rfl
    | ok b1 =>
      simp only
      rw [parseSentence_shift]
      cases hs : parseSentence L m1 b1 with
      | mk m2 r2 =>
        cases r2 with
        | error t => rfl
        | ok b2 =>
          simp only
          rw [checkCRLF_shift]
          rfl

/-! ## Bytes before the first marker: the content checks -/

theorem size_shift (k : Nat) (v : StringView) : (v.shift k).size = v.size := rfl

theorem mk_shift (k : Nat) (d : Option Nat) (n : Nat) :
    (⟨Option.map (fun x => k + x) d, n⟩ : StringView) = (⟨d, n⟩ : StringView).shift k := rfl

theorem allFrom_shift (p L : List Nat) (v : StringView) (ok : Nat → Bool) (e : ErrorCode)
    (f : Nat → Option Nat) :
    ∀ (n i : Nat),
      allFrom (p ++ L) (v.shift p.length) ok
          (fun j => .exception e (Option.map (fun x => p.length + x) (f j))) n i =
        shiftError p.length (allFrom L v ok (fun j => .exception e (f j)) n i) := by
  intro n
  induction n with
  | zero => intro i; rfl
  | succ n ih =>
    intro i
    rw [allFrom, allFrom, at_shift]
    cases ha : v.at L i with
    | error t =>
      simp only [shiftError]
      rw [at_error_shift _ ha]
    | ok ch =>
      simp only
      split
      · exact ih (i + 1)
      · rfl

theorem digitRun_shift (p L : List Nat) (v : StringView) :
    ∀ (n i : Nat), digitRun (p ++ L) (v.shift p.length) n i = digitRun L v n i := by
  intro n
  induction n with
  | zero => intro i; rfl
  | succ n ih =>
    intro i
    rw [digitRun, digitRun, at_shift]
    cases v.at L i with
    | error t => rfl
    | ok ch =>
      simp only
      split
      · exact ih (i + 1)
      · rfl

theorem digitRun_error_shift {line : List Nat} {v : StringView} (k : Nat) :
    ∀ (n i : Nat) (t : Thrown), digitRun line v n i = .error t → t.shift k = t := by
  intro n
  induction n with
  | zero => intro i t h; rw [digitRun] at h; cases h
  | succ n ih =>
    intro i t h
    rw [digitRun] at h
    repeat' split at h
    all_goals first
      | (cases h; done)
      | (cases h; exact at_error_shift k (by assumption))
      | exact ih _ _ h

theorem shift_exception (k : Nat) (e : ErrorCode) (ind : Option Nat) :
    (Thrown.exception e ind).shift k = .exception e (Option.map (fun x => k + x) ind) := rfl

theorem LatLong_doParse_shift (p L : List Nat) (sp : List StringView) (index num : Nat) :
    LatLong.doParse (p ++ L) (sp.map (StringView.shift p.length)) index num =
      shiftError p.length (LatLong.doParse L sp index num) := by
  generalize hr : LatLong.doParse L sp index num = r
  unfold LatLong.doParse at hr ⊢
  rw [idx_map]
  repeat' split at hr
  all_goals subst hr
  all_goals simp only [*, shiftError, shift_exception, at_shift, addr_shift, size_shift,
    digitRun_shift, allFrom_shift, if_true, if_false, not_true_eq_false, not_false_eq_true,
    Bool.false_eq_true, lt_self_iff_false, ne_eq]
  all_goals first
    | rfl
    | (rw [idx_error_shift _ (by assumption)])
    | (rw [at_error_shift _ (by assumption)])
    | (rw [digitRun_error_shift _ _ _ _ (by assumption)])

theorem Time_doParse_shift (p L : List Nat) (sp : List StringView) (index : Nat) :
    Time.doParse (p ++ L) (sp.map (StringView.shift p.length)) index =
      shiftError p.length (Time.doParse L sp index) := by
  unfold Time.doParse
  rw [idx_map]
  cases hidx : idx sp index with
  | error t =>
    simp only [shiftError]
    rw [idx_error_shift _ hidx]
  | ok field =>
    simp only [size_shift, at_shift, addr_shift, allFrom_shift]
    cases h1 : allFrom L field isdigit (fun _ => .exception .E019 (field.addr 0))
        (min 6 field.size) 0 with
    | error t => rfl
    | ok u =>
      cases u
      simp only [shiftError]
      by_cases h6 : field.size > 6
      · simp only [h6, if_true]
        cases h2 : field.at L 6 with
        | error t =>
          simp only [shiftError]
          rw [at_error_shift _ h2]
        | ok ch =>
          simp only
          by_cases h46 : (ch != 46) = true
          · simp only [h46, if_true, shiftError, shift_exception]
          · simp only [h46, if_false, Bool.false_eq_true]
            by_cases h7 : field.size > 7
            · simp only [h7, if_true]
              cases allFrom L field isdigit (fun _ => .exception .E019 (field.addr 0))
                (field.size - 7) 7 with
              | error t => rfl
              | ok u => rfl
            · simp only [h7, if_false, shiftError]
      · simp only [h6, if_false]
        have h7 : ¬ field.size > 7 := by omega
        simp only [h7, if_false, shiftError]

theorem VariableNumbers_doParse_shift (p L : List Nat) (sp : List StringView) (index : Nat) :
    VariableNumbers.doParse (p ++ L) (sp.map (StringView.shift p.length)) index =
      shiftError p.length (VariableNumbers.doParse L sp index) := by
  unfold VariableNumbers.doParse
  rw [idx_map]
  cases hidx : idx sp index with
  | error t =>
    simp only [shiftError]
    rw [idx_error_shift _ hidx]
  | ok field =>
    simp only [size_shift, at_shift, addr_shift, allFrom_shift, digitRun_shift]
    have tail : ∀ i : Nat,
        (match digitRun L field (field.size - i) i with
          | .error t => (.error t : Except Thrown Nat)
          | .ok i =>
            if i = field.size then .ok (index + 1)
            else
              match field.at L i with
              | .error t => .error t
              | .ok ch =>
                if (ch != 46) = true then
                  .error (.exception .E018 (Option.map (fun x => p.length + x) (field.addr 0)))
                else
                  match shiftError p.length
                      (allFrom L field isdigit (fun _ => .exception .E018 (field.addr 0))
                        (field.size - (i + 1)) (i + 1)) with
                  | .error t => .error t
                  | .ok () => .ok (index + 1)) =
        shiftError p.length
          (match digitRun L field (field.size - i) i with
          | .error t => (.error t : Except Thrown Nat)
          | .ok i =>
            if i = field.size then .ok (index + 1)
            else
              match field.at L i with
              | .error t => .error t
              | .ok ch =>
                if (ch != 46) = true then .error (.exception .E018 (field.addr 0))
                else
                  match allFrom L field isdigit (fun _ => .exception .E018 (field.addr 0))
                      (field.size - (i + 1)) (i + 1) with
                  | .error t => .error t
                  | .ok () => .ok (index + 1)) := by
      intro i
      cases h1 : digitRun L field (field.size - i) i with
      | error t =>
        simp only [shiftError]
        rw [digitRun_error_shift _ _ _ _ h1]
      | ok j =>
        simp only
        by_cases hj : j = field.size
        · simp only [hj, if_true, shiftError]
        · simp only [hj, if_false]
          cases h2 : field.at L j with
          | error t =>
            simp only [shiftError]
            rw [at_error_shift _ h2]
          | ok ch =>
            simp only
            by_cases h46 : (ch != 46) = true
            · simp only [h46, if_true, shiftError, shift_exception]
            · simp only [h46, if_false, Bool.false_eq_true]
              cases allFrom L field isdigit (fun _ => .exception .E018 (field.addr 0))
                (field.size - (j + 1)) (j + 1) with
              | error t => rfl
              | ok u => rfl
    by_cases h0 : field.size > 0
    · simp only [h0, if_true]
      cases h1 : field.at L 0 with
      | error t =>
        simp only [shiftError]
        rw [at_error_shift _ h1]
      | ok ch =>
        simp only
        exact tail _
    · simp only [h0, if_false]
      exact tail 0

theorem FixedField_doParse_shift (p L : List Nat) (sp : List StringView) (index n : Nat)
    (ok : Nat → Bool) (e : ErrorCode) :
    FixedField.doParse (p ++ L) (sp.map (StringView.shift p.length)) index n ok e =
      shiftError p.length (FixedField.doParse L sp index n ok e) := by
  generalize hr : FixedField.doParse L sp index n ok e = r
  unfold FixedField.doParse at hr ⊢
  rw [idx_map]
  simp only at hr ⊢
  repeat' split at hr
  all_goals subst hr
  all_goals simp only [*, shiftError, shift_exception, at_shift, addr_shift, size_shift, mk_shift,
    digitRun_shift, allFrom_shift, if_true, if_false, not_true_eq_false, not_false_eq_true,
    Bool.false_eq_true, lt_self_iff_false, ne_eq]
  all_goals first
    | rfl
    | (rw [idx_error_shift _ (by assumption)])
    | (rw [at_error_shift _ (by assumption)])

theorem throwE015_shift (k : Nat) (sp : List StringView) :
    throwE015 (sp.map (StringView.shift k)) = shiftError k (throwE015 sp) := by
  unfold throwE015 checksumIndex
  rw [List.length_map, idx_map]
  cases h : idx sp (if sp.length = 0 then 2 ^ 64 - 1 else sp.length - 1) with
  | error t =>
    simp only [shiftError]
    rw [idx_error_shift _ h]
  | ok field =>
    simp only [shiftError, shift_exception, addr_shift]

/-- Every `doParse` of a single-field class behind the bytes `p`. -/
theorem Field_doParse_shift (p L : List Nat) (sp : List StringView) (index : Nat) (f : Field) :
    Field.doParse (p ++ L) (sp.map (StringView.shift p.length)) index f =
      shiftError p.length (Field.doParse L sp index f) := by
  cases f with
  | RepeatableGroup _ _ _ => rfl
  | Latitude => exact LatLong_doParse_shift p L sp index 4
  | Longitude => exact LatLong_doParse_shift p L sp index 5
  | Time => exact Time_doParse_shift p L sp index
  | VariableNumbers => exact VariableNumbers_doParse_shift p L sp index
  | FixedNumberField n => exact FixedField_doParse_shift p L sp index n isdigit .E018
  | FixedHexField n => exact FixedField_doParse_shift p L sp index n isxdigit .E021
  | VariableHexField =>
    simp only [Field.doParse]
    rw [idx_map]
    cases hidx : idx sp index with
    | error t =>
      simp only [shiftError]
      rw [idx_error_shift _ hidx]
    | ok field =>
      simp only [size_shift, at_shift, addr_shift, allFrom_shift]
      by_cases h0 : field.size > 0
      · simp only [h0, if_true]
        cases h1 : field.at L 0 with
        | error t =>
          simp only [shiftError]
          rw [at_error_shift _ h1]
        | ok ch =>
          simp only
          cases allFrom L field isxdigit (fun _ => .exception .E021 (field.addr 0))
            (field.size - if (ch == 45) = true then 1 else 0)
            (if (ch == 45) = true then 1 else 0) with
          | error t => rfl
          | ok u => rfl
      · simp only [h0, if_false]
        cases allFrom L field isxdigit (fun _ => .exception .E021 (field.addr 0))
          (field.size - 0) 0 with
        | error t => rfl
        | ok u => rfl
  | Status =>
    generalize hr : Field.doParse L sp index (.Status) = r
    simp only [Field.doParse] at hr ⊢
    rw [idx_map]
    repeat' split at hr
    all_goals subst hr
    all_goals simp only [*, shiftError, shift_exception, at_shift, addr_shift, size_shift, mk_shift,
      allFrom_shift, if_true, if_false, not_true_eq_false, not_false_eq_true,
      Bool.false_eq_true, ne_eq]
    all_goals first
      | rfl
      | (rw [idx_error_shift _ (by assumption)])
      | (rw [at_error_shift _ (by assumption)])
  | CharLiterals m l =>
    generalize hr : Field.doParse L sp index (.CharLiterals m l) = r
    simp only [Field.doParse] at hr ⊢
    rw [idx_map]
    repeat' split at hr
    all_goals subst hr
    all_goals simp only [*, shiftError, shift_exception, at_shift, addr_shift, size_shift, mk_shift,
      allFrom_shift, if_true, if_false, not_true_eq_false, not_false_eq_true,
      Bool.false_eq_true, ne_eq]
    all_goals first
      | rfl
      | (rw [idx_error_shift _ (by assumption)])
      | (rw [at_error_shift _ (by assumption)])
  | FixedAlphaField n =>
    generalize hr : Field.doParse L sp index (.FixedAlphaField n) = r
    simp only [Field.doParse] at hr ⊢
    rw [idx_map]
    repeat' split at hr
    all_goals subst hr
    all_goals simp only [*, shiftError, shift_exception, at_shift, addr_shift, size_shift, mk_shift,
      allFrom_shift, if_true, if_false, not_true_eq_false, not_false_eq_true,
      Bool.false_eq_true, ne_eq]
    all_goals first
      | rfl
      | (rw [idx_error_shift _ (by assumption)])
  | VariableText n =>
    generalize hr : Field.doParse L sp index (.VariableText n) = r
    simp only [Field.doParse] at hr ⊢
    rw [idx_map]
    repeat' split at hr
    all_goals subst hr
    all_goals simp only [*, shiftError, shift_exception, at_shift, addr_shift, size_shift, mk_shift,
      allFrom_shift, if_true, if_false, not_true_eq_false, not_false_eq_true,
      Bool.false_eq_true, ne_eq]
    all_goals first
      | rfl
      | (rw [idx_error_shift _ (by assumption)])
  | FixedTextField n =>
    generalize hr : Field.doParse L sp index (.FixedTextField n) = r
    simp only [Field.doParse] at hr ⊢
    rw [idx_map]
    repeat' split at hr
    all_goals subst hr
    all_goals simp only [*, shiftError, shift_exception, at_shift, addr_shift, size_shift, mk_shift,
      allFrom_shift, if_true, if_false, not_true_eq_false, not_false_eq_true,
      Bool.false_eq_true, ne_eq]
    all_goals first
      | rfl
      | (rw [idx_error_shift _ (by assumption)])
  | FixedSixBitField n =>
    generalize hr : Field.doParse L sp index (.FixedSixBitField n) = r
    simp only [Field.doParse] at hr ⊢
    rw [idx_map]
    repeat' split at hr
    all_goals subst hr
    all_goals simp only [*, shiftError, shift_exception, at_shift, addr_shift, size_shift, mk_shift,
      allFrom_shift, if_true, if_false, not_true_eq_false, not_false_eq_true,
      Bool.false_eq_true, ne_eq]
    all_goals first
      | rfl
      | (rw [idx_error_shift _ (by assumption)])
  | VariableSixBitField =>
    generalize hr : Field.doParse L sp index (.VariableSixBitField) = r
    simp only [Field.doParse] at hr ⊢
    rw [idx_map]
    repeat' split at hr
    all_goals subst hr
    all_goals simp only [*, shiftError, shift_exception, at_shift, addr_shift, size_shift, mk_shift,
      allFrom_shift, if_true, if_false, not_true_eq_false, not_false_eq_true,
      Bool.false_eq_true, ne_eq]
    all_goals first
      | rfl
      | (rw [idx_error_shift _ (by assumption)])

/-! ## Bytes before the first marker: the field grammar -/

theorem checksumIndex_map (k : Nat) (sp : List StringView) :
    checksumIndex (sp.map (StringView.shift k)) = checksumIndex sp := by
  unfold checksumIndex
  rw [List.length_map]

theorem forFields_shift {k : Nat} {parse1 parse2 : Field → Nat → Except Thrown Nat}
    (h : ∀ f i, parse1 f i = shiftError k (parse2 f i)) :
    ∀ (fields : List Field) (i : Nat),
      forFields parse1 fields i = shiftError k (forFields parse2 fields i) := by
  intro fields
  induction fields with
  | nil => intro i; rfl
  | cons f tl ih =>
    intro i
    rw [forFields, forFields, h]
    cases parse2 f i with
    | error t => rfl
    | ok j => exact ih j

theorem whileFields_shift {k cs : Nat} {body1 body2 : Nat → Except Thrown Nat}
    (h : ∀ i, body1 i = shiftError k (body2 i)) :
    ∀ (m i : Nat), whileFields cs body1 m i = shiftError k (whileFields cs body2 m i) := by
  intro m
  induction m with
  | zero =>
    intro i
    rw [whileFields, whileFields]
    split <;> rfl
  | succ m ih =>
    intro i
    rw [whileFields, whileFields, h]
    split
    · cases body2 i with
      | error t => rfl
      | ok j => exact ih j
    · rfl

theorem repeatFields_shift {k : Nat} {body1 body2 : Nat → Except Thrown Nat}
    (h : ∀ i, body1 i = shiftError k (body2 i)) :
    ∀ (n i : Nat), repeatFields body1 n i = shiftError k (repeatFields body2 n i) := by
  intro n
  induction n with
  | zero => intro i; rfl
  | succ n ih =>
    intro i
    rw [repeatFields, repeatFields, h]
    cases body2 i with
    | error t => rfl
    | ok j => exact ih j

/-- Every validator, single or group, behind the bytes `p`. -/
theorem Field_parse_shift (p L : List Nat) (sp : List StringView) :
    ∀ (fuel : Nat) (f : Field) (i : Nat),
      Field.parse (p ++ L) (sp.map (StringView.shift p.length)) fuel f i =
        shiftError p.length (Field.parse L sp fuel f i) := by
  intro fuel
  induction fuel with
  | zero => intro f i; cases f <;> rfl
  | succ fuel ih =>
    intro f i
    have hchildren : ∀ (fs : List Field) (i : Nat),
        forFields (fun f i => Field.parse (p ++ L) (sp.map (StringView.shift p.length)) fuel f i)
          fs i =
        shiftError p.length (forFields (fun f i => Field.parse L sp fuel f i) fs i) :=
      fun fs i => forFields_shift (fun g j => ih g j) fs i
    by_cases hg : f.isGroup = false
    · rw [Field.parse_single _ _ fuel f i hg, Field.parse_single _ _ fuel f i hg,
        checksumIndex_map]
      split
      · exact throwE015_shift _ sp
      · exact Field_doParse_shift p L sp i f
    · cases f with
      | RepeatableGroup it n fields =>
        cases it with
        | zero_or_one =>
          cases fields with
          | nil =>
            have heq : ∀ (line : List Nat) (splitter : List StringView),
                Field.parse line splitter (fuel + 1) (.RepeatableGroup .zero_or_one n []) i =
                if i < checksumIndex splitter then
                  match idx splitter i with
                  | .error t => .error t
                  | .ok field => if field.size ≠ 0 then .error .undefined else .ok i
                else .ok i := fun _ _ => rfl
            rw [heq, heq, checksumIndex_map, idx_map]
            split
            · cases hidx : idx sp i with
              | error t =>
                simp only [shiftError]
                rw [idx_error_shift _ hidx]
              | ok field =>
                simp only [size_shift]
                split <;> rfl
            · rfl
          | cons g rest =>
            rw [zero_or_one_eq, zero_or_one_eq, checksumIndex_map, idx_map]
            split
            · cases hidx : idx sp i with
              | error t =>
                simp only [shiftError]
                rw [idx_error_shift _ hidx]
              | ok field =>
                simp only [size_shift]
                split
                · exact ih g i
                · rfl
            · rfl
        | zero_or_more =>
          rw [zero_or_more_eq, zero_or_more_eq, checksumIndex_map]
          exact whileFields_shift (hchildren fields) fuel i
        | one_or_more =>
          rw [one_or_more_eq, one_or_more_eq, checksumIndex_map]
          split
          · exact throwE015_shift _ sp
          · exact whileFields_shift (hchildren fields) fuel i
        | fixed =>
          exact repeatFields_shift (hchildren fields) n i
      | _ => exact absurd rfl hg

theorem Sentence_parse_shift (p L : List Nat) (sp : List StringView) (sentence : Sentence)
    (fuel : Nat) :
    sentence.parse (p ++ L) (sp.map (StringView.shift p.length)) fuel =
      shiftError p.length (sentence.parse L sp fuel) := by
  unfold Sentence.parse
  rw [List.length_map, idx_map]
  split
  · cases hidx : idx sp 0 with
    | error t =>
      simp only [shiftError]
      rw [idx_error_shift _ hidx]
    | ok field =>
      simp only [shiftError, shift_exception, addr_shift]
  · exact forFields_shift (fun g j => Field_parse_shift p L sp fuel g j) _ 1

/-! ## Bytes before the first marker: the content stages and `parse` -/

theorem matchLoop_shift (k : Nat) (buff : List Nat) (thrown : Thrown) :
    ∀ (table : List (List Nat)),
      matchLoop buff (thrown.shift k) table = shiftError k (matchLoop buff thrown table) := by
  intro table
  induction table with
  | nil => rfl
  | cons elem rest ih =>
    rw [matchLoop, matchLoop]
    split
    · rfl
    · split
      · rfl
      · exact ih

theorem matchTalker_shift (k ch1 ch2 : Nat) (ind : Option Nat) :
    matchTalker ch1 ch2 (Option.map (fun x => k + x) ind) =
      shiftError k (matchTalker ch1 ch2 ind) :=
  matchLoop_shift k _ (.exception .E005 ind) talkers

theorem matchSentenceFormatter_shift (k ch1 ch2 ch3 : Nat) :
    matchSentenceFormatter ch1 ch2 ch3 = shiftError k (matchSentenceFormatter ch1 ch2 ch3) :=
  matchLoop_shift k _ (.errorCode .E009) formatters

theorem checkTalkerId_shift (k ch1 ch2 : Nat) (ind : Option Nat) :
    checkTalkerId ch1 ch2 (Option.map (fun x => k + x) ind) =
      shiftError k (checkTalkerId ch1 ch2 ind) := by
  unfold checkTalkerId
  split <;> rfl

theorem checkProprietaryTalkerId_shift (k ch1 ch2 ch3 : Nat) (ind : Option Nat) :
    checkProprietaryTalkerId ch1 ch2 ch3 (Option.map (fun x => k + x) ind) =
      shiftError k (checkProprietaryTalkerId ch1 ch2 ch3 ind) := by
  unfold checkProprietaryTalkerId
  split <;> rfl

theorem checkSentenceFormatter_shift (k ch1 ch2 ch3 : Nat) (ind : Option Nat) :
    checkSentenceFormatter ch1 ch2 ch3 (Option.map (fun x => k + x) ind) =
      shiftError k (checkSentenceFormatter ch1 ch2 ch3 ind) := by
  unfold checkSentenceFormatter
  split <;> rfl

theorem checkCharactersFrom_shift (p L : List Nat) (v : StringView) (caret : Bool) :
    ∀ (n i : Nat),
      checkCharactersFrom (p ++ L) (v.shift p.length) caret n i =
        shiftError p.length (checkCharactersFrom L v caret n i) := by
  intro n
  induction n with
  | zero => intro i; rfl
  | succ n ih =>
    intro i
    rw [checkCharactersFrom, checkCharactersFrom, at_shift]
    cases ha : v.at L i with
    | error t =>
      simp only [shiftError]
      rw [at_error_shift _ ha]
    | ok ch =>
      simp only
      cases hres : reservedAt ch with
      | error t =>
        have ht : t.shift p.length = t := by
          unfold reservedAt at hres
          split at hres
          · cases hres
          · cases hres; rfl
        simp only [shiftError]
        rw [ht]
      | ok r =>
        simp only
        split
        · simp only [shiftError, shift_exception, addr_shift]
        · exact ih (i + 1)

theorem checkPositivInteger_shift (p L : List Nat) (v : StringView) :
    checkPositivInteger (p ++ L) (v.shift p.length) =
      shiftError p.length (checkPositivInteger L v) := by
  unfold checkPositivInteger
  simp only [addr_shift, size_shift]
  exact allFrom_shift p L v isdigit .E031 (fun i => v.addr i) v.size 0

theorem checkIdentification_shift (p L : List Nat) (v : StringView) :
    checkIdentification (p ++ L) (v.shift p.length) =
      shiftError p.length (checkIdentification L v) := by
  unfold checkIdentification
  simp only [addr_shift, size_shift]
  split
  · rfl
  · exact allFrom_shift p L v _ .E030 (fun i => v.addr i) v.size 0

theorem groupingNumber_shift (p L : List Nat) (v : StringView) (strict : Bool) :
    ∀ (fuel i : Nat),
      groupingNumber (p ++ L) (v.shift p.length) strict fuel i =
        groupingNumber L v strict fuel i := by
  intro fuel
  induction fuel with
  | zero => intro i; rfl
  | succ fuel ih =>
    intro i
    rw [groupingNumber, groupingNumber, at_shift]
    cases v.at L i with
    | error t => rfl
    | ok ch =>
      simp only [size_shift]
      split
      · rfl
      · split
        · rfl
        · exact ih (i + 1)

theorem groupingNumber_error_shift {line : List Nat} {v : StringView} {strict : Bool}
    (k : Nat) :
    ∀ (fuel i : Nat) (t : Thrown),
      groupingNumber line v strict fuel i = .error t → t.shift k = t := by
  intro fuel
  induction fuel with
  | zero => intro i t h; rw [groupingNumber] at h; cases h; rfl
  | succ fuel ih =>
    intro i t h
    rw [groupingNumber] at h
    repeat' split at h
    all_goals first
      | (cases h; done)
      | (cases h; rfl)
      | (cases h; exact at_error_shift k (by assumption))
      | exact ih _ _ h

theorem groupingPart_shift (p L : List Nat) (v : StringView) (i : Nat) :
    groupingPart (p ++ L) (v.shift p.length) i = shiftError p.length (groupingPart L v i) := by
  generalize hr : groupingPart L v i = r
  unfold groupingPart at hr ⊢
  simp only at hr ⊢
  repeat' split at hr
  all_goals subst hr
  all_goals simp only [*, shiftError, shift_exception, at_shift, addr_shift, size_shift,
    groupingNumber_shift, if_true, if_false, not_true_eq_false, not_false_eq_true,
    Bool.false_eq_true, ne_eq, Option.map_none']
  all_goals first
    | rfl
    | (rw [at_error_shift _ (by assumption)])
    | (rw [groupingNumber_error_shift _ _ _ _ (by assumption)])

theorem checkSentenceGrouping_shift (p L : List Nat) (v : StringView) :
    checkSentenceGrouping (p ++ L) (v.shift p.length) =
      shiftError p.length (checkSentenceGrouping L v) := by
  generalize hr : checkSentenceGrouping L v = r
  unfold checkSentenceGrouping at hr ⊢
  simp only at hr ⊢
  repeat' split at hr
  all_goals subst hr
  all_goals simp only [*, shiftError, shift_exception, at_shift, addr_shift, size_shift,
    groupingNumber_shift, groupingPart_shift, if_true, if_false, not_true_eq_false,
    not_false_eq_true, Bool.false_eq_true, ne_eq, Option.map_none']
  all_goals first
    | rfl
    | (rw [groupingNumber_error_shift _ _ _ _ (by assumption)])

theorem checkTagField_shift (p L : List Nat) (v : StringView) :
    checkTagField (p ++ L) (v.shift p.length) = shiftError p.length (checkTagField L v) := by
  unfold checkTagField
  have hsz : (v.shift p.length).size = v.size := rfl
  rw [hsz]
  generalize (v.size + 2 ^ 64 - 2) % 2 ^ 64 = n
  simp only [at_shift, addr_shift, mk_shift, checkPositivInteger_shift,
    checkIdentification_shift, checkSentenceGrouping_shift]
  cases h1 : v.at L 1 with
  | error t =>
    simp only [shiftError]
    rw [at_error_shift _ h1]
  | ok colon =>
    simp only
    split
    · rfl
    · cases h0 : v.at L 0 with
      | error t =>
        simp only [shiftError]
        rw [at_error_shift _ h0]
      | ok code =>
        simp only
        repeat' split
        all_goals rfl

theorem forViews_shift {k : Nat} {body1 body2 : StringView → Except Thrown Unit}
    (h : ∀ v, body1 (v.shift k) = shiftError k (body2 v)) :
    ∀ (views : List StringView),
      forViews body1 (views.map (StringView.shift k)) = shiftError k (forViews body2 views) := by
  intro views
  induction views with
  | nil => rfl
  | cons v tl ih =>
    rw [List.map_cons, forViews, forViews, h]
    cases body2 v with
    | error t => rfl
    | ok u =>
      cases u
      exact ih

theorem forElements_shift {k : Nat} {p : List Nat}
    {body : TagBlockOrSentence → Except Thrown Unit}
    (h : ∀ e, body (e.shift p) = shiftError k (body e)) :
    ∀ (elements : List TagBlockOrSentence),
      forElements body (elements.map (TagBlockOrSentence.shift p)) =
        shiftError k (forElements body elements) := by
  intro elements
  induction elements with
  | nil => rfl
  | cons e tl ih =>
    rw [List.map_cons, forElements, forElements, h]
    cases body e with
    | error t => rfl
    | ok u =>
      cases u
      exact ih

theorem checkDataFieldCharacters_shift (p L : List Nat) (v : StringView) :
    checkDataFieldCharacters (p ++ L) (v.shift p.length) =
      shiftError p.length (checkDataFieldCharacters L v) :=
  checkCharactersFrom_shift p L v false v.size 0

theorem checkProprietaryDataFieldCharacters_shift (p L : List Nat) (v : StringView) :
    checkProprietaryDataFieldCharacters (p ++ L) (v.shift p.length) =
      shiftError p.length (checkProprietaryDataFieldCharacters L v) :=
  checkCharactersFrom_shift p L v true v.size 0

/-- The second stage on an element behind the bytes `p`. -/
theorem generalContents_shift (p : List Nat) (element : TagBlockOrSentence) :
    generalContents (element.shift p) = shiftError p.length (generalContents element) := by
  obtain ⟨sp, ty, sty, L⟩ := element
  unfold generalContents TagBlockOrSentence.shift
  simp only [List.length_map, ← List.map_dropLast, ← List.map_tail]
  cases ty with
  | tag_block =>
    simp only
    split
    · rfl
    · exact forViews_shift (checkTagField_shift p L) _
  | sentence =>
    simp only
    cases sty with
    | none => rfl
    | some st =>
      cases st with
      | parametric =>
        simp only
        rw [idx_map]
        cases hidx : idx sp 0 with
        | error t =>
          simp only [shiftError]
          rw [idx_error_shift _ hidx]
        | ok hd =>
          simp only [at_shift, addr_shift, checkTalkerId_shift, checkSentenceFormatter_shift]
          cases hd.at L 1 <;> cases hd.at L 2 <;> try rfl
          simp only
          cases checkTalkerId _ _ (hd.addr 1) with
          | error t => rfl
          | ok u =>
            cases u
            simp only [shiftError]
            cases hd.at L 3 <;> cases hd.at L 4 <;> cases hd.at L 5 <;> try rfl
            simp only
            cases checkSentenceFormatter _ _ _ (hd.addr 3) with
            | error t => rfl
            | ok u =>
              cases u
              simp only [shiftError]
              exact forViews_shift (checkDataFieldCharacters_shift p L) _
      | encapsulated =>
        simp only
        rw [idx_map]
        cases hidx : idx sp 0 with
        | error t =>
          simp only [shiftError]
          rw [idx_error_shift _ hidx]
        | ok hd =>
          simp only [at_shift, addr_shift, checkTalkerId_shift, checkSentenceFormatter_shift]
          cases hd.at L 1 <;> cases hd.at L 2 <;> try rfl
          simp only
          cases checkTalkerId _ _ (hd.addr 1) with
          | error t => rfl
          | ok u =>
            cases u
            simp only [shiftError]
            cases hd.at L 3 <;> cases hd.at L 4 <;> cases hd.at L 5 <;> try rfl
            simp only
            cases checkSentenceFormatter _ _ _ (hd.addr 3) with
            | error t => rfl
            | ok u =>
              cases u
              simp only [shiftError]
              exact forViews_shift (checkDataFieldCharacters_shift p L) _
      | query =>
        simp only
        rw [idx_map, idx_map]
        cases hidx : idx sp 0 with
        | error t =>
          simp only [shiftError]
          rw [idx_error_shift _ hidx]
        | ok hd =>
          simp only [at_shift, addr_shift, checkTalkerId_shift, checkSentenceFormatter_shift]
          cases hd.at L 1 <;> cases hd.at L 2 <;> try rfl
          simp only
          cases checkTalkerId _ _ (hd.addr 1) with
          | error t => rfl
          | ok u =>
            cases u
            simp only [shiftError]
            cases hd.at L 3 <;> cases hd.at L 4 <;> try rfl
            simp only
            cases checkTalkerId _ _ (hd.addr 3) with
            | error t => rfl
            | ok u =>
              cases u
              simp only [shiftError]
              cases hidx1 : idx sp 1 with
              | error t =>
                simp only
                rw [idx_error_shift _ hidx1]
              | ok field =>
                simp only [at_shift, addr_shift, checkSentenceFormatter_shift]
                cases field.at L 0 <;> cases field.at L 1 <;> cases field.at L 2 <;> rfl
      | proprietary =>
        simp only
        rw [idx_map]
        cases hidx : idx sp 0 with
        | error t =>
          simp only [shiftError]
          rw [idx_error_shift _ hidx]
        | ok hd =>
          simp only [at_shift, addr_shift, checkProprietaryTalkerId_shift]
          cases hd.at L 2 <;> cases hd.at L 3 <;> cases hd.at L 4 <;> try rfl
          simp only
          cases checkProprietaryTalkerId _ _ _ (hd.addr 2) with
          | error t => rfl
          | ok u =>
            cases u
            simp only [shiftError]
            exact forViews_shift (checkProprietaryDataFieldCharacters_shift p L) _

/-- The third stage on an element behind the bytes `p`. -/
theorem specificContents_shift (p : List Nat) (element : TagBlockOrSentence) :
    specificContents (element.shift p) = shiftError p.length (specificContents element) := by
  obtain ⟨sp, ty, sty, L⟩ := element
  unfold specificContents TagBlockOrSentence.shift
  simp only [List.length_map]
  cases ty with
  | tag_block => rfl
  | sentence =>
    simp only
    cases sty with
    | none => rfl
    | some st =>
      cases st with
      | parametric =>
        simp only
        rw [idx_map]
        cases hidx : idx sp 0 with
        | error t =>
          simp only [shiftError]
          rw [idx_error_shift _ hidx]
        | ok hd =>
          simp only [at_shift, addr_shift, matchTalker_shift, Sentence_parse_shift]
          cases hd.at L 1 <;> cases hd.at L 2 <;> try rfl
          simp only
          cases matchTalker _ _ (hd.addr 1) with
          | error t => rfl
          | ok u =>
            cases u
            simp only [shiftError]
            cases hd.at L 3 <;> cases hd.at L 4 <;> cases hd.at L 5 <;> try rfl
            simp only
            split
            · next sentence _ =>
              cases sentence.parse L sp (sp.length + 2) <;> rfl
            · rfl
      | encapsulated =>
        simp only
        rw [idx_map]
        cases hidx : idx sp 0 with
        | error t =>
          simp only [shiftError]
          rw [idx_error_shift _ hidx]
        | ok hd =>
          simp only [at_shift, addr_shift, matchTalker_shift, Sentence_parse_shift]
          cases hd.at L 1 <;> cases hd.at L 2 <;> try rfl
          simp only
          cases matchTalker _ _ (hd.addr 1) with
          | error t => rfl
          | ok u =>
            cases u
            simp only [shiftError]
            cases hd.at L 3 <;> cases hd.at L 4 <;> cases hd.at L 5 <;> try rfl
            simp only
            split
            · next sentence _ =>
              cases sentence.parse L sp (sp.length + 2) <;> rfl
            · rfl
      | query =>
        simp only
        rw [idx_map, idx_map]
        cases hidx : idx sp 0 with
        | error t =>
          simp only [shiftError]
          rw [idx_error_shift _ hidx]
        | ok hd =>
          simp only [at_shift, addr_shift, matchTalker_shift]
          cases hd.at L 1 <;> cases hd.at L 2 <;> try rfl
          simp only
          cases matchTalker _ _ (hd.addr 1) with
          | error t => rfl
          | ok u =>
            cases u
            simp only [shiftError]
            cases hd.at L 3 <;> cases hd.at L 4 <;> try rfl
            simp only
            cases matchTalker _ _ (hd.addr 3) with
            | error t => rfl
            | ok u =>
              cases u
              simp only [shiftError]
              cases hidx1 : idx sp 1 with
              | error t =>
                simp only
                rw [idx_error_shift _ hidx1]
              | ok field =>
                simp only [at_shift]
                cases field.at L 0 <;> cases field.at L 1 <;> cases field.at L 2 <;>
                  first | rfl | exact matchSentenceFormatter_shift _ _ _ _
      | proprietary => rfl

theorem catchAll_shift (p : List Nat) (self : Nmea) (r : Except Thrown Unit) :
    catchAll (self.shift p) (shiftError p.length r) = (catchAll self r).shift p := by
  cases r with
  | ok u => cases u; rfl
  | error t => cases t <;> rfl

/-- The whole of `parse` on a line that begins with bytes `p` that are no marker, before
a line `L` that begins with a marker: the outcome is that of `L`, moved behind `p`. -/
theorem parse_shift (p L : List Nat)
    (hp : ∀ ch ∈ p, ch ≠ 36 ∧ ch ≠ 33 ∧ ch ≠ 92)
    (hL : L.head? = some 36 ∨ L.head? = some 33 ∨ L.head? = some 92) :
    parse Nmea.fresh (p ++ L) = (parse Nmea.fresh L).shift p := by
  unfold parse
  rw [parseMainStructure_shift p L hp hL]
  cases hm : parseMainStructure Nmea.fresh L with
  | mk self r =>
    cases r with
    | error t => exact catchAll_shift p self (.error t)
    | ok u =>
      cases u
      simp only [shiftError]
      have hg : parseGeneralContents (self.shift p) =
          shiftError p.length (parseGeneralContents self) :=
        forElements_shift (generalContents_shift p) self.m_Line
      have hs : parseSpecificContents (self.shift p) =
          shiftError p.length (parseSpecificContents self) :=
        forElements_shift (specificContents_shift p) self.m_Line
      rw [hg, hs]
      cases hgen : parseGeneralContents self with
      | error t => exact catchAll_shift p self (.error t)
      | ok u =>
        cases u
        simp only [shiftError]
        exact catchAll_shift p self (parseSpecificContents self)

/-- C34. Leading noise is ignored: for every line `L` whose first byte is `$`, `!` or `\`
and every byte string `p`, of any byte values, that holds none of `$`, `!`, `\`,
`parse` of `p ++ L` on a fresh instance ends with the same error code as `parse` of `L`
on a fresh instance, and with the indication, when there is one, at the same byte: its
offset is moved by exactly the length of `p`. The whole outcome is that of `L` moved
behind `p`. -/
theorem leading_noise_is_ignored (p L : List Nat)
    (hp : ∀ ch ∈ p, ch ≠ 36 ∧ ch ≠ 33 ∧ ch ≠ 92)
    (hL : L.head? = some 36 ∨ L.head? = some 33 ∨ L.head? = some 92) :
    (parse Nmea.fresh (p ++ L)).errorCode = (parse Nmea.fresh L).errorCode ∧
    (parse Nmea.fresh (p ++ L)).indication =
      (parse Nmea.fresh L).indication.map (Option.map (fun i => p.length + i)) ∧
    parse Nmea.fresh (p ++ L) = (parse Nmea.fresh L).shift p := by
  rw [parse_shift p L hp hL]
  cases parse Nmea.fresh L <;> exact ⟨rfl, rfl, rfl⟩

set_option maxRecDepth 100000 in
/-- Witness of C34: three bytes of noise, one of them above 127, before the line
`$GPGGA,1234~5,...*05`, which ends with E008 and the indication at offset 7; with the
noise the code is E008 and the indication is at offset 10. -/
theorem leading_noise_is_ignored_witness :
    exampleNoise = [200, 65, 10] ++ exampleTildeInside ∧
    (parse Nmea.fresh exampleTildeInside).errorCode = some .E008 ∧
    (parse Nmea.fresh exampleTildeInside).indication = some (some 7) ∧
    (parse Nmea.fresh exampleNoise).errorCode = some .E008 ∧
    (parse Nmea.fresh exampleNoise).indication = some (some 10) ∧
    (parse Nmea.fresh ([200, 65, 10] ++ exampleTildeInside)).errorCode =
      (parse Nmea.fresh exampleTildeInside).errorCode ∧
    (parse Nmea.fresh ([200, 65, 10] ++ exampleTildeInside)).indication =
      (parse Nmea.fresh exampleTildeInside).indication.map
        (Option.map (fun i => [200, 65, 10].length + i)) :=
  ⟨rfl, by decide, by decide, by decide, by decide,
    (leading_noise_is_ignored [200, 65, 10] exampleTildeInside (by decide) (by decide)).1,
    (leading_noise_is_ignored [200, 65, 10] exampleTildeInside (by decide) (by decide)).2.1⟩

end NmeaParser
